import Mathlib

/-!
# html-reporter: the normalized test-result tree

A shallow embedding of the id scheme of `lib/static/modules/reducers/reporter.js`
(`getSuiteId2`, `getTestId2`) and of the results tree builder
(`lib/tests-tree-builder/base.js`, exercised by
`test/unit/lib/tests-tree-builder/base.js`), together with the status aggregation
it calls.

JavaScript strings are modelled by `String`, arrays by `List`, objects used as
dictionaries by insertion-ordered key/value lists (`Dict`), and a possibly absent
value by `Option`.
-/

namespace HtmlReporter

/-! ## Strings and the id scheme -/

/-- The JavaScript `Array.prototype.join` on an array of strings: the elements in order,
with `sep` between each two neighbours; the empty array gives the empty string. -/
def joinWith (sep : String) : List String → String
  | [] => ""
  | [a] => a
  | a :: b :: rest => a ++ sep ++ joinWith sep (b :: rest)

/-- The fields of a report suite object read by the id functions of `reporter.js`. -/
structure SuiteNode where
  name : String
  suitePath : List String
  deriving DecidableEq, Repr

/-- The fields of a browser entry of a report suite read by the id functions. -/
structure BrowserNode where
  name : String
  deriving DecidableEq, Repr

/-- The function `getSuiteId2` of `reporter.js`: `suite.suitePath.join(' ')`. -/
def getSuiteId2 (suite : SuiteNode) : String :=
  joinWith " " suite.suitePath

/-- The function `getTestId2` of `reporter.js`: the template string made of
`suite.suitePath.join(' ')`, one space and `browser.name`. -/
def getTestId2 (suite : SuiteNode) (browser : BrowserNode) : String :=
  joinWith " " suite.suitePath ++ " " ++ browser.name

/-- A string obeys the separator constraint when it holds no space character. -/
def separatorFree (s : String) : Prop :=
  ' ' ∉ s.data

instance (s : String) : Decidable (separatorFree s) := by
  unfold separatorFree
  exact inferInstance

/-! ## Statuses and their aggregation -/

/-- Modelled from the spec: the closed `StatusKind` set of `lib/constants/test-statuses`
(not among the sources), with the kinds the spec enumerates in its precedence order. -/
inductive StatusKind where
  | ERROR
  | FAIL
  | TIMEOUT
  | INFRA_ERROR
  | UPDATED
  | SKIPPED
  | SUCCESS
  | IDLE
  deriving DecidableEq, Repr

/-- Modelled from the spec: the precedence constant of the status aggregator (the
`determineStatus` of `lib/common-utils`, not among the sources), highest precedence
first: ERROR > FAIL > TIMEOUT > INFRA-ERROR > UPDATED > SKIPPED > SUCCESS > IDLE. -/
def statusPrecedence : List StatusKind :=
  [StatusKind.ERROR, StatusKind.FAIL, StatusKind.TIMEOUT, StatusKind.INFRA_ERROR,
   StatusKind.UPDATED, StatusKind.SKIPPED, StatusKind.SUCCESS, StatusKind.IDLE]

/-- The first status of the precedence list `order` that occurs in `xs`. -/
def firstByPrecedence (order : List StatusKind) (xs : List StatusKind) : Option StatusKind :=
  order.find? (fun s => decide (s ∈ xs))

/-- Modelled from the spec: `reduceStatuses` of the status aggregator (the
`determineStatus` of `lib/common-utils`, not among the sources): a total function that
yields the status of highest precedence among its inputs. For the empty list, about which
the spec is silent, it yields the lowest kind `IDLE`. -/
def reduceStatuses (xs : List StatusKind) : StatusKind :=
  (firstByPrecedence statusPrecedence xs).getD StatusKind.IDLE

/-- The rank of a status in the precedence constant: 0 for the highest precedence. -/
def precedenceRank (s : StatusKind) : Nat :=
  statusPrecedence.indexOf s

/-! ## The normalized store -/

/-- A JavaScript object used as a dictionary: an insertion-ordered list of key/value
pairs, read with `Dict.get` and written with `Dict.set`. -/
abbrev Dict (α : Type) := List (String × α)

/-- The value stored under key `k`, if any (`obj[k]`). -/
def Dict.get {α : Type} : Dict α → String → Option α
  | [], _ => none
  | (k', v) :: rest, k => if k' = k then some v else Dict.get rest k

/-- The assignment `obj[k] = v`: replaces the value of an existing key in place, else
adds the pair at the end. -/
def Dict.set {α : Type} : Dict α → String → α → Dict α
  | [], k, v => [(k, v)]
  | (k', v') :: rest, k, v =>
    if k' = k then (k, v) :: rest else (k', v') :: Dict.set rest k v

/-- The update `obj[k] = f(obj[k])` of an existing key; a missing key changes nothing. -/
def Dict.modify {α : Type} : Dict α → String → (α → α) → Dict α
  | [], _, _ => []
  | (k', v') :: rest, k, f =>
    if k' = k then (k', f v') :: rest else (k', v') :: Dict.modify rest k f

/-- Modelled from the spec: the suite entity of the tree builder
(`lib/tests-tree-builder/base.js`, not among the sources). The lists `suites` and
`browsers` hold child ids; a list the builder has not created yet is the empty list. -/
structure Suite where
  id : String
  parentId : Option String
  name : String
  suitePath : List String
  root : Bool
  status : StatusKind
  suites : List String
  browsers : List String
  deriving DecidableEq, Repr

/-- Modelled from the spec: the browser entity of the tree builder, one per
(suite, browser name) pairing, with its ordered result ids. -/
structure Browser where
  id : String
  parentId : String
  name : String
  results : List String
  deriving DecidableEq, Repr

/-- Modelled from the spec: one image descriptor of an input event (section 6 of the
spec). -/
structure ImageInfo where
  stateName : String
  status : StatusKind
  expectedImagePath : Option String
  actualImagePath : Option String
  diffImagePath : Option String
  deriving DecidableEq, Repr

/-- Modelled from the spec: the attempt metadata of an input event. -/
structure Meta where
  sessionId : Option String
  url : Option String
  error : Option String
  deriving DecidableEq, Repr

/-- Modelled from the spec: the result entity of the tree builder, one per ingested
attempt, with its ordered image ids. -/
structure Result where
  id : String
  parentId : String
  status : StatusKind
  meta : Meta
  images : List String
  deriving DecidableEq, Repr

/-- Modelled from the spec: the image entity of the tree builder: the fields of the
descriptor plus `id` and `parentId`. -/
structure Image where
  id : String
  parentId : String
  info : ImageInfo
  deriving DecidableEq, Repr

/-- Modelled from the spec: the input event of the tree builder, one per test attempt
(the `testResult` and `formattedResult` arguments of `addTestResult` in the unit test;
the spec calls `testPath` the `suitePath`). -/
structure TestEvent where
  testPath : List String
  browserId : String
  attempt : Nat
  status : StatusKind
  imagesInfo : List ImageInfo
  meta : Meta
  deriving DecidableEq, Repr

/-- The `suites` collection of the tree. -/
structure SuiteStore where
  byId : Dict Suite
  allRootIds : List String
  allIds : List String
  deriving DecidableEq, Repr

/-- The `browsers` collection of the tree. -/
structure BrowserStore where
  byId : Dict Browser
  allIds : List String
  deriving DecidableEq, Repr

/-- The `results` collection of the tree. -/
structure ResultStore where
  byId : Dict Result
  allIds : List String
  deriving DecidableEq, Repr

/-- The `images` collection of the tree. -/
structure ImageStore where
  byId : Dict Image
  allIds : List String
  deriving DecidableEq, Repr

/-- Modelled from the spec: the normalized tree of the builder (`builder.tree`). -/
structure Tree where
  suites : SuiteStore
  browsers : BrowserStore
  results : ResultStore
  images : ImageStore
  deriving DecidableEq, Repr

/-- The tree of a freshly created builder. -/
def Tree.empty : Tree :=
  { suites := { byId := [], allRootIds := [], allIds := [] },
    browsers := { byId := [], allIds := [] },
    results := { byId := [], allIds := [] },
    images := { byId := [], allIds := [] } }

/-! ## The tree builder -/

/-- Modelled from the spec: `suiteId(path)` of the identity scheme of the tree builder
(`lib/tests-tree-builder/base.js`, not among the sources): the segments joined with the
separator, one space. -/
def suiteId (path : List String) : String :=
  joinWith " " path

/-- Modelled from the spec: `browserId(path, name)` of the tree builder:
`suiteId(path) + sep + name`. -/
def browserId (path : List String) (name : String) : String :=
  suiteId path ++ " " ++ name

/-- Modelled from the spec: `resultId(path, name, attempt)` of the tree builder:
`browserId + sep + attempt`, the attempt written in decimal. -/
def resultId (path : List String) (name : String) (attempt : Nat) : String :=
  browserId path name ++ " " ++ toString attempt

/-- Modelled from the spec: `imageId(path, name, attempt, stateName)` of the tree
builder: `resultId + sep + stateName`. -/
def imageId (path : List String) (name : String) (attempt : Nat) (stateName : String) :
    String :=
  resultId path name attempt ++ " " ++ stateName

/-- Modelled from the spec: the suite entity the tree builder creates for the path
`parentPath ++ [name]`: `root` tells whether the path has length 1, `parentId` is null
for the first path segment and the id of the previous path otherwise. The status is `IDLE`
until the aggregation at the end of the same ingest sets it. -/
def newSuite (parentPath : List String) (name : String) : Suite :=
  { id := suiteId (parentPath ++ [name]),
    parentId := if parentPath = [] then none else some (suiteId parentPath),
    name := name,
    suitePath := parentPath ++ [name],
    root := decide ((parentPath ++ [name]).length = 1),
    status := StatusKind.IDLE,
    suites := [],
    browsers := [] }

/-- Modelled from the spec: the upsert of a suite entity by the tree builder: an entity
is created the first time its id is referenced and never replaced afterwards; a created
id is appended to `allIds`, and to `allRootIds` when the suite is a root. -/
def upsertSuite (s : SuiteStore) (suite : Suite) : SuiteStore :=
  match Dict.get s.byId suite.id with
  | some _ => s
  | none =>
    { byId := Dict.set s.byId suite.id suite,
      allRootIds := if suite.root then s.allRootIds ++ [suite.id] else s.allRootIds,
      allIds := s.allIds ++ [suite.id] }

/-- Appends `id` to an id list unless the list holds it already. -/
def appendNew (ids : List String) (id : String) : List String :=
  if id ∈ ids then ids else ids ++ [id]

/-- Modelled from the spec: the tree builder links a child suite to its parent suite:
the child id is appended to the parent's `suites` list if not already present. -/
def addChildSuiteId (s : SuiteStore) (parentId childId : String) : SuiteStore :=
  { s with
    byId := Dict.modify s.byId parentId
              (fun p => { p with suites := appendNew p.suites childId }) }

/-- Modelled from the spec: the tree builder appends the browser id to the `browsers`
list of the leaf suite if not already present. -/
def addBrowserId (s : SuiteStore) (suiteKey browserKey : String) : SuiteStore :=
  { s with
    byId := Dict.modify s.byId suiteKey
              (fun p => { p with browsers := appendNew p.browsers browserKey }) }

/-- Modelled from the spec: the walk of the tree builder over the test path from the
root: one suite is upserted per path so far (`parentPath` plus the next segment); a
suite before the end of the path gets the next suite as child, the suite of the full
path gets the browser. -/
def addSuites (parentPath : List String) : List String → String → SuiteStore → SuiteStore
  | [], _, s => s
  | name :: rest, browserKey, s =>
    let s1 := upsertSuite s (newSuite parentPath name)
    let s2 :=
      match rest with
      | [] => addBrowserId s1 (suiteId (parentPath ++ [name])) browserKey
      | next :: _ =>
        addChildSuiteId s1 (suiteId (parentPath ++ [name]))
          (suiteId ((parentPath ++ [name]) ++ [next]))
    addSuites (parentPath ++ [name]) rest browserKey s2

/-- Modelled from the spec: the tree builder upserts the browser entity and always
appends the new result id at the end of its `results` list. -/
def addBrowser (b : BrowserStore) (id parentId name resultKey : String) : BrowserStore :=
  let b1 : BrowserStore :=
    match Dict.get b.byId id with
    | some _ => b
    | none =>
      { byId := Dict.set b.byId id { id := id, parentId := parentId, name := name, results := [] },
        allIds := b.allIds ++ [id] }
  { b1 with
    byId := Dict.modify b1.byId id
              (fun x => { x with results := x.results ++ [resultKey] }) }

/-- Modelled from the spec: the tree builder stores the result entity of the attempt
under its id and appends the id to `allIds` (no check for an earlier equal id). -/
def addResult (r : ResultStore) (res : Result) : ResultStore :=
  { byId := Dict.set r.byId res.id res, allIds := r.allIds ++ [res.id] }

/-- Modelled from the spec: the tree builder creates the image entities under the result
in descriptor order: each is the descriptor plus `id` and `parentId`. -/
def addImages (parentId : String) : List ImageInfo → ImageStore → ImageStore
  | [], im => im
  | d :: rest, im =>
    addImages parentId rest
      { byId := Dict.set im.byId (parentId ++ " " ++ d.stateName)
          { id := parentId ++ " " ++ d.stateName, parentId := parentId, info := d },
        allIds := im.allIds ++ [parentId ++ " " ++ d.stateName] }

/-- The status of the latest result of the browser with id `browserKey`, if the browser
and its last result id resolve in the store. -/
def lastResultStatus (t : Tree) (browserKey : String) : Option StatusKind :=
  (Dict.get t.browsers.byId browserKey).bind fun b =>
    b.results.getLast?.bind fun rid =>
      (Dict.get t.results.byId rid).map fun r => r.status

/-- The current status of the suite with id `suiteKey`, if it resolves in the store. -/
def suiteStatus (byId : Dict Suite) (suiteKey : String) : Option StatusKind :=
  (Dict.get byId suiteKey).map fun s => s.status

/-- Modelled from the spec: step 1 of the recomputation: the status of the affected leaf
suite is the aggregation over the statuses of the latest result of each of its browsers,
in the order of its `browsers` list. -/
def setLeafStatus (determineStatus : List StatusKind → StatusKind) (t : Tree)
    (suiteKey : String) : Tree :=
  { t with
    suites :=
      { t.suites with
        byId := Dict.modify t.suites.byId suiteKey
                  (fun s => { s with
                    status := determineStatus (s.browsers.filterMap (lastResultStatus t)) }) } }

/-- Modelled from the spec: step 2 of the recomputation for one ancestor suite: its
status is the aggregation over the current statuses of its immediate child suites, in
the order of its `suites` list. -/
def setAncestorStatus (determineStatus : List StatusKind → StatusKind) (s : SuiteStore)
    (suiteKey : String) : SuiteStore :=
  { s with
    byId := Dict.modify s.byId suiteKey
              (fun x => { x with
                status := determineStatus (x.suites.filterMap (suiteStatus s.byId)) }) }

/-- Modelled from the spec: step 2 of the recomputation, bottom-up: the ancestors of the
leaf are the suites of the first `n`, `n - 1`, ..., 1 segments of the path, recomputed in
this order. -/
def setAncestorStatuses (determineStatus : List StatusKind → StatusKind)
    (path : List String) : Nat → SuiteStore → SuiteStore
  | 0, s => s
  | n + 1, s =>
    setAncestorStatuses determineStatus path n
      (setAncestorStatus determineStatus s (suiteId (path.take (n + 1))))

/-- Modelled from the spec: the status recomputation after an ingest: it walks only the
path of the event, from the leaf suite up to the root. -/
def setStatusForBranch (determineStatus : List StatusKind → StatusKind) (t : Tree)
    (path : List String) : Tree :=
  let t1 := setLeafStatus determineStatus t (suiteId path)
  { t1 with suites := setAncestorStatuses determineStatus path (path.length - 1) t1.suites }

/-- Modelled from the spec: the mutation of the store by one accepted event: suites,
browser, result, images, then the status recomputation. -/
def ingest (determineStatus : List StatusKind → StatusKind) (t : Tree) (e : TestEvent) :
    Tree :=
  let bKey := browserId e.testPath e.browserId
  let rKey := resultId e.testPath e.browserId e.attempt
  let t1 : Tree :=
    { suites := addSuites [] e.testPath bKey t.suites,
      browsers := addBrowser t.browsers bKey (suiteId e.testPath) e.browserId rKey,
      results := addResult t.results
        { id := rKey, parentId := bKey, status := e.status, meta := e.meta,
          images := e.imagesInfo.map (fun d => rKey ++ " " ++ d.stateName) },
      images := addImages rKey e.imagesInfo t.images }
  setStatusForBranch determineStatus t1 e.testPath

/-- Modelled from the spec: the operation `ingest(event)` of the tree builder,
`addTestResult` in `lib/tests-tree-builder/base.js` (not among the sources; its unit
test is). An event with an empty path or an empty browser name is rejected before any
mutation (`none`). The aggregation function `determineStatus` of `lib/common-utils` is
a parameter, as in the unit test, which replaces it by a stub. -/
def addTestResult (determineStatus : List StatusKind → StatusKind) (t : Tree)
    (e : TestEvent) : Option Tree :=
  if e.testPath = [] ∨ e.browserId = "" then none
  else some (ingest determineStatus t e)

/-- A sequence of `addTestResult` calls on one builder, a rejected event being dropped
by the caller. -/
def addTestResults (determineStatus : List StatusKind → StatusKind) (t : Tree) :
    List TestEvent → Tree
  | [] => t
  | e :: rest =>
    addTestResults determineStatus ((addTestResult determineStatus t e).getD t) rest

/-- Modelled from the spec: the query `getLastResult(suitePath, browserId)` of the tree
builder: the result entity most recently appended for the pairing; `none` when the
browser or the result is not in the store. -/
def getLastResult (t : Tree) (testPath : List String) (browserName : String) :
    Option Result :=
  (Dict.get t.browsers.byId (browserId testPath browserName)).bind fun b =>
    b.results.getLast?.bind fun rid => Dict.get t.results.byId rid

/-- Modelled from the spec: the query `getImagesInfo(resultId)` of the tree builder: the
image entities of the result in the order of its `images` list; `none` when the result is
not in the store. -/
def getImagesInfo (t : Tree) (resultKey : String) : Option (List Image) :=
  (Dict.get t.results.byId resultKey).map fun r =>
    r.images.filterMap (Dict.get t.images.byId)

/-! ## The history of a builder, as the tree is specified against it -/

/-- Whether `addTestResult` accepts the event. -/
def accepted (e : TestEvent) : Bool :=
  !decide (e.testPath = [] ∨ e.browserId = "")

/-- The events of a call sequence that `addTestResult` accepts, in order. -/
def acceptedEvents (es : List TestEvent) : List TestEvent :=
  es.filter accepted

/-- The browser id an event addresses. -/
def eventBrowserKey (e : TestEvent) : String :=
  browserId e.testPath e.browserId

/-- The result id an event creates. -/
def eventResultKey (e : TestEvent) : String :=
  resultId e.testPath e.browserId e.attempt

/-- The result entity an event creates. -/
def eventResult (e : TestEvent) : Result :=
  { id := eventResultKey e, parentId := eventBrowserKey e, status := e.status,
    meta := e.meta,
    images := e.imagesInfo.map (fun d => eventResultKey e ++ " " ++ d.stateName) }

/-- The image entity an event creates for one of its descriptors. -/
def eventImage (e : TestEvent) (d : ImageInfo) : Image :=
  { id := eventResultKey e ++ " " ++ d.stateName, parentId := eventResultKey e, info := d }

/-- The events of a sequence that address the browser with id `browserKey`, in order. -/
def eventsOfBrowser (es : List TestEvent) (browserKey : String) : List TestEvent :=
  es.filter (fun e => decide (eventBrowserKey e = browserKey))

/-- The status of the last accepted call of the sequence that addressed the browser with
id `browserKey`: the status of the last result appended to that browser. -/
def lastStatusOf (es : List TestEvent) (browserKey : String) : Option StatusKind :=
  (eventsOfBrowser (acceptedEvents es) browserKey).getLast?.map (fun e => e.status)

/-- The ids of the suites along a test path, from the root down: one per non-empty
initial part of the path, `parentPath` being the part already walked. -/
def pathSuiteIds (parentPath : List String) : List String → List String
  | [] => []
  | name :: rest => suiteId (parentPath ++ [name]) :: pathSuiteIds (parentPath ++ [name]) rest

/-- The distinct ids of a list in order of first appearance. -/
def firstOccurrences (ids : List String) : List String :=
  ids.foldl appendNew []

/-- The keys of a dictionary in insertion order. -/
def Dict.keys {α : Type} (d : Dict α) : List String :=
  d.map Prod.fst

/-- The browser entity the history `es` of accepted events prescribes under the id
`browserKey`: none before the first event that addresses it; then the entity created by
the first such event, its results being the result ids of all such events in order. -/
def browserOfHistory (es : List TestEvent) (browserKey : String) : Option Browser :=
  match eventsOfBrowser es browserKey with
  | [] => none
  | e0 :: rest =>
    some { id := browserKey, parentId := suiteId e0.testPath, name := e0.browserId,
           results := (e0 :: rest).map eventResultKey }

/-- The image writes of an event, in descriptor order: id and entity. -/
def eventImages (e : TestEvent) : List (String × Image) :=
  e.imagesInfo.map (fun d => (eventResultKey e ++ " " ++ d.stateName, eventImage e d))

/-- Every suite entity of the store, with the key it is stored under, has the
property `Q`. -/
def AllSuites (Q : String → Suite → Prop) (s : SuiteStore) : Prop :=
  ∀ k x, Dict.get s.byId k = some x → Q k x

/-- The id lists of the suites collection agree with its dictionary: `allIds` is the key
list, and `allRootIds` lists, in the same order, the ids whose entity is a root. -/
def SuiteIdsAgree (s : SuiteStore) : Prop :=
  s.allIds = Dict.keys s.byId ∧
  s.allRootIds
    = s.allIds.filter (fun k => decide ((Dict.get s.byId k).map (fun x => x.root) = some true))

/-- The store after the walk of `addSuites` has handled one path segment. -/
def addSuiteStep (parentPath : List String) (name : String) (rest : List String)
    (browserKey : String) (s : SuiteStore) : SuiteStore :=
  match rest with
  | [] =>
    addBrowserId (upsertSuite s (newSuite parentPath name))
      (suiteId (parentPath ++ [name])) browserKey
  | next :: _ =>
    addChildSuiteId (upsertSuite s (newSuite parentPath name))
      (suiteId (parentPath ++ [name])) (suiteId ((parentPath ++ [name]) ++ [next]))

/-- The separator constraint of the identity scheme on an event: no segment of the test
path and not the browser name holds the separator. -/
def separatorContract (e : TestEvent) : Prop :=
  (∀ seg ∈ e.testPath, separatorFree seg) ∧ separatorFree e.browserId

instance (e : TestEvent) : Decidable (separatorContract e) := by
  unfold separatorContract
  exact inferInstance

/-! ## The sort pass -/

/-- Lexicographic comparison of two character sequences by character code: whether the
first is at most the second. -/
def lexLe : List Char → List Char → Bool
  | [], _ => true
  | _ :: _, [] => false
  | a :: as, b :: bs =>
    if a.toNat < b.toNat then true
    else if b.toNat < a.toNat then false
    else lexLe as bs

/-- Modelled from the spec: the lexicographic order of the sort pass on strings. -/
def strLe (a b : String) : Bool :=
  lexLe a.data b.data

/-- The ids of a list reordered, stably, in ascending lexicographic order of their
keys. -/
def sortIdsBy (key : String → String) (ids : List String) : List String :=
  ids.insertionSort (fun a b => strLe (key a) (key b) = true)

/-- The name of the suite with id `id`; the id itself if it does not resolve. -/
def suiteName (byId : Dict Suite) (id : String) : String :=
  ((Dict.get byId id).map (fun s => s.name)).getD id

/-- The name of the browser with id `id`; the id itself if it does not resolve. -/
def browserName (byId : Dict Browser) (id : String) : String :=
  ((Dict.get byId id).map (fun b => b.name)).getD id

/-- The suite ids reached from `ids` in pre-order: each id followed by the ids reached
from its child suites, to the depth `fuel`. -/
def collectSuiteIds (byId : Dict Suite) : Nat → List String → List String
  | 0, _ => []
  | fuel + 1, ids =>
    ids.flatMap (fun id =>
      id :: (match Dict.get byId id with
        | some s => collectSuiteIds byId fuel s.suites
        | none => []))

/-- Modelled from the spec: the sort pass of the tree builder, `sortTree` in
`lib/tests-tree-builder/base.js` (not among the sources; its unit test is). The root id
list and the `suites` and `browsers` lists of every suite are reordered in ascending
lexicographic order of the names of the suites and browsers they refer to; then the
derived id lists are rebuilt by concatenation in the new order: the suite ids in
pre-order from the roots, the browser ids suite by suite, the result ids browser by
browser, the image ids result by result. -/
def sortTree (t : Tree) : Tree :=
  let sortedById : Dict Suite :=
    t.suites.byId.map (fun p =>
      (p.1, { p.2 with
        suites := sortIdsBy (suiteName t.suites.byId) p.2.suites,
        browsers := sortIdsBy (browserName t.browsers.byId) p.2.browsers }))
  let roots := sortIdsBy (suiteName t.suites.byId) t.suites.allRootIds
  let suiteIds := collectSuiteIds sortedById (sortedById.length + 1) roots
  let browserIds := suiteIds.flatMap (fun id =>
    ((Dict.get sortedById id).map (fun s => s.browsers)).getD [])
  let resultIds := browserIds.flatMap (fun id =>
    ((Dict.get t.browsers.byId id).map (fun b => b.results)).getD [])
  let imageIds := resultIds.flatMap (fun id =>
    ((Dict.get t.results.byId id).map (fun r => r.images)).getD [])
  { suites := { byId := sortedById, allRootIds := roots, allIds := suiteIds },
    browsers := { t.browsers with allIds := browserIds },
    results := { t.results with allIds := resultIds },
    images := { t.images with allIds := imageIds } }

/-! ## The report suites and the reuse merge of the tool runner -/

/-- An image of an attempt, an element of its `imagesInfo`, as the interface reads it: its
`stateName` and the flag `opened`, each of which an object may lack. -/
structure StateImage where
  stateName : Option String
  opened : Option Bool
  deriving DecidableEq, Repr

/-- The field `state` of a browser entry: the flag `opened` and the `retryIndex` of its
section in the interface, each of which an object may lack. -/
structure BrowserState where
  opened : Option Bool
  retryIndex : Option Nat
  deriving DecidableEq, Repr

/-- One attempt of a test in a browser, as a report suite stores it in the `result` and
the `retries` of a browser entry: its `status`, its `attempt` number and its
`imagesInfo`. -/
structure AttemptResult where
  status : StatusKind
  attempt : Nat
  imagesInfo : Option (List StateImage) := none
  deriving DecidableEq, Repr

/-- A browser entry of a report suite: its `name`, and the fields `result` (the latest
attempt), `retries` (the earlier attempts) and `state` (the state of its section in the
interface), each of which an object may lack. -/
structure BrowserEntry where
  name : String
  result : Option AttemptResult
  retries : Option (List AttemptResult)
  state : Option BrowserState := none
  deriving DecidableEq, Repr

/-- A suite of the report tree: `name`, `suitePath`, `status`, and the optional fields
`children` (child suites) and `browsers`. -/
inductive ReportSuite where
  | mk (name : String) (suitePath : List String) (status : Option StatusKind)
      (children : Option (List ReportSuite)) (browsers : Option (List BrowserEntry))
  deriving Repr

/-- The field `name` of a report suite. -/
def ReportSuite.name : ReportSuite → String
  | .mk n _ _ _ _ => n

/-- The field `suitePath` of a report suite. -/
def ReportSuite.suitePath : ReportSuite → List String
  | .mk _ p _ _ _ => p

/-- The field `status` of a report suite. -/
def ReportSuite.status : ReportSuite → Option StatusKind
  | .mk _ _ st _ _ => st

/-- The field `children` of a report suite. -/
def ReportSuite.children : ReportSuite → Option (List ReportSuite)
  | .mk _ _ _ ch _ => ch

/-- The field `browsers` of a report suite. -/
def ReportSuite.browsers : ReportSuite → Option (List BrowserEntry)
  | .mk _ _ _ _ bs => bs

/-- Modelled from the spec: `findNode` of `lib/static/modules/utils` (not among the
sources): the node of the forest reached by following the path from the roots, each
segment selecting the first suite with that name among the suites at hand; `none` when a
segment selects nothing or the path is empty. -/
def findNode (forest : List ReportSuite) : List String → Option ReportSuite
  | [] => none
  | [n] => forest.find? (fun s => decide (s.name = n))
  | n :: m :: rest =>
    match forest.find? (fun s => decide (s.name = n)) with
    | none => none
    | some s => findNode (s.children.getD []) (m :: rest)

/-- The function `getReuseStatus` of `tool-runner/index.js`:
`_.get(findNode(reuseSuites, suitePath), 'status', defaultStatus)`. -/
def getReuseStatus (reuseSuites : List ReportSuite) (suitePath : List String)
    (defaultStatus : Option StatusKind) : Option StatusKind :=
  match findNode reuseSuites suitePath with
  | none => defaultStatus
  | some node =>
    match node.status with
    | none => defaultStatus
    | some st => some st

/-- The function `getReuseBrowserResult` of `tool-runner/index.js`:
`_.find(_.get(findNode(reuseSuites, suitePath), 'browsers'), {name: browserId})`. -/
def getReuseBrowserResult (reuseSuites : List ReportSuite) (suitePath : List String)
    (browserId : String) : Option BrowserEntry :=
  match findNode reuseSuites suitePath with
  | none => none
  | some node => (node.browsers.getD []).find? (fun b => decide (b.name = browserId))

/-- The value of a field after `_.extend`: the value of the source if the source has the
field, else the value of the target. -/
def extendField {α : Type} (target source : Option α) : Option α :=
  match source with
  | some v => some v
  | none => target

/-- The call `_.extend(bro, browserResult)` of `applyReuse`: every field of the source
browser is copied to the target; with no source the target is unchanged. -/
def extendBrowser (bro : BrowserEntry) (browserResult : Option BrowserEntry) : BrowserEntry :=
  match browserResult with
  | none => bro
  | some src =>
    { name := src.name,
      result := extendField bro.result src.result,
      retries := extendField bro.retries src.retries,
      state := extendField bro.state src.state }

/-- The loop `suite.browsers.map(...)` of `reuseBrowserResult`: for the browsers in order,
a found reuse result sets the flag `isBrowserResultReused` and sets the status of the
suite to `getReuseStatus`; each browser is extended by its reuse result. The state is
the flag and the status of the suite. -/
def reuseBrowsers (reuseSuites : List ReportSuite) (suitePath : List String) :
    Bool × Option StatusKind → List BrowserEntry →
      List BrowserEntry × Bool × Option StatusKind
  | st, [] => ([], st.1, st.2)
  | st, bro :: rest =>
    let browserResult := getReuseBrowserResult reuseSuites suitePath bro.name
    let st1 : Bool × Option StatusKind :=
      match browserResult with
      | some _ => (true, getReuseStatus reuseSuites suitePath st.2)
      | none => st
    let r := reuseBrowsers reuseSuites suitePath st1 rest
    (extendBrowser bro browserResult :: r.1, r.2.1, r.2.2)

mutual
/-- The inner function `reuseBrowserResult` of `applyReuse` in `tool-runner/index.js`,
with the closure variable `isBrowserResultReused` passed in and returned: an existing
`children` list is mapped first, and if the flag is set afterwards the status becomes
`getReuseStatus`; then an existing `browsers` list is handled by `reuseBrowsers`. -/
def reuseBrowserResult (reuseSuites : List ReportSuite) (isBrowserResultReused : Bool) :
    ReportSuite → ReportSuite × Bool
  | .mk name suitePath status children browsers =>
    match children with
    | none =>
      match browsers with
      | none => (.mk name suitePath status none none, isBrowserResultReused)
      | some bs =>
        let rb := reuseBrowsers reuseSuites suitePath (isBrowserResultReused, status) bs
        (.mk name suitePath rb.2.2 none (some rb.1), rb.2.1)
    | some cs =>
      let rc := reuseChildren reuseSuites isBrowserResultReused cs
      let status1 :=
        if rc.2 = true then getReuseStatus reuseSuites suitePath status else status
      match browsers with
      | none => (.mk name suitePath status1 (some rc.1) none, rc.2)
      | some bs =>
        let rb := reuseBrowsers reuseSuites suitePath (rc.2, status1) bs
        (.mk name suitePath rb.2.2 (some rc.1) (some rb.1), rb.2.1)
/-- The call `suite.children.map(reuseBrowserResult)`: the children in order, the flag
passed from one to the next. -/
def reuseChildren (reuseSuites : List ReportSuite) (isBrowserResultReused : Bool) :
    List ReportSuite → List ReportSuite × Bool
  | [] => ([], isBrowserResultReused)
  | c :: cs =>
    let r1 := reuseBrowserResult reuseSuites isBrowserResultReused c
    let r2 := reuseChildren reuseSuites r1.2 cs
    (r1.1 :: r2.1, r2.2)
end

/-- The function `applyReuse` of `tool-runner/index.js` applied to one suite:
`applyReuse(reuseSuites)(suite)`, the flag `isBrowserResultReused` starting as false. -/
def applyReuse (reuseSuites : List ReportSuite) (suite : ReportSuite) : ReportSuite :=
  (reuseBrowserResult reuseSuites false suite).1

/-- The data `_loadReuseData` resolves to: the `suites` and `browsers` read from the
database, or the empty object when there is no database. -/
structure ReuseData where
  suites : Option (List ReportSuite)
  browsers : Option (List String)
  deriving Repr

/-- The method `_loadReuseData` of the tool runner: the data of the database when its
file exists (`dbData`), else the empty object. Reading the file is outside the
embedding. -/
def loadReuseData (dbData : Option ReuseData) : ReuseData :=
  match dbData with
  | some d => d
  | none => { suites := none, browsers := none }

/-- The predicate `_.isEmpty` on the optional list of prepared suites. -/
def isEmptySuites (suites : Option (List ReportSuite)) : Bool :=
  match suites with
  | none => true
  | some l => l.isEmpty

/-- The method `_applyReuseData` of the tool runner: the empty object when there are no
test suites; else the test suites themselves when the loaded suites are empty, and else
the test suites with `applyReuse` mapped over them, together with the loaded
browsers. -/
def applyReuseData (testSuites : Option (List ReportSuite)) (dbData : Option ReuseData) :
    ReuseData :=
  match testSuites with
  | none => { suites := none, browsers := none }
  | some ts =>
    let loaded := loadReuseData dbData
    { suites :=
        some (if isEmptySuites loaded.suites = true then ts
              else ts.map (fun suite => applyReuse (loaded.suites.getD []) suite)),
      browsers := loaded.browsers }

mutual
/-- The suites of a report tree in pre-order: the suite itself, then the suites of its
children. -/
def subSuites : ReportSuite → List ReportSuite
  | .mk name suitePath status children browsers =>
    .mk name suitePath status children browsers ::
      (match children with
        | none => []
        | some cs => subSuitesList cs)
/-- The suites of a list of report trees in pre-order. -/
def subSuitesList : List ReportSuite → List ReportSuite
  | [] => []
  | c :: cs => subSuites c ++ subSuitesList cs
end

/-- Whether the reuse source holds a browser with the name of `bro` at the path
`suitePath`. -/
def hasReuseResult (reuseSuites : List ReportSuite) (suitePath : List String)
    (bro : BrowserEntry) : Bool :=
  (getReuseBrowserResult reuseSuites suitePath bro.name).isSome

/-! ## The reducer of `reporter.js`: suites and their id lists -/

/-- The function `getSuiteId` of `reporter.js`: `suite.suitePath[0]`, undefined (`none`)
for an empty path. -/
def getSuiteId (suite : ReportSuite) : Option String :=
  suite.suitePath.head?

/-- The function `getSuiteIds` of `reporter.js`: `map(suites, getSuiteId)`. -/
def getSuiteIds (suites : List ReportSuite) : List (Option String) :=
  suites.map getSuiteId

/-- The function `getFailedSuiteIds` of `reporter.js`:
`getSuiteIds(filter(suites, isSuiteFailed))`; `isSuiteFailed` of `../utils` is not among
the sources and is a parameter. -/
def getFailedSuiteIds (isSuiteFailed : ReportSuite → Bool) (suites : List ReportSuite) :
    List (Option String) :=
  getSuiteIds (suites.filter isSuiteFailed)

/-- The field `suiteIds` of the state. -/
structure SuiteIds where
  all : List (Option String)
  failed : List (Option String)
  deriving DecidableEq, Repr

/-- The result of `formatSuitesData`. -/
structure FormattedSuites where
  suites : Dict ReportSuite
  suiteIds : SuiteIds
  deriving Repr

/-- The key under which a JavaScript object stores a value assigned at `key`: the
string, or `undefined` for an undefined key. -/
def propertyKey (key : Option String) : String :=
  key.getD "undefined"

/-- The function `formatSuitesData` of `reporter.js`: the suites keyed by `getSuiteId`,
and the id lists `all` and `failed`. -/
def formatSuitesData (isSuiteFailed : ReportSuite → Bool) (suites : List ReportSuite) :
    FormattedSuites :=
  { suites := suites.foldl (fun acc s => Dict.set acc (propertyKey (getSuiteId s)) s) [],
    suiteIds :=
      { all := getSuiteIds suites,
        failed := getFailedSuiteIds isSuiteFailed suites } }

/-- A value of the array `flattenSuites` of `formatSuitesData2`: a suite, or an array of
such values (what `flatSuites` returns for a suite with a `children` list). -/
inductive FlatItem where
  | suite (s : ReportSuite)
  | array (items : List FlatItem)
  deriving Repr

mutual
/-- The inner function `flatSuites` of `formatSuitesData2`: the suite itself when it has
no `children` list, else `[].concat(suite, suite.children.map(flatSuites))`, the array of
the suite followed by the values of its children (`concat` spreads its array argument by
one level only). -/
def flatSuites : ReportSuite → FlatItem
  | .mk name suitePath status none browsers =>
    .suite (.mk name suitePath status none browsers)
  | .mk name suitePath status (some cs) browsers =>
    .array (.suite (.mk name suitePath status (some cs) browsers) :: flatSuitesChildren cs)
/-- The call `suite.children.map(flatSuites)`. -/
def flatSuitesChildren : List ReportSuite → List FlatItem
  | [] => []
  | c :: cs => flatSuites c :: flatSuitesChildren cs
end

/-- The array `flattenSuites` of `formatSuitesData2`: lodash `flatMap(suites, flatSuites)`,
which spreads each returned array by one level. -/
def flattenSuites (suites : List ReportSuite) : List FlatItem :=
  suites.flatMap (fun s =>
    match flatSuites s with
    | .array items => items
    | .suite x => [.suite x])

/-- An element of the array `preparedSuites` of `formatSuitesData2`: `id`, `root`,
`suites`, `tests` and the fields of the suite other than `children` and `browsers`. -/
structure PreparedSuite where
  id : String
  root : Bool
  suites : List String
  tests : List String
  name : String
  suitePath : List String
  status : Option StatusKind
  deriving DecidableEq, Repr

/-- The id functions of `reporter.js` read the fields `name` and `suitePath` of a
suite. -/
def ReportSuite.node (s : ReportSuite) : SuiteNode :=
  { name := s.name, suitePath := s.suitePath }

/-- The mapping of one element of `flattenSuites` to its prepared suite; an element that
is an array has no `suitePath`, and `getSuiteId2` throws on it (`none`). -/
def prepareSuite : FlatItem → Option PreparedSuite
  | .array _ => none
  | .suite s =>
    some
      { id := getSuiteId2 s.node,
        root := decide (s.suitePath.length = 1),
        suites := (s.children.getD []).map (fun c => getSuiteId2 c.node),
        tests := (s.browsers.getD []).map (fun b => getTestId2 s.node { name := b.name }),
        name := s.name,
        suitePath := s.suitePath,
        status := s.status }

/-- The array `preparedSuites` of `formatSuitesData2`; `none` when the mapping throws on
an element. -/
def preparedSuites : List FlatItem → Option (List PreparedSuite)
  | [] => some []
  | item :: rest =>
    match prepareSuite item, preparedSuites rest with
    | some p, some ps => some (p :: ps)
    | _, _ => none

/-- The id lists of the field `suites2` that `formatSuitesData2` returns. The dictionary
`byId`, which lodash `set` builds from the same prepared suites, is not part of this
structure. -/
structure Suites2 where
  prepared : List PreparedSuite
  allRootIds : List String
  failedRootIds : List String
  allIds : List String
  failedIds : List String
  deriving DecidableEq, Repr

/-- The function `formatSuitesData2` of `reporter.js`, its id lists: `none` when it
throws. `isSuiteFailed` of `../utils`, here applied to prepared suites, is not among the
sources and is a parameter. -/
def formatSuitesData2 (isSuiteFailed : PreparedSuite → Bool) (suites : List ReportSuite) :
    Option Suites2 :=
  (preparedSuites (flattenSuites suites)).map fun prepared =>
    { prepared := prepared,
      allRootIds := (prepared.filter (fun s => s.root)).map (fun s => s.id),
      failedRootIds :=
        (prepared.filter (fun s => s.root && isSuiteFailed s)).map (fun s => s.id),
      allIds := prepared.map (fun s => s.id),
      failedIds := (prepared.filter (fun s => isSuiteFailed s)).map (fun s => s.id) }

/-! ## The reducer of `reporter.js`: the actions that change suites -/

/-- The values of a dictionary, in the order of its keys (`Object.values`). -/
def Dict.values {α : Type} (d : Dict α) : List α :=
  d.map Prod.snd

/-- The dictionary with the same keys and the given values, in order. -/
def Dict.withValues {α : Type} (d : Dict α) (vs : List α) : Dict α :=
  (Dict.keys d).zip vs

/-- The field `view` of the state: the view settings of `default-state.js`, and
`browseres`, which `createTestResultsFromDb` adds. -/
structure View where
  viewMode : String
  expand : String
  showSkipped : Bool
  showOnlyDiff : Bool
  scaleImages : Bool
  baseHost : String
  testNameFilter : String
  strictMatchFilter : Bool
  filteredBrowsers : List String
  groupByError : Bool
  browseres : Option (List String)
  deriving DecidableEq, Repr

/-- The view of `default-state.js`; the view mode `all` is the constant `viewModes.ALL`. -/
def defaultView : View :=
  { viewMode := "all",
    expand := "errors",
    showSkipped := false,
    showOnlyDiff := false,
    scaleImages := false,
    baseHost := "",
    testNameFilter := "",
    strictMatchFilter := false,
    filteredBrowsers := [],
    groupByError := false,
    browseres := none }

/-- A group of errors, an element of the field `groupedErrors`; `groupErrors` of
`../group-errors`, which computes the groups, is not among the sources. -/
structure ErrorGroup where
  name : String
  pattern : String
  count : Nat
  deriving DecidableEq, Repr

/-- The argument of `groupErrors`: the suites and the view settings the callers pass; a
setting a caller does not pass is absent. The error patterns of the configuration, which
the callers also pass, are not part of the embedding. -/
structure GroupErrorsArgs where
  suites : Dict ReportSuite
  viewMode : Option String
  filteredBrowsers : Option (List String)
  testNameFilter : Option String
  strictMatchFilter : Option Bool
  deriving Repr

/-- A browser entry of a formatted attempt of the database, and of the tree
`formatSuitesDataFromDb` builds: `name`, the latest `result` and the earlier results
`retries`. -/
structure DbBrowser where
  name : String
  result : AttemptResult
  retries : List AttemptResult
  deriving DecidableEq, Repr

/-- A node of the tree `formatSuitesDataFromDb` builds: `name`, `suitePath`, `status`, and
the lists `children` and `browsers`, each absent until `populateSuitesTree` creates it. The
fields `failedIds` and `parent` of the nodes are not part of the embedding. -/
inductive DbSuite where
  | mk (name : String) (suitePath : List String) (status : StatusKind)
      (children : Option (List DbSuite)) (browsers : Option (List DbBrowser))
  deriving Repr

/-- A formatted attempt, a row of the suites table after `formatTestAttempt` of
`../database-utils` (not among the sources): its suite path, a non-empty list given by
the first segment `suiteId` and the segments `rest` after it; its `status`; its browser
result `children[0].browsers[0]`; and the `skipReason` of the result of that browser. -/
structure Attempt where
  suiteId : String
  rest : List String
  status : StatusKind
  browserResult : DbBrowser
  skipReason : Option String
  deriving DecidableEq, Repr

/-- The field `suitePath` of a formatted attempt. -/
def Attempt.suitePath (attempt : Attempt) : List String :=
  attempt.suiteId :: attempt.rest

/-- An element of `suitesStats.skippedTests`, and of the field `skips` of the state. -/
structure SkippedTest where
  browser : String
  suite : String
  comment : Option String
  deriving DecidableEq, Repr

/-- The counters of `suitesStats`, which `updateSuitesStats` of `../utils` (not among the
sources) maintains. -/
structure DbCounts where
  failed : Nat
  passed : Nat
  retries : Nat
  skipped : Nat
  total : Nat
  deriving DecidableEq, Repr

/-- The counters of the field `stats` of `default-state.js`. -/
structure StatCounts where
  total : Nat
  updated : Nat
  passed : Nat
  failed : Nat
  skipped : Nat
  retries : Nat
  warned : Nat
  deriving DecidableEq, Repr

/-- The field `stats` of the state: the flat counters of `default-state.js`, or the object
with `all` and `perBrowser` that `createTestResultsFromDb` stores. -/
inductive Stats where
  | flat (counts : StatCounts)
  | byBrowser (all : DbCounts) (perBrowser : Dict DbCounts)
  deriving DecidableEq, Repr

/-- An element of `formatBrowsersDataFromDb(getBrowsersTableRows(db))`. -/
structure FormattedBrowser where
  id : String
  versions : List String
  deriving DecidableEq, Repr

/-- A database, as far as `createTestResultsFromDb` reads it through `../database-utils`
(not among the sources): the formatted attempts of the rows of its suites table, in row
order, and the formatted browsers of its browsers table. -/
structure Db where
  attempts : List Attempt
  browsers : List FormattedBrowser
  deriving DecidableEq, Repr

/-- An element of the payload field `fetchDbDetails`. -/
structure FetchDbDetail where
  url : String
  status : Nat
  success : Bool
  deriving DecidableEq, Repr

/-- The object `getViewQuery(window.location.search)` of `../custom-queries` (not among the
sources): the view settings the query of the page address gives, each of which may be
absent. -/
structure ViewQuery where
  viewMode : Option String
  filteredBrowsers : Option (List String)
  testNameFilter : Option String
  strictMatchFilter : Option Bool
  deriving DecidableEq, Repr

/-- A control of a group of `config.customGui`: its `label`, its `value` and the flag
`active`. -/
structure ControlItem where
  label : String
  value : String
  active : Bool
  deriving DecidableEq, Repr

/-- A group of controls of a section of `config.customGui`: its `type` and its
`controls`. -/
structure ControlGroup where
  type : String
  controls : List ControlItem
  deriving DecidableEq, Repr

/-- The fields of the state of the reducer that the embedded actions read or write;
`customGui` is the field `config.customGui`. The defaults are the values of
`default-state.js`. -/
structure State where
  running : Bool
  processing : Bool
  suites : Dict ReportSuite
  suiteIds : SuiteIds
  view : View := defaultView
  groupedErrors : List ErrorGroup := []
  db : Option Db := none
  fetchDbDetails : Option (List FetchDbDetail) := none
  stats : Stats := .flat ⟨0, 0, 0, 0, 0, 0, 0⟩
  skips : List SkippedTest := []
  browsers : List FormattedBrowser := []
  customGui : Dict (List ControlGroup) := []
  deriving Repr

/-- An element of the payload of `TEST_RESULT` and `UPDATE_RESULT`. -/
structure ResultPayload where
  suitePath : List String
  browserResult : Option BrowserEntry
  browserId : String
  deriving Repr

/-- The actions of the reducer that change suites, with their payloads. -/
inductive Action where
  | RUN_ALL_TESTS (status : StatusKind)
  | SUITE_BEGIN (suitePath : List String) (status : StatusKind)
  | TEST_BEGIN (suitePath : List String) (status : StatusKind) (browserId : String)
  | TEST_RESULT (payload : List ResultPayload)
  | UPDATE_RESULT (payload : List ResultPayload)
  deriving Repr

/-- An update in place of the first suite of a list that satisfies `p`; `none` when the
update throws. -/
def modifyFirst (p : ReportSuite → Bool) (f : ReportSuite → Option ReportSuite) :
    List ReportSuite → Option (List ReportSuite)
  | [] => some []
  | x :: xs =>
    if p x then (f x).map (fun y => y :: xs)
    else (modifyFirst p f xs).map (fun ys => x :: ys)

/-- An update in place of the node that `findNode` returns for the path: the forest with
`f` applied to that node, unchanged when `findNode` finds nothing; `none` when the update
throws. -/
def modifyNode (f : ReportSuite → Option ReportSuite) :
    List String → List ReportSuite → Option (List ReportSuite)
  | [], forest => some forest
  | [n], forest => modifyFirst (fun s => decide (s.name = n)) f forest
  | n :: m :: rest, forest =>
    modifyFirst (fun s => decide (s.name = n))
      (fun s =>
        match s with
        | .mk nm p st (some cs) bs =>
          (modifyNode f (m :: rest) cs).map (fun cs1 => ReportSuite.mk nm p st (some cs1) bs)
        | .mk nm p st none bs => some (.mk nm p st none bs))
      forest

/-- The assignment `test.status = status`. -/
def ReportSuite.setStatus (status : StatusKind) : ReportSuite → ReportSuite
  | .mk n p _ ch bs => .mk n p (some status) ch bs

/-- The loop of `TEST_BEGIN` over the browsers of the test: `b.result.status = status`
for each browser named `browserId`; `none` when such a browser has no `result` (the
assignment throws). -/
def beginBrowsers (status : StatusKind) (browserId : String) :
    List BrowserEntry → Option (List BrowserEntry)
  | [] => some []
  | b :: bs =>
    if b.name = browserId then
      match b.result with
      | none => none
      | some r =>
        (beginBrowsers status browserId bs).map
          (fun bs1 => { b with result := some { r with status := status } } :: bs1)
    else (beginBrowsers status browserId bs).map (fun bs1 => b :: bs1)

/-- The update of the found test in `TEST_BEGIN`: its status is set, then the loop over
`test.browsers` runs; `none` when the test has no `browsers` (`forEach` of undefined
throws). -/
def beginTest (status : StatusKind) (browserId : String) : ReportSuite → Option ReportSuite
  | .mk _ _ _ _ none => none
  | .mk n p _ ch (some bs) =>
    (beginBrowsers status browserId bs).map
      (fun bs1 => ReportSuite.mk n p (some status) ch (some bs1))

/-- The update of the found test in `addTestResult`: `assign(b, browserResult)` for each
browser named `browserId`; `none` when the test has no `browsers`. -/
def assignBrowserResult (browserResult : Option BrowserEntry) (browserId : String) :
    ReportSuite → Option ReportSuite
  | .mk _ _ _ _ none => none
  | .mk n p st ch (some bs) =>
    some (.mk n p st ch
      (some (bs.map (fun b => if b.name = browserId then extendBrowser b browserResult else b))))

/-- One round of the loop of `addTestResult` over the payload: nothing happens when
`findNode` finds no test; else the browsers of the test take the browser result and
`setStatusForBranch` of `../utils` (not among the sources, a parameter) runs on the
suites. `forceUpdateSuiteData` replaces a suite by its deep copy, which changes no
value. -/
def addTestResultStep (setStatusForBranchUtil : Dict ReportSuite → List String → Dict ReportSuite)
    (suites : Dict ReportSuite) (item : ResultPayload) : Option (Dict ReportSuite) :=
  match findNode (Dict.values suites) item.suitePath with
  | none => some suites
  | some _ =>
    (modifyNode (assignBrowserResult item.browserResult item.browserId) item.suitePath
        (Dict.values suites)).map
      (fun vs => setStatusForBranchUtil (Dict.withValues suites vs) item.suitePath)

/-- The loop of `addTestResult` over the payload. -/
def addTestResultLoop (setStatusForBranchUtil : Dict ReportSuite → List String → Dict ReportSuite) :
    Dict ReportSuite → List ResultPayload → Option (Dict ReportSuite)
  | suites, [] => some suites
  | suites, item :: rest =>
    match addTestResultStep setStatusForBranchUtil suites item with
    | none => none
    | some suites1 => addTestResultLoop setStatusForBranchUtil suites1 rest

/-- The function `addTestResult` of `reporter.js`: the payload is applied to the suites,
`suiteIds.failed` is computed anew by `getFailedSuiteIds(suites)` and `groupedErrors` by
`groupErrors` (not among the sources, a parameter); `none` when it throws. -/
def Reporter.addTestResult (isSuiteFailed : ReportSuite → Bool)
    (setStatusForBranchUtil : Dict ReportSuite → List String → Dict ReportSuite)
    (groupErrors : GroupErrorsArgs → List ErrorGroup)
    (state : State) (payload : List ResultPayload) : Option State :=
  (addTestResultLoop setStatusForBranchUtil state.suites payload).map fun suites =>
    { state with
      suiteIds :=
        { all := state.suiteIds.all,
          failed := getFailedSuiteIds isSuiteFailed (Dict.values suites) },
      suites := suites,
      groupedErrors :=
        groupErrors
          { suites := suites,
            viewMode := some state.view.viewMode,
            filteredBrowsers := some state.view.filteredBrowsers,
            testNameFilter := some state.view.testNameFilter,
            strictMatchFilter := some state.view.strictMatchFilter } }

/-- The function `reducer` of `reporter.js` on the actions that change suites; `none`
when it throws. `isSuiteFailed`, `setStatusForBranch` and `setStatusToAll` of `../utils`
and `groupErrors` of `../group-errors` are not among the sources and are parameters. -/
def Reporter.reducer (isSuiteFailed : ReportSuite → Bool)
    (setStatusForBranchUtil : Dict ReportSuite → List String → Dict ReportSuite)
    (setStatusToAll : ReportSuite → StatusKind → ReportSuite)
    (groupErrors : GroupErrorsArgs → List ErrorGroup)
    (state : State) : Action → Option State
  | .RUN_ALL_TESTS status =>
    some
      { state with
        running := true,
        processing := true,
        view := { state.view with groupByError := false },
        suites :=
          Dict.withValues state.suites
            ((Dict.values state.suites).map (fun suite => setStatusToAll suite status)) }
  | .SUITE_BEGIN suitePath status =>
    (modifyNode (fun test => some (test.setStatus status)) suitePath
        (Dict.values state.suites)).map
      (fun vs => { state with suites := Dict.withValues state.suites vs })
  | .TEST_BEGIN suitePath status browserId =>
    (modifyNode (beginTest status browserId) suitePath (Dict.values state.suites)).map
      (fun vs => { state with suites := Dict.withValues state.suites vs })
  | .TEST_RESULT payload =>
    Reporter.addTestResult isSuiteFailed setStatusForBranchUtil groupErrors state payload
  | .UPDATE_RESULT payload =>
    Reporter.addTestResult isSuiteFailed setStatusForBranchUtil groupErrors state payload

/-! ## The tree of the database: `populateSuitesTree` and `formatSuitesDataFromDb` -/

/-- The field `name` of a node. -/
def DbSuite.name : DbSuite → String
  | .mk n _ _ _ _ => n

/-- The field `suitePath` of a node. -/
def DbSuite.suitePath : DbSuite → List String
  | .mk _ p _ _ _ => p

/-- The field `status` of a node. -/
def DbSuite.status : DbSuite → StatusKind
  | .mk _ _ st _ _ => st

/-- The field `children` of a node. -/
def DbSuite.children : DbSuite → Option (List DbSuite)
  | .mk _ _ _ ch _ => ch

/-- The field `browsers` of a node. -/
def DbSuite.browsers : DbSuite → Option (List DbBrowser)
  | .mk _ _ _ _ bs => bs

/-- The end of `populateSuitesTree` at the node of the test: the browser result is pushed
to the browsers when `find(node.browsers, {name})` finds no browser of its name; else the
found browser, the first of that name, gets its result pushed to its retries and takes the
result of the attempt. -/
def pushBrowserResult (browserResult : DbBrowser) : List DbBrowser → List DbBrowser
  | [] => [browserResult]
  | b :: bs =>
    if b.name = browserResult.name then
      { b with retries := b.retries ++ [b.result], result := browserResult.result } :: bs
    else b :: pushBrowserResult browserResult bs

/-- The node with its browsers created if absent (`Array.isArray(node.browsers) ?
node.browsers : []`) and the browser result taken by them. -/
def DbSuite.takeResult (browserResult : DbBrowser) : DbSuite → DbSuite
  | .mk n p st ch bs => .mk n p st ch (some (pushBrowserResult browserResult (bs.getD [])))

/-- The child `populateSuitesTree` creates under a node for a path part: the suite path of
the node followed by the part, the status `SUCCESS`, no lists yet. -/
def newChild (parentPath : List String) (pathPart : String) : DbSuite :=
  .mk pathPart (parentPath ++ [pathPart]) StatusKind.SUCCESS none none

/-- The step of `populateSuitesTree` at the children of a node: `f` (the recursive call)
is applied to `find(node.children, {name: pathPart})`, the first child of that name, and
when there is none, to a new child pushed to the list. -/
def populateChildren (f : DbSuite → DbSuite) (parentPath : List String) (pathPart : String) :
    List DbSuite → List DbSuite
  | [] => [f (newChild parentPath pathPart)]
  | c :: cs =>
    if c.name = pathPart then f c :: cs
    else c :: populateChildren f parentPath pathPart cs

/-- The function `populateSuitesTree` of `reporter.js`, on the node and the rest of the
suite path: with no path part left, or with an empty one (`!pathPart`), the browsers of
the node are created if absent and take the browser result of the attempt; else the
children are created if absent and the walk goes on in the child of that name. The
statistics `suitesStats`, which the function also updates, are computed apart
(`skippedTests`). -/
def populateSuitesTree (attempt : Attempt) : List String → DbSuite → DbSuite
  | [], node => node.takeResult attempt.browserResult
  | pathPart :: rest, .mk n p st ch bs =>
    if pathPart = "" then
      (DbSuite.mk n p st ch bs).takeResult attempt.browserResult
    else
      .mk n p st
        (some (populateChildren (fun child => populateSuitesTree attempt rest child) p pathPart
          (ch.getD [])))
        bs

/-- One round of the loop of `formatSuitesDataFromDb`: the root suite of the attempt is
created under the key of its first segment if it is absent, the tree below it is
populated, and `setStatusForBranch` of `../utils` (not among the sources, a parameter)
runs on the tree. The keys of the tree are its own properties: a first segment that names
a member of `Object.prototype` is outside the embedding. -/
def formatSuitesStep (setStatusForBranchUtil : Dict DbSuite → List String → Dict DbSuite)
    (suitesTree : Dict DbSuite) (attempt : Attempt) : Dict DbSuite :=
  let root :=
    (Dict.get suitesTree attempt.suiteId).getD
      (.mk attempt.suiteId [attempt.suiteId] StatusKind.SUCCESS none none)
  setStatusForBranchUtil
    (Dict.set suitesTree attempt.suiteId (populateSuitesTree attempt attempt.rest root))
    attempt.suitePath

/-- The function `formatSuitesDataFromDb` of `reporter.js`, its field `suites`: the tree
built from the formatted attempts of the rows, in row order. -/
def formatSuitesDataFromDb (setStatusForBranchUtil : Dict DbSuite → List String → Dict DbSuite)
    (rows : List Attempt) : Dict DbSuite :=
  rows.foldl (formatSuitesStep setStatusForBranchUtil) []

/-- The list `suitesStats.skippedTests` that `populateSuitesTree` fills: one entry for
each attempt of status `SKIPPED`, in row order. -/
def skippedTests (rows : List Attempt) : List SkippedTest :=
  (rows.filter (fun attempt => decide (attempt.status = StatusKind.SKIPPED))).map
    (fun attempt =>
      { browser := attempt.browserResult.name,
        suite := joinWith " " attempt.suitePath,
        comment := attempt.skipReason })

mutual
/-- The nodes of a tree in pre-order: the node, then the nodes below its children. -/
def dbSubSuites : DbSuite → List DbSuite
  | .mk n p st ch bs => .mk n p st ch bs :: dbSubSuitesOpt ch
/-- The nodes below an optional list of children. -/
def dbSubSuitesOpt : Option (List DbSuite) → List DbSuite
  | none => []
  | some cs => dbSubSuitesList cs
/-- The nodes of a list of trees. -/
def dbSubSuitesList : List DbSuite → List DbSuite
  | [] => []
  | c :: cs => dbSubSuites c ++ dbSubSuitesList cs
end

/-- The nodes of the tree of the database: those of its root suites, in order. -/
def dbNodes (suitesTree : Dict DbSuite) : List DbSuite :=
  dbSubSuitesList (Dict.values suitesTree)

mutual
/-- The tree with every status replaced by `SUCCESS`: what a tree is apart from its
statuses. -/
def DbSuite.skeleton : DbSuite → DbSuite
  | .mk n p _ ch bs => .mk n p StatusKind.SUCCESS (skeletonOpt ch) bs
/-- The skeletons of an optional list of children. -/
def skeletonOpt : Option (List DbSuite) → Option (List DbSuite)
  | none => none
  | some cs => some (skeletonList cs)
/-- The skeletons of a list of trees. -/
def skeletonList : List DbSuite → List DbSuite
  | [] => []
  | c :: cs => c.skeleton :: skeletonList cs
end

/-- The skeleton of a tree of root suites: the same keys, each with the skeleton of its
suite. -/
def skeletonDict (suitesTree : Dict DbSuite) : Dict DbSuite :=
  suitesTree.map (fun kv => (kv.1, kv.2.skeleton))

/-- A function on trees changes statuses only: its result has the skeleton of its
argument. This is what the embedding presumes of `setStatusForBranch`. -/
def StatusOnly (util : Dict DbSuite → List String → Dict DbSuite) : Prop :=
  ∀ suitesTree suitePath, skeletonDict (util suitesTree suitePath) = skeletonDict suitesTree

/-- The node a path of names leads to below a node: each part selects the first child of
that name. -/
def DbSuite.descend : List String → DbSuite → Option DbSuite
  | [], node => some node
  | part :: rest, node =>
    match (node.children.getD []).find? (fun c => decide (c.name = part)) with
    | none => none
    | some child => DbSuite.descend rest child

/-- The node of the tree at a suite path: the root suite under the key of the first
segment, then the descent along the rest. -/
def dbNodeAt (suitesTree : Dict DbSuite) : List String → Option DbSuite
  | [] => none
  | suiteId :: rest =>
    match Dict.get suitesTree suiteId with
    | none => none
    | some root => DbSuite.descend rest root

/-- A node is consistent: its children have pairwise distinct names, its browsers have
pairwise distinct names, and the suite path of each child is the suite path of the node
followed by the name of the child. -/
def NodeConsistent (node : DbSuite) : Prop :=
  ((node.children.getD []).map DbSuite.name).Nodup ∧
  ((node.browsers.getD []).map DbBrowser.name).Nodup ∧
  ∀ c ∈ node.children.getD [], c.suitePath = node.suitePath ++ [c.name]

/-- A node comes from the rows: if it has a browser, its suite path is the suite path of
a row; if it has a child, its suite path is a proper initial part of the suite path of a
row. -/
def NodeFromRows (rows : List Attempt) (node : DbSuite) : Prop :=
  (node.browsers.getD [] ≠ [] → ∃ a ∈ rows, a.suitePath = node.suitePath) ∧
  (node.children.getD [] ≠ [] →
    ∃ a ∈ rows, ∃ more, more ≠ [] ∧ a.suitePath = node.suitePath ++ more)

/-- The browsers of the node of the tree at a suite path; none when there is no such
node. -/
def dbBrowsersAt (suitesTree : Dict DbSuite) (suitePath : List String) : List DbBrowser :=
  match dbNodeAt suitesTree suitePath with
  | none => []
  | some node => node.browsers.getD []

/-- The browsers of the node a path of names leads to below a node; none when the path
leads to no node. -/
def DbSuite.browsersAt (path : List String) (node : DbSuite) : List DbBrowser :=
  match DbSuite.descend path node with
  | none => []
  | some m => m.browsers.getD []

/-- The rows of a suite path and a browser name, in row order. -/
def rowsOf (rows : List Attempt) (suitePath : List String) (browserName : String) :
    List Attempt :=
  rows.filter (fun a => decide (a.suitePath = suitePath ∧ a.browserResult.name = browserName))

/-- The browser entry that the rows of one suite path and browser name prescribe: the
result of the last row, and as retries the results of the rows before it, in row order;
no entry when there is no such row. -/
def browserOfRows (browserName : String) (rs : List Attempt) : List DbBrowser :=
  match rs.getLast? with
  | none => []
  | some last =>
    [{ name := browserName,
       result := last.browserResult.result,
       retries := rs.dropLast.map (fun a => a.browserResult.result) }]

/-! ## The reducer of `reporter.js`: `createTestResultsFromDb` -/

mutual
/-- A node of the tree of the database as a suite of the state: the same fields, the
status and the fields of the browsers being present. -/
def DbSuite.toReportSuite : DbSuite → ReportSuite
  | .mk n p st ch bs =>
    .mk n p (some st) (toReportSuiteOpt ch)
      (bs.map (fun l => l.map (fun b =>
        { name := b.name, result := some b.result, retries := some b.retries })))
/-- The children of a node as suites of the state. -/
def toReportSuiteOpt : Option (List DbSuite) → Option (List ReportSuite)
  | none => none
  | some cs => some (toReportSuiteList cs)
/-- A list of nodes as suites of the state. -/
def toReportSuiteList : List DbSuite → List ReportSuite
  | [] => []
  | c :: cs => c.toReportSuite :: toReportSuiteList cs
end

/-- The UTF-16 code units of a string, by which JavaScript compares strings: one unit for
a character below `0x10000`, a surrogate pair for a character above. -/
def utf16Units (s : String) : List Nat :=
  s.data.flatMap (fun c =>
    if c.toNat < 65536 then [c.toNat]
    else [55296 + (c.toNat - 65536) / 1024, 56320 + (c.toNat - 65536) % 1024])

/-- The lexicographic order on lists of code units. -/
def unitsLe : List Nat → List Nat → Bool
  | [], _ => true
  | _ :: _, [] => false
  | a :: as, b :: bs =>
    if a < b then true
    else if b < a then false
    else unitsLe as bs

/-- The order of `Array.prototype.sort()` without a comparator: `undefined` after every
string, strings by their code units. -/
def jsLe : Option String → Option String → Bool
  | _, none => true
  | none, some _ => false
  | some a, some b => unitsLe (utf16Units a) (utf16Units b)

/-- The call `.sort()` on a list of strings and `undefined`: the list in ascending
order. -/
def jsSort (l : List (Option String)) : List (Option String) :=
  l.insertionSort (fun a b => jsLe a b = true)

/-- The payload of the action that `createTestResultsFromDb` handles. -/
structure DbPayload where
  db : Option Db
  fetchDbDetails : List FetchDbDetail
  deriving DecidableEq, Repr

/-- The lodash `merge` of an array of strings `src` into the array `dst`: index by index,
the elements of `src` replace those of `dst`, and the elements of `dst` beyond the length
of `src` stay. -/
def mergeList (dst src : List String) : List String :=
  src ++ dst.drop src.length

/-- The function `createTestResultsFromDb` of `reporter.js`. With empty `fetchDbDetails`,
and with no database, the state with the `fetchDbDetails` of the payload; else the state
with the suites built from the rows of the database, their sorted id lists, the
statistics, the skips, the browsers, the view merged with the browser ids, and the
grouped errors. `isSuiteFailed`, `setStatusForBranch` and the counters of `suitesStats`
(`updateSuitesStats`) of `../utils`, `groupErrors` and the view query of the page address
are not among the sources and are parameters. -/
def createTestResultsFromDb (isSuiteFailed : ReportSuite → Bool)
    (setStatusForBranchUtil : Dict DbSuite → List String → Dict DbSuite)
    (suitesStats : List Attempt → DbCounts × Dict DbCounts)
    (groupErrors : GroupErrorsArgs → List ErrorGroup) (viewQuery : ViewQuery)
    (state : State) (payload : DbPayload) : State :=
  if payload.fetchDbDetails.length = 0 then
    { state with fetchDbDetails := some payload.fetchDbDetails }
  else
    match payload.db with
    | none => { state with fetchDbDetails := some payload.fetchDbDetails }
    | some db =>
      let suites : Dict ReportSuite :=
        (formatSuitesDataFromDb setStatusForBranchUtil db.attempts).map
          (fun kv => (kv.1, kv.2.toReportSuite))
      let browseres := db.browsers.map (fun b => b.id)
      { state with
        db := some db,
        suites := suites,
        suiteIds :=
          { all := jsSort (getSuiteIds (Dict.values suites)),
            failed := jsSort (getFailedSuiteIds isSuiteFailed (Dict.values suites)) },
        fetchDbDetails := some payload.fetchDbDetails,
        stats := .byBrowser (suitesStats db.attempts).1 (suitesStats db.attempts).2,
        skips := skippedTests db.attempts,
        browsers := db.browsers,
        view :=
          { state.view with
            browseres := some (mergeList (state.view.browseres.getD []) browseres),
            filteredBrowsers :=
              mergeList state.view.filteredBrowsers
                (viewQuery.filteredBrowsers.getD browseres) },
        groupedErrors :=
          groupErrors
            { suites := suites,
              viewMode := some (viewQuery.viewMode.getD state.view.viewMode),
              filteredBrowsers := viewQuery.filteredBrowsers,
              testNameFilter := viewQuery.testNameFilter,
              strictMatchFilter := viewQuery.strictMatchFilter } }

/-! ## The wrapper `withBrowserStorage` -/

/-- A value of a stored view setting: a text or a flag. -/
inductive ViewValue where
  | text (s : String)
  | flag (b : Bool)
  deriving DecidableEq, Repr

/-- The test `/^VIEW_/` on the type of an action. -/
def isViewAction (actionType : String) : Bool :=
  actionType.data.take 5 == "VIEW_".data

/-- The object `withBrowserStorage` stores under the key `view`: seven settings of the
view, in the order of the source. -/
def storedView (view : View) : Dict ViewValue :=
  [("expand", .text view.expand),
   ("viewMode", .text view.viewMode),
   ("showSkipped", .flag view.showSkipped),
   ("showOnlyDiff", .flag view.showOnlyDiff),
   ("scaleImages", .flag view.scaleImages),
   ("groupByError", .flag view.groupByError),
   ("strictMatchFilter", .flag view.strictMatchFilter)]

/-- The function `withBrowserStorage` of `reporter.js`: the wrapped reducer runs, and for
an action whose type starts with `VIEW_` the view of the new state is stored. The storage
is passed along; `setItem` of `./helpers/local-storage-wrapper` is not among the sources
and is a parameter. -/
def withBrowserStorage {α σ : Type} (setItem : String → Dict ViewValue → σ → σ)
    (actionType : α → String) (reducer : State → α → State)
    (storage : σ) (state : State) (action : α) : State × σ :=
  let newState := reducer state action
  if isViewAction (actionType action) = true then
    (newState, setItem "view" (storedView newState.view) storage)
  else (newState, storage)

/-! ## The tool runner: silently skipped tests -/

/-- A test or suite of the collection as `_isSilentlySkipped` reads it: whether its
`silentSkip` is truthy, and its `parent`, if it has one. -/
inductive Runnable where
  | mk (silentSkip : Bool) (parent : Option Runnable)
  deriving Repr

mutual
/-- The method `_isSilentlySkipped` of the tool runner:
`silentSkip || parent && this._isSilentlySkipped(parent)`, as a truth value. -/
def isSilentlySkipped : Runnable → Bool
  | .mk silentSkip parent => silentSkip || isParentSilentlySkipped parent
/-- The part `parent && this._isSilentlySkipped(parent)`. -/
def isParentSilentlySkipped : Option Runnable → Bool
  | none => false
  | some parent => isSilentlySkipped parent
end

/-- The field `silentSkip` of a test or suite. -/
def Runnable.silentSkip : Runnable → Bool
  | .mk s _ => s

mutual
/-- A test or suite followed by its ancestors, nearest first. -/
def Runnable.chain : Runnable → List Runnable
  | .mk s parent => .mk s parent :: parentChain parent
/-- The ancestors along the parent links. -/
def parentChain : Option Runnable → List Runnable
  | none => []
  | some parent => parent.chain
end

/-- A test of the collection: the value of `id()`, whether `disabled` and `pending` are
truthy, and the test as a link of the parent chain. -/
structure CollectedTest where
  id : String
  disabled : Bool
  pending : Bool
  link : Runnable
  deriving Repr

/-- A test extended with its browser id (`_.extend(test, {browserId})`). -/
structure RegisteredTest where
  test : CollectedTest
  browserId : String
  deriving Repr

/-- A call of the report builder. -/
inductive ReportCall where
  | addSkipped (test : RegisteredTest)
  | addIdle (test : RegisteredTest)
  deriving Repr

/-- The part of the tool runner that `_handleRunnableCollection` writes: the registry
`_tests` and the calls of the report builder, in order. -/
structure RunnerState where
  tests : Dict RegisteredTest
  calls : List ReportCall
  deriving Repr

/-- The callback of `eachTest` in `_handleRunnableCollection`: a test that is disabled or
silently skipped is passed over; any other test is registered under
`formatId(test.id(), browserId)` and declared as skipped if it is pending, else as idle.
`formatId` is not among the sources and is a parameter. -/
def handleTest (formatId : String → String → String) (st : RunnerState)
    (entry : CollectedTest × String) : RunnerState :=
  if (entry.1.disabled || isSilentlySkipped entry.1.link) = true then st
  else
    { tests := Dict.set st.tests (formatId entry.1.id entry.2) ⟨entry.1, entry.2⟩,
      calls := st.calls ++
        [if entry.1.pending = true then ReportCall.addSkipped ⟨entry.1, entry.2⟩
         else ReportCall.addIdle ⟨entry.1, entry.2⟩] }

/-- The method `_handleRunnableCollection` of the tool runner, its loop over the tests of
the collection and their browsers. -/
def handleRunnableCollection (formatId : String → String → String)
    (collection : List (CollectedTest × String)) (st : RunnerState) : RunnerState :=
  collection.foldl (handleTest formatId) st

/-! ## The dictionary `byId` of `formatSuitesData2` and lodash `set` -/

/-- An object as lodash `set` builds it in `byId`: a prepared suite or a plain object
(`suite` absent), with the properties `set` has added to it, in order of creation. -/
inductive JsObject where
  | mk (suite : Option PreparedSuite) (props : List (String × JsObject))
  deriving Repr

/-- The prepared suite an object is, if it is one. -/
def JsObject.suite : JsObject → Option PreparedSuite
  | .mk s _ => s

/-- The properties `set` has added to an object. -/
def JsObject.props : JsObject → Dict JsObject
  | .mk _ ps => ps

/-- The property access `obj[key]` for an added property. -/
def JsObject.lookup (obj : JsObject) (key : String) : Option JsObject :=
  Dict.get obj.props key

/-- The names of the fields of a prepared suite. -/
def suiteFieldNames : List String :=
  ["id", "root", "suites", "tests", "name", "suitePath", "status"]

/-- Keys that lodash `set` or the prototype of objects treats specially. -/
def reservedKeys : List String :=
  ["__proto__", "constructor", "prototype", "hasOwnProperty", "isPrototypeOf",
   "propertyIsEnumerable", "toLocaleString", "toString", "valueOf", "__defineGetter__",
   "__defineSetter__", "__lookupGetter__", "__lookupSetter__"]

/-- The pieces of a text between its dots. -/
def splitAtDots : List Char → List (List Char)
  | [] => [[]]
  | c :: cs =>
    if c = '.' then [] :: splitAtDots cs
    else
      match splitAtDots cs with
      | [] => [[c]]
      | seg :: segs => (c :: seg) :: segs

/-- The path lodash `set` derives from a string key (`castPath`): a key without a dot and
without a bracket is a one-segment path (`isKey`); a key with dots and without brackets is
split at its dots (`stringToPath`). Keys with brackets are not modelled (`none`). -/
def lodashPath (key : String) : Option (List String) :=
  if key.data.any (fun c => c == '[' || c == ']') then none
  else if key.data.any (fun c => c == '.') then
    some ((splitAtDots key.data).map String.mk)
  else some [key]

/-- The function `set(object, path, value)` of lodash on a path of segments (`baseSet`):
the value is assigned at the last segment; at every segment before it the walk goes into
the object found there, or into a new empty object assigned there. Not modelled (`none`):
reserved keys, and segments that name a field of a prepared suite on the way. -/
def setAt (value : PreparedSuite) : List String → JsObject → Option JsObject
  | [], obj => some obj
  | [key], .mk s ps =>
    if key ∈ reservedKeys ∨ (s.isSome = true ∧ key ∈ suiteFieldNames) then none
    else some (.mk s (Dict.set ps key (.mk (some value) [])))
  | key :: next :: rest, .mk s ps =>
    if key ∈ reservedKeys ∨ (s.isSome = true ∧ key ∈ suiteFieldNames) then none
    else
      match setAt value (next :: rest) ((Dict.get ps key).getD (.mk none [])) with
      | none => none
      | some child => some (.mk s (Dict.set ps key child))

/-- The reduction `reduce(preparedSuites, (acc, s) => set(acc, s.id, s), {})`. -/
def byIdLoop : List PreparedSuite → JsObject → Option JsObject
  | [], acc => some acc
  | s :: rest, acc =>
    match lodashPath s.id with
    | none => none
    | some path =>
      match setAt s path acc with
      | none => none
      | some acc1 => byIdLoop rest acc1

/-- The field `suites2.byId` that `formatSuitesData2` returns; `none` when the function
throws, and when an id is outside the part of lodash `set` that is modelled. -/
def formatSuitesData2ById (suites : List ReportSuite) : Option JsObject :=
  match preparedSuites (flattenSuites suites) with
  | none => none
  | some prepared => byIdLoop prepared (.mk none [])

/-! ## The reducer of `reporter.js`: the actions of the interface -/

/-- What a call of the reducer gives: a state, `undefined` (a `return` without a value),
or an exception. -/
inductive Outcome where
  | state (s : State)
  | undefined
  | throws
  deriving Repr

/-- The actions of the interface that the embedding covers, with their payloads. -/
inductive ViewAction where
  | TOGGLE_TEST_RESULT (suitePath : List String) (browserId : String) (opened : Option Bool)
  | CHANGE_TEST_RETRY (suitePath : List String) (browserId : String)
      (retryIndex : Option Nat)
  | TOGGLE_STATE_RESULT (suitePath : List String) (browserId : String)
      (stateName : Option String) (retryIndex : Nat) (opened : Option Bool)
  | RUN_CUSTOM_GUI_ACTION (sectionName : String) (groupIndex : Nat) (controlIndex : Nat)
  | VIEW_TOGGLE_SKIPPED
  | VIEW_TOGGLE_ONLY_DIFF
  | VIEW_TOGGLE_SCALE_IMAGES
  | VIEW_TOGGLE_GROUP_BY_ERROR
  deriving Repr

/-- The call `merge(b, {state: testState})` on the field `state` of a browser: a setting
that `testState` has replaces that of the browser, any other setting of the browser
stays. -/
def mergeTestState (old : Option BrowserState) (testState : BrowserState) : BrowserState :=
  { opened := extendField (old.bind (fun st => st.opened)) testState.opened,
    retryIndex := extendField (old.bind (fun st => st.retryIndex)) testState.retryIndex }

/-- The loop of `updateTestState` over the browsers of the found test; `none` when the
test has no `browsers` (`forEach` of undefined throws). -/
def mergeBrowserState (browserId : String) (testState : BrowserState) :
    ReportSuite → Option ReportSuite
  | .mk _ _ _ _ none => none
  | .mk n p st ch (some bs) =>
    some (.mk n p st ch
      (some (bs.map (fun b =>
        if b.name = browserId then { b with state := some (mergeTestState b.state testState) }
        else b))))

/-- The function `updateTestState` of `reporter.js`: `undefined` when `findNode` finds no
test; else the state with the test state merged into the browsers of that name. -/
def updateTestState (state : State) (suitePath : List String) (browserId : String)
    (testState : BrowserState) : Outcome :=
  match findNode (Dict.values state.suites) suitePath with
  | none => .undefined
  | some _ =>
    match modifyNode (mergeBrowserState browserId testState) suitePath
        (Dict.values state.suites) with
    | none => .throws
    | some vs => .state { state with suites := Dict.withValues state.suites vs }

/-- A list with `f` applied to its element at an index; unchanged when the index is
beyond the list. -/
def modifyAt {α : Type} (f : α → α) : Nat → List α → List α
  | _, [] => []
  | 0, x :: xs => f x :: xs
  | i + 1, x :: xs => x :: modifyAt f i xs

/-- A list with `f` applied to its first element that satisfies `p`, if there is one. -/
def modifyFirstWhere {α : Type} (p : α → Bool) (f : α → α) : List α → List α
  | [] => []
  | x :: xs => if p x then f x :: xs else x :: modifyFirstWhere p f xs

/-- The selection of the image and the call `assign(stateResult, {opened})` of
`updateStateResult`: with a truthy `stateName` the first image of that state name
(`find`), else the last image (`last`), takes the value `opened`; with no such image
nothing changes. -/
def setOpened (stateName : Option String) (opened : Option Bool) (images : List StateImage) :
    List StateImage :=
  match stateName with
  | some name =>
    if name = "" then modifyAt (fun img => { img with opened := opened }) (images.length - 1) images
    else
      modifyFirstWhere (fun img => decide (img.stateName = some name))
        (fun img => { img with opened := opened }) images
  | none => modifyAt (fun img => { img with opened := opened }) (images.length - 1) images

/-- The update of the selected attempt `broResult`: the selection works on its
`imagesInfo`; without `imagesInfo` nothing is found and nothing changes. -/
def toggleAttempt (stateName : Option String) (opened : Option Bool) (a : AttemptResult) :
    AttemptResult :=
  { a with imagesInfo := a.imagesInfo.map (setOpened stateName opened) }

/-- The update of the found browser in `updateStateResult`: the attempt
`bro.retries.concat(bro.result)[retryIndex]` is updated; `none` when the browser has no
`retries`, or the index selects nothing (`imagesInfo` of undefined throws). -/
def toggleBrowserAttempt (stateName : Option String) (retryIndex : Nat) (opened : Option Bool)
    (bro : BrowserEntry) : Option BrowserEntry :=
  match bro.retries with
  | none => none
  | some r =>
    if retryIndex < r.length then
      some { bro with retries := some (modifyAt (toggleAttempt stateName opened) retryIndex r) }
    else if retryIndex = r.length then
      match bro.result with
      | none => none
      | some x => some { bro with result := some (toggleAttempt stateName opened x) }
    else none

/-- The update of the first browser of a name in a list, the browser that
`find(test.browsers, {name: browserId})` returns; `none` when the update throws. -/
def toggleFirstBrowser (browserId : String) (f : BrowserEntry → Option BrowserEntry) :
    List BrowserEntry → Option (List BrowserEntry)
  | [] => some []
  | b :: bs =>
    if b.name = browserId then (f b).map (fun b1 => b1 :: bs)
    else (toggleFirstBrowser browserId f bs).map (fun bs1 => b :: bs1)

/-- The update of the found test in `updateStateResult`. -/
def toggleTestState (browserId : String) (stateName : Option String) (retryIndex : Nat)
    (opened : Option Bool) : ReportSuite → Option ReportSuite
  | .mk n p st ch bs =>
    (toggleFirstBrowser browserId (toggleBrowserAttempt stateName retryIndex opened)
        (bs.getD [])).map
      (fun bs1 => ReportSuite.mk n p st ch (bs.map (fun _ => bs1)))

/-- The function `updateStateResult` of `reporter.js`: `undefined` when `findNode` finds
no test, and when the test has no browser of that name; else the state with `opened` set
on the selected image of the selected attempt of that browser. -/
def updateStateResult (state : State) (suitePath : List String) (browserId : String)
    (stateName : Option String) (retryIndex : Nat) (opened : Option Bool) : Outcome :=
  match findNode (Dict.values state.suites) suitePath with
  | none => .undefined
  | some test =>
    match (test.browsers.getD []).find? (fun b => decide (b.name = browserId)) with
    | none => .undefined
    | some _ =>
      match modifyNode (toggleTestState browserId stateName retryIndex opened) suitePath
          (Dict.values state.suites) with
      | none => .throws
      | some vs => .state { state with suites := Dict.withValues state.suites vs }

/-- The loop `controls.forEach((control, i) => control.active = (controlIndex === i))`,
from the index `i` on. -/
def activateControl (controlIndex : Nat) : Nat → List ControlItem → List ControlItem
  | _, [] => []
  | i, c :: cs =>
    { c with active := decide (controlIndex = i) } :: activateControl controlIndex (i + 1) cs

/-- The case `RUN_CUSTOM_GUI_ACTION` of the reducer: it throws when the section or the
group does not exist; for a group of radiobutton type the state with the controls of the
group activated by index in a copy of `customGui`; else the state itself. The constant
`CONTROL_TYPE_RADIOBUTTON` is not among the sources and is a parameter. -/
def runCustomGuiAction (radiobuttonType : String) (state : State) (sectionName : String)
    (groupIndex controlIndex : Nat) : Outcome :=
  match Dict.get state.customGui sectionName with
  | none => .throws
  | some groups =>
    match groups[groupIndex]? with
    | none => .throws
    | some group =>
      if group.type = radiobuttonType then
        .state
          { state with
            customGui :=
              Dict.set state.customGui sectionName
                (modifyAt
                  (fun g => { g with controls := activateControl controlIndex 0 g.controls })
                  groupIndex groups) }
      else .state state

/-- The function `_mutateStateView` of `reporter.js`: the state with a changed copy of its
view. -/
def mutateStateView (state : State) (mutation : View → View) : State :=
  { state with view := mutation state.view }

/-- The function `reducer` of `reporter.js` on the actions of the interface.
`findNode` of `../utils` is modelled from the spec. -/
def Reporter.reducerView (radiobuttonType : String) (state : State) : ViewAction → Outcome
  | .TOGGLE_TEST_RESULT suitePath browserId opened =>
    updateTestState state suitePath browserId { opened := opened, retryIndex := none }
  | .CHANGE_TEST_RETRY suitePath browserId retryIndex =>
    updateTestState state suitePath browserId { opened := none, retryIndex := retryIndex }
  | .TOGGLE_STATE_RESULT suitePath browserId stateName retryIndex opened =>
    updateStateResult state suitePath browserId stateName retryIndex opened
  | .RUN_CUSTOM_GUI_ACTION sectionName groupIndex controlIndex =>
    runCustomGuiAction radiobuttonType state sectionName groupIndex controlIndex
  | .VIEW_TOGGLE_SKIPPED =>
    .state (mutateStateView state (fun v => { v with showSkipped := !state.view.showSkipped }))
  | .VIEW_TOGGLE_ONLY_DIFF =>
    .state (mutateStateView state (fun v => { v with showOnlyDiff := !state.view.showOnlyDiff }))
  | .VIEW_TOGGLE_SCALE_IMAGES =>
    .state (mutateStateView state (fun v => { v with scaleImages := !state.view.scaleImages }))
  | .VIEW_TOGGLE_GROUP_BY_ERROR =>
    .state (mutateStateView state (fun v => { v with groupByError := !state.view.groupByError }))

/-- What `RUN_CUSTOM_GUI_ACTION` does to a state for a group of radiobutton type: the
new state is the old one with the section replaced; the section has the same groups but
for the addressed one, which keeps its type and has the same controls, each with its
label and value, active exactly at `controlIndex`; every other section is as it was. -/
def RadioSelected (state state1 : State) (sectionName : String)
    (groupIndex controlIndex : Nat) (groups : List ControlGroup) (group : ControlGroup) : Prop :=
  ∃ (groups1 : List ControlGroup) (group1 : ControlGroup),
    state1 = { state with customGui := Dict.set state.customGui sectionName groups1 } ∧
    Dict.keys state1.customGui = Dict.keys state.customGui ∧
    (∀ k, k ≠ sectionName → Dict.get state1.customGui k = Dict.get state.customGui k) ∧
    Dict.get state1.customGui sectionName = some groups1 ∧
    groups1.length = groups.length ∧
    (∀ j, j ≠ groupIndex → groups1[j]? = groups[j]?) ∧
    groups1[groupIndex]? = some group1 ∧
    group1.type = group.type ∧
    group1.controls.length = group.controls.length ∧
    (∀ i c, group.controls[i]? = some c →
      group1.controls[i]?
        = some (ControlItem.mk c.label c.value (decide (controlIndex = i)))) ∧
    (controlIndex < group.controls.length →
      ∀ i c1, group1.controls[i]? = some c1 → (c1.active = true ↔ i = controlIndex))

/-- What `TOGGLE_STATE_RESULT` does to a state: every field but `suites` is as it was; at
the suite path `findNode` returns the test with its name, suite path, status and children
as they were and with its browsers as they were but for the found browser `bro`, whose
attempts, the retries followed by the result, are as they were but for the attempt at
`retryIndex`, which is updated by `toggleAttempt`. -/
def StateResultToggled (state state1 : State) (suitePath : List String) (test : ReportSuite)
    (pre : List BrowserEntry) (bro : BrowserEntry) (post : List BrowserEntry)
    (r : List AttemptResult) (x : AttemptResult) (stateName : Option String)
    (retryIndex : Nat) (opened : Option Bool) : Prop :=
  ({ state1 with suites := state.suites } : State) = state ∧
  ∃ (test1 : ReportSuite) (r1 : List AttemptResult) (x1 : AttemptResult),
    findNode (Dict.values state1.suites) suitePath = some test1 ∧
    test1.name = test.name ∧ test1.suitePath = test.suitePath ∧
    test1.status = test.status ∧ test1.children = test.children ∧
    test1.browsers = some (pre ++ { bro with retries := some r1, result := some x1 } :: post) ∧
    ∀ j, (r1 ++ [x1])[j]?
      = if j = retryIndex then ((r ++ [x])[j]?).map (toggleAttempt stateName opened)
        else (r ++ [x])[j]?

/-! # Theorems -/

/-! ## Strings: the separator and the join -/

theorem joinWith_data_cons_cons (sep a b : String) (rest : List String) :
    (joinWith sep (a :: b :: rest)).data
      = a.data ++ sep.data ++ (joinWith sep (b :: rest)).data := by
  simp [joinWith, String.data_append]

/-- Two texts that agree after a space-free head and a space have the same head and the
same rest. -/
theorem split_at_space {a b x y : List Char} (ha : ' ' ∉ a) (hb : ' ' ∉ b)
    (h : a ++ ' ' :: x = b ++ ' ' :: y) : a = b ∧ x = y := by
  induction a generalizing b with
  | nil =>
    cases b with
    | nil => simpa using h
    | cons c b =>
      simp at h
      exact absurd h.1 (by intro hc; apply hb; rw [hc]; exact List.mem_cons_self _ _)
  | cons c a ih =>
    cases b with
    | nil =>
      simp at h
      exact absurd h.1 (by intro hc; apply ha; rw [hc]; exact List.mem_cons_self _ _)
    | cons d b =>
      simp at h
      obtain ⟨hcd, hrest⟩ := h
      have ha' : ' ' ∉ a := fun hm => ha (List.mem_cons_of_mem _ hm)
      have hb' : ' ' ∉ b := fun hm => hb (List.mem_cons_of_mem _ hm)
      obtain ⟨h1, h2⟩ := ih ha' hb' hrest
      exact ⟨by rw [hcd, h1], h2⟩

/-- Two texts that agree before a space and a space-free tail have the same tail and the
same front. -/
theorem split_at_last_space {a b x y : String} (hx : separatorFree x)
    (hy : separatorFree y) (h : a ++ " " ++ x = b ++ " " ++ y) : a = b ∧ x = y := by
  have hd := congrArg (fun s : String => s.data.reverse) h
  simp only [String.data_append, List.reverse_append] at hd
  have hsp : (" " : String).data.reverse = [' '] := rfl
  rw [hsp] at hd
  simp only [List.append_assoc, List.singleton_append] at hd
  have hx' : ' ' ∉ x.data.reverse := by simpa [separatorFree] using hx
  have hy' : ' ' ∉ y.data.reverse := by simpa [separatorFree] using hy
  obtain ⟨h1, h2⟩ := split_at_space hx' hy' hd
  exact ⟨String.ext (List.reverse_injective h2), String.ext (List.reverse_injective h1)⟩

theorem joinWith_append_singleton (sep : String) (p : List String) (hp : p ≠ [])
    (b : String) : joinWith sep (p ++ [b]) = joinWith sep p ++ sep ++ b := by
  induction p with
  | nil => exact absurd rfl hp
  | cons a p ih =>
    cases p with
    | nil => simp [joinWith]
    | cons a2 p =>
      have := ih (by simp)
      simp only [List.cons_append] at this ⊢
      simp only [joinWith]
      rw [this]
      simp [String.append_assoc]

/-- The join with one space is injective on non-empty lists of space-free strings. -/
theorem joinWith_space_injective {p q : List String} (hp : p ≠ []) (hq : q ≠ [])
    (hps : ∀ s ∈ p, separatorFree s) (hqs : ∀ s ∈ q, separatorFree s)
    (h : joinWith " " p = joinWith " " q) : p = q := by
  induction p generalizing q with
  | nil => exact absurd rfl hp
  | cons a p ih =>
    cases q with
    | nil => exact absurd rfl hq
    | cons b q =>
      have ha : separatorFree a := hps a (List.mem_cons_self _ _)
      have hb : separatorFree b := hqs b (List.mem_cons_self _ _)
      have hd := congrArg String.data h
      cases p with
      | nil =>
        cases q with
        | nil => simp [joinWith] at h; rw [h]
        | cons b2 q =>
          exfalso
          rw [joinWith_data_cons_cons] at hd
          simp [joinWith] at hd
          apply ha
          unfold separatorFree at *
          rw [hd]; simp
      | cons a2 p =>
        cases q with
        | nil =>
          exfalso
          rw [joinWith_data_cons_cons] at hd
          simp [joinWith] at hd
          apply hb
          unfold separatorFree at *
          rw [← hd]; simp
        | cons b2 q =>
          rw [joinWith_data_cons_cons, joinWith_data_cons_cons] at hd
          have hsp : (" " : String).data = [' '] := rfl
          rw [hsp] at hd
          simp only [List.append_assoc, List.singleton_append] at hd
          obtain ⟨h1, h2⟩ := split_at_space ha hb hd
          have h3 := ih (q := b2 :: q) (by simp) (by simp)
            (fun s hs => hps s (List.mem_cons_of_mem _ hs))
            (fun s hs => hqs s (List.mem_cons_of_mem _ hs)) (String.ext h2)
          rw [String.ext h1, h3]

theorem intercalate_go_eq (acc sep : String) (l : List String) :
    String.intercalate.go acc sep l = joinWith sep (acc :: l) := by
  induction l generalizing acc with
  | nil => simp [String.intercalate.go, joinWith]
  | cons a l ih =>
    simp only [String.intercalate.go, joinWith]
    rw [ih]
    cases l with
    | nil => simp [joinWith]
    | cons b l =>
      simp only [joinWith]
      simp [String.append_assoc]

/-- The join of this development is the library's `String.intercalate`. -/
theorem joinWith_eq_intercalate (sep : String) (l : List String) :
    joinWith sep l = sep.intercalate l := by
  cases l with
  | nil => rfl
  | cons a l => simp [String.intercalate, intercalate_go_eq]

/-- The ids of the two-argument scheme are injective under the separator constraint. -/
theorem browserId_injective {p q : List String} {b c : String} (hp : p ≠ []) (hq : q ≠ [])
    (hps : ∀ s ∈ p, separatorFree s) (hqs : ∀ s ∈ q, separatorFree s)
    (hb : separatorFree b) (hc : separatorFree c)
    (h : joinWith " " p ++ " " ++ b = joinWith " " q ++ " " ++ c) : p = q ∧ b = c := by
  obtain ⟨h1, h2⟩ := split_at_last_space hb hc h
  exact ⟨joinWith_space_injective hp hq hps hqs h1, h2⟩

/-- C2: under the separator constraint the id scheme of `reporter.js` is injective: for
suites with non-empty paths of space-free segments `getSuiteId2` gives equal ids only for
equal paths, and with space-free browser names `getTestId2` gives equal ids only for equal
paths and equal names; equal inputs give equal ids. -/
theorem id_scheme_injective (s1 s2 : SuiteNode) (b1 b2 : BrowserNode)
    (hp : s1.suitePath ≠ []) (hq : s2.suitePath ≠ [])
    (hps : ∀ x ∈ s1.suitePath, separatorFree x) (hqs : ∀ x ∈ s2.suitePath, separatorFree x)
    (hb : separatorFree b1.name) (hc : separatorFree b2.name) :
    (getSuiteId2 s1 = getSuiteId2 s2 ↔ s1.suitePath = s2.suitePath) ∧
    (getTestId2 s1 b1 = getTestId2 s2 b2 ↔ s1.suitePath = s2.suitePath ∧ b1.name = b2.name) := by
  refine ⟨⟨fun h => joinWith_space_injective hp hq hps hqs h, fun h => ?_⟩,
    ⟨fun h => browserId_injective hp hq hps hqs hb hc h, fun h => ?_⟩⟩
  · unfold getSuiteId2; rw [h]
  · unfold getTestId2; rw [h.1, h.2]

theorem id_scheme_injective_witness :
    (getSuiteId2 ⟨"s2", ["s1", "s2"]⟩ = getSuiteId2 ⟨"s3", ["s1", "s3"]⟩
      ↔ ["s1", "s2"] = ["s1", "s3"]) ∧
    (getTestId2 ⟨"s2", ["s1", "s2"]⟩ ⟨"b1"⟩ = getTestId2 ⟨"s3", ["s1", "s3"]⟩ ⟨"b2"⟩
      ↔ ["s1", "s2"] = ["s1", "s3"] ∧ "b1" = "b2") :=
  id_scheme_injective ⟨"s2", ["s1", "s2"]⟩ ⟨"s3", ["s1", "s3"]⟩ ⟨"b1"⟩ ⟨"b2"⟩
    (by decide) (by decide) (by decide) (by decide) (by decide) (by decide)

/-! ## The status aggregation -/

theorem statusPrecedence_complete (s : StatusKind) : s ∈ statusPrecedence := by
  cases s <;> decide

theorem precedenceRank_injective (a b : StatusKind)
    (h : precedenceRank a = precedenceRank b) : a = b := by
  cases a <;> cases b <;> first | rfl | (exact absurd h (by decide))

theorem firstByPrecedence_congr (order xs ys : List StatusKind)
    (h : ∀ s, s ∈ xs ↔ s ∈ ys) :
    firstByPrecedence order xs = firstByPrecedence order ys := by
  unfold firstByPrecedence
  congr 1
  funext s
  simp [h s]

theorem firstByPrecedence_isSome (order xs : List StatusKind) (x : StatusKind)
    (hx : x ∈ xs) (ho : x ∈ order) : ∃ r, firstByPrecedence order xs = some r := by
  unfold firstByPrecedence
  cases hf : order.find? (fun s => decide (s ∈ xs)) with
  | some r => exact ⟨r, rfl⟩
  | none =>
    rw [List.find?_eq_none] at hf
    have := hf x ho
    simp [hx] at this

theorem firstByPrecedence_mem (order xs : List StatusKind) (r : StatusKind)
    (h : firstByPrecedence order xs = some r) : r ∈ xs := by
  unfold firstByPrecedence at h
  have := List.find?_some h
  simpa using this

/-- The status found first is not behind any status of the input in the precedence list. -/
theorem firstByPrecedence_le (order xs : List StatusKind) (r y : StatusKind)
    (h : firstByPrecedence order xs = some r) (hy : y ∈ xs) :
    order.indexOf r ≤ order.indexOf y := by
  induction order with
  | nil => simp [firstByPrecedence] at h
  | cons s rest ih =>
    unfold firstByPrecedence at h ih
    rw [List.find?_cons] at h
    by_cases hs : s ∈ xs
    · simp [hs] at h
      subst h
      simp [List.indexOf_cons_self]
    · simp [hs] at h
      have hr : r ∈ xs := by
        have := List.find?_some h
        simpa using this
      have hrs : s ≠ r := fun e => hs (e ▸ hr)
      have hys : s ≠ y := fun e => hs (e ▸ hy)
      rw [List.indexOf_cons_ne _ hrs, List.indexOf_cons_ne _ hys]
      exact Nat.succ_le_succ (ih h)

/-- The first status of a concatenation is the first status of the pair made of the first
statuses of its two parts. -/
theorem firstByPrecedence_append (order xs ys : List StatusKind) (a b : StatusKind)
    (ha : firstByPrecedence order xs = some a) (hb : firstByPrecedence order ys = some b) :
    firstByPrecedence order (xs ++ ys) = firstByPrecedence order [a, b] := by
  induction order with
  | nil => simp [firstByPrecedence] at ha
  | cons s rest ih =>
    unfold firstByPrecedence at ha hb ih ⊢
    rw [List.find?_cons] at ha hb
    rw [List.find?_cons, List.find?_cons]
    by_cases hsx : s ∈ xs
    · simp [hsx] at ha
      subst ha
      simp [hsx]
    · by_cases hsy : s ∈ ys
      · simp [hsy] at hb
        subst hb
        simp [hsy]
      · simp [hsx] at ha
        simp [hsy] at hb
        have hax : a ∈ xs := by
          have := List.find?_some ha
          simpa using this
        have hby : b ∈ ys := by
          have := List.find?_some hb
          simpa using this
        have h1 : s ≠ a := fun e => hsx (e ▸ hax)
        have h2 : s ≠ b := fun e => hsy (e ▸ hby)
        have := ih ha hb
        simp [hsx, hsy, h1, h2]
        simpa using this

theorem reduceStatuses_eq_some (xs : List StatusKind) (hx : xs ≠ []) :
    firstByPrecedence statusPrecedence xs = some (reduceStatuses xs) := by
  obtain ⟨x, hxm⟩ := List.exists_mem_of_ne_nil xs hx
  obtain ⟨r, hr⟩ := firstByPrecedence_isSome statusPrecedence xs x hxm
    (statusPrecedence_complete x)
  simp [reduceStatuses, hr]

/-- C5: `reduceStatuses` is a total function of the set of its inputs under the fixed
precedence order: on a non-empty list it returns a status of the list that no status of
the list precedes (the ranks are pairwise distinct, so the order is strict and the result
the unique highest one); it gives the same result on every permutation of the list and on
every list with the same elements (duplication); and the reduction of a concatenation of
two non-empty lists is the reduction of the pair of their reductions. -/
theorem reduceStatuses_precedence (xs ys : List StatusKind) (hx : xs ≠ []) (hy : ys ≠ []) :
    (reduceStatuses xs ∈ xs ∧
      ∀ y ∈ xs, precedenceRank (reduceStatuses xs) ≤ precedenceRank y) ∧
    (∀ a b, precedenceRank a = precedenceRank b → a = b) ∧
    (∀ zs, xs.Perm zs → reduceStatuses zs = reduceStatuses xs) ∧
    (∀ zs, (∀ s, s ∈ zs ↔ s ∈ xs) → reduceStatuses zs = reduceStatuses xs) ∧
    reduceStatuses (xs ++ ys) = reduceStatuses [reduceStatuses xs, reduceStatuses ys] := by
  have hxs := reduceStatuses_eq_some xs hx
  have hys := reduceStatuses_eq_some ys hy
  refine ⟨⟨firstByPrecedence_mem _ _ _ hxs, fun y hy' => ?_⟩, precedenceRank_injective,
    fun zs hp => ?_, fun zs hz => ?_, ?_⟩
  · exact firstByPrecedence_le statusPrecedence xs _ y hxs hy'
  · unfold reduceStatuses
    rw [firstByPrecedence_congr statusPrecedence zs xs (fun s => hp.symm.mem_iff)]
  · unfold reduceStatuses
    rw [firstByPrecedence_congr statusPrecedence zs xs hz]
  · have := firstByPrecedence_append statusPrecedence xs ys _ _ hxs hys
    unfold reduceStatuses at this ⊢
    rw [this]

theorem reduceStatuses_precedence_witness :
    ((reduceStatuses [StatusKind.SUCCESS, StatusKind.FAIL] ∈
          [StatusKind.SUCCESS, StatusKind.FAIL] ∧
        ∀ y ∈ [StatusKind.SUCCESS, StatusKind.FAIL],
          precedenceRank (reduceStatuses [StatusKind.SUCCESS, StatusKind.FAIL])
            ≤ precedenceRank y) ∧
      (∀ a b, precedenceRank a = precedenceRank b → a = b) ∧
      (∀ zs, [StatusKind.SUCCESS, StatusKind.FAIL].Perm zs →
        reduceStatuses zs = reduceStatuses [StatusKind.SUCCESS, StatusKind.FAIL]) ∧
      (∀ zs, (∀ s, s ∈ zs ↔ s ∈ [StatusKind.SUCCESS, StatusKind.FAIL]) →
        reduceStatuses zs = reduceStatuses [StatusKind.SUCCESS, StatusKind.FAIL]) ∧
      reduceStatuses ([StatusKind.SUCCESS, StatusKind.FAIL] ++ [StatusKind.ERROR])
        = reduceStatuses [reduceStatuses [StatusKind.SUCCESS, StatusKind.FAIL],
            reduceStatuses [StatusKind.ERROR]]) ∧
    reduceStatuses [StatusKind.SUCCESS, StatusKind.FAIL] = StatusKind.FAIL ∧
    reduceStatuses [StatusKind.SUCCESS, StatusKind.FAIL, StatusKind.ERROR]
      = StatusKind.ERROR :=
  ⟨reduceStatuses_precedence [StatusKind.SUCCESS, StatusKind.FAIL] [StatusKind.ERROR]
    (by decide) (by decide), by decide, by decide⟩

/-! ## Dictionaries -/

theorem Dict.get_set {α : Type} (d : Dict α) (k k' : String) (v : α) :
    Dict.get (Dict.set d k v) k' = if k = k' then some v else Dict.get d k' := by
  induction d with
  | nil => simp [Dict.set, Dict.get]
  | cons p rest ih =>
    obtain ⟨k0, v0⟩ := p
    by_cases h0 : k0 = k
    · subst h0
      by_cases h1 : k0 = k' <;> simp [Dict.set, Dict.get, h1]
    · by_cases h1 : k0 = k'
      · subst h1
        have : ¬ k = k0 := fun e => h0 e.symm
        simp [Dict.set, Dict.get, h0, this]
      · simp [Dict.set, Dict.get, h0, h1, ih]

theorem Dict.get_modify {α : Type} (d : Dict α) (k k' : String) (f : α → α) :
    Dict.get (Dict.modify d k f) k'
      = if k = k' then (Dict.get d k').map f else Dict.get d k' := by
  induction d with
  | nil => simp [Dict.modify, Dict.get]
  | cons p rest ih =>
    obtain ⟨k0, v0⟩ := p
    by_cases h0 : k0 = k
    · subst h0
      by_cases h1 : k0 = k' <;> simp [Dict.modify, Dict.get, h1]
    · by_cases h1 : k0 = k'
      · subst h1
        have : ¬ k = k0 := fun e => h0 e.symm
        simp [Dict.modify, Dict.get, h0, this]
      · simp [Dict.modify, Dict.get, h0, h1, ih]

theorem Dict.get_eq_none_iff {α : Type} (d : Dict α) (k : String) :
    Dict.get d k = none ↔ k ∉ Dict.keys d := by
  induction d with
  | nil => simp [Dict.get, Dict.keys]
  | cons p rest ih =>
    obtain ⟨k0, v0⟩ := p
    by_cases h0 : k0 = k
    · simp [Dict.get, Dict.keys, h0]
    · have : ¬ k = k0 := fun e => h0 e.symm
      simp only [Dict.get, h0, if_false, ih]
      simp [Dict.keys, this]

theorem Dict.keys_set {α : Type} (d : Dict α) (k : String) (v : α) :
    Dict.keys (Dict.set d k v) = appendNew (Dict.keys d) k := by
  induction d with
  | nil => simp [Dict.set, Dict.keys, appendNew]
  | cons p rest ih =>
    obtain ⟨k0, v0⟩ := p
    by_cases h0 : k0 = k
    · subst h0
      simp [Dict.set, Dict.keys, appendNew]
    · have h1 : ¬ k = k0 := fun e => h0 e.symm
      simp only [Dict.set, h0, if_false]
      simp only [Dict.keys, List.map_cons] at ih ⊢
      rw [ih]
      unfold appendNew
      by_cases hm : k ∈ List.map Prod.fst rest <;> simp [hm, h1]

theorem Dict.keys_modify {α : Type} (d : Dict α) (k : String) (f : α → α) :
    Dict.keys (Dict.modify d k f) = Dict.keys d := by
  induction d with
  | nil => simp [Dict.modify, Dict.keys]
  | cons p rest ih =>
    obtain ⟨k0, v0⟩ := p
    by_cases h0 : k0 = k
    · simp [Dict.modify, Dict.keys, h0]
    · simp only [Dict.modify, h0, if_false]
      simp only [Dict.keys, List.map_cons] at ih ⊢
      rw [ih]

theorem appendNew_of_not_mem (ids : List String) (k : String) (h : k ∉ ids) :
    appendNew ids k = ids ++ [k] := by
  simp [appendNew, h]

theorem appendNew_of_mem (ids : List String) (k : String) (h : k ∈ ids) :
    appendNew ids k = ids := by
  simp [appendNew, h]

theorem mem_appendNew (ids : List String) (k x : String) :
    x ∈ appendNew ids k ↔ x ∈ ids ∨ x = k := by
  unfold appendNew
  by_cases h : k ∈ ids
  · simp only [h, if_true]
    constructor
    · exact Or.inl
    · rintro (h1 | h1)
      · exact h1
      · rw [h1]; exact h
  · simp [h]

theorem nodup_appendNew (ids : List String) (k : String) (h : ids.Nodup) :
    (appendNew ids k).Nodup := by
  unfold appendNew
  by_cases hm : k ∈ ids
  · simp [hm, h]
  · simp only [hm, if_false]
    rw [List.nodup_append]
    refine ⟨h, List.nodup_singleton k, ?_⟩
    intro a ha hb
    simp at hb
    exact hm (hb ▸ ha)

theorem nodup_foldl_appendNew (xs ids : List String) (h : ids.Nodup) :
    (xs.foldl appendNew ids).Nodup := by
  induction xs generalizing ids with
  | nil => exact h
  | cons x xs ih => exact ih _ (nodup_appendNew ids x h)

theorem mem_foldl_appendNew (xs ids : List String) (x : String) :
    x ∈ xs.foldl appendNew ids ↔ x ∈ ids ∨ x ∈ xs := by
  induction xs generalizing ids with
  | nil => simp
  | cons y xs ih =>
    simp only [List.foldl_cons, ih, mem_appendNew, List.mem_cons]
    tauto

/-! ## Call sequences -/

theorem addTestResult_eq (det : List StatusKind → StatusKind) (t : Tree) (e : TestEvent) :
    addTestResult det t e = if accepted e = true then some (ingest det t e) else none := by
  unfold addTestResult accepted
  by_cases h : e.testPath = [] ∨ e.browserId = "" <;> simp [h]

/-- A call sequence mutates the tree by its accepted events, in order. -/
theorem addTestResults_eq_foldl (det : List StatusKind → StatusKind) (t : Tree)
    (es : List TestEvent) :
    addTestResults det t es = (acceptedEvents es).foldl (ingest det) t := by
  induction es generalizing t with
  | nil => rfl
  | cons e es ih =>
    unfold addTestResults acceptedEvents
    rw [ih, addTestResult_eq, List.filter_cons]
    by_cases h : accepted e = true
    · simp [h, acceptedEvents]
    · simp [h, acceptedEvents]

theorem acceptedEvents_append (es : List TestEvent) (e : TestEvent) (h : accepted e = true) :
    acceptedEvents (es ++ [e]) = acceptedEvents es ++ [e] := by
  simp [acceptedEvents, List.filter_append, h]

/-- The tree after one more accepted call. -/
theorem addTestResults_snoc (det : List StatusKind → StatusKind) (es : List TestEvent)
    (e : TestEvent) (h : accepted e = true) :
    addTestResults det Tree.empty (es ++ [e])
      = ingest det (addTestResults det Tree.empty es) e := by
  rw [addTestResults_eq_foldl, addTestResults_eq_foldl, acceptedEvents_append es e h,
    List.foldl_append]
  rfl

/-! ## Browsers, results and images against the history -/

@[simp] theorem ingest_browsers (det : List StatusKind → StatusKind) (t : Tree)
    (e : TestEvent) :
    (ingest det t e).browsers
      = addBrowser t.browsers (eventBrowserKey e) (suiteId e.testPath) e.browserId
          (eventResultKey e) := rfl

@[simp] theorem ingest_results (det : List StatusKind → StatusKind) (t : Tree)
    (e : TestEvent) :
    (ingest det t e).results = addResult t.results (eventResult e) := rfl

@[simp] theorem ingest_images (det : List StatusKind → StatusKind) (t : Tree)
    (e : TestEvent) :
    (ingest det t e).images = addImages (eventResultKey e) e.imagesInfo t.images := rfl

theorem addBrowser_get (b : BrowserStore) (id parentId name rk k : String) :
    Dict.get (addBrowser b id parentId name rk).byId k
      = if id = k then
          some (match Dict.get b.byId id with
            | some x => { x with results := x.results ++ [rk] }
            | none => { id := id, parentId := parentId, name := name, results := [rk] })
        else Dict.get b.byId k := by
  unfold addBrowser
  cases hg : Dict.get b.byId id with
  | some x =>
    simp only [Dict.get_modify]
    by_cases hk : id = k
    · subst hk; simp [hg]
    · simp [hk]
  | none =>
    simp only [Dict.get_modify, Dict.get_set]
    by_cases hk : id = k
    · subst hk; simp
    · simp [hk]

theorem addBrowser_allIds (b : BrowserStore) (id parentId name rk : String)
    (h : b.allIds = Dict.keys b.byId) :
    (addBrowser b id parentId name rk).allIds = appendNew b.allIds id ∧
    (addBrowser b id parentId name rk).allIds
      = Dict.keys (addBrowser b id parentId name rk).byId := by
  unfold addBrowser
  cases hg : Dict.get b.byId id with
  | some x =>
    have hm : id ∈ b.allIds := by
      rw [h]
      by_contra hc
      rw [← Dict.get_eq_none_iff] at hc
      rw [hc] at hg
      cases hg
    simp only [Dict.keys_modify]
    exact ⟨(appendNew_of_mem _ _ hm).symm, h⟩
  | none =>
    have hm : id ∉ b.allIds := by
      rw [h]
      exact (Dict.get_eq_none_iff _ _).1 hg
    simp only [Dict.keys_modify, Dict.keys_set]
    refine ⟨(appendNew_of_not_mem _ _ hm).symm, ?_⟩
    rw [← h, appendNew_of_not_mem _ _ hm]

theorem eventsOfBrowser_append (es : List TestEvent) (e : TestEvent) (k : String) :
    eventsOfBrowser (es ++ [e]) k
      = eventsOfBrowser es k ++ (if eventBrowserKey e = k then [e] else []) := by
  unfold eventsOfBrowser
  rw [List.filter_append]
  by_cases h : eventBrowserKey e = k <;> simp [List.filter_cons, h]

/-- The browsers collection holds, under every id, the entity the history prescribes. -/
theorem browsers_byId_history (det : List StatusKind → StatusKind) (es : List TestEvent)
    (k : String) :
    Dict.get (es.foldl (ingest det) Tree.empty).browsers.byId k = browserOfHistory es k := by
  induction es using List.reverseRecOn generalizing k with
  | nil => rfl
  | append_singleton es e ih =>
    rw [List.foldl_append]
    simp only [List.foldl_cons, List.foldl_nil, ingest_browsers, addBrowser_get]
    unfold browserOfHistory
    rw [eventsOfBrowser_append]
    by_cases hk : eventBrowserKey e = k
    · subst hk
      simp only [if_true]
      rw [ih]
      unfold browserOfHistory
      cases hev : eventsOfBrowser es (eventBrowserKey e) with
      | nil => simp [eventBrowserKey]
      | cons e0 rest => simp
    · simp only [hk, if_false, List.append_nil]
      rw [ih]
      rfl

/-- The browser id list is the list of the addressed browser ids in order of first
appearance, and it is the key list of the collection. -/
theorem browsers_allIds_history (det : List StatusKind → StatusKind) (es : List TestEvent) :
    (es.foldl (ingest det) Tree.empty).browsers.allIds
        = firstOccurrences (es.map eventBrowserKey) ∧
    (es.foldl (ingest det) Tree.empty).browsers.allIds
        = Dict.keys (es.foldl (ingest det) Tree.empty).browsers.byId := by
  induction es using List.reverseRecOn with
  | nil => exact ⟨rfl, rfl⟩
  | append_singleton es e ih =>
    rw [List.foldl_append]
    simp only [List.foldl_cons, List.foldl_nil, ingest_browsers]
    obtain ⟨h1, h2⟩ := addBrowser_allIds (es.foldl (ingest det) Tree.empty).browsers
      (eventBrowserKey e) (suiteId e.testPath) e.browserId (eventResultKey e) ih.2
    refine ⟨?_, h2⟩
    rw [h1, ih.1]
    simp [firstOccurrences, List.foldl_append]

/-- The results collection holds, under every id, the entity of the last event that
created this id. -/
theorem results_byId_history (det : List StatusKind → StatusKind) (es : List TestEvent)
    (k : String) :
    Dict.get (es.foldl (ingest det) Tree.empty).results.byId k
      = ((es.filter (fun e => decide (eventResultKey e = k))).getLast?).map eventResult := by
  induction es using List.reverseRecOn generalizing k with
  | nil => rfl
  | append_singleton es e ih =>
    rw [List.foldl_append]
    simp only [List.foldl_cons, List.foldl_nil, ingest_results, addResult, Dict.get_set]
    rw [List.filter_append]
    by_cases hk : eventResultKey e = k
    · have : (eventResult e).id = k := hk
      simp [List.filter_cons, hk, this]
    · have : ¬ (eventResult e).id = k := hk
      simp [List.filter_cons, hk, this, ih]

/-- The result id list holds the result id of every event, in order. -/
theorem results_allIds_history (det : List StatusKind → StatusKind) (es : List TestEvent) :
    (es.foldl (ingest det) Tree.empty).results.allIds = es.map eventResultKey := by
  induction es using List.reverseRecOn with
  | nil => rfl
  | append_singleton es e ih =>
    rw [List.foldl_append]
    simp only [List.foldl_cons, List.foldl_nil, ingest_results, addResult, ih]
    simp [eventResult]

theorem addImages_allIds (p : String) (infos : List ImageInfo) (im : ImageStore) :
    (addImages p infos im).allIds
      = im.allIds ++ infos.map (fun d => p ++ " " ++ d.stateName) := by
  induction infos generalizing im with
  | nil => simp [addImages]
  | cons d rest ih => simp [addImages, ih]

theorem addImages_append (p : String) (xs ys : List ImageInfo) (im : ImageStore) :
    addImages p (xs ++ ys) im = addImages p ys (addImages p xs im) := by
  induction xs generalizing im with
  | nil => rfl
  | cons d0 rest ih => exact ih _

theorem addImages_get (p : String) (infos : List ImageInfo) (im : ImageStore) (k : String) :
    Dict.get (addImages p infos im).byId k
      = match (infos.filter (fun d => decide (p ++ " " ++ d.stateName = k))).getLast? with
        | some d => some { id := p ++ " " ++ d.stateName, parentId := p, info := d }
        | none => Dict.get im.byId k := by
  induction infos using List.reverseRecOn generalizing im with
  | nil => simp [addImages]
  | append_singleton rest d ih =>
    rw [addImages_append]
    simp only [addImages, Dict.get_set, List.filter_append]
    by_cases hk : p ++ " " ++ d.stateName = k
    · simp [List.filter_cons, hk]
    · simp [List.filter_cons, hk, ih]

/-- The image id list holds the image ids of every event, in event and descriptor
order. -/
theorem images_allIds_history (det : List StatusKind → StatusKind) (es : List TestEvent) :
    (es.foldl (ingest det) Tree.empty).images.allIds
      = (es.flatMap eventImages).map Prod.fst := by
  induction es using List.reverseRecOn with
  | nil => rfl
  | append_singleton es e ih =>
    rw [List.foldl_append]
    simp only [List.foldl_cons, List.foldl_nil, ingest_images, addImages_allIds, ih]
    simp [eventImages, List.flatMap_append, Function.comp_def]

/-! ## The suites collection: one step of the walk -/

theorem addSuites_cons (pp : List String) (n : String) (rest : List String) (bk : String)
    (s : SuiteStore) :
    addSuites pp (n :: rest) bk s
      = addSuites (pp ++ [n]) rest bk (addSuiteStep pp n rest bk s) := by
  cases rest <;> rfl

theorem newSuite_id (pp : List String) (n : String) :
    (newSuite pp n).id = suiteId (pp ++ [n]) := rfl

theorem upsertSuite_get (s : SuiteStore) (x : Suite) (k : String) :
    Dict.get (upsertSuite s x).byId k
      = if Dict.get s.byId x.id = none ∧ x.id = k then some x else Dict.get s.byId k := by
  unfold upsertSuite
  cases hg : Dict.get s.byId x.id with
  | some y => simp
  | none =>
    simp only [Dict.get_set]
    by_cases hk : x.id = k <;> simp [hk]

theorem addChildSuiteId_get (s : SuiteStore) (p c k : String) :
    Dict.get (addChildSuiteId s p c).byId k
      = if p = k then
          (Dict.get s.byId k).map (fun x => { x with suites := appendNew x.suites c })
        else Dict.get s.byId k := by
  unfold addChildSuiteId
  simp only [Dict.get_modify]

theorem addBrowserId_get (s : SuiteStore) (p c k : String) :
    Dict.get (addBrowserId s p c).byId k
      = if p = k then
          (Dict.get s.byId k).map (fun x => { x with browsers := appendNew x.browsers c })
        else Dict.get s.byId k := by
  unfold addBrowserId
  simp only [Dict.get_modify]

theorem setAncestorStatus_get (det : List StatusKind → StatusKind) (s : SuiteStore)
    (p k : String) :
    Dict.get (setAncestorStatus det s p).byId k
      = if p = k then
          (Dict.get s.byId k).map (fun x =>
            { x with status := det (x.suites.filterMap (suiteStatus s.byId)) })
        else Dict.get s.byId k := by
  unfold setAncestorStatus
  simp only [Dict.get_modify]

theorem setLeafStatus_get (det : List StatusKind → StatusKind) (t : Tree) (p k : String) :
    Dict.get (setLeafStatus det t p).suites.byId k
      = if p = k then
          (Dict.get t.suites.byId k).map (fun x =>
            { x with status := det (x.browsers.filterMap (lastResultStatus t)) })
        else Dict.get t.suites.byId k := by
  unfold setLeafStatus
  simp only [Dict.get_modify]

/-! ### Properties of every stored suite -/

theorem upsertSuite_allSuites (Q : String → Suite → Prop) (s : SuiteStore) (x : Suite)
    (hx : Q x.id x) (h : AllSuites Q s) : AllSuites Q (upsertSuite s x) := by
  intro k y hy
  rw [upsertSuite_get] at hy
  by_cases hc : Dict.get s.byId x.id = none ∧ x.id = k
  · rw [if_pos hc] at hy
    cases hy
    rw [← hc.2]
    exact hx
  · rw [if_neg hc] at hy
    exact h k y hy

theorem addChildSuiteId_allSuites (Q : String → Suite → Prop) (s : SuiteStore)
    (p c : String)
    (hQ : ∀ x, Q p x → Q p { x with suites := appendNew x.suites c })
    (h : AllSuites Q s) : AllSuites Q (addChildSuiteId s p c) := by
  intro k y hy
  rw [addChildSuiteId_get] at hy
  by_cases hk : p = k
  · subst hk
    simp only [if_true] at hy
    cases hg : Dict.get s.byId p with
    | none => simp [hg] at hy
    | some x =>
      simp only [hg, Option.map_some', Option.some.injEq] at hy
      rw [← hy]
      exact hQ x (h p x hg)
  · simp only [hk, if_false] at hy
    exact h k y hy

theorem addBrowserId_allSuites (Q : String → Suite → Prop) (s : SuiteStore)
    (p c : String)
    (hQ : ∀ x, Q p x → Q p { x with browsers := appendNew x.browsers c })
    (h : AllSuites Q s) : AllSuites Q (addBrowserId s p c) := by
  intro k y hy
  rw [addBrowserId_get] at hy
  by_cases hk : p = k
  · subst hk
    simp only [if_true] at hy
    cases hg : Dict.get s.byId p with
    | none => simp [hg] at hy
    | some x =>
      simp only [hg, Option.map_some', Option.some.injEq] at hy
      rw [← hy]
      exact hQ x (h p x hg)
  · simp only [hk, if_false] at hy
    exact h k y hy

theorem setAncestorStatus_allSuites (Q : String → Suite → Prop)
    (det : List StatusKind → StatusKind) (s : SuiteStore) (p : String)
    (hQ : ∀ k x st, Q k x → Q k { x with status := st })
    (h : AllSuites Q s) : AllSuites Q (setAncestorStatus det s p) := by
  intro k y hy
  rw [setAncestorStatus_get] at hy
  by_cases hk : p = k
  · subst hk
    simp only [if_true] at hy
    cases hg : Dict.get s.byId p with
    | none => simp [hg] at hy
    | some x =>
      simp only [hg, Option.map_some', Option.some.injEq] at hy
      rw [← hy]
      exact hQ p x _ (h p x hg)
  · simp only [hk, if_false] at hy
    exact h k y hy

theorem setAncestorStatuses_allSuites (Q : String → Suite → Prop)
    (det : List StatusKind → StatusKind) (path : List String) (n : Nat) (s : SuiteStore)
    (hQ : ∀ k x st, Q k x → Q k { x with status := st })
    (h : AllSuites Q s) : AllSuites Q (setAncestorStatuses det path n s) := by
  induction n generalizing s with
  | zero => exact h
  | succ n ih =>
    exact ih _ (setAncestorStatus_allSuites Q det s _ hQ h)

theorem setLeafStatus_allSuites (Q : String → Suite → Prop)
    (det : List StatusKind → StatusKind) (t : Tree) (p : String)
    (hQ : ∀ k x st, Q k x → Q k { x with status := st })
    (h : AllSuites Q t.suites) : AllSuites Q (setLeafStatus det t p).suites := by
  intro k y hy
  rw [setLeafStatus_get] at hy
  by_cases hk : p = k
  · subst hk
    simp only [if_true] at hy
    cases hg : Dict.get t.suites.byId p with
    | none => simp [hg] at hy
    | some x =>
      simp only [hg, Option.map_some', Option.some.injEq] at hy
      rw [← hy]
      exact hQ p x _ (h p x hg)
  · simp only [hk, if_false] at hy
    exact h k y hy

/-- A property of the stored suites that new suites have and that appending a child id
to its parent, appending the browser to the suite of the full path and setting a status
keep, holds after the walk of `addSuites`. -/
theorem addSuites_allSuites (Q : String → Suite → Prop) (bk : String)
    (path pp : List String) (s : SuiteStore)
    (hchild : ∀ pth m x, pth ≠ [] → (∀ seg ∈ pth ++ [m], seg ∈ pp ++ path) →
      Q (suiteId pth) x →
      Q (suiteId pth) { x with suites := appendNew x.suites (suiteId (pth ++ [m])) })
    (hbro : ∀ x, Q (suiteId (pp ++ path)) x →
      Q (suiteId (pp ++ path)) { x with browsers := appendNew x.browsers bk })
    (hnew : ∀ pp' n', (∀ seg ∈ pp' ++ [n'], seg ∈ pp ++ path) →
      Q (suiteId (pp' ++ [n'])) (newSuite pp' n'))
    (h : AllSuites Q s) : AllSuites Q (addSuites pp path bk s) := by
  induction path generalizing pp s with
  | nil => exact h
  | cons n rest ih =>
    rw [addSuites_cons]
    have hassoc : (pp ++ [n]) ++ rest = pp ++ n :: rest := by simp
    apply ih (pp ++ [n])
    · intro pth m x hp hseg hx
      apply hchild pth m x hp _ hx
      intro seg hs
      have := hseg seg hs
      rw [hassoc] at this
      exact this
    · intro x hx
      rw [hassoc] at hx ⊢
      exact hbro x hx
    · intro pp' n' hseg
      apply hnew
      intro seg hs
      have := hseg seg hs
      rw [hassoc] at this
      exact this
    · have hup : AllSuites Q (upsertSuite s (newSuite pp n)) := by
        apply upsertSuite_allSuites Q s _ _ h
        exact hnew pp n (by intro seg hs; simp at hs ⊢; tauto)
      unfold addSuiteStep
      cases rest with
      | nil => exact addBrowserId_allSuites Q _ _ _ (fun x hx => hbro x hx) hup
      | cons m rest' =>
        exact addChildSuiteId_allSuites Q _ _ _
          (fun x hx => hchild (pp ++ [n]) m x (by simp)
            (by intro seg hs; simp at hs ⊢; tauto) hx) hup

theorem ingest_suites (det : List StatusKind → StatusKind) (t : Tree) (e : TestEvent) :
    (ingest det t e).suites
      = setAncestorStatuses det e.testPath (e.testPath.length - 1)
          (setLeafStatus det
            { suites := addSuites [] e.testPath (eventBrowserKey e) t.suites,
              browsers := (ingest det t e).browsers,
              results := (ingest det t e).results,
              images := (ingest det t e).images } (suiteId e.testPath)).suites := rfl

/-- A property of the stored suites that the new suites of an event have and that the
mutations of an ingest keep, is kept by the ingest. -/
theorem ingest_allSuites (Q : String → Suite → Prop) (det : List StatusKind → StatusKind)
    (t : Tree) (e : TestEvent)
    (hchild : ∀ pth m x, pth ≠ [] → (∀ seg ∈ pth ++ [m], seg ∈ e.testPath) →
      Q (suiteId pth) x →
      Q (suiteId pth) { x with suites := appendNew x.suites (suiteId (pth ++ [m])) })
    (hbro : ∀ x, Q (suiteId e.testPath) x →
      Q (suiteId e.testPath)
        { x with browsers := appendNew x.browsers (eventBrowserKey e) })
    (hstatus : ∀ k x st, Q k x → Q k { x with status := st })
    (hnew : ∀ pp' n', (∀ seg ∈ pp' ++ [n'], seg ∈ e.testPath) →
      Q (suiteId (pp' ++ [n'])) (newSuite pp' n'))
    (h : AllSuites Q t.suites) : AllSuites Q (ingest det t e).suites := by
  rw [ingest_suites]
  apply setAncestorStatuses_allSuites Q det _ _ _ hstatus
  apply setLeafStatus_allSuites Q det _ _ hstatus
  exact addSuites_allSuites Q _ e.testPath [] t.suites
    (fun pth m x hp hs hx => hchild pth m x hp (by simpa using hs) hx)
    (fun x hx => hbro x hx)
    (fun pp' n' hs => hnew pp' n' (by simpa using hs)) h

/-! ## The id lists of the suites collection -/

theorem joinWith_append (sep : String) (p q : List String) (hp : p ≠ []) (hq : q ≠ []) :
    joinWith sep (p ++ q) = joinWith sep p ++ sep ++ joinWith sep q := by
  induction p with
  | nil => exact absurd rfl hp
  | cons a p ih =>
    cases p with
    | nil =>
      cases q with
      | nil => exact absurd rfl hq
      | cons b q => simp [joinWith]
    | cons a2 p =>
      have := ih (by simp)
      simp only [List.cons_append] at this ⊢
      simp only [joinWith]
      rw [this]
      simp [String.append_assoc]

theorem suiteId_length_lt (p q : List String) (hp : p ≠ []) (hq : q ≠ []) :
    (suiteId p).length < (suiteId (p ++ q)).length := by
  unfold suiteId
  rw [joinWith_append " " p q hp hq]
  simp only [String.length_append]
  have : (" " : String).length = 1 := rfl
  omega

theorem suiteId_append_singleton (p : List String) (hp : p ≠ []) (m : String) :
    suiteId (p ++ [m]) = suiteId p ++ " " ++ m :=
  joinWith_append_singleton " " p hp m

/-- The ids of two initial parts of a path of different lengths have different
lengths. -/
theorem suiteId_take_length_lt (path : List String) (i j : Nat) (hi : 1 ≤ i) (hij : i < j)
    (hj : j ≤ path.length) :
    (suiteId (path.take i)).length < (suiteId (path.take j)).length := by
  have h1 : path.take i = (path.take j).take i := by
    rw [List.take_take]
    congr 1
    omega
  have h2 : path.take j = (path.take j).take i ++ (path.take j).drop i :=
    (List.take_append_drop i _).symm
  rw [h1]
  conv => rhs; rw [h2]
  apply suiteId_length_lt
  · intro hc
    have := congrArg List.length hc
    simp only [List.length_take, List.length_nil] at this
    omega
  · intro hc
    have := congrArg List.length hc
    simp only [List.length_drop, List.length_take, List.length_nil] at this
    omega

theorem Dict.set_of_get_none {α : Type} (d : Dict α) (k : String) (v : α)
    (h : Dict.get d k = none) : Dict.set d k v = d ++ [(k, v)] := by
  induction d with
  | nil => rfl
  | cons p rest ih =>
    obtain ⟨k0, v0⟩ := p
    by_cases h0 : k0 = k
    · simp [Dict.get, h0] at h
    · simp only [Dict.get, h0, if_false] at h
      simp [Dict.set, h0, ih h]

theorem suiteIdsAgree_of_modify (s : SuiteStore) (p : String) (f : Suite → Suite)
    (hf : ∀ x, (f x).root = x.root) (h : SuiteIdsAgree s) :
    SuiteIdsAgree { s with byId := Dict.modify s.byId p f } := by
  obtain ⟨h1, h2⟩ := h
  refine ⟨?_, ?_⟩
  · simp only [Dict.keys_modify]; exact h1
  · simp only
    rw [h2]
    apply List.filter_congr
    intro k _
    rw [Dict.get_modify]
    by_cases hk : p = k
    · simp only [hk, if_true]
      cases Dict.get s.byId k <;> simp [hf]
    · simp [hk]

theorem upsertSuite_allIds (s : SuiteStore) (x : Suite) (h : SuiteIdsAgree s) :
    (upsertSuite s x).allIds = appendNew s.allIds x.id ∧
    SuiteIdsAgree (upsertSuite s x) := by
  obtain ⟨h1, h2⟩ := h
  unfold upsertSuite
  cases hg : Dict.get s.byId x.id with
  | some y =>
    have hm : x.id ∈ s.allIds := by
      rw [h1]
      by_contra hc
      rw [← Dict.get_eq_none_iff] at hc
      rw [hc] at hg
      cases hg
    exact ⟨(appendNew_of_mem _ _ hm).symm, h1, h2⟩
  | none =>
    have hm : x.id ∉ s.allIds := by
      rw [h1]
      exact (Dict.get_eq_none_iff _ _).1 hg
    refine ⟨(appendNew_of_not_mem _ _ hm).symm, ?_, ?_⟩
    · simp only [Dict.keys_set]
      rw [← h1, appendNew_of_not_mem _ _ hm]
    · simp only
      rw [List.filter_append]
      have hold : List.filter
          (fun k => decide ((Dict.get (Dict.set s.byId x.id x) k).map (fun x => x.root)
            = some true)) s.allIds = s.allRootIds := by
        rw [h2]
        apply List.filter_congr
        intro k hk
        rw [Dict.get_set]
        have : ¬ x.id = k := fun e => hm (e ▸ hk)
        simp [this]
      rw [hold]
      by_cases hr : x.root = true
      · simp [hr, Dict.get_set]
      · simp [hr, Dict.get_set]

theorem addSuiteStep_allIds (pp : List String) (n : String) (rest : List String)
    (bk : String) (s : SuiteStore) (h : SuiteIdsAgree s) :
    (addSuiteStep pp n rest bk s).allIds = appendNew s.allIds (suiteId (pp ++ [n])) ∧
    SuiteIdsAgree (addSuiteStep pp n rest bk s) := by
  obtain ⟨h1, h2⟩ := upsertSuite_allIds s (newSuite pp n) h
  unfold addSuiteStep
  cases rest with
  | nil =>
    exact ⟨h1, suiteIdsAgree_of_modify _ _ _ (fun _ => rfl) h2⟩
  | cons m rest' =>
    exact ⟨h1, suiteIdsAgree_of_modify _ _ _ (fun _ => rfl) h2⟩

/-- The walk of `addSuites` appends to `allIds` the suite ids of the path that are not
in the list yet, in path order. -/
theorem addSuites_allIds (path pp : List String) (bk : String) (s : SuiteStore)
    (h : SuiteIdsAgree s) :
    (addSuites pp path bk s).allIds = (pathSuiteIds pp path).foldl appendNew s.allIds ∧
    SuiteIdsAgree (addSuites pp path bk s) := by
  induction path generalizing pp s with
  | nil => exact ⟨rfl, h⟩
  | cons n rest ih =>
    rw [addSuites_cons]
    obtain ⟨h1, h2⟩ := addSuiteStep_allIds pp n rest bk s h
    obtain ⟨h3, h4⟩ := ih (pp ++ [n]) _ h2
    refine ⟨?_, h4⟩
    rw [h3, h1]
    rfl

theorem setAncestorStatuses_ids (det : List StatusKind → StatusKind) (path : List String)
    (n : Nat) (s : SuiteStore) (h : SuiteIdsAgree s) :
    (setAncestorStatuses det path n s).allIds = s.allIds ∧
    (setAncestorStatuses det path n s).allRootIds = s.allRootIds ∧
    SuiteIdsAgree (setAncestorStatuses det path n s) := by
  induction n generalizing s with
  | zero => exact ⟨rfl, rfl, h⟩
  | succ n ih =>
    have h2 : SuiteIdsAgree (setAncestorStatus det s (suiteId (path.take (n + 1)))) :=
      suiteIdsAgree_of_modify _ _ _ (fun _ => rfl) h
    obtain ⟨h3, h4, h5⟩ := ih _ h2
    exact ⟨h3, h4, h5⟩

/-- An ingest appends to `allIds` the suite ids of the path of the event that are not in
the list yet, parent before child, and keeps the id lists in agreement with the
dictionary. -/
theorem ingest_suites_allIds (det : List StatusKind → StatusKind) (t : Tree)
    (e : TestEvent) (h : SuiteIdsAgree t.suites) :
    (ingest det t e).suites.allIds
        = (pathSuiteIds [] e.testPath).foldl appendNew t.suites.allIds ∧
    SuiteIdsAgree (ingest det t e).suites := by
  rw [ingest_suites]
  obtain ⟨h1, h2⟩ := addSuites_allIds e.testPath [] (eventBrowserKey e) t.suites h
  have h3 : SuiteIdsAgree (setLeafStatus det
      { suites := addSuites [] e.testPath (eventBrowserKey e) t.suites,
        browsers := (ingest det t e).browsers,
        results := (ingest det t e).results,
        images := (ingest det t e).images } (suiteId e.testPath)).suites :=
    suiteIdsAgree_of_modify _ _ _ (fun _ => rfl) h2
  obtain ⟨h4, _, h6⟩ := setAncestorStatuses_ids det e.testPath (e.testPath.length - 1) _ h3
  refine ⟨?_, h6⟩
  rw [h4]
  exact h1

theorem foldl_ingest_suiteIdsAgree (det : List StatusKind → StatusKind)
    (es : List TestEvent) : SuiteIdsAgree (es.foldl (ingest det) Tree.empty).suites := by
  induction es using List.reverseRecOn with
  | nil => exact ⟨rfl, rfl⟩
  | append_singleton es e ih =>
    rw [List.foldl_append]
    exact (ingest_suites_allIds det _ e ih).2

/-- The suite id list is the list of the suite ids of all paths in order of first
appearance. -/
theorem suites_allIds_history (det : List StatusKind → StatusKind) (es : List TestEvent) :
    (es.foldl (ingest det) Tree.empty).suites.allIds
      = firstOccurrences (es.flatMap (fun e => pathSuiteIds [] e.testPath)) := by
  induction es using List.reverseRecOn with
  | nil => rfl
  | append_singleton es e ih =>
    rw [List.foldl_append]
    simp only [List.foldl_cons, List.foldl_nil]
    rw [(ingest_suites_allIds det _ e (foldl_ingest_suiteIdsAgree det es)).1, ih]
    simp [firstOccurrences, List.flatMap_append, List.foldl_append]

/-! ## The suites collection: what a walk creates and keeps -/

theorem addSuiteStep_get_mono (pp : List String) (n : String) (rest : List String)
    (bk : String) (s : SuiteStore) (k : String) (x : Suite)
    (h : Dict.get s.byId k = some x) :
    ∃ y, Dict.get (addSuiteStep pp n rest bk s).byId k = some y ∧
      x.suites ⊆ y.suites ∧ x.browsers ⊆ y.browsers := by
  have hup : Dict.get (upsertSuite s (newSuite pp n)).byId k = some x := by
    rw [upsertSuite_get]
    by_cases hc : Dict.get s.byId (newSuite pp n).id = none ∧ (newSuite pp n).id = k
    · obtain ⟨h1, h2⟩ := hc
      rw [h2, h] at h1
      cases h1
    · rw [if_neg hc]; exact h
  unfold addSuiteStep
  cases rest with
  | nil =>
    simp only [addBrowserId_get, hup]
    by_cases hk : suiteId (pp ++ [n]) = k
    · refine ⟨{ x with browsers := appendNew x.browsers bk }, by simp [hk],
        fun a ha => ha, fun a ha => ?_⟩
      exact (mem_appendNew _ _ _).2 (Or.inl ha)
    · exact ⟨x, by simp [hk], fun a ha => ha, fun a ha => ha⟩
  | cons m rest' =>
    simp only [addChildSuiteId_get, hup]
    by_cases hk : suiteId (pp ++ [n]) = k
    · refine ⟨{ x with suites := appendNew x.suites (suiteId ((pp ++ [n]) ++ [m])) },
        by simp [hk], fun a ha => ?_, fun a ha => ha⟩
      exact (mem_appendNew _ _ _).2 (Or.inl ha)
    · exact ⟨x, by simp [hk], fun a ha => ha, fun a ha => ha⟩

/-- The walk of `addSuites` removes no suite and no entry of a child list. -/
theorem addSuites_get_mono (path pp : List String) (bk : String) (s : SuiteStore)
    (k : String) (x : Suite) (h : Dict.get s.byId k = some x) :
    ∃ y, Dict.get (addSuites pp path bk s).byId k = some y ∧
      x.suites ⊆ y.suites ∧ x.browsers ⊆ y.browsers := by
  induction path generalizing pp s x with
  | nil => exact ⟨x, h, fun a ha => ha, fun a ha => ha⟩
  | cons n rest ih =>
    rw [addSuites_cons]
    obtain ⟨y, hy, h1, h2⟩ := addSuiteStep_get_mono pp n rest bk s k x h
    obtain ⟨z, hz, h3, h4⟩ := ih (pp ++ [n]) _ y hy
    exact ⟨z, hz, fun a ha => h3 (h1 ha), fun a ha => h4 (h2 ha)⟩

theorem addSuiteStep_get_self (pp : List String) (n : String) (rest : List String)
    (bk : String) (s : SuiteStore) :
    ∃ y, Dict.get (addSuiteStep pp n rest bk s).byId (suiteId (pp ++ [n])) = some y ∧
      (rest = [] → bk ∈ y.browsers) ∧
      (∀ m l3, rest = m :: l3 → suiteId ((pp ++ [n]) ++ [m]) ∈ y.suites) := by
  have hup : ∃ x, Dict.get (upsertSuite s (newSuite pp n)).byId (suiteId (pp ++ [n]))
      = some x := by
    rw [upsertSuite_get]
    cases hg : Dict.get s.byId (newSuite pp n).id with
    | none => exact ⟨newSuite pp n, by simp [newSuite_id]⟩
    | some x0 =>
      refine ⟨x0, ?_⟩
      simp only [false_and, if_false, reduceCtorEq]
      exact hg
  obtain ⟨x, hx⟩ := hup
  unfold addSuiteStep
  cases rest with
  | nil =>
    simp only [addBrowserId_get, hx, if_true, Option.map_some']
    refine ⟨_, rfl, fun _ => ?_, fun m l3 hc => ?_⟩
    · exact (mem_appendNew _ _ _).2 (Or.inr rfl)
    · cases hc
  | cons m rest' =>
    simp only [addChildSuiteId_get, hx, if_true, Option.map_some']
    refine ⟨_, rfl, fun hc => ?_, fun m' l3 hc => ?_⟩
    · cases hc
    · cases hc
      exact (mem_appendNew _ _ _).2 (Or.inr rfl)

/-- After the walk of `addSuites` the store holds a suite for every non-empty initial
part of the path; a suite before the end of the path lists the next suite as child, the
suite of the full path lists the browser. -/
theorem addSuites_get_path (path pp : List String) (bk : String) (s : SuiteStore)
    (l1 : List String) (n : String) (l2 : List String) (hsplit : path = l1 ++ n :: l2) :
    ∃ y, Dict.get (addSuites pp path bk s).byId (suiteId (pp ++ l1 ++ [n])) = some y ∧
      (l2 = [] → bk ∈ y.browsers) ∧
      (∀ m l3, l2 = m :: l3 → suiteId (pp ++ l1 ++ [n] ++ [m]) ∈ y.suites) := by
  induction path generalizing pp s l1 with
  | nil => cases l1 <;> cases hsplit
  | cons n0 rest ih =>
    rw [addSuites_cons]
    cases l1 with
    | nil =>
      simp only [List.nil_append, List.cons.injEq] at hsplit
      obtain ⟨hn, hrest⟩ := hsplit
      subst hn hrest
      obtain ⟨y, hy, h1, h2⟩ := addSuiteStep_get_self pp n0 rest bk s
      obtain ⟨z, hz, h3, h4⟩ := addSuites_get_mono rest (pp ++ [n0]) bk _ _ y hy
      simp only [List.append_nil]
      exact ⟨z, hz, fun hr => h4 (h1 hr), fun m l3 hr => h3 (h2 m l3 hr)⟩
    | cons a l1' =>
      simp only [List.cons_append, List.cons.injEq] at hsplit
      obtain ⟨ha, hrest⟩ := hsplit
      subst ha
      have := ih (pp ++ [n0]) (addSuiteStep pp n0 rest bk s) l1' hrest
      simpa [List.append_assoc] using this

/-! ### Setting statuses changes statuses only -/

theorem setAncestorStatuses_get_unstatus (det : List StatusKind → StatusKind)
    (path : List String) (n : Nat) (s : SuiteStore) (k : String) :
    (Dict.get (setAncestorStatuses det path n s).byId k).map
        (fun x => { x with status := StatusKind.IDLE })
      = (Dict.get s.byId k).map (fun x => { x with status := StatusKind.IDLE }) := by
  induction n generalizing s with
  | zero => rfl
  | succ n ih =>
    show (Dict.get (setAncestorStatuses det path n _).byId k).map _ = _
    rw [ih, setAncestorStatus_get]
    by_cases hk : suiteId (path.take (n + 1)) = k
    · simp only [hk, if_true]
      cases Dict.get s.byId k <;> simp
    · simp [hk]

theorem setLeafStatus_get_unstatus (det : List StatusKind → StatusKind) (t : Tree)
    (p k : String) :
    (Dict.get (setLeafStatus det t p).suites.byId k).map
        (fun x => { x with status := StatusKind.IDLE })
      = (Dict.get t.suites.byId k).map (fun x => { x with status := StatusKind.IDLE }) := by
  rw [setLeafStatus_get]
  by_cases hk : p = k
  · simp only [hk, if_true]
    cases Dict.get t.suites.byId k <;> simp
  · simp [hk]

/-- Apart from the statuses, the suites after an ingest are the suites after the walk of
`addSuites`. -/
theorem ingest_suites_get_unstatus (det : List StatusKind → StatusKind) (t : Tree)
    (e : TestEvent) (k : String) :
    (Dict.get (ingest det t e).suites.byId k).map
        (fun x => { x with status := StatusKind.IDLE })
      = (Dict.get (addSuites [] e.testPath (eventBrowserKey e) t.suites).byId k).map
          (fun x => { x with status := StatusKind.IDLE }) := by
  rw [ingest_suites, setAncestorStatuses_get_unstatus, setLeafStatus_get_unstatus]

theorem unstatus_eq {x y : Suite}
    (h : ({ x with status := StatusKind.IDLE } : Suite) = { y with status := StatusKind.IDLE }) :
    x.id = y.id ∧ x.parentId = y.parentId ∧ x.name = y.name ∧ x.suitePath = y.suitePath ∧
      x.root = y.root ∧ x.suites = y.suites ∧ x.browsers = y.browsers := by
  cases x; cases y
  simp only [Suite.mk.injEq] at h
  simp only
  tauto

/-- After an ingest the store holds, for every suite the walk of `addSuites` produced, a
suite with the same fields apart from the status. -/
theorem ingest_suites_get_of_walk (det : List StatusKind → StatusKind) (t : Tree)
    (e : TestEvent) (k : String) (y : Suite)
    (h : Dict.get (addSuites [] e.testPath (eventBrowserKey e) t.suites).byId k = some y) :
    ∃ z, Dict.get (ingest det t e).suites.byId k = some z ∧
      z.id = y.id ∧ z.parentId = y.parentId ∧ z.name = y.name ∧
      z.suitePath = y.suitePath ∧ z.root = y.root ∧ z.suites = y.suites ∧
      z.browsers = y.browsers := by
  have := ingest_suites_get_unstatus det t e k
  rw [h] at this
  cases hz : Dict.get (ingest det t e).suites.byId k with
  | none => rw [hz] at this; cases this
  | some z =>
    rw [hz] at this
    simp only [Option.map_some', Option.some.injEq] at this
    exact ⟨z, rfl, unstatus_eq this⟩

/-! ## The status recomputation -/

theorem lastResultStatus_congr (t t' : Tree) (hb : t.browsers = t'.browsers)
    (hr : t.results = t'.results) (k : String) :
    lastResultStatus t k = lastResultStatus t' k := by
  unfold lastResultStatus
  rw [hb, hr]

theorem setAncestorStatuses_get_of_ne (det : List StatusKind → StatusKind)
    (path : List String) (n : Nat) (s : SuiteStore) (k : String)
    (hne : ∀ i, 1 ≤ i → i ≤ n → suiteId (path.take i) ≠ k) :
    Dict.get (setAncestorStatuses det path n s).byId k = Dict.get s.byId k := by
  induction n generalizing s with
  | zero => rfl
  | succ n ih =>
    show Dict.get (setAncestorStatuses det path n _).byId k = _
    rw [ih _ (fun i h1 h2 => hne i h1 (by omega)), setAncestorStatus_get]
    have := hne (n + 1) (by omega) (by omega)
    simp [this]

/-- After an ingest the suite of the full path exists, lists the browser of the event,
and has the status aggregated over the latest results of its browsers. -/
theorem ingest_leaf (det : List StatusKind → StatusKind) (t : Tree) (e : TestEvent)
    (hp : e.testPath ≠ []) :
    ∃ x, Dict.get (ingest det t e).suites.byId (suiteId e.testPath) = some x ∧
      x.status = det (x.browsers.filterMap (lastResultStatus (ingest det t e))) ∧
      eventBrowserKey e ∈ x.browsers := by
  obtain ⟨y, hy, hb, _⟩ := addSuites_get_path e.testPath [] (eventBrowserKey e) t.suites
    e.testPath.dropLast (e.testPath.getLast hp) []
    (List.dropLast_append_getLast hp).symm
  simp only [List.nil_append] at hy
  rw [List.dropLast_append_getLast hp] at hy
  rw [ingest_suites]
  rw [setAncestorStatuses_get_of_ne, setLeafStatus_get]
  · simp only [if_true, hy, Option.map_some']
    exact ⟨_, rfl, rfl, hb rfl⟩
  · intro i h1 h2 hc
    have hlen : 0 < e.testPath.length := List.length_pos.2 hp
    have := suiteId_take_length_lt e.testPath i e.testPath.length h1 (by omega) (le_refl _)
    rw [List.take_length] at this
    rw [hc] at this
    exact absurd this (lt_irrefl _)

/-- After the bottom-up recomputation every ancestor handled has the status aggregated
over the current statuses of its child suites, provided every child id is longer than
the id of its parent. -/
theorem setAncestorStatuses_status (det : List StatusKind → StatusKind)
    (path : List String) (n : Nat) (s : SuiteStore) (hn : n ≤ path.length)
    (hlen : AllSuites (fun k x => ∀ c ∈ x.suites, k.length < c.length) s)
    (i : Nat) (h1 : 1 ≤ i) (h2 : i ≤ n) (x0 : Suite)
    (hx0 : Dict.get s.byId (suiteId (path.take i)) = some x0) :
    ∃ x, Dict.get (setAncestorStatuses det path n s).byId (suiteId (path.take i)) = some x ∧
      x.suites = x0.suites ∧
      x.status
        = det (x.suites.filterMap (suiteStatus (setAncestorStatuses det path n s).byId)) := by
  induction n generalizing s x0 with
  | zero => omega
  | succ n ih =>
    show ∃ x, Dict.get (setAncestorStatuses det path n _).byId _ = some x ∧ _ ∧
      x.status = det (x.suites.filterMap (suiteStatus (setAncestorStatuses det path n _).byId))
    by_cases hi : i = n + 1
    · subst hi
      have hne : ∀ j, 1 ≤ j → j ≤ n → suiteId (path.take j) ≠ suiteId (path.take (n + 1)) := by
        intro j hj1 hj2 hc
        have := suiteId_take_length_lt path j (n + 1) hj1 (by omega) hn
        rw [hc] at this
        exact absurd this (lt_irrefl _)
      rw [setAncestorStatuses_get_of_ne det path n _ _ hne, setAncestorStatus_get]
      simp only [if_true, hx0, Option.map_some']
      refine ⟨_, rfl, rfl, ?_⟩
      simp only
      congr 1
      apply List.filterMap_congr
      intro c hc
      have hcl := hlen _ x0 hx0 c hc
      unfold suiteStatus
      rw [setAncestorStatuses_get_of_ne det path n _ c, setAncestorStatus_get]
      · have : ¬ suiteId (path.take (n + 1)) = c := by
          intro e
          rw [e] at hcl
          exact absurd hcl (lt_irrefl _)
        simp [this]
      · intro j hj1 hj2 e
        have := suiteId_take_length_lt path j (n + 1) hj1 (by omega) hn
        rw [e] at this
        omega
    · have hlen' : AllSuites (fun k x => ∀ c ∈ x.suites, k.length < c.length)
          (setAncestorStatus det s (suiteId (path.take (n + 1)))) :=
        setAncestorStatus_allSuites _ det s _ (fun k x st h => h) hlen
      have hx0' : Dict.get (setAncestorStatus det s (suiteId (path.take (n + 1)))).byId
          (suiteId (path.take i)) = some x0 := by
        rw [setAncestorStatus_get]
        have : ¬ suiteId (path.take (n + 1)) = suiteId (path.take i) := by
          intro e
          have := suiteId_take_length_lt path i (n + 1) h1 (by omega) hn
          rw [e] at this
          exact absurd this (lt_irrefl _)
        simp [this, hx0]
      exact ih _ (by omega) hlen' (by omega) x0 hx0'

/-! ## Decimal numerals -/

theorem digitChar_ne_space (d : Nat) (h : d < 10) : Nat.digitChar d ≠ ' ' := by
  interval_cases d <;> decide

theorem toDigitsCore_no_space (f n : Nat) (ds : List Char) (h : ∀ c ∈ ds, c ≠ ' ') :
    ∀ c ∈ Nat.toDigitsCore 10 f n ds, c ≠ ' ' := by
  induction f generalizing n ds with
  | zero => simpa [Nat.toDigitsCore] using h
  | succ f ih =>
    have hd : ∀ c ∈ Nat.digitChar (n % 10) :: ds, c ≠ ' ' := by
      intro c hc
      rcases List.mem_cons.1 hc with h1 | h1
      · rw [h1]; exact digitChar_ne_space _ (Nat.mod_lt _ (by decide))
      · exact h c h1
    unfold Nat.toDigitsCore
    by_cases h0 : n / 10 = 0
    · simpa [h0] using hd
    · simp only [h0, if_false]
      exact ih _ _ hd

/-- The decimal numeral of a natural number holds no space. -/
theorem toString_nat_separatorFree (n : Nat) : separatorFree (toString n) := by
  unfold separatorFree
  intro hc
  have : (toString n).data = Nat.toDigits 10 n := rfl
  rw [this] at hc
  exact toDigitsCore_no_space (n + 1) n [] (by simp) ' ' hc rfl

/-- The result id of an event determines the browser id the event addresses. -/
theorem eventBrowserKey_of_eventResultKey (e1 e2 : TestEvent)
    (h : eventResultKey e1 = eventResultKey e2) :
    eventBrowserKey e1 = eventBrowserKey e2 ∧ toString e1.attempt = toString e2.attempt :=
  split_at_last_space (toString_nat_separatorFree _) (toString_nat_separatorFree _) h

/-! ## The latest result of a browser against the history -/

theorem getLast?_filter_of_imp {α : Type} (P Q : α → Bool) (l : List α) (el : α)
    (himp : ∀ x, P x = true → Q x = true) (hq : (l.filter Q).getLast? = some el)
    (hp : P el = true) : (l.filter P).getLast? = some el := by
  induction l using List.reverseRecOn with
  | nil => simp at hq
  | append_singleton l a ih =>
    rw [List.filter_append] at hq ⊢
    by_cases hqa : Q a = true
    · have h1 : List.filter Q [a] = [a] := by simp [hqa]
      rw [h1, List.getLast?_append_of_ne_nil _ (by simp)] at hq
      simp only [List.getLast?_singleton, Option.some.injEq] at hq
      subst hq
      have h2 : List.filter P [a] = [a] := by simp [hp]
      rw [h2, List.getLast?_append_of_ne_nil _ (by simp)]
      rfl
    · have hpa : ¬ P a = true := fun h => hqa (himp a h)
      have h1 : List.filter Q [a] = [] := by simp [hqa]
      have h2 : List.filter P [a] = [] := by simp [hpa]
      rw [h1, List.append_nil] at hq
      rw [h2, List.append_nil]
      exact ih hq

theorem getLast?_filter_mem {α : Type} (Q : α → Bool) (l : List α) (el : α)
    (hq : (l.filter Q).getLast? = some el) : Q el = true ∧ el ∈ l := by
  have := List.mem_of_getLast?_eq_some hq
  rw [List.mem_filter] at this
  exact ⟨this.2, this.1⟩

/-- The latest result status of a browser that some event addressed is the status of the
last event that addressed it. -/
theorem lastResultStatus_history (det : List StatusKind → StatusKind) (es : List TestEvent)
    (b : String) (e0 : TestEvent) (he0 : e0 ∈ es) (hb : eventBrowserKey e0 = b) :
    ∃ el, (eventsOfBrowser es b).getLast? = some el ∧
      lastResultStatus (es.foldl (ingest det) Tree.empty) b = some el.status := by
  have hne : eventsOfBrowser es b ≠ [] := by
    intro hc
    have : e0 ∈ eventsOfBrowser es b := by
      unfold eventsOfBrowser
      rw [List.mem_filter]
      exact ⟨he0, by simp [hb]⟩
    rw [hc] at this
    cases this
  obtain ⟨el, hel⟩ : ∃ el, (eventsOfBrowser es b).getLast? = some el := by
    cases hl : (eventsOfBrowser es b).getLast? with
    | none => exact absurd (List.getLast?_eq_none_iff.1 hl) hne
    | some el => exact ⟨el, rfl⟩
  refine ⟨el, hel, ?_⟩
  unfold lastResultStatus
  rw [browsers_byId_history]
  unfold browserOfHistory
  cases hev : eventsOfBrowser es b with
  | nil => exact absurd hev hne
  | cons a rest =>
    simp only [Option.bind_eq_bind, Option.some_bind]
    rw [← hev, List.getLast?_map, hel]
    simp only [Option.map_some', Option.some_bind]
    rw [results_byId_history]
    have hq := getLast?_filter_mem _ es el hel
    have := getLast?_filter_of_imp (fun e => decide (eventResultKey e = eventResultKey el))
      (fun e => decide (eventBrowserKey e = b)) es el
      (by
        intro x hx
        simp only [decide_eq_true_eq] at hx ⊢
        have h1 := (eventBrowserKey_of_eventResultKey x el hx).1
        rw [h1]
        simpa using hq.1)
      hel (by simp)
    rw [this]
    rfl

/-! ## Invariants of every tree a call sequence builds -/

/-- In a built tree every child suite id is longer than the id of its parent. -/
theorem foldl_ingest_child_longer (det : List StatusKind → StatusKind)
    (es : List TestEvent) :
    AllSuites (fun k x => ∀ c ∈ x.suites, k.length < c.length)
      (es.foldl (ingest det) Tree.empty).suites := by
  induction es using List.reverseRecOn with
  | nil => intro k x h; cases h
  | append_singleton es e ih =>
    rw [List.foldl_append]
    apply ingest_allSuites _ det _ e _ _ _ _ ih
    · intro pth m x hp _ hx c hc
      rcases (mem_appendNew _ _ _).1 hc with h1 | h1
      · exact hx c h1
      · rw [h1]; exact suiteId_length_lt pth [m] hp (by simp)
    · intro x hx; exact hx
    · intro k x st hx; exact hx
    · intro pp' n' _ c hc; cases hc

/-- In a built tree no child list of a suite holds an id twice. -/
theorem foldl_ingest_lists_nodup (det : List StatusKind → StatusKind)
    (es : List TestEvent) :
    AllSuites (fun _ x => x.suites.Nodup ∧ x.browsers.Nodup)
      (es.foldl (ingest det) Tree.empty).suites := by
  induction es using List.reverseRecOn with
  | nil => intro k x h; cases h
  | append_singleton es e ih =>
    rw [List.foldl_append]
    apply ingest_allSuites _ det _ e _ _ _ _ ih
    · intro pth m x _ _ hx; exact ⟨nodup_appendNew _ _ hx.1, hx.2⟩
    · intro x hx; exact ⟨hx.1, nodup_appendNew _ _ hx.2⟩
    · intro k x st hx; exact hx
    · intro pp' n' _; exact ⟨List.nodup_nil, List.nodup_nil⟩

/-- In a built tree every browser id of a suite was addressed by an event. -/
theorem foldl_ingest_browsers_addressed (det : List StatusKind → StatusKind)
    (es : List TestEvent) :
    AllSuites (fun _ x => ∀ b ∈ x.browsers, ∃ e ∈ es, eventBrowserKey e = b)
      (es.foldl (ingest det) Tree.empty).suites := by
  induction es using List.reverseRecOn with
  | nil => intro k x h; cases h
  | append_singleton es e ih =>
    rw [List.foldl_append]
    have ih' : AllSuites (fun _ x => ∀ b ∈ x.browsers, ∃ e' ∈ es ++ [e], eventBrowserKey e' = b)
        (es.foldl (ingest det) Tree.empty).suites := by
      intro k x hx b hb
      obtain ⟨e', he', hk⟩ := ih k x hx b hb
      exact ⟨e', List.mem_append_left _ he', hk⟩
    apply ingest_allSuites _ det _ e _ _ _ _ ih'
    · intro pth m x _ _ hx; exact hx
    · intro x hx b hb
      rcases (mem_appendNew _ _ _).1 hb with h1 | h1
      · exact hx b h1
      · exact ⟨e, by simp, h1.symm⟩
    · intro k x st hx; exact hx
    · intro pp' n' _ b hb; cases hb

theorem addSuiteStep_get_ne_none (pp : List String) (n : String) (rest : List String)
    (bk : String) (s : SuiteStore) (k : String) (h : Dict.get s.byId k ≠ none) :
    Dict.get (addSuiteStep pp n rest bk s).byId k ≠ none := by
  cases hg : Dict.get s.byId k with
  | none => exact absurd hg h
  | some x =>
    obtain ⟨y, hy, _⟩ := addSuiteStep_get_mono pp n rest bk s k x hg
    rw [hy]; simp

/-- After the walk of `addSuites` every child id resolves, if before the walk every child
id resolved apart from the id of the suite the walk creates first. -/
theorem addSuites_children_resolve (path pp : List String) (bk : String) (s : SuiteStore)
    (h : ∀ k x, Dict.get s.byId k = some x → ∀ c ∈ x.suites,
      Dict.get s.byId c ≠ none ∨ ∃ n rest, path = n :: rest ∧ c = suiteId (pp ++ [n])) :
    ∀ k x, Dict.get (addSuites pp path bk s).byId k = some x → ∀ c ∈ x.suites,
      Dict.get (addSuites pp path bk s).byId c ≠ none := by
  induction path generalizing pp s with
  | nil =>
    intro k x hx c hc
    rcases h k x hx c hc with h1 | ⟨n, rest, h2, _⟩
    · exact h1
    · cases h2
  | cons n rest ih =>
    rw [addSuites_cons]
    apply ih
    intro k x hx c hc
    obtain ⟨ys, hys, _, _⟩ := addSuiteStep_get_self pp n rest bk s
    have hself : Dict.get (addSuiteStep pp n rest bk s).byId (suiteId (pp ++ [n])) ≠ none := by
      rw [hys]; simp
    -- where the entry `x` of the step store comes from
    have hold : ∀ c0, (∀ k0 x0, Dict.get (upsertSuite s (newSuite pp n)).byId k0 = some x0 →
        c0 ∈ x0.suites → Dict.get (addSuiteStep pp n rest bk s).byId c0 ≠ none) := by
      intro c0 k0 x0 hx0 hc0
      rw [upsertSuite_get] at hx0
      by_cases hcond : Dict.get s.byId (newSuite pp n).id = none ∧ (newSuite pp n).id = k0
      · rw [if_pos hcond] at hx0
        cases hx0
        cases hc0
      · rw [if_neg hcond] at hx0
        rcases h k0 x0 hx0 c0 hc0 with h1 | ⟨n1, rest1, h2, h3⟩
        · exact addSuiteStep_get_ne_none pp n rest bk s c0 h1
        · cases h2
          rw [h3]; exact hself
    unfold addSuiteStep at hx
    cases rest with
    | nil =>
      left
      rw [addBrowserId_get] at hx
      by_cases hk : suiteId (pp ++ [n]) = k
      · rw [if_pos hk] at hx
        cases hg : Dict.get (upsertSuite s (newSuite pp n)).byId k with
        | none => rw [hg] at hx; cases hx
        | some x0 =>
          rw [hg] at hx
          simp only [Option.map_some', Option.some.injEq] at hx
          rw [← hx] at hc
          exact hold c k x0 hg hc
      · rw [if_neg hk] at hx
        exact hold c k x hx hc
    | cons m rest' =>
      rw [addChildSuiteId_get] at hx
      by_cases hk : suiteId (pp ++ [n]) = k
      · rw [if_pos hk] at hx
        cases hg : Dict.get (upsertSuite s (newSuite pp n)).byId k with
        | none => rw [hg] at hx; cases hx
        | some x0 =>
          rw [hg] at hx
          simp only [Option.map_some', Option.some.injEq] at hx
          rw [← hx] at hc
          rcases (mem_appendNew _ _ _).1 hc with h1 | h1
          · left; exact hold c k x0 hg h1
          · right; exact ⟨m, rest', rfl, h1⟩
      · rw [if_neg hk] at hx
        left
        exact hold c k x hx hc

/-- An ingest keeps the property that every child suite id resolves in the store. -/
theorem ingest_children_resolve (det : List StatusKind → StatusKind) (t : Tree)
    (e : TestEvent)
    (h : ∀ k x, Dict.get t.suites.byId k = some x → ∀ c ∈ x.suites,
      Dict.get t.suites.byId c ≠ none) :
    ∀ k x, Dict.get (ingest det t e).suites.byId k = some x → ∀ c ∈ x.suites,
      Dict.get (ingest det t e).suites.byId c ≠ none := by
  have hw := addSuites_children_resolve e.testPath [] (eventBrowserKey e) t.suites
    (fun k x hx c hc => Or.inl (h k x hx c hc))
  intro k x hx c hc
  have h1 := ingest_suites_get_unstatus det t e k
  rw [hx] at h1
  cases hy : Dict.get (addSuites [] e.testPath (eventBrowserKey e) t.suites).byId k with
  | none => rw [hy] at h1; cases h1
  | some y =>
    rw [hy] at h1
    simp only [Option.map_some', Option.some.injEq] at h1
    have hs : x.suites = y.suites := (unstatus_eq h1).2.2.2.2.2.1
    rw [hs] at hc
    have h2 := hw k y hy c hc
    have h3 := ingest_suites_get_unstatus det t e c
    intro hnone
    rw [hnone] at h3
    cases h4 : Dict.get (addSuites [] e.testPath (eventBrowserKey e) t.suites).byId c with
    | none => exact h2 h4
    | some z => rw [h4] at h3; cases h3

/-- In a built tree every child suite id resolves in the store. -/
theorem foldl_ingest_children_resolve (det : List StatusKind → StatusKind)
    (es : List TestEvent) :
    ∀ k x, Dict.get (es.foldl (ingest det) Tree.empty).suites.byId k = some x →
      ∀ c ∈ x.suites, Dict.get (es.foldl (ingest det) Tree.empty).suites.byId c ≠ none := by
  induction es using List.reverseRecOn with
  | nil => intro k x h; cases h
  | append_singleton es e ih =>
    rw [List.foldl_append]
    exact ingest_children_resolve det _ e ih

/-! ## The claims on the status aggregation of the builder -/

theorem map_eq_filterMap_map_some {α β : Type} (f g : α → Option β) (l : List α)
    (h : ∀ a ∈ l, ∃ v, f a = some v ∧ g a = some v) :
    l.map g = (l.filterMap f).map some := by
  induction l with
  | nil => rfl
  | cons a l ih =>
    obtain ⟨v, h1, h2⟩ := h a (List.mem_cons_self _ _)
    rw [List.map_cons, List.filterMap_cons, h1, h2]
    simp only [List.map_cons]
    rw [ih (fun b hb => h b (List.mem_cons_of_mem _ hb))]

theorem accepted_testPath_ne_nil (e : TestEvent) (h : accepted e = true) :
    e.testPath ≠ [] := by
  unfold accepted at h
  intro hc
  simp [hc] at h

/-- C3: after every accepted call of a call sequence on a new builder, the leaf suite
named by the test path of the call exists and its status is `determineStatus` applied to
the list, in the order of the suite's `browsers` list, of the status of the last result
appended to each of these browsers (the status of the last accepted call that addressed
the browser): statuses of earlier attempts do not enter the list. -/
theorem leaf_status_latest_results (det : List StatusKind → StatusKind)
    (es : List TestEvent) (e : TestEvent) (he : accepted e = true) :
    ∃ leaf sts,
      Dict.get (addTestResults det Tree.empty (es ++ [e])).suites.byId (suiteId e.testPath)
        = some leaf ∧
      eventBrowserKey e ∈ leaf.browsers ∧
      leaf.browsers.map (lastStatusOf (es ++ [e])) = sts.map some ∧
      leaf.status = det sts := by
  rw [addTestResults_eq_foldl, acceptedEvents_append es e he, List.foldl_append]
  simp only [List.foldl_cons, List.foldl_nil]
  obtain ⟨x, hx, hst, hb⟩ := ingest_leaf det ((acceptedEvents es).foldl (ingest det) Tree.empty)
    e (accepted_testPath_ne_nil e he)
  refine ⟨x, _, hx, hb, ?_, hst⟩
  apply map_eq_filterMap_map_some
  intro b hbm
  have hfold : ingest det ((acceptedEvents es).foldl (ingest det) Tree.empty) e
      = (acceptedEvents es ++ [e]).foldl (ingest det) Tree.empty := by
    rw [List.foldl_append]; rfl
  rw [hfold] at hx ⊢
  obtain ⟨e0, he0, hk⟩ := foldl_ingest_browsers_addressed det _ _ x hx b hbm
  obtain ⟨el, hel, hl⟩ := lastResultStatus_history det _ b e0 he0 hk
  refine ⟨el.status, hl, ?_⟩
  unfold lastStatusOf
  rw [acceptedEvents_append es e he, hel]
  rfl

theorem leaf_status_latest_results_witness :
    accepted ⟨["s1"], "b1", 1, StatusKind.SUCCESS, [], ⟨none, none, none⟩⟩ = true ∧
    (∃ leaf sts,
      Dict.get (addTestResults reduceStatuses Tree.empty
          ([⟨["s1"], "b1", 0, StatusKind.FAIL, [], ⟨none, none, none⟩⟩]
            ++ [⟨["s1"], "b1", 1, StatusKind.SUCCESS, [], ⟨none, none, none⟩⟩])).suites.byId
          (suiteId ["s1"]) = some leaf ∧
      eventBrowserKey ⟨["s1"], "b1", 1, StatusKind.SUCCESS, [], ⟨none, none, none⟩⟩
        ∈ leaf.browsers ∧
      leaf.browsers.map (lastStatusOf
          ([⟨["s1"], "b1", 0, StatusKind.FAIL, [], ⟨none, none, none⟩⟩]
            ++ [⟨["s1"], "b1", 1, StatusKind.SUCCESS, [], ⟨none, none, none⟩⟩]))
        = sts.map some ∧
      leaf.status = reduceStatuses sts) ∧
    ["s1 b1"].map (lastStatusOf
        [⟨["s1"], "b1", 0, StatusKind.FAIL, [], ⟨none, none, none⟩⟩,
         ⟨["s1"], "b1", 1, StatusKind.SUCCESS, [], ⟨none, none, none⟩⟩])
      = [some StatusKind.SUCCESS] ∧
    ["s1 b1", "s1 b2"].map (lastStatusOf
        [⟨["s1"], "b1", 0, StatusKind.FAIL, [], ⟨none, none, none⟩⟩,
         ⟨["s1"], "b2", 0, StatusKind.SUCCESS, [], ⟨none, none, none⟩⟩])
      = [some StatusKind.FAIL, some StatusKind.SUCCESS] :=
  ⟨by decide,
   leaf_status_latest_results reduceStatuses
     [⟨["s1"], "b1", 0, StatusKind.FAIL, [], ⟨none, none, none⟩⟩]
     ⟨["s1"], "b1", 1, StatusKind.SUCCESS, [], ⟨none, none, none⟩⟩ (by decide),
   by decide, by decide⟩

/-- After every accepted call of a call sequence on a new builder, every suite at a proper
initial part of the test path of the call exists, lists the next suite of the path as
child, and has a status equal to `determineStatus` applied to the list of the current
statuses of its immediate child suites, in the order of its `suites` list. -/
theorem proper_ancestor_status (det : List StatusKind → StatusKind)
    (es : List TestEvent) (e : TestEvent) (he : accepted e = true)
    (l1 : List String) (n m : String) (l2 : List String)
    (hsplit : e.testPath = l1 ++ n :: m :: l2) :
    ∃ anc sts,
      Dict.get (addTestResults det Tree.empty (es ++ [e])).suites.byId (suiteId (l1 ++ [n]))
        = some anc ∧
      suiteId (l1 ++ [n] ++ [m]) ∈ anc.suites ∧
      anc.suites.map
          (suiteStatus (addTestResults det Tree.empty (es ++ [e])).suites.byId)
        = sts.map some ∧
      anc.status = det sts := by
  have hres := foldl_ingest_children_resolve det (acceptedEvents (es ++ [e]))
  rw [← addTestResults_eq_foldl] at hres
  rw [addTestResults_snoc det es e he] at hres ⊢
  rw [addTestResults_eq_foldl] at hres ⊢
  generalize hT : (acceptedEvents es).foldl (ingest det) Tree.empty = t at *
  have hR1 : AllSuites (fun k x => ∀ c ∈ x.suites, k.length < c.length) t.suites := by
    rw [← hT]; exact foldl_ingest_child_longer det _
  -- the store after the walk and the leaf status
  obtain ⟨y, hy, _, hchild⟩ := addSuites_get_path e.testPath [] (eventBrowserKey e) t.suites
    l1 n (m :: l2) hsplit
  simp only [List.nil_append] at hy hchild
  have htake : e.testPath.take (l1.length + 1) = l1 ++ [n] := by
    rw [hsplit]
    have : l1 ++ n :: m :: l2 = (l1 ++ [n]) ++ m :: l2 := by simp
    rw [this, List.take_left' (by simp)]
  have hlenp : e.testPath.length = l1.length + 2 + l2.length := by
    rw [hsplit]; simp; omega
  have hwalk : AllSuites (fun k x => ∀ c ∈ x.suites, k.length < c.length)
      (addSuites [] e.testPath (eventBrowserKey e) t.suites) := by
    apply addSuites_allSuites _ _ e.testPath [] t.suites _ _ _ hR1
    · intro pth m' x hp _ hx c hc
      rcases (mem_appendNew _ _ _).1 hc with h1 | h1
      · exact hx c h1
      · rw [h1]; exact suiteId_length_lt pth [m'] hp (by simp)
    · intro x hx; exact hx
    · intro pp' n' _ c hc; cases hc
  obtain ⟨x0, hx0, hx0s⟩ : ∃ x0, Dict.get (setLeafStatus det
      { suites := addSuites [] e.testPath (eventBrowserKey e) t.suites,
        browsers := (ingest det t e).browsers,
        results := (ingest det t e).results,
        images := (ingest det t e).images } (suiteId e.testPath)).suites.byId
        (suiteId (l1 ++ [n])) = some x0 ∧ x0.suites = y.suites := by
    have := setLeafStatus_get_unstatus det
      { suites := addSuites [] e.testPath (eventBrowserKey e) t.suites,
        browsers := (ingest det t e).browsers,
        results := (ingest det t e).results,
        images := (ingest det t e).images } (suiteId e.testPath) (suiteId (l1 ++ [n]))
    simp only at this
    rw [hy] at this
    cases hz : Dict.get (setLeafStatus det
      { suites := addSuites [] e.testPath (eventBrowserKey e) t.suites,
        browsers := (ingest det t e).browsers,
        results := (ingest det t e).results,
        images := (ingest det t e).images } (suiteId e.testPath)).suites.byId
        (suiteId (l1 ++ [n])) with
    | none => rw [hz] at this; cases this
    | some z =>
      rw [hz] at this
      simp only [Option.map_some', Option.some.injEq] at this
      exact ⟨z, rfl, (unstatus_eq this).2.2.2.2.2.1⟩
  have hleaf : AllSuites (fun k x => ∀ c ∈ x.suites, k.length < c.length)
      (setLeafStatus det
      { suites := addSuites [] e.testPath (eventBrowserKey e) t.suites,
        browsers := (ingest det t e).browsers,
        results := (ingest det t e).results,
        images := (ingest det t e).images } (suiteId e.testPath)).suites :=
    setLeafStatus_allSuites _ det _ _ (fun k x st h => h) hwalk
  rw [← htake] at hx0
  obtain ⟨x, hx, hxs, hst⟩ := setAncestorStatuses_status det e.testPath
    (e.testPath.length - 1) _ (by omega) hleaf (l1.length + 1) (by omega) (by omega) x0 hx0
  rw [← ingest_suites, htake] at hx
  rw [← ingest_suites] at hst
  refine ⟨x, _, hx, ?_, ?_, hst⟩
  · rw [hxs, hx0s]; exact hchild m l2 rfl
  · apply map_eq_filterMap_map_some
    intro c hc
    have := hres _ x hx c hc
    unfold suiteStatus
    cases hg : Dict.get (ingest det t e).suites.byId c with
    | none => exact absurd hg this
    | some z => exact ⟨z.status, rfl, rfl⟩

/-- C4: after every accepted call of a call sequence on a new builder, every suite on the
test path of the call exists. Every suite at a proper initial part of the path (every
ancestor of the affected leaf, at any nesting depth) lists the next suite of the path as
child and has a status equal to `determineStatus` applied to the list of the current
statuses of its immediate child suites, in the order of its `suites` list. When the
affected leaf is a leaf of the data model (it has no child suites), every suite on the
path that has child suites has that status. -/
theorem ancestor_status_children (det : List StatusKind → StatusKind)
    (es : List TestEvent) (e : TestEvent) (he : accepted e = true)
    (l1 : List String) (n : String) (l2 : List String)
    (hsplit : e.testPath = l1 ++ n :: l2) :
    ∃ s,
      Dict.get (addTestResults det Tree.empty (es ++ [e])).suites.byId (suiteId (l1 ++ [n]))
        = some s ∧
      (∀ m l3, l2 = m :: l3 →
        suiteId (l1 ++ [n] ++ [m]) ∈ s.suites ∧
        ∃ sts,
          s.suites.map (suiteStatus (addTestResults det Tree.empty (es ++ [e])).suites.byId)
            = sts.map some ∧
          s.status = det sts) ∧
      ((∀ leaf,
          Dict.get (addTestResults det Tree.empty (es ++ [e])).suites.byId (suiteId e.testPath)
            = some leaf → leaf.suites = []) →
        s.suites ≠ [] →
        ∃ sts,
          s.suites.map (suiteStatus (addTestResults det Tree.empty (es ++ [e])).suites.byId)
            = sts.map some ∧
          s.status = det sts) := by
  cases l2 with
  | nil =>
    have hpath : e.testPath = l1 ++ [n] := hsplit
    have hfold : addTestResults det Tree.empty (es ++ [e])
        = ingest det ((acceptedEvents es).foldl (ingest det) Tree.empty) e := by
      rw [addTestResults_eq_foldl, acceptedEvents_append es e he, List.foldl_append]
      rfl
    obtain ⟨x, hx, -, -⟩ := ingest_leaf det ((acceptedEvents es).foldl (ingest det) Tree.empty)
      e (accepted_testPath_ne_nil e he)
    rw [← hfold] at hx
    refine ⟨x, ?_, ?_, ?_⟩
    · rw [← hpath]; exact hx
    · intro m l3 h; cases h
    · intro hleaf hne
      exact absurd (hleaf x hx) hne
  | cons m l3 =>
    obtain ⟨anc, sts, hanc, hmem, hmap, hst⟩ :=
      proper_ancestor_status det es e he l1 n m l3 hsplit
    refine ⟨anc, hanc, ?_, ?_⟩
    · intro m1 l4 h
      cases h
      exact ⟨hmem, sts, hmap, hst⟩
    · intro _ _
      exact ⟨sts, hmap, hst⟩

/-- Witness for C4: the calls for the paths `s1 s2` (status FAIL) and `s1 s3` (status
ERROR); the suite `s1` of the path of the second call. -/
theorem ancestor_status_children_witness :
    accepted ⟨["s1", "s3"], "b", 0, StatusKind.ERROR, [], ⟨none, none, none⟩⟩ = true ∧
    (Dict.get (addTestResults reduceStatuses Tree.empty
        ([⟨["s1", "s2"], "b", 0, StatusKind.FAIL, [], ⟨none, none, none⟩⟩]
          ++ [⟨["s1", "s3"], "b", 0, StatusKind.ERROR, [], ⟨none, none, none⟩⟩])).suites.byId
        (suiteId ["s1", "s3"])).map (fun x => x.suites) = some [] ∧
    ∃ s,
      Dict.get (addTestResults reduceStatuses Tree.empty
          ([⟨["s1", "s2"], "b", 0, StatusKind.FAIL, [], ⟨none, none, none⟩⟩]
            ++ [⟨["s1", "s3"], "b", 0, StatusKind.ERROR, [], ⟨none, none, none⟩⟩])).suites.byId
          (suiteId ([] ++ ["s1"])) = some s ∧
      (∀ m l3, ["s3"] = m :: l3 →
        suiteId ([] ++ ["s1"] ++ [m]) ∈ s.suites ∧
        ∃ sts,
          s.suites.map (suiteStatus (addTestResults reduceStatuses Tree.empty
            ([⟨["s1", "s2"], "b", 0, StatusKind.FAIL, [], ⟨none, none, none⟩⟩]
              ++ [⟨["s1", "s3"], "b", 0, StatusKind.ERROR, [], ⟨none, none, none⟩⟩])).suites.byId)
            = sts.map some ∧
          s.status = reduceStatuses sts) ∧
      ((∀ leaf,
          Dict.get (addTestResults reduceStatuses Tree.empty
            ([⟨["s1", "s2"], "b", 0, StatusKind.FAIL, [], ⟨none, none, none⟩⟩]
              ++ [⟨["s1", "s3"], "b", 0, StatusKind.ERROR, [], ⟨none, none, none⟩⟩])).suites.byId
            (suiteId ["s1", "s3"]) = some leaf → leaf.suites = []) →
        s.suites ≠ [] →
        ∃ sts,
          s.suites.map (suiteStatus (addTestResults reduceStatuses Tree.empty
            ([⟨["s1", "s2"], "b", 0, StatusKind.FAIL, [], ⟨none, none, none⟩⟩]
              ++ [⟨["s1", "s3"], "b", 0, StatusKind.ERROR, [], ⟨none, none, none⟩⟩])).suites.byId)
            = sts.map some ∧
          s.status = reduceStatuses sts) :=
  ⟨by decide, by decide,
   ancestor_status_children reduceStatuses
     [⟨["s1", "s2"], "b", 0, StatusKind.FAIL, [], ⟨none, none, none⟩⟩]
     ⟨["s1", "s3"], "b", 0, StatusKind.ERROR, [], ⟨none, none, none⟩⟩ (by decide)
     [] "s1" ["s3"] rfl⟩

/-! ## The claims on the id lists -/

theorem upsertSuite_allRootIds (s : SuiteStore) (x : Suite) (h : SuiteIdsAgree s) :
    (upsertSuite s x).allRootIds
      = if x.root = true ∧ x.id ∉ s.allIds then s.allRootIds ++ [x.id] else s.allRootIds := by
  unfold upsertSuite
  cases hg : Dict.get s.byId x.id with
  | some y =>
    have hm : x.id ∈ s.allIds := by
      rw [h.1]
      by_contra hc
      rw [← Dict.get_eq_none_iff] at hc
      rw [hc] at hg
      cases hg
    simp [hm]
  | none =>
    have hm : x.id ∉ s.allIds := by
      rw [h.1]
      exact (Dict.get_eq_none_iff _ _).1 hg
    by_cases hr : x.root = true <;> simp [hr, hm]

theorem addSuiteStep_allRootIds (pp : List String) (n : String) (rest : List String)
    (bk : String) (s : SuiteStore) (h : SuiteIdsAgree s) :
    (addSuiteStep pp n rest bk s).allRootIds
      = if pp = [] ∧ suiteId (pp ++ [n]) ∉ s.allIds then s.allRootIds ++ [suiteId (pp ++ [n])]
        else s.allRootIds := by
  have hup := upsertSuite_allRootIds s (newSuite pp n) h
  have hroot : ((newSuite pp n).root = true) ↔ pp = [] := by
    unfold newSuite
    simp
  rw [newSuite_id] at hup
  simp only [hroot] at hup
  unfold addSuiteStep
  cases rest <;> exact hup

theorem addSuites_allRootIds_of_ne (path pp : List String) (hpp : pp ≠ []) (bk : String)
    (s : SuiteStore) (h : SuiteIdsAgree s) :
    (addSuites pp path bk s).allRootIds = s.allRootIds := by
  induction path generalizing pp s with
  | nil => rfl
  | cons n rest ih =>
    rw [addSuites_cons, ih (pp ++ [n]) (by simp) _ (addSuiteStep_allIds pp n rest bk s h).2,
      addSuiteStep_allRootIds pp n rest bk s h]
    simp [hpp]

/-- An ingest appends the id of the first suite of the path to `allRootIds` if the id is
not in `allIds` yet, and nothing else. -/
theorem ingest_suites_allRootIds (det : List StatusKind → StatusKind) (t : Tree)
    (e : TestEvent) (h : SuiteIdsAgree t.suites) :
    (ingest det t e).suites.allRootIds
      = t.suites.allRootIds
        ++ (pathSuiteIds [] (e.testPath.take 1)).filter (fun k => decide (k ∉ t.suites.allIds)) := by
  rw [ingest_suites]
  obtain ⟨_, h2⟩ := addSuites_allIds e.testPath [] (eventBrowserKey e) t.suites h
  have h3 : SuiteIdsAgree (setLeafStatus det
      { suites := addSuites [] e.testPath (eventBrowserKey e) t.suites,
        browsers := (ingest det t e).browsers,
        results := (ingest det t e).results,
        images := (ingest det t e).images } (suiteId e.testPath)).suites :=
    suiteIdsAgree_of_modify _ _ _ (fun _ => rfl) h2
  rw [(setAncestorStatuses_ids det e.testPath (e.testPath.length - 1) _ h3).2.1]
  show (addSuites [] e.testPath (eventBrowserKey e) t.suites).allRootIds = _
  cases hp : e.testPath with
  | nil => simp [addSuites, pathSuiteIds]
  | cons n rest =>
    rw [addSuites_cons, addSuites_allRootIds_of_ne rest _ (by simp) _ _
      (addSuiteStep_allIds [] n rest _ t.suites h).2, addSuiteStep_allRootIds [] n rest _ _ h]
    have hnil : ([] : List String) ++ [n] = [n] := rfl
    rw [hnil]
    by_cases hm : suiteId [n] ∈ t.suites.allIds
    · simp [pathSuiteIds, hm, List.filter_cons]
    · simp [pathSuiteIds, hm, List.filter_cons]

theorem foldl_appendNew_of_mem (xs ids : List String) (h : ∀ x ∈ xs, x ∈ ids) :
    xs.foldl appendNew ids = ids := by
  induction xs with
  | nil => rfl
  | cons x xs ih =>
    rw [List.foldl_cons, appendNew_of_mem ids x (h x (List.mem_cons_self _ _))]
    exact ih (fun y hy => h y (List.mem_cons_of_mem _ hy))

theorem acceptedEvents_append_rejected (es : List TestEvent) (e : TestEvent)
    (h : ¬ accepted e = true) : acceptedEvents (es ++ [e]) = acceptedEvents es := by
  simp [acceptedEvents, List.filter_append, h]

/-- C7: in the tree of every call sequence on a new builder, `suites.allIds` holds the
suite ids of the accepted calls' paths exactly once each, in order of first appearance
(within one call a parent before its child), and these are the ids of the stored
suites; `suites.allRootIds` holds, in the same order and once each, the ids of the stored
root suites; `browsers.allIds` holds the addressed browser ids once each in order of
first appearance, and these are the ids of the stored browsers; no suite's `suites` or
`browsers` list holds an id twice. One more call `e` appends to these lists only the ids
that are not present yet: nothing for a suite or browser that exists already, and
nothing at all when the call is rejected. -/
theorem id_lists_first_appearance (det : List StatusKind → StatusKind)
    (es : List TestEvent) (e : TestEvent) :
    ((addTestResults det Tree.empty es).suites.allIds
        = firstOccurrences ((acceptedEvents es).flatMap (fun x => pathSuiteIds [] x.testPath)) ∧
      (addTestResults det Tree.empty es).suites.allIds.Nodup ∧
      (∀ k, k ∈ (addTestResults det Tree.empty es).suites.allIds ↔
        Dict.get (addTestResults det Tree.empty es).suites.byId k ≠ none)) ∧
    ((addTestResults det Tree.empty es).suites.allRootIds
        = (addTestResults det Tree.empty es).suites.allIds.filter (fun k => decide
            ((Dict.get (addTestResults det Tree.empty es).suites.byId k).map (fun x => x.root)
              = some true)) ∧
      (addTestResults det Tree.empty es).suites.allRootIds.Nodup) ∧
    ((addTestResults det Tree.empty es).browsers.allIds
        = firstOccurrences ((acceptedEvents es).map eventBrowserKey) ∧
      (addTestResults det Tree.empty es).browsers.allIds.Nodup ∧
      (∀ k, k ∈ (addTestResults det Tree.empty es).browsers.allIds ↔
        Dict.get (addTestResults det Tree.empty es).browsers.byId k ≠ none)) ∧
    (∀ k x, Dict.get (addTestResults det Tree.empty es).suites.byId k = some x →
      x.suites.Nodup ∧ x.browsers.Nodup) ∧
    ((addTestResults det Tree.empty (es ++ [e])).suites.allIds
        = (if accepted e = true then
            (pathSuiteIds [] e.testPath).foldl appendNew
              (addTestResults det Tree.empty es).suites.allIds
          else (addTestResults det Tree.empty es).suites.allIds) ∧
      (addTestResults det Tree.empty (es ++ [e])).suites.allRootIds
        = (if accepted e = true then
            (addTestResults det Tree.empty es).suites.allRootIds
              ++ (pathSuiteIds [] (e.testPath.take 1)).filter
                  (fun k => decide (k ∉ (addTestResults det Tree.empty es).suites.allIds))
          else (addTestResults det Tree.empty es).suites.allRootIds) ∧
      (addTestResults det Tree.empty (es ++ [e])).browsers.allIds
        = (if accepted e = true then
            appendNew (addTestResults det Tree.empty es).browsers.allIds (eventBrowserKey e)
          else (addTestResults det Tree.empty es).browsers.allIds)) ∧
    ((∀ k ∈ pathSuiteIds [] e.testPath, k ∈ (addTestResults det Tree.empty es).suites.allIds) →
      (addTestResults det Tree.empty (es ++ [e])).suites.allIds
          = (addTestResults det Tree.empty es).suites.allIds ∧
      (addTestResults det Tree.empty (es ++ [e])).suites.allRootIds
          = (addTestResults det Tree.empty es).suites.allRootIds) ∧
    (eventBrowserKey e ∈ (addTestResults det Tree.empty es).browsers.allIds →
      (addTestResults det Tree.empty (es ++ [e])).browsers.allIds
          = (addTestResults det Tree.empty es).browsers.allIds) := by
  have hagree := foldl_ingest_suiteIdsAgree det (acceptedEvents es)
  have hS := suites_allIds_history det (acceptedEvents es)
  have hB := browsers_allIds_history det (acceptedEvents es)
  have hN := foldl_ingest_lists_nodup det (acceptedEvents es)
  rw [← addTestResults_eq_foldl] at hagree hS hB hN
  have hSn : (addTestResults det Tree.empty es).suites.allIds.Nodup := by
    rw [hS]; exact nodup_foldl_appendNew _ _ List.nodup_nil
  have hBn : (addTestResults det Tree.empty es).browsers.allIds.Nodup := by
    rw [hB.1]; exact nodup_foldl_appendNew _ _ List.nodup_nil
  have hstep : (addTestResults det Tree.empty (es ++ [e])).suites.allIds
        = (if accepted e = true then
            (pathSuiteIds [] e.testPath).foldl appendNew
              (addTestResults det Tree.empty es).suites.allIds
          else (addTestResults det Tree.empty es).suites.allIds) ∧
      (addTestResults det Tree.empty (es ++ [e])).suites.allRootIds
        = (if accepted e = true then
            (addTestResults det Tree.empty es).suites.allRootIds
              ++ (pathSuiteIds [] (e.testPath.take 1)).filter
                  (fun k => decide (k ∉ (addTestResults det Tree.empty es).suites.allIds))
          else (addTestResults det Tree.empty es).suites.allRootIds) ∧
      (addTestResults det Tree.empty (es ++ [e])).browsers.allIds
        = (if accepted e = true then
            appendNew (addTestResults det Tree.empty es).browsers.allIds (eventBrowserKey e)
          else (addTestResults det Tree.empty es).browsers.allIds) := by
    by_cases he : accepted e = true
    · rw [addTestResults_snoc det es e he]
      simp only [he, if_true]
      refine ⟨(ingest_suites_allIds det _ e hagree).1, ingest_suites_allRootIds det _ e hagree,
        ?_⟩
      rw [ingest_browsers]
      exact (addBrowser_allIds _ _ _ _ _ hB.2).1
    · have : addTestResults det Tree.empty (es ++ [e]) = addTestResults det Tree.empty es := by
        rw [addTestResults_eq_foldl, addTestResults_eq_foldl,
          acceptedEvents_append_rejected es e he]
      rw [this]
      simp [he]
  refine ⟨⟨hS, hSn, fun k => ?_⟩, ⟨hagree.2, ?_⟩, ⟨hB.1, hBn, fun k => ?_⟩, hN, hstep, ?_, ?_⟩
  · rw [hagree.1, ne_eq, Dict.get_eq_none_iff, not_not]
  · rw [hagree.2]; exact hSn.filter _
  · rw [hB.2, ne_eq, Dict.get_eq_none_iff, not_not]
  · intro hall
    rw [hstep.1, hstep.2.1]
    by_cases he : accepted e = true
    · simp only [he, if_true]
      refine ⟨foldl_appendNew_of_mem _ _ hall, ?_⟩
      have : (pathSuiteIds [] (e.testPath.take 1)).filter
          (fun k => decide (k ∉ (addTestResults det Tree.empty es).suites.allIds)) = [] := by
        rw [List.filter_eq_nil_iff]
        intro k hk
        have hk' : k ∈ pathSuiteIds [] e.testPath := by
          cases hp : e.testPath with
          | nil => rw [hp] at hk; simp [pathSuiteIds] at hk
          | cons n rest =>
            rw [hp] at hk
            simp only [List.take_succ_cons, List.take_zero, pathSuiteIds, List.mem_singleton]
              at hk
            rw [hk]
            simp [pathSuiteIds]
        simp [hall k hk']
      rw [this, List.append_nil]
    · simp [he]
  · intro hmem
    rw [hstep.2.2]
    by_cases he : accepted e = true
    · simp only [he, if_true]
      exact appendNew_of_mem _ _ hmem
    · simp [he]

/-! ## The claims on the created suites and browsers, under the separator constraint -/

theorem accepted_browserId_ne (e : TestEvent) (h : accepted e = true) : e.browserId ≠ "" := by
  unfold accepted at h
  intro hc
  simp [hc] at h

/-- In a built tree, under the separator constraint on the test paths, every stored suite
has the fields of the suite created for one path, and is stored under the id of that
path. -/
theorem foldl_ingest_suite_fields (det : List StatusKind → StatusKind) (es : List TestEvent)
    (hc : ∀ x ∈ es, ∀ seg ∈ x.testPath, separatorFree seg) :
    AllSuites (fun k x => ∃ pp n, (∀ seg ∈ pp ++ [n], separatorFree seg) ∧
        k = suiteId (pp ++ [n]) ∧ x.id = k ∧
        x.parentId = (if pp = [] then none else some (suiteId pp)) ∧ x.name = n ∧
        x.suitePath = pp ++ [n] ∧ x.root = decide ((pp ++ [n]).length = 1))
      (es.foldl (ingest det) Tree.empty).suites := by
  induction es using List.reverseRecOn with
  | nil => intro k x h; cases h
  | append_singleton es e ih =>
    rw [List.foldl_append]
    apply ingest_allSuites _ det _ e _ _ _ _
      (ih (fun x hx => hc x (List.mem_append_left _ hx)))
    · intro pth m x _ _ hx; exact hx
    · intro x hx; exact hx
    · intro k x st hx; exact hx
    · intro pp' n' hseg
      refine ⟨pp', n', ?_, rfl, rfl, rfl, rfl, rfl, rfl⟩
      intro seg hs
      exact hc e (by simp) seg (hseg seg hs)

/-- Counterexample for C6: the calls for the test paths `[a b]` (one segment that holds
the separator) and `[a, b]` are both accepted; after the second call the suite stored
under the id `a b` of the initial part `[a, b]` is the root suite of the first call, with
the name `a b`, the suite path `[a b]`, `root` true and no parent, where the claim says
name `b`, suite path `[a, b]`, `root` false and parent `a`. -/
theorem separator_in_segment_counterexample :
    accepted ⟨["a b"], "x", 0, StatusKind.SUCCESS, [], ⟨none, none, none⟩⟩ = true ∧
    accepted ⟨["a", "b"], "y", 0, StatusKind.SUCCESS, [], ⟨none, none, none⟩⟩ = true ∧
    (Dict.get (addTestResults reduceStatuses Tree.empty
        [⟨["a b"], "x", 0, StatusKind.SUCCESS, [], ⟨none, none, none⟩⟩,
         ⟨["a", "b"], "y", 0, StatusKind.SUCCESS, [], ⟨none, none, none⟩⟩]).suites.byId
        (joinWith " " ["a", "b"])).map
      (fun s => (s.id, s.name, s.suitePath, s.root, s.parentId))
      = some ("a b", "a b", ["a b"], true, none) := by
  decide

/-- C6, as amended: under the separator constraint on the test paths of the accepted
calls, after every accepted call with test path `[n1..nk]` the store holds, for every non-empty
initial part of the path, a suite with id the part joined by spaces, name the last
segment of the part, `suitePath` the part, `root` true exactly when the part has length
1, and `parentId` null for the first part and the id of the previous part otherwise;
every part before the end lists the id of the next part in `suites`, and the full path
lists the browser id in `browsers`. -/
theorem suites_per_path_part (det : List StatusKind → StatusKind) (es : List TestEvent)
    (e : TestEvent) (he : accepted e = true)
    (hc : ∀ x ∈ acceptedEvents (es ++ [e]), ∀ seg ∈ x.testPath, separatorFree seg)
    (l1 : List String) (n : String) (l2 : List String)
    (hsplit : e.testPath = l1 ++ n :: l2) :
    ∃ s, Dict.get (addTestResults det Tree.empty (es ++ [e])).suites.byId
          (joinWith " " (l1 ++ [n])) = some s ∧
      s.id = joinWith " " (l1 ++ [n]) ∧ s.name = n ∧ s.suitePath = l1 ++ [n] ∧
      (s.root = true ↔ (l1 ++ [n]).length = 1) ∧
      s.parentId = (if l1 = [] then none else some (joinWith " " l1)) ∧
      (∀ m l3, l2 = m :: l3 → joinWith " " (l1 ++ [n] ++ [m]) ∈ s.suites) ∧
      (l2 = [] → browserId e.testPath e.browserId ∈ s.browsers) := by
  have hinv := foldl_ingest_suite_fields det (acceptedEvents (es ++ [e])) hc
  rw [← addTestResults_eq_foldl] at hinv
  rw [addTestResults_snoc det es e he] at hinv ⊢
  obtain ⟨y, hy, hb, hch⟩ := addSuites_get_path e.testPath [] (eventBrowserKey e)
    (addTestResults det Tree.empty es).suites l1 n l2 hsplit
  simp only [List.nil_append] at hy hch
  obtain ⟨z, hz, _, _, _, _, _, hzs, hzb⟩ := ingest_suites_get_of_walk det _ e _ y hy
  obtain ⟨pp, n', hsf, hk, hid, hpar, hname, hpath, hroot⟩ := hinv _ z hz
  have hsegs : ∀ seg ∈ l1 ++ [n], separatorFree seg := by
    intro seg hs
    apply hc e (by rw [acceptedEvents_append es e he]; simp) seg
    rw [hsplit]
    simp only [List.mem_append, List.mem_singleton, List.mem_cons] at hs ⊢
    tauto
  have hpn : l1 ++ [n] = pp ++ [n'] :=
    joinWith_space_injective (by simp) (by simp) hsegs hsf hk
  obtain ⟨hpp, hn⟩ := List.append_inj' hpn rfl
  simp only [List.cons.injEq, and_true] at hn
  subst hpp hn
  refine ⟨z, hz, hid, hname, hpath, ?_, hpar, ?_, ?_⟩
  · rw [hroot]; simp
  · intro m l3 h3
    rw [hzs]
    exact hch m l3 h3
  · intro h2
    rw [hzb]
    exact hb h2

theorem suites_per_path_part_witness :
    accepted ⟨["s1", "s2"], "b1", 0, StatusKind.SUCCESS, [], ⟨none, none, none⟩⟩ = true ∧
    ∃ s, Dict.get (addTestResults reduceStatuses Tree.empty
          ([] ++ [⟨["s1", "s2"], "b1", 0, StatusKind.SUCCESS, [], ⟨none, none, none⟩⟩])).suites.byId
          (joinWith " " (["s1"] ++ ["s2"])) = some s ∧
      s.id = joinWith " " (["s1"] ++ ["s2"]) ∧ s.name = "s2" ∧ s.suitePath = ["s1"] ++ ["s2"] ∧
      (s.root = true ↔ (["s1"] ++ ["s2"]).length = 1) ∧
      s.parentId = (if ["s1"] = [] then none else some (joinWith " " ["s1"])) ∧
      (∀ m l3, [] = m :: l3 → joinWith " " (["s1"] ++ ["s2"] ++ [m]) ∈ s.suites) ∧
      (([] : List String) = [] → browserId ["s1", "s2"] "b1" ∈ s.browsers) :=
  ⟨by decide,
   suites_per_path_part reduceStatuses []
     ⟨["s1", "s2"], "b1", 0, StatusKind.SUCCESS, [], ⟨none, none, none⟩⟩ (by decide)
     (by decide) ["s1"] "s2" [] rfl⟩

/-- Counterexample for C9: the calls for the path `[a]` with the browser `b c` (a name
that holds the separator) and for the path `[a, b]` with the browser `c` are both
accepted; after the second call the browser entity under its browser id `a b c` is the
one of the first call, with the name `b c` and the parent `a`, where the claim says the
name `c` and the parent `a b`, the id of the leaf suite. -/
theorem separator_in_browser_name_counterexample :
    accepted ⟨["a"], "b c", 0, StatusKind.SUCCESS, [], ⟨none, none, none⟩⟩ = true ∧
    accepted ⟨["a", "b"], "c", 0, StatusKind.SUCCESS, [], ⟨none, none, none⟩⟩ = true ∧
    browserId ["a", "b"] "c" = "a b c" ∧ suiteId ["a", "b"] = "a b" ∧
    (Dict.get (addTestResults reduceStatuses Tree.empty
        [⟨["a"], "b c", 0, StatusKind.SUCCESS, [], ⟨none, none, none⟩⟩,
         ⟨["a", "b"], "c", 0, StatusKind.SUCCESS, [], ⟨none, none, none⟩⟩]).browsers.byId
        (browserId ["a", "b"] "c")).map
      (fun b => (b.id, b.name, b.parentId, b.results))
      = some ("a b c", "b c", "a", ["a b c 0", "a b c 0"]) := by
  decide

/-- C9, as amended: under the separator constraint on the accepted calls, every accepted
call appends exactly one result id, the id of its attempt, at the end of the `results` list of
the addressed browser (the earlier entries keep their order); the browser entity has its
id, the browser name of the call and the id of the leaf suite as `parentId`; and
`getLastResult` for the path and browser of the call returns the result entity stored
under the last id of that list, which is the entity of the attempt just ingested. -/
theorem browser_results_append (det : List StatusKind → StatusKind) (es : List TestEvent)
    (e : TestEvent) (he : accepted e = true)
    (hc : ∀ x ∈ acceptedEvents (es ++ [e]), separatorContract x) :
    ∃ b r,
      Dict.get (addTestResults det Tree.empty (es ++ [e])).browsers.byId
          (browserId e.testPath e.browserId) = some b ∧
      b.results
        = ((Dict.get (addTestResults det Tree.empty es).browsers.byId
              (browserId e.testPath e.browserId)).map (fun x => x.results)).getD []
          ++ [resultId e.testPath e.browserId e.attempt] ∧
      b.id = browserId e.testPath e.browserId ∧ b.name = e.browserId ∧
      b.parentId = suiteId e.testPath ∧
      getLastResult (addTestResults det Tree.empty (es ++ [e])) e.testPath e.browserId
        = some r ∧
      b.results.getLast? = some r.id ∧
      Dict.get (addTestResults det Tree.empty (es ++ [e])).results.byId r.id = some r ∧
      r = eventResult e := by
  have hres : Dict.get (addTestResults det Tree.empty (es ++ [e])).results.byId
      (eventResultKey e) = some (eventResult e) := by
    rw [addTestResults_snoc det es e he, ingest_results, addResult, Dict.get_set]
    simp [eventResult]
  have hbro := browsers_byId_history det (acceptedEvents (es ++ [e]))
    (browserId e.testPath e.browserId)
  have hbro0 := browsers_byId_history det (acceptedEvents es)
    (browserId e.testPath e.browserId)
  rw [← addTestResults_eq_foldl] at hbro hbro0
  rw [acceptedEvents_append es e he] at hbro
  unfold browserOfHistory at hbro hbro0
  rw [eventsOfBrowser_append] at hbro
  have hkey : eventBrowserKey e = browserId e.testPath e.browserId := rfl
  simp only [hkey, if_true] at hbro
  cases hev : eventsOfBrowser (acceptedEvents es) (browserId e.testPath e.browserId) with
  | nil =>
    rw [hev] at hbro hbro0
    simp only [List.nil_append] at hbro
    simp only at hbro0
    refine ⟨_, eventResult e, hbro, ?_, rfl, rfl, rfl, ?_, rfl, hres, rfl⟩
    · rw [hbro0]; rfl
    · unfold getLastResult
      rw [hbro]
      exact hres
  | cons e0 rest =>
    rw [hev] at hbro hbro0
    simp only [List.cons_append] at hbro
    simp only at hbro0
    have he0 : e0 ∈ eventsOfBrowser (acceptedEvents es) (browserId e.testPath e.browserId) := by
      rw [hev]; exact List.mem_cons_self _ _
    unfold eventsOfBrowser at he0
    rw [List.mem_filter] at he0
    obtain ⟨hmem, hk0⟩ := he0
    simp only [decide_eq_true_eq] at hk0
    have hacc0 : accepted e0 = true := by
      unfold acceptedEvents at hmem
      exact (List.mem_filter.1 hmem).2
    have hc0 := hc e0 (by rw [acceptedEvents_append es e he]; exact List.mem_append_left _ hmem)
    have hce := hc e (by rw [acceptedEvents_append es e he]; simp)
    obtain ⟨hp, hn⟩ := browserId_injective (accepted_testPath_ne_nil e0 hacc0)
      (accepted_testPath_ne_nil e he) hc0.1 hce.1 hc0.2 hce.2 hk0
    have hlast : (List.map eventResultKey (e0 :: (rest ++ [e]))).getLast?
        = some (eventResultKey e) := by
      have : e0 :: (rest ++ [e]) = (e0 :: rest) ++ [e] := rfl
      rw [this, List.map_append, List.getLast?_append_of_ne_nil _ (by simp)]
      rfl
    refine ⟨_, eventResult e, hbro, ?_, rfl, hn, by rw [hp], ?_, hlast, hres, rfl⟩
    · rw [hbro0]
      simp [eventResultKey]
    · unfold getLastResult
      rw [hbro]
      simp only [Option.bind_eq_bind, Option.some_bind]
      rw [hlast]
      exact hres

theorem browser_results_append_witness :
    accepted ⟨["s1"], "b1", 1, StatusKind.SUCCESS, [], ⟨none, none, none⟩⟩ = true ∧
    ∃ b r,
      Dict.get (addTestResults reduceStatuses Tree.empty
          ([⟨["s1"], "b1", 0, StatusKind.FAIL, [], ⟨none, none, none⟩⟩]
            ++ [⟨["s1"], "b1", 1, StatusKind.SUCCESS, [], ⟨none, none, none⟩⟩])).browsers.byId
          (browserId ["s1"] "b1") = some b ∧
      b.results
        = ((Dict.get (addTestResults reduceStatuses Tree.empty
              [⟨["s1"], "b1", 0, StatusKind.FAIL, [], ⟨none, none, none⟩⟩]).browsers.byId
              (browserId ["s1"] "b1")).map (fun x => x.results)).getD []
          ++ [resultId ["s1"] "b1" 1] ∧
      b.id = browserId ["s1"] "b1" ∧ b.name = "b1" ∧
      b.parentId = suiteId ["s1"] ∧
      getLastResult (addTestResults reduceStatuses Tree.empty
          ([⟨["s1"], "b1", 0, StatusKind.FAIL, [], ⟨none, none, none⟩⟩]
            ++ [⟨["s1"], "b1", 1, StatusKind.SUCCESS, [], ⟨none, none, none⟩⟩]))
          ["s1"] "b1" = some r ∧
      b.results.getLast? = some r.id ∧
      Dict.get (addTestResults reduceStatuses Tree.empty
          ([⟨["s1"], "b1", 0, StatusKind.FAIL, [], ⟨none, none, none⟩⟩]
            ++ [⟨["s1"], "b1", 1, StatusKind.SUCCESS, [], ⟨none, none, none⟩⟩])).results.byId
          r.id = some r ∧
      r = eventResult ⟨["s1"], "b1", 1, StatusKind.SUCCESS, [], ⟨none, none, none⟩⟩ :=
  ⟨by decide,
   browser_results_append reduceStatuses
     [⟨["s1"], "b1", 0, StatusKind.FAIL, [], ⟨none, none, none⟩⟩]
     ⟨["s1"], "b1", 1, StatusKind.SUCCESS, [], ⟨none, none, none⟩⟩ (by decide) (by decide)⟩

/-! ## Decimal numerals are injective -/

theorem toDigitsCore_append (f n : Nat) (ds : List Char) :
    Nat.toDigitsCore 10 f n ds = Nat.toDigitsCore 10 f n [] ++ ds := by
  induction f generalizing n ds with
  | zero => simp [Nat.toDigitsCore]
  | succ f ih =>
    unfold Nat.toDigitsCore
    by_cases h0 : n / 10 = 0
    · simp [h0]
    · simp only [h0, if_false]
      rw [ih (n / 10) (Nat.digitChar (n % 10) :: ds), ih (n / 10) [Nat.digitChar (n % 10)]]
      simp

theorem digitChar_value (d : Nat) (h : d < 10) : (Nat.digitChar d).toNat - 48 = d := by
  interval_cases d <;> rfl

/-- Reading the digits of the numeral of `n` back gives `n`. -/
theorem toDigitsCore_value (f n : Nat) (h : n < f) :
    (Nat.toDigitsCore 10 f n []).foldl (fun acc c => 10 * acc + (c.toNat - 48)) 0 = n := by
  induction f generalizing n with
  | zero => omega
  | succ f ih =>
    unfold Nat.toDigitsCore
    by_cases h0 : n / 10 = 0
    · simp only [h0, if_true, List.foldl_cons, List.foldl_nil]
      rw [digitChar_value _ (Nat.mod_lt _ (by decide))]
      omega
    · simp only [h0, if_false]
      rw [toDigitsCore_append, List.foldl_append, ih (n / 10) (by omega)]
      simp only [List.foldl_cons, List.foldl_nil]
      rw [digitChar_value _ (Nat.mod_lt _ (by decide))]
      omega

/-- Two natural numbers with the same decimal numeral are equal. -/
theorem toString_nat_injective (a b : Nat) (h : toString a = toString b) : a = b := by
  have hd : Nat.toDigits 10 a = Nat.toDigits 10 b := congrArg String.data h
  have ha := toDigitsCore_value (a + 1) a (by omega)
  have hb := toDigitsCore_value (b + 1) b (by omega)
  unfold Nat.toDigits at hd
  rw [hd] at ha
  omega

/-! ## The claim on the uniqueness of result and image ids -/

/-- Under the separator constraint, accepted events with the same result id have the
same path, browser name and attempt. -/
theorem event_triple_of_eventResultKey (e1 e2 : TestEvent)
    (h1 : accepted e1 = true) (h2 : accepted e2 = true)
    (c1 : separatorContract e1) (c2 : separatorContract e2)
    (h : eventResultKey e1 = eventResultKey e2) :
    (e1.testPath, e1.browserId, e1.attempt) = (e2.testPath, e2.browserId, e2.attempt) := by
  obtain ⟨hb, ha⟩ := eventBrowserKey_of_eventResultKey e1 e2 h
  obtain ⟨hp, hn⟩ := browserId_injective (accepted_testPath_ne_nil e1 h1)
    (accepted_testPath_ne_nil e2 h2) c1.1 c2.1 c1.2 c2.2 hb
  rw [hp, hn, toString_nat_injective _ _ ha]

theorem string_append_left_cancel (p a b : String) (h : p ++ a = p ++ b) : a = b := by
  have := congrArg String.data h
  simp only [String.data_append] at this
  exact String.ext (List.append_cancel_left this)

/-- C8, as amended: for every call sequence on a new builder whose accepted calls obey
the separator constraint (no space in a path segment, a browser name or a state name),
in which no (testPath, browserId, attempt) triple is accepted twice and no call has two
image descriptors with the same state name, every id occurs at most once in
`results.allIds`, at most once in `images.allIds` and at most once in the `results` list
of each browser. -/
theorem ids_unique_without_repeats (det : List StatusKind → StatusKind)
    (es : List TestEvent)
    (hc : ∀ x ∈ acceptedEvents es,
      separatorContract x ∧ ∀ d ∈ x.imagesInfo, separatorFree d.stateName)
    (htriple : ((acceptedEvents es).map
      (fun x => (x.testPath, x.browserId, x.attempt))).Nodup)
    (hstates : ∀ x ∈ acceptedEvents es, (x.imagesInfo.map (fun d => d.stateName)).Nodup) :
    (addTestResults det Tree.empty es).results.allIds.Nodup ∧
    (addTestResults det Tree.empty es).images.allIds.Nodup ∧
    ∀ k b, Dict.get (addTestResults det Tree.empty es).browsers.byId k = some b →
      b.results.Nodup := by
  have hacc : ∀ x ∈ acceptedEvents es, accepted x = true := by
    intro x hx
    unfold acceptedEvents at hx
    exact (List.mem_filter.1 hx).2
  have hinj : ∀ x ∈ acceptedEvents es, ∀ y ∈ acceptedEvents es,
      eventResultKey x = eventResultKey y → x = y := by
    intro x hx y hy hxy
    exact List.inj_on_of_nodup_map htriple hx hy
      (event_triple_of_eventResultKey x y (hacc x hx) (hacc y hy) (hc x hx).1 (hc y hy).1 hxy)
  have hnd : (acceptedEvents es).Nodup := htriple.of_map _
  have hres : ((acceptedEvents es).map eventResultKey).Nodup := hnd.map_on hinj
  rw [addTestResults_eq_foldl]
  refine ⟨?_, ?_, ?_⟩
  · rw [results_allIds_history]
    exact hres
  · rw [images_allIds_history]
    have hmap : (List.flatMap (acceptedEvents es) eventImages).map Prod.fst
        = (acceptedEvents es).flatMap
            (fun x => x.imagesInfo.map (fun d => eventResultKey x ++ " " ++ d.stateName)) := by
      rw [List.map_flatMap]
      congr 1
      funext x
      simp [eventImages, Function.comp_def]
    rw [hmap, List.nodup_flatMap]
    refine ⟨?_, ?_⟩
    · intro x hx
      have := (hstates x hx).map (f := fun s => eventResultKey x ++ " " ++ s)
        (fun a b hab => string_append_left_cancel _ a b hab)
      rw [List.map_map] at this
      exact this
    · apply hnd.imp_of_mem
      intro a b ha hb hne
      intro k hka hkb
      rw [List.mem_map] at hka hkb
      obtain ⟨d1, hd1, hk1⟩ := hka
      obtain ⟨d2, hd2, hk2⟩ := hkb
      have hsplit := split_at_last_space ((hc a ha).2 d1 hd1) ((hc b hb).2 d2 hd2)
        (hk1.trans hk2.symm)
      exact hne (hinj a ha b hb hsplit.1)
  · intro k b hb
    rw [browsers_byId_history] at hb
    unfold browserOfHistory at hb
    cases hev : eventsOfBrowser (acceptedEvents es) k with
    | nil => rw [hev] at hb; cases hb
    | cons e0 rest =>
      rw [hev] at hb
      simp only [Option.some.injEq] at hb
      rw [← hb]
      simp only
      rw [← hev]
      unfold eventsOfBrowser
      exact hres.sublist ((List.filter_sublist _).map _)

theorem ids_unique_without_repeats_witness :
    (addTestResults reduceStatuses Tree.empty
      [⟨["s1"], "b1", 0, StatusKind.FAIL,
          [⟨"img1", StatusKind.FAIL, none, none, none⟩], ⟨none, none, none⟩⟩,
       ⟨["s1"], "b1", 1, StatusKind.SUCCESS,
          [⟨"img1", StatusKind.SUCCESS, none, none, none⟩,
           ⟨"img2", StatusKind.SUCCESS, none, none, none⟩],
          ⟨none, none, none⟩⟩]).results.allIds.Nodup ∧
    (addTestResults reduceStatuses Tree.empty
      [⟨["s1"], "b1", 0, StatusKind.FAIL,
          [⟨"img1", StatusKind.FAIL, none, none, none⟩], ⟨none, none, none⟩⟩,
       ⟨["s1"], "b1", 1, StatusKind.SUCCESS,
          [⟨"img1", StatusKind.SUCCESS, none, none, none⟩,
           ⟨"img2", StatusKind.SUCCESS, none, none, none⟩],
          ⟨none, none, none⟩⟩]).images.allIds.Nodup ∧
    ∀ k b, Dict.get (addTestResults reduceStatuses Tree.empty
      [⟨["s1"], "b1", 0, StatusKind.FAIL,
          [⟨"img1", StatusKind.FAIL, none, none, none⟩], ⟨none, none, none⟩⟩,
       ⟨["s1"], "b1", 1, StatusKind.SUCCESS,
          [⟨"img1", StatusKind.SUCCESS, none, none, none⟩,
           ⟨"img2", StatusKind.SUCCESS, none, none, none⟩],
          ⟨none, none, none⟩⟩]).browsers.byId k = some b → b.results.Nodup :=
  ids_unique_without_repeats reduceStatuses
    [⟨["s1"], "b1", 0, StatusKind.FAIL,
        [⟨"img1", StatusKind.FAIL, none, none, none⟩], ⟨none, none, none⟩⟩,
     ⟨["s1"], "b1", 1, StatusKind.SUCCESS,
        [⟨"img1", StatusKind.SUCCESS, none, none, none⟩,
         ⟨"img2", StatusKind.SUCCESS, none, none, none⟩],
        ⟨none, none, none⟩⟩]
    (by decide) (by decide) (by decide)

/-- C8, counterexample: the same (testPath, browserId, attempt) ingested twice. Both
calls are accepted and append the same result id and the same image id, so that
`results.allIds`, `images.allIds` and the `results` list of the browser each hold an id
twice. -/
theorem duplicate_attempt_ids_counterexample :
    (addTestResults reduceStatuses Tree.empty
      [⟨["s1"], "b1", 0, StatusKind.FAIL,
          [⟨"img1", StatusKind.FAIL, none, none, none⟩], ⟨none, none, none⟩⟩,
       ⟨["s1"], "b1", 0, StatusKind.FAIL,
          [⟨"img1", StatusKind.FAIL, none, none, none⟩], ⟨none, none, none⟩⟩]).results.allIds
      = ["s1 b1 0", "s1 b1 0"] ∧
    (addTestResults reduceStatuses Tree.empty
      [⟨["s1"], "b1", 0, StatusKind.FAIL,
          [⟨"img1", StatusKind.FAIL, none, none, none⟩], ⟨none, none, none⟩⟩,
       ⟨["s1"], "b1", 0, StatusKind.FAIL,
          [⟨"img1", StatusKind.FAIL, none, none, none⟩], ⟨none, none, none⟩⟩]).images.allIds
      = ["s1 b1 0 img1", "s1 b1 0 img1"] ∧
    (Dict.get (addTestResults reduceStatuses Tree.empty
      [⟨["s1"], "b1", 0, StatusKind.FAIL,
          [⟨"img1", StatusKind.FAIL, none, none, none⟩], ⟨none, none, none⟩⟩,
       ⟨["s1"], "b1", 0, StatusKind.FAIL,
          [⟨"img1", StatusKind.FAIL, none, none, none⟩], ⟨none, none, none⟩⟩]).browsers.byId
        "s1 b1").map (fun b => b.results) = some ["s1 b1 0", "s1 b1 0"] ∧
    ¬ (addTestResults reduceStatuses Tree.empty
      [⟨["s1"], "b1", 0, StatusKind.FAIL,
          [⟨"img1", StatusKind.FAIL, none, none, none⟩], ⟨none, none, none⟩⟩,
       ⟨["s1"], "b1", 0, StatusKind.FAIL,
          [⟨"img1", StatusKind.FAIL, none, none, none⟩], ⟨none, none, none⟩⟩]).results.allIds.Nodup := by
  decide

/-! ## The claims on the result and the images of one call -/

theorem filterMap_map_of_some {α β : Type} (f : α → Option β) (g : α → β) (l : List α)
    (h : ∀ a ∈ l, f a = some (g a)) : l.filterMap f = l.map g := by
  induction l with
  | nil => rfl
  | cons a l ih =>
    rw [List.filterMap_cons, h a (List.mem_cons_self _ _), List.map_cons,
      ih (fun b hb => h b (List.mem_cons_of_mem _ hb))]

/-- After `addImages`, under the id of each descriptor of the call the store holds the
image entity of a descriptor of the call with the same state name. -/
theorem addImages_get_mem (p : String) (infos : List ImageInfo) (im : ImageStore)
    (d : ImageInfo) (hd : d ∈ infos) :
    ∃ d' ∈ infos, d'.stateName = d.stateName ∧
      Dict.get (addImages p infos im).byId (p ++ " " ++ d.stateName)
        = some { id := p ++ " " ++ d.stateName, parentId := p, info := d' } := by
  rw [addImages_get]
  have hne : infos.filter (fun d0 => decide (p ++ " " ++ d0.stateName = p ++ " " ++ d.stateName))
      ≠ [] := by
    intro hc
    have : d ∈ infos.filter
        (fun d0 => decide (p ++ " " ++ d0.stateName = p ++ " " ++ d.stateName)) := by
      rw [List.mem_filter]
      exact ⟨hd, by simp⟩
    rw [hc] at this
    cases this
  cases hl : (infos.filter
      (fun d0 => decide (p ++ " " ++ d0.stateName = p ++ " " ++ d.stateName))).getLast? with
  | none => exact absurd (List.getLast?_eq_none_iff.1 hl) hne
  | some d' =>
    obtain ⟨h1, h2⟩ := getLast?_filter_mem _ infos d' hl
    simp only [decide_eq_true_eq] at h1
    have hs : d'.stateName = d.stateName := string_append_left_cancel _ _ _ h1
    refine ⟨d', h2, hs, ?_⟩
    simp only
    rw [hs]

/-- C10, as amended: for every accepted call whose image descriptors `[d1..dn]` have
pairwise distinct state names, the created result entity has the browser id as
`parentId` and the `n` image ids in descriptor order as `images`; each image entity
consists of the fields of its descriptor plus `id` and `parentId`, the result id; and
`getImagesInfo` for the result returns exactly these `n` image entities in descriptor
order (the empty list when `n = 0`). -/
theorem result_and_images_created (det : List StatusKind → StatusKind) (t t' : Tree)
    (e : TestEvent) (h : addTestResult det t e = some t')
    (hd : (e.imagesInfo.map (fun d => d.stateName)).Nodup) :
    ∃ r, Dict.get t'.results.byId (resultId e.testPath e.browserId e.attempt) = some r ∧
      r.id = resultId e.testPath e.browserId e.attempt ∧
      r.parentId = browserId e.testPath e.browserId ∧
      r.status = e.status ∧
      r.images = e.imagesInfo.map
        (fun d => imageId e.testPath e.browserId e.attempt d.stateName) ∧
      (∀ d ∈ e.imagesInfo,
        Dict.get t'.images.byId (imageId e.testPath e.browserId e.attempt d.stateName)
          = some { id := imageId e.testPath e.browserId e.attempt d.stateName,
                   parentId := resultId e.testPath e.browserId e.attempt, info := d }) ∧
      getImagesInfo t' (resultId e.testPath e.browserId e.attempt)
        = some (e.imagesInfo.map (fun d =>
            { id := imageId e.testPath e.browserId e.attempt d.stateName,
              parentId := resultId e.testPath e.browserId e.attempt, info := d })) := by
  rw [addTestResult_eq] at h
  by_cases ha : accepted e = true
  · simp only [ha, if_true, Option.some.injEq] at h
    subst h
    have hres : Dict.get (ingest det t e).results.byId
        (resultId e.testPath e.browserId e.attempt) = some (eventResult e) := by
      rw [ingest_results, addResult, Dict.get_set]
      simp [eventResult, eventResultKey]
    have himg : ∀ d ∈ e.imagesInfo,
        Dict.get (ingest det t e).images.byId
            (imageId e.testPath e.browserId e.attempt d.stateName)
          = some { id := imageId e.testPath e.browserId e.attempt d.stateName,
                   parentId := resultId e.testPath e.browserId e.attempt, info := d } := by
      intro d hdm
      obtain ⟨d', hd', hs, hg⟩ := addImages_get_mem (eventResultKey e) e.imagesInfo t.images
        d hdm
      have : d' = d := List.inj_on_of_nodup_map hd hd' hdm hs
      subst this
      rw [ingest_images]
      exact hg
    refine ⟨eventResult e, hres, rfl, rfl, rfl, rfl, himg, ?_⟩
    unfold getImagesInfo
    rw [hres]
    simp only [Option.map_some', Option.some.injEq]
    show List.filterMap _ (List.map _ e.imagesInfo) = _
    rw [List.filterMap_map]
    exact filterMap_map_of_some _ _ _ himg
  · simp [ha] at h

theorem result_and_images_created_witness :
    ∃ r : Result,
      Dict.get (ingest reduceStatuses Tree.empty
        ⟨["s"], "b", 0, StatusKind.SUCCESS,
          [⟨"image-1", StatusKind.SUCCESS, none, none, none⟩,
           ⟨"image-2", StatusKind.SUCCESS, none, none, none⟩], ⟨none, none, none⟩⟩).results.byId
        (resultId ["s"] "b" 0) = some r ∧
      r.id = resultId ["s"] "b" 0 ∧
      r.parentId = browserId ["s"] "b" ∧
      r.status = StatusKind.SUCCESS ∧
      r.images = ([⟨"image-1", StatusKind.SUCCESS, none, none, none⟩,
           ⟨"image-2", StatusKind.SUCCESS, none, none, none⟩] : List ImageInfo).map
        (fun d => imageId ["s"] "b" 0 d.stateName) ∧
      (∀ d ∈ ([⟨"image-1", StatusKind.SUCCESS, none, none, none⟩,
           ⟨"image-2", StatusKind.SUCCESS, none, none, none⟩] : List ImageInfo),
        Dict.get (ingest reduceStatuses Tree.empty
        ⟨["s"], "b", 0, StatusKind.SUCCESS,
          [⟨"image-1", StatusKind.SUCCESS, none, none, none⟩,
           ⟨"image-2", StatusKind.SUCCESS, none, none, none⟩], ⟨none, none, none⟩⟩).images.byId
            (imageId ["s"] "b" 0 d.stateName)
          = some { id := imageId ["s"] "b" 0 d.stateName,
                   parentId := resultId ["s"] "b" 0, info := d }) ∧
      getImagesInfo (ingest reduceStatuses Tree.empty
        ⟨["s"], "b", 0, StatusKind.SUCCESS,
          [⟨"image-1", StatusKind.SUCCESS, none, none, none⟩,
           ⟨"image-2", StatusKind.SUCCESS, none, none, none⟩], ⟨none, none, none⟩⟩)
        (resultId ["s"] "b" 0)
        = some (([⟨"image-1", StatusKind.SUCCESS, none, none, none⟩,
           ⟨"image-2", StatusKind.SUCCESS, none, none, none⟩] : List ImageInfo).map (fun d =>
            { id := imageId ["s"] "b" 0 d.stateName,
              parentId := resultId ["s"] "b" 0, info := d })) :=
  result_and_images_created reduceStatuses Tree.empty
    (ingest reduceStatuses Tree.empty
        ⟨["s"], "b", 0, StatusKind.SUCCESS,
          [⟨"image-1", StatusKind.SUCCESS, none, none, none⟩,
           ⟨"image-2", StatusKind.SUCCESS, none, none, none⟩], ⟨none, none, none⟩⟩)
    ⟨["s"], "b", 0, StatusKind.SUCCESS,
          [⟨"image-1", StatusKind.SUCCESS, none, none, none⟩,
           ⟨"image-2", StatusKind.SUCCESS, none, none, none⟩], ⟨none, none, none⟩⟩
    (by decide) (by decide)

/-- C10, counterexample: a call with two image descriptors of the same state name. Both
get the image id `s b 0 x`; the entity stored under it is the one of the second
descriptor, so `getImagesInfo` returns this entity twice and the entity of the first
descriptor (status FAIL) is not in the store. -/
theorem duplicate_state_name_counterexample :
    getImagesInfo (ingest reduceStatuses Tree.empty
        ⟨["s"], "b", 0, StatusKind.FAIL,
          [⟨"x", StatusKind.FAIL, none, none, none⟩,
           ⟨"x", StatusKind.SUCCESS, none, none, none⟩], ⟨none, none, none⟩⟩)
        (resultId ["s"] "b" 0)
      = some [⟨"s b 0 x", "s b 0", ⟨"x", StatusKind.SUCCESS, none, none, none⟩⟩,
              ⟨"s b 0 x", "s b 0", ⟨"x", StatusKind.SUCCESS, none, none, none⟩⟩] ∧
    getImagesInfo (ingest reduceStatuses Tree.empty
        ⟨["s"], "b", 0, StatusKind.FAIL,
          [⟨"x", StatusKind.FAIL, none, none, none⟩,
           ⟨"x", StatusKind.SUCCESS, none, none, none⟩], ⟨none, none, none⟩⟩)
        (resultId ["s"] "b" 0)
      ≠ some [⟨"s b 0 x", "s b 0", ⟨"x", StatusKind.FAIL, none, none, none⟩⟩,
              ⟨"s b 0 x", "s b 0", ⟨"x", StatusKind.SUCCESS, none, none, none⟩⟩] ∧
    addTestResult reduceStatuses Tree.empty
        ⟨["s"], "b", 0, StatusKind.FAIL,
          [⟨"x", StatusKind.FAIL, none, none, none⟩,
           ⟨"x", StatusKind.SUCCESS, none, none, none⟩], ⟨none, none, none⟩⟩
      = some (ingest reduceStatuses Tree.empty
        ⟨["s"], "b", 0, StatusKind.FAIL,
          [⟨"x", StatusKind.FAIL, none, none, none⟩,
           ⟨"x", StatusKind.SUCCESS, none, none, none⟩], ⟨none, none, none⟩⟩) := by
  decide

/-- C1: `getSuiteId2` returns the segments of the suite path joined by single spaces and
`getTestId2` returns `getSuiteId2(suite)`, one space and the browser name; in the tree
builder, a call for this suite path and browser name stores the browser under this id,
the last result id of the browser is the browser id, one space and the attempt number,
the result is stored under that id with that `id` field, and each of its image ids is the
result id, one space and the state name of the image, the image entity stored under it
having that `id` and the result id as `parentId`. -/
theorem id_scheme_formulas (suite : SuiteNode) (browser : BrowserNode)
    (det : List StatusKind → StatusKind) (t t' : Tree) (e : TestEvent)
    (hs : e.testPath = suite.suitePath) (hb : e.browserId = browser.name)
    (h : addTestResult det t e = some t') :
    getSuiteId2 suite = " ".intercalate suite.suitePath ∧
    getTestId2 suite browser = getSuiteId2 suite ++ " " ++ browser.name ∧
    ∃ b r,
      Dict.get t'.browsers.byId (getTestId2 suite browser) = some b ∧
      b.results.getLast? = some (getTestId2 suite browser ++ " " ++ toString e.attempt) ∧
      Dict.get t'.results.byId (getTestId2 suite browser ++ " " ++ toString e.attempt)
        = some r ∧
      r.id = getTestId2 suite browser ++ " " ++ toString e.attempt ∧
      r.parentId = getTestId2 suite browser ∧
      r.images = e.imagesInfo.map (fun d => r.id ++ " " ++ d.stateName) ∧
      ∀ d ∈ e.imagesInfo, ∃ img,
        Dict.get t'.images.byId (r.id ++ " " ++ d.stateName) = some img ∧
        img.id = r.id ++ " " ++ d.stateName ∧ img.parentId = r.id := by
  refine ⟨joinWith_eq_intercalate _ _, rfl, ?_⟩
  rw [addTestResult_eq] at h
  by_cases ha : accepted e = true
  · simp only [ha, if_true, Option.some.injEq] at h
    subst h
    have hkey : getTestId2 suite browser = eventBrowserKey e := by
      unfold getTestId2 eventBrowserKey browserId suiteId
      rw [hs, hb]
    have hrk : getTestId2 suite browser ++ " " ++ toString e.attempt = eventResultKey e := by
      rw [hkey]; rfl
    rw [hrk, hkey]
    have hbro : ∃ b, Dict.get (ingest det t e).browsers.byId (eventBrowserKey e) = some b ∧
        b.results.getLast? = some (eventResultKey e) := by
      rw [ingest_browsers, addBrowser_get]
      simp only [if_true]
      cases Dict.get t.browsers.byId (eventBrowserKey e) with
      | none => exact ⟨_, rfl, rfl⟩
      | some x => exact ⟨_, rfl, by simp⟩
    obtain ⟨b, hb1, hb2⟩ := hbro
    have hres : Dict.get (ingest det t e).results.byId (eventResultKey e)
        = some (eventResult e) := by
      rw [ingest_results, addResult, Dict.get_set]
      simp [eventResult]
    refine ⟨b, eventResult e, hb1, hb2, hres, rfl, rfl, rfl, ?_⟩
    intro d hdm
    obtain ⟨d', _, _, hg⟩ := addImages_get_mem (eventResultKey e) e.imagesInfo t.images d hdm
    rw [ingest_images]
    exact ⟨_, hg, rfl, rfl⟩
  · simp [ha] at h

theorem id_scheme_formulas_witness :
    getSuiteId2 ⟨"s2", ["s1", "s2"]⟩ = "s1 s2" ∧
    getTestId2 ⟨"s2", ["s1", "s2"]⟩ ⟨"b1"⟩ = "s1 s2 b1" ∧
    (getSuiteId2 ⟨"s2", ["s1", "s2"]⟩ = " ".intercalate ["s1", "s2"] ∧
      getTestId2 ⟨"s2", ["s1", "s2"]⟩ ⟨"b1"⟩ = getSuiteId2 ⟨"s2", ["s1", "s2"]⟩ ++ " " ++ "b1" ∧
      ∃ (b : Browser) (r : Result),
        Dict.get (ingest reduceStatuses Tree.empty
            ⟨["s1", "s2"], "b1", 0, StatusKind.SUCCESS,
              [⟨"img1", StatusKind.SUCCESS, none, none, none⟩], ⟨none, none, none⟩⟩).browsers.byId
            (getTestId2 ⟨"s2", ["s1", "s2"]⟩ ⟨"b1"⟩) = some b ∧
        b.results.getLast?
          = some (getTestId2 ⟨"s2", ["s1", "s2"]⟩ ⟨"b1"⟩ ++ " " ++ toString (0 : Nat)) ∧
        Dict.get (ingest reduceStatuses Tree.empty
            ⟨["s1", "s2"], "b1", 0, StatusKind.SUCCESS,
              [⟨"img1", StatusKind.SUCCESS, none, none, none⟩], ⟨none, none, none⟩⟩).results.byId
            (getTestId2 ⟨"s2", ["s1", "s2"]⟩ ⟨"b1"⟩ ++ " " ++ toString (0 : Nat)) = some r ∧
        r.id = getTestId2 ⟨"s2", ["s1", "s2"]⟩ ⟨"b1"⟩ ++ " " ++ toString (0 : Nat) ∧
        r.parentId = getTestId2 ⟨"s2", ["s1", "s2"]⟩ ⟨"b1"⟩ ∧
        r.images = ([⟨"img1", StatusKind.SUCCESS, none, none, none⟩] : List ImageInfo).map
          (fun d => r.id ++ " " ++ d.stateName) ∧
        ∀ d ∈ ([⟨"img1", StatusKind.SUCCESS, none, none, none⟩] : List ImageInfo), ∃ img,
          Dict.get (ingest reduceStatuses Tree.empty
            ⟨["s1", "s2"], "b1", 0, StatusKind.SUCCESS,
              [⟨"img1", StatusKind.SUCCESS, none, none, none⟩], ⟨none, none, none⟩⟩).images.byId
            (r.id ++ " " ++ d.stateName) = some img ∧
          img.id = r.id ++ " " ++ d.stateName ∧ img.parentId = r.id) :=
  ⟨by decide, by decide,
   id_scheme_formulas ⟨"s2", ["s1", "s2"]⟩ ⟨"b1"⟩ reduceStatuses Tree.empty
     (ingest reduceStatuses Tree.empty
            ⟨["s1", "s2"], "b1", 0, StatusKind.SUCCESS,
              [⟨"img1", StatusKind.SUCCESS, none, none, none⟩], ⟨none, none, none⟩⟩)
     ⟨["s1", "s2"], "b1", 0, StatusKind.SUCCESS,
              [⟨"img1", StatusKind.SUCCESS, none, none, none⟩], ⟨none, none, none⟩⟩
     rfl rfl (by decide)⟩

/-! ## The sort pass -/

theorem lexLe_total (a b : List Char) : lexLe a b = true ∨ lexLe b a = true := by
  induction a generalizing b with
  | nil => left; rfl
  | cons x xs ih =>
    cases b with
    | nil => right; rfl
    | cons y ys =>
      unfold lexLe
      by_cases h1 : x.toNat < y.toNat
      · left; simp [h1]
      · by_cases h2 : y.toNat < x.toNat
        · right; simp [h2]
        · simp only [h1, h2, if_false]
          exact ih ys

theorem lexLe_trans (a b c : List Char) (h1 : lexLe a b = true) (h2 : lexLe b c = true) :
    lexLe a c = true := by
  induction a generalizing b c with
  | nil => rfl
  | cons x xs ih =>
    cases b with
    | nil => simp [lexLe] at h1
    | cons y ys =>
      cases c with
      | nil => simp [lexLe] at h2
      | cons z zs =>
        unfold lexLe at h1 h2 ⊢
        by_cases hxy : x.toNat < y.toNat
        · by_cases hyz : y.toNat < z.toNat
          · have : x.toNat < z.toNat := by omega
            simp [this]
          · by_cases hzy : z.toNat < y.toNat
            · simp [hyz, hzy] at h2
            · have : x.toNat < z.toNat := by omega
              simp [this]
        · by_cases hyx : y.toNat < x.toNat
          · simp [hxy, hyx] at h1
          · simp only [hxy, hyx, if_false] at h1
            by_cases hyz : y.toNat < z.toNat
            · have : x.toNat < z.toNat := by omega
              simp [this]
            · by_cases hzy : z.toNat < y.toNat
              · simp [hyz, hzy] at h2
              · simp only [hyz, hzy, if_false] at h2
                have h3 : ¬ x.toNat < z.toNat := by omega
                have h4 : ¬ z.toNat < x.toNat := by omega
                simp only [h3, h4, if_false]
                exact ih ys zs h1 h2

theorem lexLe_append_left (p a b : List Char) : lexLe (p ++ a) (p ++ b) = lexLe a b := by
  induction p with
  | nil => rfl
  | cons x xs ih =>
    have hx : ¬ x.toNat < x.toNat := lt_irrefl _
    simp only [List.cons_append, lexLe, hx, if_false]
    exact ih

/-- Ids with a common front are ordered as their remaining parts are. -/
theorem strLe_append_left (p a b : String) : strLe (p ++ a) (p ++ b) = strLe a b := by
  unfold strLe
  rw [String.data_append, String.data_append, lexLe_append_left]

theorem sortIdsBy_sorted (key : String → String) (ids : List String) :
    (sortIdsBy key ids).Sorted (fun a b => strLe (key a) (key b) = true) :=
  @List.sorted_insertionSort String (fun a b => strLe (key a) (key b) = true) _
    ⟨fun _ _ => lexLe_total _ _⟩ ⟨fun _ _ _ h1 h2 => lexLe_trans _ _ _ h1 h2⟩ ids

theorem sortIdsBy_perm (key : String → String) (ids : List String) :
    (sortIdsBy key ids).Perm ids :=
  List.perm_insertionSort _ ids

theorem sortIdsBy_idem (key : String → String) (ids : List String) :
    sortIdsBy key (sortIdsBy key ids) = sortIdsBy key ids :=
  List.Sorted.insertionSort_eq (sortIdsBy_sorted key ids)

theorem Dict.get_map_values {α : Type} (d : Dict α) (f : α → α) (k : String) :
    Dict.get (d.map (fun p => (p.1, f p.2))) k = (Dict.get d k).map f := by
  induction d with
  | nil => rfl
  | cons p rest ih =>
    obtain ⟨k0, v0⟩ := p
    by_cases h0 : k0 = k
    · simp [Dict.get, h0]
    · simp only [List.map_cons, Dict.get, h0, if_false]
      exact ih

theorem sortTree_suites_byId (t : Tree) :
    (sortTree t).suites.byId
      = t.suites.byId.map (fun p =>
          (p.1, { p.2 with
            suites := sortIdsBy (suiteName t.suites.byId) p.2.suites,
            browsers := sortIdsBy (browserName t.browsers.byId) p.2.browsers })) := rfl

/-- The sort pass keeps every suite under its key and changes only the order of its two
child lists. -/
theorem sortTree_suites_get (t : Tree) (k : String) :
    Dict.get (sortTree t).suites.byId k
      = (Dict.get t.suites.byId k).map (fun x =>
          { x with
            suites := sortIdsBy (suiteName t.suites.byId) x.suites,
            browsers := sortIdsBy (browserName t.browsers.byId) x.browsers }) := by
  rw [sortTree_suites_byId]
  exact Dict.get_map_values t.suites.byId (fun x =>
    { x with
      suites := sortIdsBy (suiteName t.suites.byId) x.suites,
      browsers := sortIdsBy (browserName t.browsers.byId) x.browsers }) k

theorem sortTree_suiteName (t : Tree) :
    suiteName (sortTree t).suites.byId = suiteName t.suites.byId := by
  funext k
  unfold suiteName
  rw [sortTree_suites_get]
  cases Dict.get t.suites.byId k <;> rfl

/-- C12: the sort pass is idempotent: for every tree, applying `sortTree` twice yields
exactly the tree that applying it once yields, with the same order of every id list. -/
theorem sortTree_idempotent (t : Tree) : sortTree (sortTree t) = sortTree t := by
  have hname := sortTree_suiteName t
  have hby : (sortTree (sortTree t)).suites.byId = (sortTree t).suites.byId := by
    rw [sortTree_suites_byId (sortTree t), hname]
    show List.map _ (sortTree t).suites.byId = _
    rw [sortTree_suites_byId t, List.map_map]
    apply List.map_congr_left
    intro p _
    simp only [Function.comp]
    show (p.1, ({ p.2 with
        suites := sortIdsBy (suiteName t.suites.byId)
          (sortIdsBy (suiteName t.suites.byId) p.2.suites),
        browsers := sortIdsBy (browserName t.browsers.byId)
          (sortIdsBy (browserName t.browsers.byId) p.2.browsers) } : Suite)) = _
    rw [sortIdsBy_idem, sortIdsBy_idem]
  have hroots : (sortTree (sortTree t)).suites.allRootIds = (sortTree t).suites.allRootIds := by
    show sortIdsBy (suiteName (sortTree t).suites.byId) (sortTree t).suites.allRootIds = _
    rw [hname]
    exact sortIdsBy_idem _ _
  have hsuiteIds : (sortTree (sortTree t)).suites.allIds = (sortTree t).suites.allIds := by
    show collectSuiteIds (sortTree (sortTree t)).suites.byId
        ((sortTree (sortTree t)).suites.byId.length + 1)
        (sortTree (sortTree t)).suites.allRootIds = _
    rw [hby, hroots]
    rfl
  have hbrowserIds : (sortTree (sortTree t)).browsers.allIds = (sortTree t).browsers.allIds := by
    show List.flatMap (sortTree (sortTree t)).suites.allIds (fun id =>
        ((Dict.get (sortTree (sortTree t)).suites.byId id).map (fun s => s.browsers)).getD [])
      = _
    rw [hby, hsuiteIds]
    rfl
  have hresultIds : (sortTree (sortTree t)).results.allIds = (sortTree t).results.allIds := by
    show List.flatMap (sortTree (sortTree t)).browsers.allIds (fun id =>
        ((Dict.get t.browsers.byId id).map (fun b => b.results)).getD []) = _
    rw [hbrowserIds]
    rfl
  have himageIds : (sortTree (sortTree t)).images.allIds = (sortTree t).images.allIds := by
    show List.flatMap (sortTree (sortTree t)).results.allIds (fun id =>
        ((Dict.get t.results.byId id).map (fun r => r.images)).getD []) = _
    rw [hresultIds]
    rfl
  have e1 : (sortTree (sortTree t)).suites = (sortTree t).suites := by
    cases h1 : (sortTree (sortTree t)).suites
    cases h2 : (sortTree t).suites
    rw [h1] at hby hroots hsuiteIds
    rw [h2] at hby hroots hsuiteIds
    simp only at hby hroots hsuiteIds
    rw [hby, hroots, hsuiteIds]
  have e2 : (sortTree (sortTree t)).browsers = (sortTree t).browsers := by
    have hb : (sortTree (sortTree t)).browsers.byId = (sortTree t).browsers.byId := rfl
    cases h1 : (sortTree (sortTree t)).browsers
    cases h2 : (sortTree t).browsers
    rw [h1] at hb hbrowserIds
    rw [h2] at hb hbrowserIds
    simp only at hb hbrowserIds
    rw [hb, hbrowserIds]
  have e3 : (sortTree (sortTree t)).results = (sortTree t).results := by
    have hb : (sortTree (sortTree t)).results.byId = (sortTree t).results.byId := rfl
    cases h1 : (sortTree (sortTree t)).results
    cases h2 : (sortTree t).results
    rw [h1] at hb hresultIds
    rw [h2] at hb hresultIds
    simp only at hb hresultIds
    rw [hb, hresultIds]
  have e4 : (sortTree (sortTree t)).images = (sortTree t).images := by
    have hb : (sortTree (sortTree t)).images.byId = (sortTree t).images.byId := rfl
    cases h1 : (sortTree (sortTree t)).images
    cases h2 : (sortTree t).images
    rw [h1] at hb himageIds
    rw [h2] at hb himageIds
    simp only at hb himageIds
    rw [hb, himageIds]
  cases h1 : sortTree (sortTree t)
  cases h2 : sortTree t
  rw [h1] at e1 e2 e3 e4
  rw [h2] at e1 e2 e3 e4
  simp only at e1 e2 e3 e4
  rw [e1, e2, e3, e4]

/-! ## The sort pass on built trees -/

/-- In a built tree, under the separator constraint on the test paths, every child id in
a `suites` list is the id of a path that extends the path of the parent by one
segment. -/
theorem foldl_ingest_child_ids (det : List StatusKind → StatusKind) (es : List TestEvent)
    (hc : ∀ x ∈ es, ∀ seg ∈ x.testPath, separatorFree seg) :
    AllSuites (fun k x => ∀ c ∈ x.suites, ∃ pth m, pth ≠ [] ∧
        (∀ seg ∈ pth ++ [m], separatorFree seg) ∧ k = suiteId pth ∧ c = suiteId (pth ++ [m]))
      (es.foldl (ingest det) Tree.empty).suites := by
  induction es using List.reverseRecOn with
  | nil => intro k x h; cases h
  | append_singleton es e ih =>
    rw [List.foldl_append]
    apply ingest_allSuites _ det _ e _ _ _ _
      (ih (fun x hx => hc x (List.mem_append_left _ hx)))
    · intro pth m x hp hseg hx c hcm
      rcases (mem_appendNew _ _ _).1 hcm with h1 | h1
      · exact hx c h1
      · exact ⟨pth, m, hp, fun seg hs => hc e (by simp) seg (hseg seg hs), rfl, h1⟩
    · intro x hx; exact hx
    · intro k x st hx; exact hx
    · intro pp' n' _ c hcm; cases hcm

/-- In a built tree every browser id in the `browsers` list of a suite is the browser id
of an event whose test path is the path of that suite. -/
theorem foldl_ingest_browser_ids (det : List StatusKind → StatusKind) (es : List TestEvent) :
    AllSuites (fun k x => ∀ b ∈ x.browsers, ∃ e ∈ es,
        k = suiteId e.testPath ∧ b = eventBrowserKey e)
      (es.foldl (ingest det) Tree.empty).suites := by
  induction es using List.reverseRecOn with
  | nil => intro k x h; cases h
  | append_singleton es e ih =>
    rw [List.foldl_append]
    have ih' : AllSuites (fun k x => ∀ b ∈ x.browsers, ∃ e' ∈ es ++ [e],
        k = suiteId e'.testPath ∧ b = eventBrowserKey e')
        (es.foldl (ingest det) Tree.empty).suites := by
      intro k x hx b hb
      obtain ⟨e', he', hk⟩ := ih k x hx b hb
      exact ⟨e', List.mem_append_left _ he', hk⟩
    apply ingest_allSuites _ det _ e _ _ _ _ ih'
    · intro pth m x _ _ hx; exact hx
    · intro x hx b hb
      rcases (mem_appendNew _ _ _).1 hb with h1 | h1
      · exact hx b h1
      · exact ⟨e, by simp, rfl, h1⟩
    · intro k x st hx; exact hx
    · intro pp' n' _ b hb; cases hb

/-- In a tree built under the separator constraint, a child suite id is the id of its
parent, a space and the name of the child suite. -/
theorem child_id_eq_parent_name (det : List StatusKind → StatusKind) (es : List TestEvent)
    (hc : ∀ x ∈ es, ∀ seg ∈ x.testPath, separatorFree seg)
    (k : String) (x : Suite)
    (hx : Dict.get (es.foldl (ingest det) Tree.empty).suites.byId k = some x)
    (c : String) (hcm : c ∈ x.suites) :
    c = k ++ (" " ++ suiteName (es.foldl (ingest det) Tree.empty).suites.byId c) := by
  obtain ⟨pth, m, hp, hsf, hk, hcid⟩ := foldl_ingest_child_ids det es hc k x hx c hcm
  have hres := foldl_ingest_children_resolve det es k x hx c hcm
  cases hy : Dict.get (es.foldl (ingest det) Tree.empty).suites.byId c with
  | none => exact absurd hy hres
  | some y =>
    obtain ⟨pp', n', hsf', hk', _, _, hname, _, _⟩ := foldl_ingest_suite_fields det es hc c y hy
    have hpn : pp' ++ [n'] = pth ++ [m] := by
      apply joinWith_space_injective (by simp) (by simp) hsf' hsf
      exact hk'.symm.trans hcid
    obtain ⟨_, hn⟩ := List.append_inj' hpn rfl
    simp only [List.cons.injEq, and_true] at hn
    unfold suiteName
    rw [hy]
    simp only [Option.map_some', Option.getD_some]
    rw [hname, hn, hcid, hk, suiteId_append_singleton pth hp m, String.append_assoc]

/-- In a tree built under the separator constraint, a browser id in a `browsers` list is
the id of the suite, a space and the name of the browser. -/
theorem browser_id_eq_parent_name (det : List StatusKind → StatusKind) (es : List TestEvent)
    (hacc : ∀ x ∈ es, accepted x = true)
    (hc : ∀ x ∈ es, separatorContract x)
    (k : String) (x : Suite)
    (hx : Dict.get (es.foldl (ingest det) Tree.empty).suites.byId k = some x)
    (b : String) (hb : b ∈ x.browsers) :
    b = k ++ (" " ++ browserName (es.foldl (ingest det) Tree.empty).browsers.byId b) := by
  obtain ⟨e, he, hk, hbk⟩ := foldl_ingest_browser_ids det es k x hx b hb
  unfold browserName
  rw [browsers_byId_history]
  unfold browserOfHistory
  have hmem : e ∈ eventsOfBrowser es b := by
    unfold eventsOfBrowser
    rw [List.mem_filter]
    exact ⟨he, by simp [hbk]⟩
  cases hev : eventsOfBrowser es b with
  | nil => rw [hev] at hmem; cases hmem
  | cons e0 rest =>
    simp only [Option.map_some', Option.getD_some]
    have he0 : e0 ∈ eventsOfBrowser es b := by rw [hev]; exact List.mem_cons_self _ _
    unfold eventsOfBrowser at he0
    rw [List.mem_filter] at he0
    obtain ⟨hm0, hk0⟩ := he0
    simp only [decide_eq_true_eq] at hk0
    obtain ⟨_, hn⟩ := browserId_injective (accepted_testPath_ne_nil e0 (hacc e0 hm0))
      (accepted_testPath_ne_nil e (hacc e he)) (hc e0 hm0).1 (hc e he).1 (hc e0 hm0).2
      (hc e he).2 (hk0.trans hbk)
    rw [hn, hbk, hk]
    unfold eventBrowserKey browserId
    rw [String.append_assoc]

/-- In a tree built under the separator constraint, the name of a root suite is its
id. -/
theorem root_name_eq_id (det : List StatusKind → StatusKind) (es : List TestEvent)
    (hc : ∀ x ∈ es, ∀ seg ∈ x.testPath, separatorFree seg)
    (r : String) (hr : r ∈ (es.foldl (ingest det) Tree.empty).suites.allRootIds) :
    suiteName (es.foldl (ingest det) Tree.empty).suites.byId r = r := by
  have hag := foldl_ingest_suiteIdsAgree det es
  rw [hag.2, List.mem_filter] at hr
  obtain ⟨_, hroot⟩ := hr
  simp only [decide_eq_true_eq] at hroot
  cases hy : Dict.get (es.foldl (ingest det) Tree.empty).suites.byId r with
  | none => rw [hy] at hroot; cases hroot
  | some y =>
    rw [hy] at hroot
    simp only [Option.map_some', Option.some.injEq] at hroot
    obtain ⟨pp', n', _, hk', _, _, hname, _, hrt⟩ := foldl_ingest_suite_fields det es hc r y hy
    rw [hroot] at hrt
    have hpp : pp' = [] := by
      have := of_decide_eq_true hrt.symm
      simp at this
      exact this
    unfold suiteName
    rw [hy]
    simp only [Option.map_some', Option.getD_some]
    rw [hname, hk', hpp]
    rfl

theorem sorted_by_id_of_sorted_by_name (p : String) (key : String → String)
    (l : List String) (hl : ∀ a ∈ l, a = p ++ (" " ++ key a))
    (hs : l.Sorted (fun a b => strLe (key a) (key b) = true)) :
    l.Sorted (fun a b => strLe a b = true) := by
  apply List.Pairwise.imp_of_mem _ hs
  intro a b ha hb hab
  rw [hl a ha, hl b hb, strLe_append_left, strLe_append_left]
  exact hab

/-- Counterexample for C11: after the calls for the test paths `[a, b c]`, `[a b, c]` and
`[a b, bz]` the suite `a b` lists the child ids `a b c` and `a b bz`, whose suites have
the names `b c` and `bz`; `sortTree` leaves them in the order of these names, `a b c`
before `a b bz`, which is not the order of the id strings. -/
theorem sorted_names_not_ids_counterexample :
    (Dict.get (sortTree (addTestResults reduceStatuses Tree.empty
        [⟨["a", "b c"], "x", 0, StatusKind.SUCCESS, [], ⟨none, none, none⟩⟩,
         ⟨["a b", "c"], "x", 0, StatusKind.SUCCESS, [], ⟨none, none, none⟩⟩,
         ⟨["a b", "bz"], "x", 0, StatusKind.SUCCESS, [], ⟨none, none, none⟩⟩])).suites.byId
        "a b").map (fun s => s.suites) = some ["a b c", "a b bz"] ∧
    (["a b c", "a b bz"].map (suiteName (sortTree (addTestResults reduceStatuses Tree.empty
        [⟨["a", "b c"], "x", 0, StatusKind.SUCCESS, [], ⟨none, none, none⟩⟩,
         ⟨["a b", "c"], "x", 0, StatusKind.SUCCESS, [], ⟨none, none, none⟩⟩,
         ⟨["a b", "bz"], "x", 0, StatusKind.SUCCESS, [], ⟨none, none, none⟩⟩])).suites.byId))
      = ["b c", "bz"] ∧
    strLe "b c" "bz" = true ∧ strLe "a b c" "a b bz" = false := by
  decide

/-- C11, as amended: for every tree built by `addTestResult` calls, after `sortTree` the
root id list, the `suites` list and the `browsers` list of every suite are in ascending lexicographic
order of the names of the suites and browsers they refer to, and each is a permutation
of the list before the sort; the store holds the same suites under the same keys, each
with the same fields apart from the order of these two lists, and the same browser,
result and image entities. When the accepted calls obey the separator constraint, the
order of the names is the order of the id strings: each of these lists is then also in
ascending order of its ids. -/
theorem sortTree_sorted (det : List StatusKind → StatusKind) (es : List TestEvent)
    (t : Tree) (ht : t = addTestResults det Tree.empty es) :
    ((sortTree t).suites.allRootIds.Perm t.suites.allRootIds ∧
      (sortTree t).suites.allRootIds.Sorted (fun a b =>
        strLe (suiteName (sortTree t).suites.byId a)
          (suiteName (sortTree t).suites.byId b) = true)) ∧
    (Dict.keys (sortTree t).suites.byId = Dict.keys t.suites.byId ∧
      ∀ k x', Dict.get (sortTree t).suites.byId k = some x' →
        ∃ x, Dict.get t.suites.byId k = some x ∧
          x'.suites.Perm x.suites ∧ x'.browsers.Perm x.browsers ∧
          x'.suites.Sorted (fun a b =>
            strLe (suiteName (sortTree t).suites.byId a)
              (suiteName (sortTree t).suites.byId b) = true) ∧
          x'.browsers.Sorted (fun a b =>
            strLe (browserName (sortTree t).browsers.byId a)
              (browserName (sortTree t).browsers.byId b) = true) ∧
          ({ x' with suites := x.suites, browsers := x.browsers } : Suite) = x) ∧
    ((sortTree t).browsers.byId = t.browsers.byId ∧
      (sortTree t).results.byId = t.results.byId ∧
      (sortTree t).images.byId = t.images.byId) ∧
    ((∀ e ∈ acceptedEvents es, separatorContract e) →
      (sortTree t).suites.allRootIds.Sorted (fun a b => strLe a b = true) ∧
      ∀ k x', Dict.get (sortTree t).suites.byId k = some x' →
        x'.suites.Sorted (fun a b => strLe a b = true) ∧
        x'.browsers.Sorted (fun a b => strLe a b = true)) := by
  have hname := sortTree_suiteName t
  have hbname : browserName (sortTree t).browsers.byId = browserName t.browsers.byId := rfl
  have hget : ∀ k x', Dict.get (sortTree t).suites.byId k = some x' →
      ∃ x, Dict.get t.suites.byId k = some x ∧
        x' = { x with
          suites := sortIdsBy (suiteName t.suites.byId) x.suites,
          browsers := sortIdsBy (browserName t.browsers.byId) x.browsers } := by
    intro k x' hx'
    rw [sortTree_suites_get] at hx'
    cases hx : Dict.get t.suites.byId k with
    | none => rw [hx] at hx'; cases hx'
    | some x =>
      rw [hx] at hx'
      simp only [Option.map_some', Option.some.injEq] at hx'
      exact ⟨x, rfl, hx'.symm⟩
  refine ⟨⟨sortIdsBy_perm _ _, ?_⟩, ⟨?_, ?_⟩, ⟨rfl, rfl, rfl⟩, ?_⟩
  · rw [hname]
    exact sortIdsBy_sorted _ _
  · rw [sortTree_suites_byId]
    unfold Dict.keys
    rw [List.map_map]
    rfl
  · intro k x' hx'
    obtain ⟨x, hx, hxe⟩ := hget k x' hx'
    refine ⟨x, hx, ?_, ?_, ?_, ?_, ?_⟩
    · rw [hxe]; exact sortIdsBy_perm _ _
    · rw [hxe]; exact sortIdsBy_perm _ _
    · rw [hxe, hname]; exact sortIdsBy_sorted _ _
    · rw [hxe, hbname]; exact sortIdsBy_sorted _ _
    · rw [hxe]
  · intro hcon
    have hacc : ∀ x ∈ acceptedEvents es, accepted x = true := by
      intro x hx
      unfold acceptedEvents at hx
      exact (List.mem_filter.1 hx).2
    have hseg : ∀ x ∈ acceptedEvents es, ∀ seg ∈ x.testPath, separatorFree seg :=
      fun x hx => (hcon x hx).1
    rw [addTestResults_eq_foldl] at ht
    refine ⟨?_, ?_⟩
    · have hs : (sortTree t).suites.allRootIds.Sorted (fun a b =>
          strLe (suiteName t.suites.byId a) (suiteName t.suites.byId b) = true) :=
        sortIdsBy_sorted _ _
      apply List.Pairwise.imp_of_mem _ hs
      intro a b ha hb hab
      have ha' : a ∈ t.suites.allRootIds := (sortIdsBy_perm _ _).mem_iff.1 ha
      have hb' : b ∈ t.suites.allRootIds := (sortIdsBy_perm _ _).mem_iff.1 hb
      rw [ht] at ha' hb' hab
      rw [root_name_eq_id det _ hseg a ha', root_name_eq_id det _ hseg b hb'] at hab
      exact hab
    · intro k x' hx'
      obtain ⟨x, hx, hxe⟩ := hget k x' hx'
      rw [hxe]
      simp only
      rw [ht] at hx
      refine ⟨?_, ?_⟩
      · apply sorted_by_id_of_sorted_by_name k (suiteName t.suites.byId) _ _
          (sortIdsBy_sorted _ _)
        intro a ha
        have ha' : a ∈ x.suites := (sortIdsBy_perm _ _).mem_iff.1 ha
        rw [ht]
        exact child_id_eq_parent_name det _ hseg k x hx a ha'
      · apply sorted_by_id_of_sorted_by_name k (browserName t.browsers.byId) _ _
          (sortIdsBy_sorted _ _)
        intro a ha
        have ha' : a ∈ x.browsers := (sortIdsBy_perm _ _).mem_iff.1 ha
        rw [ht]
        exact browser_id_eq_parent_name det _ hacc hcon k x hx a ha'

theorem sortTree_sorted_witness :
    ((sortTree (addTestResults reduceStatuses Tree.empty
        [⟨["s2"], "b2", 0, StatusKind.SUCCESS, [], ⟨none, none, none⟩⟩,
         ⟨["s1", "ch2"], "b2", 0, StatusKind.SUCCESS, [], ⟨none, none, none⟩⟩,
         ⟨["s1", "ch1"], "b2", 0, StatusKind.SUCCESS, [], ⟨none, none, none⟩⟩,
         ⟨["s1", "ch1"], "b1", 0, StatusKind.SUCCESS, [], ⟨none, none, none⟩⟩])).suites.allRootIds.Perm
        (addTestResults reduceStatuses Tree.empty
        [⟨["s2"], "b2", 0, StatusKind.SUCCESS, [], ⟨none, none, none⟩⟩,
         ⟨["s1", "ch2"], "b2", 0, StatusKind.SUCCESS, [], ⟨none, none, none⟩⟩,
         ⟨["s1", "ch1"], "b2", 0, StatusKind.SUCCESS, [], ⟨none, none, none⟩⟩,
         ⟨["s1", "ch1"], "b1", 0, StatusKind.SUCCESS, [], ⟨none, none, none⟩⟩]).suites.allRootIds ∧
      (sortTree (addTestResults reduceStatuses Tree.empty
        [⟨["s2"], "b2", 0, StatusKind.SUCCESS, [], ⟨none, none, none⟩⟩,
         ⟨["s1", "ch2"], "b2", 0, StatusKind.SUCCESS, [], ⟨none, none, none⟩⟩,
         ⟨["s1", "ch1"], "b2", 0, StatusKind.SUCCESS, [], ⟨none, none, none⟩⟩,
         ⟨["s1", "ch1"], "b1", 0, StatusKind.SUCCESS, [], ⟨none, none, none⟩⟩])).suites.allRootIds.Sorted
        (fun a b =>
          strLe (suiteName (sortTree (addTestResults reduceStatuses Tree.empty
            [⟨["s2"], "b2", 0, StatusKind.SUCCESS, [], ⟨none, none, none⟩⟩,
             ⟨["s1", "ch2"], "b2", 0, StatusKind.SUCCESS, [], ⟨none, none, none⟩⟩,
             ⟨["s1", "ch1"], "b2", 0, StatusKind.SUCCESS, [], ⟨none, none, none⟩⟩,
             ⟨["s1", "ch1"], "b1", 0, StatusKind.SUCCESS, [], ⟨none, none, none⟩⟩])).suites.byId a)
            (suiteName (sortTree (addTestResults reduceStatuses Tree.empty
            [⟨["s2"], "b2", 0, StatusKind.SUCCESS, [], ⟨none, none, none⟩⟩,
             ⟨["s1", "ch2"], "b2", 0, StatusKind.SUCCESS, [], ⟨none, none, none⟩⟩,
             ⟨["s1", "ch1"], "b2", 0, StatusKind.SUCCESS, [], ⟨none, none, none⟩⟩,
             ⟨["s1", "ch1"], "b1", 0, StatusKind.SUCCESS, [], ⟨none, none, none⟩⟩])).suites.byId b)
            = true)) ∧
    (sortTree (addTestResults reduceStatuses Tree.empty
        [⟨["s2"], "b2", 0, StatusKind.SUCCESS, [], ⟨none, none, none⟩⟩,
         ⟨["s1", "ch2"], "b2", 0, StatusKind.SUCCESS, [], ⟨none, none, none⟩⟩,
         ⟨["s1", "ch1"], "b2", 0, StatusKind.SUCCESS, [], ⟨none, none, none⟩⟩,
         ⟨["s1", "ch1"], "b1", 0, StatusKind.SUCCESS, [], ⟨none, none, none⟩⟩])).suites.allRootIds
      = ["s1", "s2"] ∧
    (Dict.get (sortTree (addTestResults reduceStatuses Tree.empty
        [⟨["s2"], "b2", 0, StatusKind.SUCCESS, [], ⟨none, none, none⟩⟩,
         ⟨["s1", "ch2"], "b2", 0, StatusKind.SUCCESS, [], ⟨none, none, none⟩⟩,
         ⟨["s1", "ch1"], "b2", 0, StatusKind.SUCCESS, [], ⟨none, none, none⟩⟩,
         ⟨["s1", "ch1"], "b1", 0, StatusKind.SUCCESS, [], ⟨none, none, none⟩⟩])).suites.byId
        "s1").map (fun x => x.suites) = some ["s1 ch1", "s1 ch2"] ∧
    (Dict.get (sortTree (addTestResults reduceStatuses Tree.empty
        [⟨["s2"], "b2", 0, StatusKind.SUCCESS, [], ⟨none, none, none⟩⟩,
         ⟨["s1", "ch2"], "b2", 0, StatusKind.SUCCESS, [], ⟨none, none, none⟩⟩,
         ⟨["s1", "ch1"], "b2", 0, StatusKind.SUCCESS, [], ⟨none, none, none⟩⟩,
         ⟨["s1", "ch1"], "b1", 0, StatusKind.SUCCESS, [], ⟨none, none, none⟩⟩])).suites.byId
        "s1 ch1").map (fun x => x.browsers) = some ["s1 ch1 b1", "s1 ch1 b2"] :=
  ⟨(sortTree_sorted reduceStatuses
      [⟨["s2"], "b2", 0, StatusKind.SUCCESS, [], ⟨none, none, none⟩⟩,
       ⟨["s1", "ch2"], "b2", 0, StatusKind.SUCCESS, [], ⟨none, none, none⟩⟩,
       ⟨["s1", "ch1"], "b2", 0, StatusKind.SUCCESS, [], ⟨none, none, none⟩⟩,
       ⟨["s1", "ch1"], "b1", 0, StatusKind.SUCCESS, [], ⟨none, none, none⟩⟩]
      _ rfl).1,
   by decide, by decide, by decide⟩

/-! ## The reuse merge -/

theorem getReuseStatus_idem (S : List ReportSuite) (p : List String)
    (st : Option StatusKind) :
    getReuseStatus S p (getReuseStatus S p st) = getReuseStatus S p st := by
  unfold getReuseStatus
  cases findNode S p with
  | none => rfl
  | some node =>
    simp only
    cases hs : node.status with
    | none => simp [hs]
    | some s => rfl

theorem getReuseBrowserResult_name (S : List ReportSuite) (p : List String) (n : String)
    (s : BrowserEntry) (h : getReuseBrowserResult S p n = some s) : s.name = n := by
  unfold getReuseBrowserResult at h
  cases hf : findNode S p with
  | none => rw [hf] at h; cases h
  | some node =>
    rw [hf] at h
    have := List.find?_some h
    simpa using this

/-- The browsers loop of `reuseBrowserResult`: every browser is extended by its reuse
result; the flag is set if it was set or some browser has a reuse result; the status
becomes `getReuseStatus` exactly when some browser has a reuse result. -/
theorem reuseBrowsers_eq (S : List ReportSuite) (p : List String) (f : Bool)
    (st : Option StatusKind) (bs : List BrowserEntry) :
    reuseBrowsers S p (f, st) bs
      = (bs.map (fun b => extendBrowser b (getReuseBrowserResult S p b.name)),
         f || bs.any (fun b => (getReuseBrowserResult S p b.name).isSome),
         if bs.any (fun b => (getReuseBrowserResult S p b.name).isSome) = true
           then getReuseStatus S p st else st) := by
  induction bs generalizing f st with
  | nil => simp [reuseBrowsers]
  | cons b rest ih =>
    unfold reuseBrowsers
    cases hb : getReuseBrowserResult S p b.name with
    | none =>
      simp only [ih, List.map_cons, List.any_cons, hb, Option.isSome_none, Bool.false_or]
    | some s =>
      simp only [ih, List.map_cons, List.any_cons, hb, Option.isSome_some, Bool.true_or,
        Bool.or_true, if_true]
      by_cases hr : rest.any (fun b => (getReuseBrowserResult S p b.name).isSome) = true
      · simp [hr, getReuseStatus_idem]
      · simp [hr]

theorem extendBrowser_name (S : List ReportSuite) (p : List String) (b : BrowserEntry) :
    (extendBrowser b (getReuseBrowserResult S p b.name)).name = b.name := by
  cases h : getReuseBrowserResult S p b.name with
  | none => rfl
  | some s => exact getReuseBrowserResult_name S p b.name s h

theorem extendBrowser_idem (b : BrowserEntry) (src : Option BrowserEntry) :
    extendBrowser (extendBrowser b src) src = extendBrowser b src := by
  cases src with
  | none => rfl
  | some s =>
    unfold extendBrowser
    simp only
    cases s.result <;> cases s.retries <;> cases s.state <;> rfl

theorem reuseBrowsers_idem (S : List ReportSuite) (p : List String) (f : Bool)
    (st : Option StatusKind) (bs : List BrowserEntry) :
    reuseBrowsers S p (f, (reuseBrowsers S p (f, st) bs).2.2) (reuseBrowsers S p (f, st) bs).1
      = reuseBrowsers S p (f, st) bs := by
  rw [reuseBrowsers_eq S p f st bs]
  simp only
  rw [reuseBrowsers_eq]
  have hany : (bs.map (fun b => extendBrowser b (getReuseBrowserResult S p b.name))).any
      (fun b => (getReuseBrowserResult S p b.name).isSome)
      = bs.any (fun b => (getReuseBrowserResult S p b.name).isSome) := by
    rw [List.any_map]
    congr 1
    funext b
    simp only [Function.comp, extendBrowser_name]
  have hmap : (bs.map (fun b => extendBrowser b (getReuseBrowserResult S p b.name))).map
      (fun b => extendBrowser b (getReuseBrowserResult S p b.name))
      = bs.map (fun b => extendBrowser b (getReuseBrowserResult S p b.name)) := by
    rw [List.map_map]
    apply List.map_congr_left
    intro b _
    simp only [Function.comp, extendBrowser_name, extendBrowser_idem]
  rw [hany, hmap]
  by_cases hr : bs.any (fun b => (getReuseBrowserResult S p b.name).isSome) = true
  · simp [hr, getReuseStatus_idem]
  · simp [hr]

/-- The flag after the browsers loop does not depend on the status. -/
theorem reuseBrowsers_flag (S : List ReportSuite) (p : List String) (f : Bool)
    (st st' : Option StatusKind) (bs : List BrowserEntry) :
    (reuseBrowsers S p (f, st) bs).2.1 = (reuseBrowsers S p (f, st') bs).2.1 ∧
    (reuseBrowsers S p (f, st) bs).1 = (reuseBrowsers S p (f, st') bs).1 := by
  rw [reuseBrowsers_eq, reuseBrowsers_eq]
  exact ⟨rfl, rfl⟩

mutual
/-- Applying the inner function of `applyReuse` again, with the same incoming flag, to
its own result changes nothing. -/
theorem reuseBrowserResult_idem (S : List ReportSuite) :
    ∀ (T : ReportSuite) (f : Bool),
      reuseBrowserResult S f (reuseBrowserResult S f T).1 = reuseBrowserResult S f T
  | .mk name p st none none, f => by
    simp [reuseBrowserResult]
  | .mk name p st none (some bs), f => by
    have h := reuseBrowsers_idem S p f st bs
    simp only [reuseBrowserResult]
    rw [h]
  | .mk name p st (some cs) browsers, f => by
    have hc := reuseChildren_idem S cs f
    cases browsers with
    | none =>
      simp only [reuseBrowserResult]
      rw [hc]
      by_cases hf : (reuseChildren S f cs).2 = true
      · simp [hf, getReuseStatus_idem]
      · simp [hf]
    | some bs =>
      simp only [reuseBrowserResult]
      rw [hc]
      rw [reuseBrowsers_eq S p (reuseChildren S f cs).2 _ bs]
      simp only
      rw [reuseBrowsers_eq]
      have hany : (bs.map (fun b => extendBrowser b (getReuseBrowserResult S p b.name))).any
          (fun b => (getReuseBrowserResult S p b.name).isSome)
          = bs.any (fun b => (getReuseBrowserResult S p b.name).isSome) := by
        rw [List.any_map]
        congr 1
        funext b
        simp only [Function.comp, extendBrowser_name]
      have hmap : (bs.map (fun b => extendBrowser b (getReuseBrowserResult S p b.name))).map
          (fun b => extendBrowser b (getReuseBrowserResult S p b.name))
          = bs.map (fun b => extendBrowser b (getReuseBrowserResult S p b.name)) := by
        rw [List.map_map]
        apply List.map_congr_left
        intro b _
        simp only [Function.comp, extendBrowser_name, extendBrowser_idem]
      rw [hany, hmap]
      by_cases hf : (reuseChildren S f cs).2 = true <;>
        by_cases hr : bs.any (fun b => (getReuseBrowserResult S p b.name).isSome) = true <;>
        simp [hf, hr, getReuseStatus_idem]
/-- The same for a list of child suites. -/
theorem reuseChildren_idem (S : List ReportSuite) :
    ∀ (cs : List ReportSuite) (f : Bool),
      reuseChildren S f (reuseChildren S f cs).1 = reuseChildren S f cs
  | [], f => by simp [reuseChildren]
  | c :: cs, f => by
    have h1 := reuseBrowserResult_idem S c f
    have h2 := reuseChildren_idem S cs (reuseBrowserResult S f c).2
    simp only [reuseChildren]
    rw [h1, h2]
end

/-! ## Every suite of the target is handled by the inner function -/

mutual
/-- Each suite of the tree after the inner function of `applyReuse` is the result of
this function, called with some value of the flag, on the suite at the same pre-order
position of the tree before. -/
theorem subSuites_reuseBrowserResult (S : List ReportSuite) :
    ∀ (T : ReportSuite) (f : Bool),
      List.Forall₂ (fun N N' => ∃ g, N' = (reuseBrowserResult S g N).1)
        (subSuites T) (subSuites (reuseBrowserResult S f T).1)
  | .mk name p st none none, f => by
    simp only [reuseBrowserResult, subSuites]
    exact List.Forall₂.cons ⟨f, by simp [reuseBrowserResult]⟩ List.Forall₂.nil
  | .mk name p st none (some bs), f => by
    simp only [reuseBrowserResult, subSuites]
    exact List.Forall₂.cons ⟨f, by simp [reuseBrowserResult]⟩ List.Forall₂.nil
  | .mk name p st (some cs) none, f => by
    have hc := subSuitesList_reuseChildren S cs f
    simp only [reuseBrowserResult, subSuites]
    exact List.Forall₂.cons ⟨f, by simp [reuseBrowserResult]⟩ hc
  | .mk name p st (some cs) (some bs), f => by
    have hc := subSuitesList_reuseChildren S cs f
    simp only [reuseBrowserResult, subSuites]
    exact List.Forall₂.cons ⟨f, by simp [reuseBrowserResult]⟩ hc
/-- The same for a list of child suites. -/
theorem subSuitesList_reuseChildren (S : List ReportSuite) :
    ∀ (cs : List ReportSuite) (f : Bool),
      List.Forall₂ (fun N N' => ∃ g, N' = (reuseBrowserResult S g N).1)
        (subSuitesList cs) (subSuitesList (reuseChildren S f cs).1)
  | [], f => by
    simp only [reuseChildren, subSuitesList]
    exact List.Forall₂.nil
  | c :: cs, f => by
    have h1 := subSuites_reuseBrowserResult S c f
    have h2 := subSuitesList_reuseChildren S cs (reuseBrowserResult S f c).2
    simp only [reuseChildren, subSuitesList]
    exact List.rel_append h1 h2
end

/-- The suites of the tree before and after `applyReuse`, paired by pre-order position:
the suite after is the result of the inner function on the suite before. -/
theorem applyReuse_nodes (S : List ReportSuite) (T N N' : ReportSuite)
    (h : (N, N') ∈ (subSuites T).zip (subSuites (applyReuse S T))) :
    ∃ g, N' = (reuseBrowserResult S g N).1 := by
  have := subSuites_reuseBrowserResult S T false
  rw [List.forall₂_iff_zip] at this
  exact this.2 h

theorem applyReuse_nodes_length (S : List ReportSuite) (T : ReportSuite) :
    (subSuites (applyReuse S T)).length = (subSuites T).length := by
  have := subSuites_reuseBrowserResult S T false
  rw [List.forall₂_iff_zip] at this
  exact this.1.symm

/-- What the inner function of `applyReuse` does to one suite: name, path and presence
of the lists are kept; the browsers are extended by their reuse results; the status is
`getReuseStatus` if a browser of the suite has a reuse result, or if the suite has a
`children` list and the flag is set after the children, and is unchanged otherwise. -/
theorem reuseBrowserResult_node (S : List ReportSuite) (f : Bool) (name : String)
    (p : List String) (st : Option StatusKind) (ch : Option (List ReportSuite))
    (bs : Option (List BrowserEntry)) :
    (reuseBrowserResult S f (.mk name p st ch bs)).1.name = name ∧
    (reuseBrowserResult S f (.mk name p st ch bs)).1.suitePath = p ∧
    (reuseBrowserResult S f (.mk name p st ch bs)).1.browsers
      = bs.map (fun l => l.map (fun b => extendBrowser b (getReuseBrowserResult S p b.name))) ∧
    (reuseBrowserResult S f (.mk name p st ch bs)).1.children
      = ch.map (fun cs => (reuseChildren S f cs).1) ∧
    (reuseBrowserResult S f (.mk name p st ch bs)).1.status
      = (if (bs.getD []).any (hasReuseResult S p) = true
            ∨ (ch.map (fun cs => (reuseChildren S f cs).2)).getD false = true
          then getReuseStatus S p st else st) := by
  cases ch with
  | none =>
    cases bs with
    | none => simp [reuseBrowserResult, ReportSuite.name, ReportSuite.suitePath,
        ReportSuite.browsers, ReportSuite.children, ReportSuite.status]
    | some l =>
      simp only [reuseBrowserResult, reuseBrowsers_eq, ReportSuite.name,
        ReportSuite.suitePath, ReportSuite.browsers, ReportSuite.children, ReportSuite.status,
        Option.map_some', Option.map_none', Option.getD_some, Option.getD_none, true_and]
      unfold hasReuseResult
      simp
  | some cs =>
    cases bs with
    | none =>
      simp [reuseBrowserResult, ReportSuite.name, ReportSuite.suitePath,
        ReportSuite.browsers, ReportSuite.children, ReportSuite.status]
    | some l =>
      simp only [reuseBrowserResult, reuseBrowsers_eq, ReportSuite.name,
        ReportSuite.suitePath, ReportSuite.browsers, ReportSuite.children, ReportSuite.status,
        Option.map_some', Option.getD_some, true_and]
      unfold hasReuseResult
      by_cases hf : (reuseChildren S f cs).2 = true <;>
        by_cases hr : l.any (fun b => (getReuseBrowserResult S p b.name).isSome) = true <;>
        simp [hf, hr, getReuseStatus_idem]

/-! ## The claims on the reuse merge -/

theorem mem_zip_map_self {α β : Type} (f : α → β) (l : List α) (a : α) (b : β)
    (h : (a, b) ∈ l.zip (l.map f)) : a ∈ l ∧ b = f a := by
  induction l with
  | nil => simp at h
  | cons x xs ih =>
    simp only [List.map_cons, List.zip_cons_cons, List.mem_cons, Prod.mk.injEq] at h
    rcases h with ⟨h1, h2⟩ | h
    · subst h1
      exact ⟨List.mem_cons_self _ _, h2⟩
    · obtain ⟨h1, h2⟩ := ih h
      exact ⟨List.mem_cons_of_mem _ h1, h2⟩

theorem reportSuite_eta (N : ReportSuite) :
    N = .mk N.name N.suitePath N.status N.children N.browsers := by
  cases N; rfl

/-- C13: the reuse merge is idempotent: for every source forest `S` and every target
root suite `T`, `applyReuse(S)(applyReuse(S)(T))` is `applyReuse(S)(T)`: the same
statuses and the same browser results and retries at every suite. The source is an
argument that `applyReuse` only reads. -/
theorem applyReuse_idempotent (S : List ReportSuite) (T : ReportSuite) :
    applyReuse S (applyReuse S T) = applyReuse S T := by
  unfold applyReuse
  rw [reuseBrowserResult_idem]

/-- C14: for every suite `N` of the target with a `browsers` list and each of its
browsers `b`, the suite `N'` at the same position after `applyReuse` has the same path
and as many browsers; the browser `b'` at the position of `b` keeps the name, and if the
source forest has, at the node that `findNode` reaches by the path of `N`, a browser
named as `b`, then `b'` carries the `result`, the `retries` and the `state` of that
source browser where the source has them and keeps those of `b` where the source lacks
them. The match depends on the path and the browser name only. -/
theorem reused_browser_fields (S : List ReportSuite) (T N N' : ReportSuite)
    (h : (N, N') ∈ (subSuites T).zip (subSuites (applyReuse S T)))
    (bs : List BrowserEntry) (hbs : N.browsers = some bs) :
    N'.suitePath = N.suitePath ∧
    ∃ bs', N'.browsers = some bs' ∧ bs'.length = bs.length ∧
      ∀ b b', (b, b') ∈ bs.zip bs' →
        b'.name = b.name ∧
        ∀ src, getReuseBrowserResult S N.suitePath b.name = some src →
          (∀ r, src.result = some r → b'.result = some r) ∧
          (∀ r, src.retries = some r → b'.retries = some r) ∧
          (src.result = none → b'.result = b.result) ∧
          (src.retries = none → b'.retries = b.retries) ∧
          (∀ r, src.state = some r → b'.state = some r) ∧
          (src.state = none → b'.state = b.state) := by
  obtain ⟨g, hg⟩ := applyReuse_nodes S T N N' h
  rw [reportSuite_eta N] at hg
  obtain ⟨_, hp, hb, _, _⟩ := reuseBrowserResult_node S g N.name N.suitePath N.status
    N.children N.browsers
  rw [← hg] at hp hb
  rw [hbs] at hb
  simp only [Option.map_some'] at hb
  refine ⟨hp, _, hb, by simp, ?_⟩
  intro b b' hz
  obtain ⟨_, hb'⟩ := mem_zip_map_self _ bs b b' hz
  subst hb'
  refine ⟨extendBrowser_name S N.suitePath b, ?_⟩
  intro src hsrc
  rw [hsrc]
  unfold extendBrowser extendField
  simp only
  refine ⟨fun r hr => by rw [hr], fun r hr => by rw [hr], fun hr => by rw [hr],
    fun hr => by rw [hr], fun r hr => by rw [hr], fun hr => by rw [hr]⟩

/-- C15: a suite of the target without a `children` list none of whose browsers has a
match in the source is left exactly as it was, status and browser entries; and a browser
without a match is left unchanged also when another browser of the same suite is
matched. -/
theorem unmatched_leaf_unchanged (S : List ReportSuite) (T N N' : ReportSuite)
    (h : (N, N') ∈ (subSuites T).zip (subSuites (applyReuse S T))) :
    (N.children = none →
      (∀ b ∈ N.browsers.getD [], getReuseBrowserResult S N.suitePath b.name = none) →
      N' = N) ∧
    (∀ bs bs', N.browsers = some bs → N'.browsers = some bs' →
      ∀ b b', (b, b') ∈ bs.zip bs' →
        getReuseBrowserResult S N.suitePath b.name = none → b' = b) := by
  obtain ⟨g, hg⟩ := applyReuse_nodes S T N N' h
  rw [reportSuite_eta N] at hg
  obtain ⟨hn, hp, hb, hc, hs⟩ := reuseBrowserResult_node S g N.name N.suitePath N.status
    N.children N.browsers
  rw [← hg] at hn hp hb hc hs
  refine ⟨?_, ?_⟩
  · intro hch hno
    have hb2 : N'.browsers = N.browsers := by
      rw [hb]
      cases hbs : N.browsers with
      | none => rfl
      | some l =>
        simp only [Option.map_some', Option.some.injEq]
        rw [hbs] at hno
        simp only [Option.getD_some] at hno
        conv => rhs; rw [← List.map_id l]
        apply List.map_congr_left
        intro b hbm
        rw [hno b hbm]
        rfl
    have hc2 : N'.children = N.children := by rw [hc, hch]; rfl
    have hs2 : N'.status = N.status := by
      rw [hs, hch]
      have : (N.browsers.getD []).any (hasReuseResult S N.suitePath) = false := by
        rw [List.any_eq_false]
        intro b hbm
        unfold hasReuseResult
        rw [hno b hbm]
        simp
      simp [this]
    rw [reportSuite_eta N', reportSuite_eta N, hn, hp, hs2, hc2, hb2]
  · intro bs bs' hbs hbs' b b' hz hno
    rw [hbs, hbs'] at hb
    simp only [Option.map_some', Option.some.injEq] at hb
    rw [hb] at hz
    obtain ⟨_, hb'⟩ := mem_zip_map_self _ bs b b' hz
    rw [hb', hno]
    rfl

/-- C17, as amended: after `applyReuse` the status of a target suite is either its
status before or the value of `getReuseStatus` for its path, which is the status of the
source node that `findNode` reaches by that path when this node has a status, and the
suite's own status otherwise; it is the value of `getReuseStatus` whenever a browser of
the suite itself is matched, and the status before whenever the suite has no `children`
list and none of its browsers is matched. No status is aggregated from the merged
results. -/
theorem reuse_status_from_source (S : List ReportSuite) (T N N' : ReportSuite)
    (h : (N, N') ∈ (subSuites T).zip (subSuites (applyReuse S T))) :
    (N'.status = N.status ∨ N'.status = getReuseStatus S N.suitePath N.status) ∧
    ((∃ b ∈ N.browsers.getD [], hasReuseResult S N.suitePath b = true) →
      N'.status = getReuseStatus S N.suitePath N.status) ∧
    (N.children = none →
      (∀ b ∈ N.browsers.getD [], hasReuseResult S N.suitePath b = false) →
      N'.status = N.status) ∧
    (∀ node s, findNode S N.suitePath = some node → node.status = some s →
      getReuseStatus S N.suitePath N.status = some s) ∧
    ((∀ node, findNode S N.suitePath = some node → node.status = none) →
      getReuseStatus S N.suitePath N.status = N.status) := by
  obtain ⟨g, hg⟩ := applyReuse_nodes S T N N' h
  rw [reportSuite_eta N] at hg
  obtain ⟨_, _, _, _, hs⟩ := reuseBrowserResult_node S g N.name N.suitePath N.status
    N.children N.browsers
  rw [← hg] at hs
  refine ⟨?_, ?_, ?_, ?_, ?_⟩
  · rw [hs]
    by_cases hc : (N.browsers.getD []).any (hasReuseResult S N.suitePath) = true
        ∨ (N.children.map (fun cs => (reuseChildren S g cs).2)).getD false = true
    · right; rw [if_pos hc]
    · left; rw [if_neg hc]
  · rintro ⟨b, hb, hm⟩
    rw [hs, if_pos]
    left
    rw [List.any_eq_true]
    exact ⟨b, hb, hm⟩
  · intro hch hno
    rw [hs, hch, if_neg]
    intro hc
    rcases hc with hc | hc
    · rw [List.any_eq_true] at hc
      obtain ⟨b, hb, hm⟩ := hc
      rw [hno b hb] at hm
      cases hm
    · simp at hc
  · intro node s hf hst
    unfold getReuseStatus
    rw [hf]
    simp only
    rw [hst]
  · intro hnone
    unfold getReuseStatus
    cases hf : findNode S N.suitePath with
    | none => rfl
    | some node =>
      simp only
      rw [hnone node hf]

/-- C18: when there is nothing to reuse, `_applyReuseData` returns the target suites
unchanged: when no database exists, and when the loaded data has no suites or an empty
suites list; when the target suites are absent it returns the empty object. The function
is total. -/
theorem applyReuseData_nothing_to_reuse (ts : List ReportSuite) (dbData : Option ReuseData)
    (d : ReuseData) :
    ((applyReuseData none dbData).suites = none ∧
      (applyReuseData none dbData).browsers = none) ∧
    (applyReuseData (some ts) none).suites = some ts ∧
    (isEmptySuites (loadReuseData dbData).suites = true →
      (applyReuseData (some ts) dbData).suites = some ts) ∧
    ((d.suites = none ∨ d.suites = some []) →
      (applyReuseData (some ts) (some d)).suites = some ts) := by
  refine ⟨⟨rfl, rfl⟩, rfl, ?_, ?_⟩
  · intro he
    unfold applyReuseData
    simp [he]
  · intro hd
    unfold applyReuseData loadReuseData
    rcases hd with hd | hd <;> simp [hd, isEmptySuites]

theorem reused_browser_fields_witness :
    (applyReuse
        [.mk "s" ["s"] (some StatusKind.FAIL) none
          (some [⟨"b1", some ⟨StatusKind.SUCCESS, 1, none⟩, some [⟨StatusKind.FAIL, 0, none⟩], none⟩])]
        (.mk "s" ["s"] (some StatusKind.IDLE) none
          (some [⟨"b1", some ⟨StatusKind.IDLE, 0, none⟩, none, none⟩,
                 ⟨"b2", some ⟨StatusKind.IDLE, 0, none⟩, none, none⟩]))).suitePath
      = ReportSuite.suitePath (.mk "s" ["s"] (some StatusKind.IDLE) none
          (some [⟨"b1", some ⟨StatusKind.IDLE, 0, none⟩, none, none⟩,
                 ⟨"b2", some ⟨StatusKind.IDLE, 0, none⟩, none, none⟩])) ∧
    (applyReuse
        [.mk "s" ["s"] (some StatusKind.FAIL) none
          (some [⟨"b1", some ⟨StatusKind.SUCCESS, 1, none⟩, some [⟨StatusKind.FAIL, 0, none⟩], none⟩])]
        (.mk "s" ["s"] (some StatusKind.IDLE) none
          (some [⟨"b1", some ⟨StatusKind.IDLE, 0, none⟩, none, none⟩,
                 ⟨"b2", some ⟨StatusKind.IDLE, 0, none⟩, none, none⟩]))).browsers
      = some [⟨"b1", some ⟨StatusKind.SUCCESS, 1, none⟩, some [⟨StatusKind.FAIL, 0, none⟩], none⟩,
              ⟨"b2", some ⟨StatusKind.IDLE, 0, none⟩, none, none⟩] :=
  ⟨(reused_browser_fields
      [.mk "s" ["s"] (some StatusKind.FAIL) none
        (some [⟨"b1", some ⟨StatusKind.SUCCESS, 1, none⟩, some [⟨StatusKind.FAIL, 0, none⟩], none⟩])]
      (.mk "s" ["s"] (some StatusKind.IDLE) none
        (some [⟨"b1", some ⟨StatusKind.IDLE, 0, none⟩, none, none⟩,
               ⟨"b2", some ⟨StatusKind.IDLE, 0, none⟩, none, none⟩]))
      (.mk "s" ["s"] (some StatusKind.IDLE) none
        (some [⟨"b1", some ⟨StatusKind.IDLE, 0, none⟩, none, none⟩,
               ⟨"b2", some ⟨StatusKind.IDLE, 0, none⟩, none, none⟩]))
      _ (List.Mem.head _)
      [⟨"b1", some ⟨StatusKind.IDLE, 0, none⟩, none, none⟩, ⟨"b2", some ⟨StatusKind.IDLE, 0, none⟩, none, none⟩]
      rfl).1,
   by decide⟩

theorem unmatched_leaf_unchanged_witness :
    applyReuse
        [.mk "s" ["s"] (some StatusKind.FAIL) none
          (some [⟨"b1", some ⟨StatusKind.SUCCESS, 1, none⟩, some [⟨StatusKind.FAIL, 0, none⟩], none⟩])]
        (.mk "s" ["s"] (some StatusKind.IDLE) none
          (some [⟨"b2", some ⟨StatusKind.IDLE, 0, none⟩, none, none⟩]))
      = .mk "s" ["s"] (some StatusKind.IDLE) none
          (some [⟨"b2", some ⟨StatusKind.IDLE, 0, none⟩, none, none⟩]) :=
  (unmatched_leaf_unchanged
      [.mk "s" ["s"] (some StatusKind.FAIL) none
        (some [⟨"b1", some ⟨StatusKind.SUCCESS, 1, none⟩, some [⟨StatusKind.FAIL, 0, none⟩], none⟩])]
      (.mk "s" ["s"] (some StatusKind.IDLE) none
        (some [⟨"b2", some ⟨StatusKind.IDLE, 0, none⟩, none, none⟩]))
      (.mk "s" ["s"] (some StatusKind.IDLE) none
        (some [⟨"b2", some ⟨StatusKind.IDLE, 0, none⟩, none, none⟩]))
      _ (List.Mem.head _)).1 rfl (by decide)

theorem reuse_status_from_source_witness :
    (applyReuse
        [.mk "s" ["s"] (some StatusKind.FAIL) none
          (some [⟨"b1", some ⟨StatusKind.FAIL, 0, none⟩, some [], none⟩,
                 ⟨"b2", some ⟨StatusKind.SUCCESS, 0, none⟩, some [], none⟩])]
        (.mk "s" ["s"] (some StatusKind.IDLE) none
          (some [⟨"b2", some ⟨StatusKind.IDLE, 0, none⟩, none, none⟩]))).status
      = getReuseStatus
          [.mk "s" ["s"] (some StatusKind.FAIL) none
            (some [⟨"b1", some ⟨StatusKind.FAIL, 0, none⟩, some [], none⟩,
                   ⟨"b2", some ⟨StatusKind.SUCCESS, 0, none⟩, some [], none⟩])]
          ["s"] (some StatusKind.IDLE) :=
  (reuse_status_from_source
      [.mk "s" ["s"] (some StatusKind.FAIL) none
        (some [⟨"b1", some ⟨StatusKind.FAIL, 0, none⟩, some [], none⟩,
               ⟨"b2", some ⟨StatusKind.SUCCESS, 0, none⟩, some [], none⟩])]
      (.mk "s" ["s"] (some StatusKind.IDLE) none
        (some [⟨"b2", some ⟨StatusKind.IDLE, 0, none⟩, none, none⟩]))
      (.mk "s" ["s"] (some StatusKind.IDLE) none
        (some [⟨"b2", some ⟨StatusKind.IDLE, 0, none⟩, none, none⟩]))
      _ (List.Mem.head _)).2.1
    ⟨⟨"b2", some ⟨StatusKind.IDLE, 0, none⟩, none, none⟩, List.Mem.head _, by decide⟩

/-- C17, counterexample: the source suite `s` has the status FAIL and the browsers `b1`
(FAIL) and `b2` (SUCCESS); the target suite `s` has the browser `b2` only. After
`applyReuse` the only browser of the target suite has a result of status SUCCESS, so the
aggregation over the latest results of its own browsers is SUCCESS, but the status of the
suite is the FAIL copied from the source. -/
theorem reuse_status_not_aggregated_counterexample :
    (applyReuse
        [.mk "s" ["s"] (some StatusKind.FAIL) none
          (some [⟨"b1", some ⟨StatusKind.FAIL, 0, none⟩, some [], none⟩,
                 ⟨"b2", some ⟨StatusKind.SUCCESS, 0, none⟩, some [], none⟩])]
        (.mk "s" ["s"] (some StatusKind.IDLE) none
          (some [⟨"b2", some ⟨StatusKind.IDLE, 0, none⟩, none, none⟩]))).status
      = some StatusKind.FAIL ∧
    ((applyReuse
        [.mk "s" ["s"] (some StatusKind.FAIL) none
          (some [⟨"b1", some ⟨StatusKind.FAIL, 0, none⟩, some [], none⟩,
                 ⟨"b2", some ⟨StatusKind.SUCCESS, 0, none⟩, some [], none⟩])]
        (.mk "s" ["s"] (some StatusKind.IDLE) none
          (some [⟨"b2", some ⟨StatusKind.IDLE, 0, none⟩, none, none⟩]))).browsers.getD []).filterMap
        (fun b => b.result.map (fun r => r.status))
      = [StatusKind.SUCCESS] ∧
    reduceStatuses [StatusKind.SUCCESS] = StatusKind.SUCCESS ∧
    some (reduceStatuses [StatusKind.SUCCESS]) ≠ some StatusKind.FAIL := by
  decide

/-- C16, at the failing input: the source has, under the root `r`, the leaf `a` with
browser `b1` and the suite `b` (status FAIL) whose child `c` has browser `b2` only; the
target has the same suites, all with status IDLE, and browser `b1` in both leaves. Only
the browser of `a` is matched. The suite `b` has children and no matched browser in its
subtree, yet its status after `applyReuse` is FAIL: the flag set in the branch `a` is
still set when `b` is visited. -/
theorem reuse_flag_leaks_to_sibling :
    (subSuites (applyReuse
        [.mk "r" ["r"] (some StatusKind.FAIL)
          (some [.mk "a" ["r", "a"] (some StatusKind.SUCCESS) none
                   (some [⟨"b1", some ⟨StatusKind.SUCCESS, 0, none⟩, some [], none⟩]),
                 .mk "b" ["r", "b"] (some StatusKind.FAIL)
                   (some [.mk "c" ["r", "b", "c"] (some StatusKind.FAIL) none
                     (some [⟨"b2", some ⟨StatusKind.FAIL, 0, none⟩, some [], none⟩])]) none]) none]
        (.mk "r" ["r"] (some StatusKind.IDLE)
          (some [.mk "a" ["r", "a"] (some StatusKind.IDLE) none
                   (some [⟨"b1", some ⟨StatusKind.IDLE, 0, none⟩, some [], none⟩]),
                 .mk "b" ["r", "b"] (some StatusKind.IDLE)
                   (some [.mk "c" ["r", "b", "c"] (some StatusKind.IDLE) none
                     (some [⟨"b1", some ⟨StatusKind.IDLE, 0, none⟩, some [], none⟩])]) none]) none))).map
        (fun s => (s.suitePath, s.status, s.browsers))
      = [(["r"], some StatusKind.FAIL, none),
         (["r", "a"], some StatusKind.SUCCESS,
            some [⟨"b1", some ⟨StatusKind.SUCCESS, 0, none⟩, some [], none⟩]),
         (["r", "b"], some StatusKind.FAIL, none),
         (["r", "b", "c"], some StatusKind.IDLE,
            some [⟨"b1", some ⟨StatusKind.IDLE, 0, none⟩, some [], none⟩])] ∧
    getReuseBrowserResult
        [.mk "r" ["r"] (some StatusKind.FAIL)
          (some [.mk "a" ["r", "a"] (some StatusKind.SUCCESS) none
                   (some [⟨"b1", some ⟨StatusKind.SUCCESS, 0, none⟩, some [], none⟩]),
                 .mk "b" ["r", "b"] (some StatusKind.FAIL)
                   (some [.mk "c" ["r", "b", "c"] (some StatusKind.FAIL) none
                     (some [⟨"b2", some ⟨StatusKind.FAIL, 0, none⟩, some [], none⟩])]) none]) none]
        ["r", "b", "c"] "b1" = none := by
  decide

/-! ## The id lists of `formatSuitesData` and `formatSuitesData2` -/

theorem preparedSuites_isSome_of_forall (items : List FlatItem)
    (h : ∀ i ∈ items, ∃ s, i = FlatItem.suite s) : (preparedSuites items).isSome = true := by
  induction items with
  | nil => rfl
  | cons i rest ih =>
    obtain ⟨s, rfl⟩ := h i (List.mem_cons_self _ _)
    have hr := ih (fun j hj => h j (List.mem_cons_of_mem _ hj))
    obtain ⟨ps, hps⟩ := Option.isSome_iff_exists.mp hr
    simp [preparedSuites, prepareSuite, hps]

theorem flatSuitesChildren_suites (cs : List ReportSuite)
    (h : ∀ c ∈ cs, c.children = none) :
    ∀ i ∈ flatSuitesChildren cs, ∃ s, i = FlatItem.suite s := by
  induction cs with
  | nil => intro i hi; simp [flatSuitesChildren] at hi
  | cons c rest ih =>
    intro i hi
    simp only [flatSuitesChildren, List.mem_cons] at hi
    rcases hi with rfl | hi
    · have hc := h c (List.mem_cons_self _ _)
      cases c with
      | mk n p st ch bs =>
        simp only [ReportSuite.children] at hc
        subst hc
        exact ⟨.mk n p st none bs, by simp [flatSuites]⟩
    · exact ih (fun c hc => h c (List.mem_cons_of_mem _ hc)) i hi

theorem flattenSuites_suites (suites : List ReportSuite)
    (h : ∀ s ∈ suites, ∀ c ∈ s.children.getD [], c.children = none) :
    ∀ i ∈ flattenSuites suites, ∃ s, i = FlatItem.suite s := by
  intro i hi
  simp only [flattenSuites, List.mem_flatMap] at hi
  obtain ⟨s, hs, hi⟩ := hi
  have hch := h s hs
  cases s with
  | mk n p st ch bs =>
    cases ch with
    | none =>
      simp only [flatSuites, List.mem_singleton] at hi
      exact ⟨_, hi⟩
    | some cs =>
      simp only [flatSuites, List.mem_cons] at hi
      rcases hi with rfl | hi
      · exact ⟨_, rfl⟩
      · exact flatSuitesChildren_suites cs (by simpa [ReportSuite.children] using hch) i hi

theorem filter_mem_map_of_nodup {α : Type} (f : α → String) (F : α → Bool) (ps qs : List α)
    (hq : ∀ p ∈ qs, p ∈ ps)
    (hinj : ∀ p ∈ ps, ∀ q ∈ ps, f p = f q → p = q) :
    qs.filter (fun p => decide (f p ∈ (ps.filter F).map f)) = qs.filter F := by
  apply List.filter_congr
  intro p hp
  have hpp := hq p hp
  by_cases hF : F p = true
  · simp only [hF, decide_eq_true_eq, List.mem_map, List.mem_filter]
    exact ⟨p, ⟨hpp, hF⟩, rfl⟩
  · have hF' : F p = false := by simpa using hF
    simp only [hF', decide_eq_false_iff_not, List.mem_map, List.mem_filter, not_exists, not_and,
      and_imp]
    intro q hq hFq hfq
    have := hinj q hq p hpp hfq
    subst this
    simp [hF'] at hFq

/-- C19 (amended): `formatSuitesData` yields `suiteIds.failed` as an order-preserving
sub-list of `suiteIds.all`; `formatSuitesData2` returns for suites whose children have no
`children` list, and whenever it returns, `failedIds` and `allRootIds` are order-preserving
sub-lists of `allIds`, `failedRootIds` is an order-preserving sub-list of `allRootIds` and
of `failedIds`, and when the ids of `allIds` are pairwise distinct `failedRootIds` is equal
to the ids of `allRootIds` that are in `failedIds`. -/
theorem failed_ids_sublists (isSuiteFailed : ReportSuite → Bool)
    (isFailed2 : PreparedSuite → Bool) (suites : List ReportSuite) :
    (formatSuitesData isSuiteFailed suites).suiteIds.failed.Sublist
      (formatSuitesData isSuiteFailed suites).suiteIds.all ∧
    ((∀ s ∈ suites, ∀ c ∈ s.children.getD [], c.children = none) →
      (formatSuitesData2 isFailed2 suites).isSome = true) ∧
    ∀ r, formatSuitesData2 isFailed2 suites = some r →
      r.failedIds.Sublist r.allIds ∧ r.allRootIds.Sublist r.allIds ∧
      r.failedRootIds.Sublist r.allRootIds ∧ r.failedRootIds.Sublist r.failedIds ∧
      (r.allIds.Nodup →
        r.failedRootIds = r.allRootIds.filter (fun id => decide (id ∈ r.failedIds))) := by
  refine ⟨?_, ?_, ?_⟩
  · simp only [formatSuitesData, getFailedSuiteIds, getSuiteIds]
    exact List.Sublist.map _ (List.filter_sublist _)
  · intro h
    have := preparedSuites_isSome_of_forall _ (flattenSuites_suites suites h)
    simpa [formatSuitesData2] using this
  · intro r hr
    simp only [formatSuitesData2, Option.map_eq_some'] at hr
    obtain ⟨ps, -, rfl⟩ := hr
    refine ⟨List.Sublist.map _ (List.filter_sublist _), List.Sublist.map _ (List.filter_sublist _),
      ?_, ?_, ?_⟩
    · apply List.Sublist.map
      have : ps.filter (fun s => s.root && isFailed2 s)
          = (ps.filter (fun s => s.root)).filter (fun s => isFailed2 s) := by
        rw [List.filter_filter]
        apply List.filter_congr
        intro x _
        exact Bool.and_comm _ _
      rw [this]
      exact List.filter_sublist _
    · apply List.Sublist.map
      have : ps.filter (fun s => s.root && isFailed2 s)
          = (ps.filter (fun s => isFailed2 s)).filter (fun s => s.root) := by
        rw [List.filter_filter]
      rw [this]
      exact List.filter_sublist _
    · intro hnd
      simp only at hnd ⊢
      have hinj : ∀ p ∈ ps, ∀ q ∈ ps, p.id = q.id → p = q :=
        fun p hp q hq h => List.inj_on_of_nodup_map hnd hp hq h
      rw [List.filter_map]
      congr 1
      have h1 := filter_mem_map_of_nodup (fun s : PreparedSuite => s.id)
        (fun s => isFailed2 s) ps (ps.filter (fun s => s.root))
        (fun p hp => (List.mem_filter.mp hp).1) hinj
      have h2 : ps.filter (fun s => s.root && isFailed2 s)
          = (ps.filter (fun s => s.root)).filter (fun s => isFailed2 s) := by
        rw [List.filter_filter]
        apply List.filter_congr
        intro x _
        exact Bool.and_comm _ _
      rw [h2, ← h1]
      rfl

/-- Witness for C19: a root suite with one failed child. -/
theorem failed_ids_sublists_witness :
    (formatSuitesData2 (fun p => decide (p.status = some StatusKind.FAIL))
        [ReportSuite.mk "a" ["a"] (some StatusKind.FAIL)
          (some [ReportSuite.mk "b" ["a", "b"] (some StatusKind.FAIL) none none]) none]).isSome
      = true :=
  (failed_ids_sublists (fun _ => false)
    (fun p => decide (p.status = some StatusKind.FAIL))
    [ReportSuite.mk "a" ["a"] (some StatusKind.FAIL)
      (some [ReportSuite.mk "b" ["a", "b"] (some StatusKind.FAIL) none none]) none]).2.1
    (by
      intro s hs c hc
      simp only [List.mem_singleton] at hs
      subst hs
      simp only [ReportSuite.children, Option.getD_some, List.mem_singleton] at hc
      subst hc
      rfl)

/-- Counterexample for C19: a root suite named `a b` that is not failed and a failed suite
`b` below the root `a` have the same id `a b`; the id is in `allRootIds` and in `failedIds`
but `failedRootIds` is empty. -/
theorem failed_root_ids_counterexample :
    (formatSuitesData2 (fun p => decide (p.status = some StatusKind.FAIL))
        [ReportSuite.mk "a b" ["a b"] (some StatusKind.SUCCESS) none none,
         ReportSuite.mk "a" ["a"] (some StatusKind.SUCCESS)
          (some [ReportSuite.mk "b" ["a", "b"] (some StatusKind.FAIL) none none]) none]).map
      (fun r => (r.allRootIds, r.failedIds, r.failedRootIds))
      = some (["a b", "a"], ["a b"], []) := by
  decide

/-! ## The reducer and the list of failed suites -/

theorem modifyFirst_of_find_none (p : ReportSuite → Bool) (f : ReportSuite → Option ReportSuite)
    (l : List ReportSuite) (h : l.find? p = none) : modifyFirst p f l = some l := by
  induction l with
  | nil => rfl
  | cons x xs ih =>
    rw [List.find?_cons] at h
    cases hp : p x with
    | true => simp [hp] at h
    | false =>
      simp only [hp] at h
      simp [modifyFirst, hp, ih h]

theorem modifyFirst_isSome (p : ReportSuite → Bool) (f : ReportSuite → Option ReportSuite)
    (l : List ReportSuite) (h : ∀ x, l.find? p = some x → (f x).isSome = true) :
    (modifyFirst p f l).isSome = true := by
  induction l with
  | nil => rfl
  | cons x xs ih =>
    rw [List.find?_cons] at h
    cases hp : p x with
    | true =>
      simp only [hp] at h
      have := h x rfl
      simp [modifyFirst, hp, this]
    | false =>
      simp only [hp] at h
      have := ih h
      simp [modifyFirst, hp, this]

/-- Where `findNode` finds nothing, `modifyNode` changes nothing. -/
theorem modifyNode_of_findNode_none (f : ReportSuite → Option ReportSuite) :
    ∀ (path : List String) (forest : List ReportSuite),
      path ≠ [] → findNode forest path = none → modifyNode f path forest = some forest
  | [], _, h, _ => absurd rfl h
  | [n], forest, _, h => by
    simp only [findNode] at h
    simp only [modifyNode]
    exact modifyFirst_of_find_none _ _ _ h
  | n :: m :: rest, forest, _, h => by
    simp only [modifyNode]
    induction forest with
    | nil => rfl
    | cons x xs ih =>
      simp only [findNode, List.find?_cons] at h
      cases hp : decide (x.name = n) with
      | true =>
        simp only [hp] at h
        cases x with
        | mk nm p st ch bs =>
          cases ch with
          | none => simp [modifyFirst, hp]
          | some cs =>
            simp only [ReportSuite.children, Option.getD_some] at h
            have := modifyNode_of_findNode_none f (m :: rest) cs (by simp) h
            simp [modifyFirst, hp, this]
      | false =>
        simp only [hp] at h
        have h2 : findNode xs (n :: m :: rest) = none := by
          simp only [findNode]
          exact h
        have := ih h2
        simp [modifyFirst, hp, this]

/-- The update `modifyNode` returns whenever `f` returns on the node `findNode` finds. -/
theorem modifyNode_isSome (f : ReportSuite → Option ReportSuite) :
    ∀ (path : List String) (forest : List ReportSuite),
      (∀ t, findNode forest path = some t → (f t).isSome = true) →
      (modifyNode f path forest).isSome = true
  | [], _, _ => rfl
  | [n], forest, h => by
    simp only [findNode] at h
    simp only [modifyNode]
    exact modifyFirst_isSome _ _ _ h
  | n :: m :: rest, forest, h => by
    simp only [modifyNode]
    apply modifyFirst_isSome
    intro x hx
    simp only [findNode, hx] at h
    cases x with
    | mk nm p st ch bs =>
      cases ch with
      | none => rfl
      | some cs =>
        simp only [ReportSuite.children, Option.getD_some] at h
        have := modifyNode_isSome f (m :: rest) cs h
        obtain ⟨v, hv⟩ := Option.isSome_iff_exists.mp this
        simp [hv]

theorem addTestResult_failed (isSuiteFailed : ReportSuite → Bool)
    (setStatusForBranchUtil : Dict ReportSuite → List String → Dict ReportSuite)
    (groupErrors : GroupErrorsArgs → List ErrorGroup)
    (state state1 : State) (payload : List ResultPayload)
    (h : Reporter.addTestResult isSuiteFailed setStatusForBranchUtil groupErrors state payload
      = some state1) :
    state1.suiteIds.failed = getFailedSuiteIds isSuiteFailed (Dict.values state1.suites) ∧
    state1.suiteIds.all = state.suiteIds.all := by
  simp only [Reporter.addTestResult, Option.map_eq_some'] at h
  obtain ⟨suites, -, rfl⟩ := h
  exact ⟨rfl, rfl⟩

/-- C20 (amended): the state the reducer returns for `TEST_RESULT` and `UPDATE_RESULT` has
`suiteIds.failed` equal to the ids of the returned root suites `isSuiteFailed` holds of, so a
root suite id is in it if and only if `isSuiteFailed` holds of a returned root suite with
that id; the state returned for `RUN_ALL_TESTS`, `SUITE_BEGIN` and `TEST_BEGIN` has the
`suiteIds` of the state before. The reducer returns for a result whose test has a list of
browsers. -/
theorem reducer_failed_list (isSuiteFailed : ReportSuite → Bool)
    (setStatusForBranchUtil : Dict ReportSuite → List String → Dict ReportSuite)
    (setStatusToAll : ReportSuite → StatusKind → ReportSuite)
    (groupErrors : GroupErrorsArgs → List ErrorGroup)
    (state state1 : State) (action : Action)
    (h : Reporter.reducer isSuiteFailed setStatusForBranchUtil setStatusToAll groupErrors state
      action = some state1) :
    ((∃ payload, action = .TEST_RESULT payload ∨ action = .UPDATE_RESULT payload) →
      state1.suiteIds.failed = getFailedSuiteIds isSuiteFailed (Dict.values state1.suites) ∧
      ∀ id, id ∈ state1.suiteIds.failed ↔
        ∃ suite ∈ Dict.values state1.suites, isSuiteFailed suite = true ∧ getSuiteId suite = id) ∧
    ((¬ ∃ payload, action = .TEST_RESULT payload ∨ action = .UPDATE_RESULT payload) →
      state1.suiteIds = state.suiteIds) ∧
    (∀ item : ResultPayload,
      (∀ t, findNode (Dict.values state.suites) item.suitePath = some t → t.browsers ≠ none) →
      (Reporter.reducer isSuiteFailed setStatusForBranchUtil setStatusToAll groupErrors state
        (.TEST_RESULT [item])).isSome = true) := by
  refine ⟨?_, ?_, ?_⟩
  · rintro ⟨payload, rfl | rfl⟩
    all_goals
      simp only [Reporter.reducer] at h
      have hf := (addTestResult_failed _ _ _ _ _ _ h).1
      refine ⟨hf, fun id => ?_⟩
      rw [hf]
      simp only [getFailedSuiteIds, getSuiteIds, List.mem_map, List.mem_filter]
      constructor
      · rintro ⟨s, ⟨hs, hF⟩, rfl⟩
        exact ⟨s, hs, hF, rfl⟩
      · rintro ⟨s, hs, hF, rfl⟩
        exact ⟨s, ⟨hs, hF⟩, rfl⟩
  · intro hn
    cases action with
    | RUN_ALL_TESTS status =>
      simp only [Reporter.reducer, Option.some.injEq] at h
      subst h
      rfl
    | SUITE_BEGIN suitePath status =>
      simp only [Reporter.reducer, Option.map_eq_some'] at h
      obtain ⟨vs, -, rfl⟩ := h
      rfl
    | TEST_BEGIN suitePath status browserId =>
      simp only [Reporter.reducer, Option.map_eq_some'] at h
      obtain ⟨vs, -, rfl⟩ := h
      rfl
    | TEST_RESULT payload => exact absurd ⟨payload, Or.inl rfl⟩ hn
    | UPDATE_RESULT payload => exact absurd ⟨payload, Or.inr rfl⟩ hn
  · intro item hb
    simp only [Reporter.reducer, Reporter.addTestResult, Option.isSome_map', addTestResultLoop]
    cases hfind : findNode (Dict.values state.suites) item.suitePath with
    | none => simp [addTestResultStep, hfind]
    | some t =>
      have hm := modifyNode_isSome (assignBrowserResult item.browserResult item.browserId)
        item.suitePath (Dict.values state.suites) (by
          intro t1 ht1
          have := hb t1 ht1
          cases t1 with
          | mk n p st ch bs =>
            cases bs with
            | none => exact absurd rfl this
            | some bs => rfl)
      obtain ⟨vs, hvs⟩ := Option.isSome_iff_exists.mp hm
      simp [addTestResultStep, hfind, hvs]

/-- Witness for C20: a test result that fails arrives for the root suite `s`, and the
returned list of failed suites holds its id. -/
theorem reducer_failed_list_witness :
    ({ running := false, processing := false,
       suites := [("s", ReportSuite.mk "s" ["s"] (some StatusKind.FAIL) none
         (some [{ name := "bro", result := some { status := StatusKind.FAIL, attempt := 1 },
                  retries := none }]))],
       suiteIds := { all := [some "s"], failed := [some "s"] } } : State).suiteIds.failed
      = getFailedSuiteIds (fun s => decide (s.status = some StatusKind.FAIL))
          (Dict.values [("s", ReportSuite.mk "s" ["s"] (some StatusKind.FAIL) none
            (some [{ name := "bro", result := some { status := StatusKind.FAIL, attempt := 1 },
                     retries := none }]))]) :=
  ((reducer_failed_list (fun s => decide (s.status = some StatusKind.FAIL))
    (fun d _ => d.map (fun (kv : String × ReportSuite) =>
      (kv.1, ReportSuite.setStatus StatusKind.FAIL kv.2)))
    (fun s st => ReportSuite.setStatus st s)
    (fun _ => [])
    { running := false, processing := false,
      suites := [("s", ReportSuite.mk "s" ["s"] (some StatusKind.IDLE) none
        (some [{ name := "bro", result := some { status := StatusKind.IDLE, attempt := 0 },
                 retries := none }]))],
      suiteIds := { all := [some "s"], failed := [] } }
    { running := false, processing := false,
      suites := [("s", ReportSuite.mk "s" ["s"] (some StatusKind.FAIL) none
        (some [{ name := "bro", result := some { status := StatusKind.FAIL, attempt := 1 },
                 retries := none }]))],
      suiteIds := { all := [some "s"], failed := [some "s"] } }
    (.TEST_RESULT [ResultPayload.mk ["s"]
      (some (BrowserEntry.mk "bro" (some (AttemptResult.mk StatusKind.FAIL 1 none)) none none)) "bro"])
    rfl).1 ⟨_, Or.inl rfl⟩).1

/-- Counterexample for C20: in a state whose list of failed suites holds exactly the id of
the failed root suite `s`, the action `TEST_BEGIN` sets the status of `s` and of the result
of its browser to idle; `isSuiteFailed` (here: the status of the suite is the failing one)
no longer holds of `s`, and the returned list of failed suites still holds its id. -/
theorem test_begin_stale_failed_counterexample :
    ([some "s"] : List (Option String))
      = getFailedSuiteIds (fun s => decide (s.status = some StatusKind.FAIL))
          (Dict.values [("s", ReportSuite.mk "s" ["s"] (some StatusKind.FAIL) none
            (some [{ name := "bro", result := some { status := StatusKind.FAIL, attempt := 0 },
                     retries := none }]))]) ∧
    (Reporter.reducer (fun s => decide (s.status = some StatusKind.FAIL))
        (fun d _ => d) (fun s st => ReportSuite.setStatus st s) (fun _ => [])
        { running := true, processing := true,
          suites := [("s", ReportSuite.mk "s" ["s"] (some StatusKind.FAIL) none
            (some [{ name := "bro", result := some { status := StatusKind.FAIL, attempt := 0 },
                     retries := none }]))],
          suiteIds := { all := [some "s"], failed := [some "s"] } }
        (.TEST_BEGIN ["s"] StatusKind.IDLE "bro")).map
      (fun state1 =>
        (state1.suiteIds.failed,
         (Dict.values state1.suites).map
           (fun s => (s.status, s.browsers, decide (s.status = some StatusKind.FAIL)))))
      = some ([some "s"],
          [(some StatusKind.IDLE,
            some [{ name := "bro", result := some { status := StatusKind.IDLE, attempt := 0 },
                    retries := none }],
            false)]) :=
  ⟨rfl, rfl⟩

/-! ## The tree of the database: structure lemmas -/

theorem mem_dbSubSuitesList (m : DbSuite) (cs : List DbSuite) :
    m ∈ dbSubSuitesList cs ↔ ∃ c ∈ cs, m ∈ dbSubSuites c := by
  induction cs with
  | nil => simp [dbSubSuitesList]
  | cons c cs ih => simp [dbSubSuitesList, ih]

theorem mem_dbSubSuites (m node : DbSuite) :
    m ∈ dbSubSuites node ↔ m = node ∨ ∃ c ∈ node.children.getD [], m ∈ dbSubSuites c := by
  cases node with
  | mk n p st ch bs =>
    cases ch with
    | none => simp [dbSubSuites, dbSubSuitesOpt, DbSuite.children]
    | some cs =>
      simp [dbSubSuites, dbSubSuitesOpt, DbSuite.children, mem_dbSubSuitesList]

theorem dbSubSuites_self (node : DbSuite) : node ∈ dbSubSuites node :=
  (mem_dbSubSuites node node).2 (Or.inl rfl)

theorem mem_dbNodes (m : DbSuite) (suitesTree : Dict DbSuite) :
    m ∈ dbNodes suitesTree ↔ ∃ root ∈ Dict.values suitesTree, m ∈ dbSubSuites root := by
  simp [dbNodes, mem_dbSubSuitesList]

theorem takeResult_name (b : DbBrowser) (node : DbSuite) :
    (node.takeResult b).name = node.name := by
  cases node; rfl

theorem takeResult_suitePath (b : DbBrowser) (node : DbSuite) :
    (node.takeResult b).suitePath = node.suitePath := by
  cases node; rfl

theorem takeResult_children (b : DbBrowser) (node : DbSuite) :
    (node.takeResult b).children = node.children := by
  cases node; rfl

theorem takeResult_browsers (b : DbBrowser) (node : DbSuite) :
    (node.takeResult b).browsers = some (pushBrowserResult b (node.browsers.getD [])) := by
  cases node; rfl

theorem populateSuitesTree_name (a : Attempt) (rest : List String) (node : DbSuite) :
    (populateSuitesTree a rest node).name = node.name := by
  cases rest with
  | nil => simp [populateSuitesTree, takeResult_name]
  | cons part rest =>
    cases node with
    | mk n p st ch bs =>
      simp only [populateSuitesTree]
      split
      · exact takeResult_name _ _
      · rfl

theorem populateSuitesTree_suitePath (a : Attempt) (rest : List String) (node : DbSuite) :
    (populateSuitesTree a rest node).suitePath = node.suitePath := by
  cases rest with
  | nil => simp [populateSuitesTree, takeResult_suitePath]
  | cons part rest =>
    cases node with
    | mk n p st ch bs =>
      simp only [populateSuitesTree]
      split
      · exact takeResult_suitePath _ _
      · rfl

theorem populateSuitesTree_leaf (a : Attempt) (rest : List String) (node : DbSuite)
    (h : rest = [] ∨ rest.head? = some "") :
    populateSuitesTree a rest node = node.takeResult a.browserResult := by
  cases rest with
  | nil => simp [populateSuitesTree]
  | cons part rest =>
    rcases h with h | h
    · cases h
    · simp only [List.head?_cons, Option.some.injEq] at h
      subst h
      cases node
      simp [populateSuitesTree]

theorem populateSuitesTree_inner (a : Attempt) (part : String) (rest : List String)
    (node : DbSuite) (h : part ≠ "") :
    (populateSuitesTree a (part :: rest) node).name = node.name ∧
    (populateSuitesTree a (part :: rest) node).suitePath = node.suitePath ∧
    (populateSuitesTree a (part :: rest) node).browsers = node.browsers ∧
    (populateSuitesTree a (part :: rest) node).children
      = some (populateChildren (fun child => populateSuitesTree a rest child) node.suitePath part
          (node.children.getD [])) := by
  cases node with
  | mk n p st ch bs =>
    simp only [populateSuitesTree, if_neg h]
    exact ⟨rfl, rfl, rfl, rfl⟩

theorem populateChildren_mem (f : DbSuite → DbSuite) (pp : List String) (part : String)
    (cs : List DbSuite) (c1 : DbSuite) (h : c1 ∈ populateChildren f pp part cs) :
    c1 ∈ cs ∨ (∃ c ∈ cs, c.name = part ∧ c1 = f c) ∨
      (c1 = f (newChild pp part) ∧ ∀ c ∈ cs, c.name ≠ part) := by
  induction cs with
  | nil =>
    simp only [populateChildren, List.mem_singleton] at h
    exact Or.inr (Or.inr ⟨h, by simp⟩)
  | cons c cs ih =>
    simp only [populateChildren] at h
    split at h
    · rename_i hc
      rcases List.mem_cons.mp h with h | h
      · exact Or.inr (Or.inl ⟨c, List.mem_cons_self _ _, hc, h⟩)
      · exact Or.inl (List.mem_cons_of_mem _ h)
    · rename_i hc
      rcases List.mem_cons.mp h with h | h
      · exact Or.inl (h ▸ List.mem_cons_self _ _)
      · rcases ih h with h1 | ⟨c2, hc2, hn, he⟩ | ⟨he, hall⟩
        · exact Or.inl (List.mem_cons_of_mem _ h1)
        · exact Or.inr (Or.inl ⟨c2, List.mem_cons_of_mem _ hc2, hn, he⟩)
        · refine Or.inr (Or.inr ⟨he, ?_⟩)
          intro c3 hc3
          rcases List.mem_cons.mp hc3 with h3 | h3
          · subst h3; exact hc
          · exact hall c3 h3

theorem populateChildren_names (f : DbSuite → DbSuite) (pp : List String) (part : String)
    (cs : List DbSuite) (hf : ∀ c, (f c).name = c.name) :
    (populateChildren f pp part cs).map DbSuite.name
      = if part ∈ cs.map DbSuite.name then cs.map DbSuite.name
        else cs.map DbSuite.name ++ [part] := by
  induction cs with
  | nil =>
    have : (newChild pp part).name = part := rfl
    simp [populateChildren, hf, this]
  | cons c cs ih =>
    simp only [populateChildren]
    split
    · rename_i hc
      simp [hf, hc]
    · rename_i hc
      have hne : ¬ part = c.name := fun h => hc h.symm
      simp only [List.map_cons, ih, List.mem_cons, hne, false_or]
      split <;> simp

theorem populateChildren_ne_nil (f : DbSuite → DbSuite) (pp : List String) (part : String)
    (cs : List DbSuite) : populateChildren f pp part cs ≠ [] := by
  cases cs with
  | nil => simp [populateChildren]
  | cons c cs =>
    simp only [populateChildren]
    split <;> simp

theorem pushBrowserResult_names (b : DbBrowser) (bs : List DbBrowser) :
    (pushBrowserResult b bs).map DbBrowser.name
      = if b.name ∈ bs.map DbBrowser.name then bs.map DbBrowser.name
        else bs.map DbBrowser.name ++ [b.name] := by
  induction bs with
  | nil => simp [pushBrowserResult]
  | cons x xs ih =>
    simp only [pushBrowserResult]
    split
    · rename_i hx
      simp [hx]
    · rename_i hx
      have hne : ¬ b.name = x.name := fun h => hx h.symm
      simp only [List.map_cons, ih, List.mem_cons, hne, false_or]
      split <;> simp

theorem pushBrowserResult_ne_nil (b : DbBrowser) (bs : List DbBrowser) :
    pushBrowserResult b bs ≠ [] := by
  cases bs with
  | nil => simp [pushBrowserResult]
  | cons x xs =>
    simp only [pushBrowserResult]
    split <;> simp

theorem nodup_names_step (names : List String) (x : String) (h : names.Nodup) :
    (if x ∈ names then names else names ++ [x]).Nodup := by
  split
  · exact h
  · rename_i hx
    exact List.nodup_append.mpr ⟨h, List.nodup_singleton _, by
      intro a ha hb
      simp only [List.mem_singleton] at hb
      subst hb
      exact hx ha⟩

/-- The walk `populateSuitesTree` keeps every node consistent. -/
theorem populateSuitesTree_consistent (a : Attempt) :
    ∀ (rest : List String) (node : DbSuite),
      (∀ m ∈ dbSubSuites node, NodeConsistent m) →
      ∀ m ∈ dbSubSuites (populateSuitesTree a rest node), NodeConsistent m
  | [], node, h, m, hm => by
    rw [populateSuitesTree_leaf a [] node (Or.inl rfl), mem_dbSubSuites] at hm
    rcases hm with rfl | ⟨c, hc, hm⟩
    · have hn := h node (dbSubSuites_self node)
      refine ⟨?_, ?_, ?_⟩
      · rw [takeResult_children]; exact hn.1
      · rw [takeResult_browsers, Option.getD_some, pushBrowserResult_names]
        exact nodup_names_step _ _ hn.2.1
      · rw [takeResult_children, takeResult_suitePath]; exact hn.2.2
    · rw [takeResult_children] at hc
      exact h m ((mem_dbSubSuites m node).2 (Or.inr ⟨c, hc, hm⟩))
  | part :: rest, node, h, m, hm => by
    by_cases hp : part = ""
    · rw [populateSuitesTree_leaf a (part :: rest) node (Or.inr (by simp [hp])),
        mem_dbSubSuites] at hm
      rcases hm with rfl | ⟨c, hc, hm⟩
      · have hn := h node (dbSubSuites_self node)
        refine ⟨?_, ?_, ?_⟩
        · rw [takeResult_children]; exact hn.1
        · rw [takeResult_browsers, Option.getD_some, pushBrowserResult_names]
          exact nodup_names_step _ _ hn.2.1
        · rw [takeResult_children, takeResult_suitePath]; exact hn.2.2
      · rw [takeResult_children] at hc
        exact h m ((mem_dbSubSuites m node).2 (Or.inr ⟨c, hc, hm⟩))
    · obtain ⟨hname, hpath, hbro, hch⟩ := populateSuitesTree_inner a part rest node hp
      have hn := h node (dbSubSuites_self node)
      rw [mem_dbSubSuites] at hm
      rcases hm with rfl | ⟨c1, hc1, hm⟩
      · refine ⟨?_, ?_, ?_⟩
        · rw [hch, Option.getD_some,
            populateChildren_names _ _ _ _ (fun c => populateSuitesTree_name a rest c)]
          exact nodup_names_step _ _ hn.1
        · rw [hbro]; exact hn.2.1
        · rw [hch, Option.getD_some, hpath]
          intro c1 hc1
          rcases populateChildren_mem _ _ _ _ _ hc1 with h1 | ⟨c, hc, _, rfl⟩ | ⟨rfl, _⟩
          · exact hn.2.2 c1 h1
          · rw [populateSuitesTree_suitePath, populateSuitesTree_name]
            exact hn.2.2 c hc
          · rw [populateSuitesTree_suitePath, populateSuitesTree_name]
            rfl
      · rw [hch, Option.getD_some] at hc1
        rcases populateChildren_mem _ _ _ _ _ hc1 with h1 | ⟨c, hc, _, rfl⟩ | ⟨rfl, _⟩
        · exact h m ((mem_dbSubSuites m node).2 (Or.inr ⟨c1, h1, hm⟩))
        · refine populateSuitesTree_consistent a rest c ?_ m hm
          intro m2 hm2
          exact h m2 ((mem_dbSubSuites m2 node).2 (Or.inr ⟨c, hc, hm2⟩))
        · refine populateSuitesTree_consistent a rest (newChild node.suitePath part) ?_ m hm
          intro m2 hm2
          have : m2 = newChild node.suitePath part := by
            simpa [newChild, dbSubSuites, dbSubSuitesOpt] using hm2
          subst this
          refine ⟨?_, ?_, ?_⟩ <;> simp [newChild, DbSuite.children, DbSuite.browsers]

/-! ## The tree of the database: skeletons -/

theorem Dict.mem_set {α : Type} (d : Dict α) (k : String) (v : α) (kv : String × α)
    (h : kv ∈ Dict.set d k v) : kv = (k, v) ∨ kv ∈ d := by
  induction d with
  | nil =>
    simp only [Dict.set, List.mem_singleton] at h
    exact Or.inl h
  | cons p rest ih =>
    obtain ⟨k0, v0⟩ := p
    simp only [Dict.set] at h
    split at h
    · rcases List.mem_cons.mp h with h | h
      · exact Or.inl h
      · exact Or.inr (List.mem_cons_of_mem _ h)
    · rcases List.mem_cons.mp h with h | h
      · exact Or.inr (h ▸ List.mem_cons_self _ _)
      · rcases ih h with h1 | h1
        · exact Or.inl h1
        · exact Or.inr (List.mem_cons_of_mem _ h1)

theorem Dict.mem_of_get {α : Type} (d : Dict α) (k : String) (v : α)
    (h : Dict.get d k = some v) : (k, v) ∈ d := by
  induction d with
  | nil => simp [Dict.get] at h
  | cons p rest ih =>
    obtain ⟨k0, v0⟩ := p
    simp only [Dict.get] at h
    split at h
    · rename_i hk
      simp only [Option.some.injEq] at h
      subst hk; subst h
      exact List.mem_cons_self _ _
    · exact List.mem_cons_of_mem _ (ih h)

theorem Dict.set_map_values {α : Type} (d : Dict α) (f : α → α) (k : String) (v : α) :
    (Dict.set d k v).map (fun p => (p.1, f p.2))
      = Dict.set (d.map (fun p => (p.1, f p.2))) k (f v) := by
  induction d with
  | nil => rfl
  | cons p rest ih =>
    obtain ⟨k0, v0⟩ := p
    by_cases h0 : k0 = k
    · simp [Dict.set, h0]
    · simp only [Dict.set, List.map_cons, h0, if_false, ih]

theorem skeletonList_eq_map (cs : List DbSuite) :
    skeletonList cs = cs.map DbSuite.skeleton := by
  induction cs with
  | nil => rfl
  | cons c cs ih => simp [skeletonList, ih]

theorem skeleton_name (node : DbSuite) : node.skeleton.name = node.name := by
  cases node; rfl

theorem skeleton_suitePath (node : DbSuite) : node.skeleton.suitePath = node.suitePath := by
  cases node; rfl

theorem skeleton_browsers (node : DbSuite) : node.skeleton.browsers = node.browsers := by
  cases node; rfl

theorem skeleton_children (node : DbSuite) :
    node.skeleton.children.getD [] = (node.children.getD []).map DbSuite.skeleton := by
  cases node with
  | mk n p st ch bs =>
    cases ch with
    | none => rfl
    | some cs => simp [DbSuite.skeleton, skeletonOpt, DbSuite.children, skeletonList_eq_map]

theorem skeleton_children_opt (node : DbSuite) :
    node.skeleton.children = node.children.map (fun cs => cs.map DbSuite.skeleton) := by
  cases node with
  | mk n p st ch bs =>
    cases ch with
    | none => rfl
    | some cs => simp [DbSuite.skeleton, skeletonOpt, DbSuite.children, skeletonList_eq_map]

theorem skeleton_takeResult (b : DbBrowser) (node : DbSuite) :
    (node.takeResult b).skeleton = node.skeleton.takeResult b := by
  cases node; rfl

theorem skeleton_newChild (pp : List String) (part : String) :
    (newChild pp part).skeleton = newChild pp part := rfl

theorem populateChildren_map (f g : DbSuite → DbSuite) (pp : List String) (part : String)
    (cs : List DbSuite) (hname : ∀ c, (g c).name = c.name) (hfg : ∀ c, g (f c) = f (g c))
    (hnew : g (newChild pp part) = newChild pp part) :
    (populateChildren f pp part cs).map g = populateChildren f pp part (cs.map g) := by
  induction cs with
  | nil => simp [populateChildren, hfg, hnew]
  | cons c cs ih =>
    simp only [populateChildren, List.map_cons, hname]
    split
    · simp [hfg]
    · simp [ih]

theorem skeleton_populateSuitesTree (a : Attempt) :
    ∀ (rest : List String) (node : DbSuite),
      (populateSuitesTree a rest node).skeleton = populateSuitesTree a rest node.skeleton
  | [], node => by
    simp only [populateSuitesTree, skeleton_takeResult]
  | part :: rest, node => by
    by_cases hp : part = ""
    · rw [populateSuitesTree_leaf a (part :: rest) node (Or.inr (by simp [hp])),
        populateSuitesTree_leaf a (part :: rest) node.skeleton (Or.inr (by simp [hp])),
        skeleton_takeResult]
    · cases node with
      | mk n p st ch bs =>
        have hmap := populateChildren_map (fun child => populateSuitesTree a rest child)
          DbSuite.skeleton p part (ch.getD []) skeleton_name
          (fun c => skeleton_populateSuitesTree a rest c) rfl
        cases ch with
        | none =>
          simp only [populateSuitesTree, if_neg hp, DbSuite.skeleton, skeletonOpt,
            skeletonList_eq_map]
          simp only [Option.getD_none, List.map_nil] at hmap
          simp [hmap]
        | some cs =>
          simp only [populateSuitesTree, if_neg hp, DbSuite.skeleton, skeletonOpt,
            skeletonList_eq_map]
          simp only [Option.getD_some] at hmap
          simp [hmap]

theorem skeletonDict_get (suitesTree : Dict DbSuite) (k : String) :
    Dict.get (skeletonDict suitesTree) k = (Dict.get suitesTree k).map DbSuite.skeleton :=
  Dict.get_map_values suitesTree DbSuite.skeleton k

theorem skeletonDict_set (suitesTree : Dict DbSuite) (k : String) (v : DbSuite) :
    skeletonDict (Dict.set suitesTree k v) = Dict.set (skeletonDict suitesTree) k v.skeleton :=
  Dict.set_map_values suitesTree DbSuite.skeleton k v

theorem skeletonDict_keys (suitesTree : Dict DbSuite) :
    Dict.keys (skeletonDict suitesTree) = Dict.keys suitesTree := by
  simp [skeletonDict, Dict.keys]

theorem skeletonDict_values (suitesTree : Dict DbSuite) :
    Dict.values (skeletonDict suitesTree) = (Dict.values suitesTree).map DbSuite.skeleton := by
  simp [skeletonDict, Dict.values]

theorem statusOnly_id : StatusOnly (fun d _ => d) := fun _ _ => rfl

theorem skeleton_formatSuitesStep (util : Dict DbSuite → List String → Dict DbSuite)
    (hutil : StatusOnly util) (suitesTree : Dict DbSuite) (a : Attempt) :
    skeletonDict (formatSuitesStep util suitesTree a)
      = formatSuitesStep (fun d _ => d) (skeletonDict suitesTree) a := by
  simp only [formatSuitesStep]
  rw [hutil, skeletonDict_set, skeleton_populateSuitesTree, skeletonDict_get]
  cases Dict.get suitesTree a.suiteId <;> rfl

theorem skeleton_foldl_formatSuitesStep (util : Dict DbSuite → List String → Dict DbSuite)
    (hutil : StatusOnly util) (rows : List Attempt) :
    ∀ suitesTree : Dict DbSuite,
      skeletonDict (rows.foldl (formatSuitesStep util) suitesTree)
        = rows.foldl (formatSuitesStep (fun d _ => d)) (skeletonDict suitesTree) := by
  induction rows with
  | nil => intro t; rfl
  | cons a rows ih =>
    intro t
    simp only [List.foldl_cons]
    rw [ih, skeleton_formatSuitesStep util hutil]

/-- The tree `formatSuitesDataFromDb` builds has, apart from its statuses, the shape of the
tree built without `setStatusForBranch`. -/
theorem skeleton_formatSuitesDataFromDb (util : Dict DbSuite → List String → Dict DbSuite)
    (hutil : StatusOnly util) (rows : List Attempt) :
    skeletonDict (formatSuitesDataFromDb util rows)
      = formatSuitesDataFromDb (fun d _ => d) rows :=
  skeleton_foldl_formatSuitesStep util hutil rows []

mutual
theorem dbSubSuites_skeleton : ∀ node : DbSuite,
    dbSubSuites node.skeleton = (dbSubSuites node).map DbSuite.skeleton
  | .mk n p st ch bs => by
    simp only [DbSuite.skeleton, dbSubSuites, List.map_cons]
    rw [dbSubSuitesOpt_skeleton ch]
theorem dbSubSuitesOpt_skeleton : ∀ ch : Option (List DbSuite),
    dbSubSuitesOpt (skeletonOpt ch) = (dbSubSuitesOpt ch).map DbSuite.skeleton
  | none => rfl
  | some cs => by
    simp only [skeletonOpt, dbSubSuitesOpt]
    exact dbSubSuitesList_skeleton cs
theorem dbSubSuitesList_skeleton : ∀ cs : List DbSuite,
    dbSubSuitesList (skeletonList cs) = (dbSubSuitesList cs).map DbSuite.skeleton
  | [] => rfl
  | c :: cs => by
    simp only [skeletonList, dbSubSuitesList, List.map_append]
    rw [dbSubSuites_skeleton c, dbSubSuitesList_skeleton cs]
end

theorem dbNodes_skeletonDict (suitesTree : Dict DbSuite) :
    dbNodes (skeletonDict suitesTree) = (dbNodes suitesTree).map DbSuite.skeleton := by
  simp only [dbNodes, skeletonDict_values]
  rw [← skeletonList_eq_map]
  exact dbSubSuitesList_skeleton _

theorem nodeConsistent_skeleton (node : DbSuite) (h : NodeConsistent node.skeleton) :
    NodeConsistent node := by
  obtain ⟨h1, h2, h3⟩ := h
  rw [skeleton_children] at h1 h3
  rw [skeleton_browsers] at h2
  rw [skeleton_suitePath] at h3
  refine ⟨?_, h2, ?_⟩
  · simpa [List.map_map, Function.comp_def, skeleton_name] using h1
  · intro c hc
    have := h3 c.skeleton (List.mem_map_of_mem _ hc)
    simpa [skeleton_suitePath, skeleton_name] using this

theorem nodeFromRows_skeleton (rows : List Attempt) (node : DbSuite)
    (h : NodeFromRows rows node.skeleton) : NodeFromRows rows node := by
  obtain ⟨h1, h2⟩ := h
  rw [skeleton_browsers, skeleton_suitePath] at h1
  rw [skeleton_children, skeleton_suitePath] at h2
  refine ⟨h1, fun hne => h2 ?_⟩
  simpa using hne

/-- A property of nodes that holds of a node when it holds of its skeleton, and holds of
every node of the tree built without `setStatusForBranch`, holds of every node of the tree
`formatSuitesDataFromDb` builds. -/
theorem dbNodes_of_skeleton (util : Dict DbSuite → List String → Dict DbSuite)
    (hutil : StatusOnly util) (rows : List Attempt) (Q : DbSuite → Prop)
    (hQ : ∀ node : DbSuite, Q node.skeleton → Q node)
    (h : ∀ m ∈ dbNodes (formatSuitesDataFromDb (fun d _ => d) rows), Q m) :
    ∀ m ∈ dbNodes (formatSuitesDataFromDb util rows), Q m := by
  intro m hm
  apply hQ
  apply h
  rw [← skeleton_formatSuitesDataFromDb util hutil, dbNodes_skeletonDict]
  exact List.mem_map_of_mem _ hm

/-! ## The tree of the database: names and suite paths -/

mutual
theorem DbSuite.induct (P : DbSuite → Prop)
    (h : ∀ node : DbSuite, (∀ c ∈ node.children.getD [], P c) → P node) :
    ∀ node : DbSuite, P node
  | .mk n p st ch bs => h (.mk n p st ch bs) (DbSuite.induct_opt P h ch)
theorem DbSuite.induct_opt (P : DbSuite → Prop)
    (h : ∀ node : DbSuite, (∀ c ∈ node.children.getD [], P c) → P node) :
    ∀ ch : Option (List DbSuite), ∀ c ∈ ch.getD [], P c
  | none => by simp
  | some cs => DbSuite.induct_list P h cs
theorem DbSuite.induct_list (P : DbSuite → Prop)
    (h : ∀ node : DbSuite, (∀ c ∈ node.children.getD [], P c) → P node) :
    ∀ cs : List DbSuite, ∀ c ∈ cs, P c
  | [] => by simp
  | c :: cs => by
    intro x hx
    rcases List.mem_cons.mp hx with rfl | hx
    · exact DbSuite.induct P h x
    · exact DbSuite.induct_list P h cs x hx
end

theorem dbSubSuitesList_eq_flatMap (cs : List DbSuite) :
    dbSubSuitesList cs = cs.flatMap dbSubSuites := by
  induction cs with
  | nil => rfl
  | cons c cs ih => simp [dbSubSuitesList, ih]

theorem dbSubSuites_eq (node : DbSuite) :
    dbSubSuites node = node :: (node.children.getD []).flatMap dbSubSuites := by
  cases node with
  | mk n p st ch bs =>
    cases ch with
    | none => simp [dbSubSuites, dbSubSuitesOpt, DbSuite.children]
    | some cs =>
      simp [dbSubSuites, dbSubSuitesOpt, DbSuite.children, dbSubSuitesList_eq_flatMap]

/-- The suite paths of the nodes of a list of trees are pairwise distinct when this holds
within each tree, every suite path within a tree starts with the suite path of its root,
and the roots have pairwise distinct suite paths of one length. -/
theorem suitePaths_nodup_of_roots (cs : List DbSuite)
    (hpre : ∀ c ∈ cs, ∀ m ∈ dbSubSuites c, c.suitePath <+: m.suitePath)
    (hnd : ∀ c ∈ cs, ((dbSubSuites c).map DbSuite.suitePath).Nodup)
    (hpw : cs.Pairwise (fun a b =>
      a.suitePath.length = b.suitePath.length ∧ a.suitePath ≠ b.suitePath)) :
    ((cs.flatMap dbSubSuites).map DbSuite.suitePath).Nodup := by
  rw [List.map_flatMap, List.nodup_flatMap]
  refine ⟨hnd, ?_⟩
  refine List.Pairwise.imp_of_mem ?_ hpw
  intro a b ha hb hab
  intro q hqa hqb
  simp only [List.mem_map] at hqa hqb
  obtain ⟨m1, hm1, rfl⟩ := hqa
  obtain ⟨m2, hm2, he⟩ := hqb
  have h1 := hpre a ha m1 hm1
  have h2 := hpre b hb m2 hm2
  rw [he] at h2
  have h3 := List.prefix_of_prefix_length_le h1 h2 (le_of_eq hab.1)
  exact hab.2 (h3.eq_of_length hab.1)

/-- In a tree of consistent nodes every suite path starts with the suite path of the root
of the tree, and the suite paths of the nodes are pairwise distinct. -/
theorem suitePaths_of_consistent : ∀ node : DbSuite,
    (∀ m ∈ dbSubSuites node, NodeConsistent m) →
    (∀ m ∈ dbSubSuites node, node.suitePath <+: m.suitePath) ∧
    ((dbSubSuites node).map DbSuite.suitePath).Nodup := by
  apply DbSuite.induct
  intro node ih hcons
  have hn := hcons node (dbSubSuites_self node)
  have hsub : ∀ c ∈ node.children.getD [], ∀ m ∈ dbSubSuites c, NodeConsistent m :=
    fun c hc m hm => hcons m ((mem_dbSubSuites m node).2 (Or.inr ⟨c, hc, hm⟩))
  have hpre : ∀ m ∈ dbSubSuites node, node.suitePath <+: m.suitePath := by
    intro m hm
    rcases (mem_dbSubSuites m node).1 hm with rfl | ⟨c, hc, hm⟩
    · exact List.prefix_refl _
    · have h1 := (ih c hc (hsub c hc)).1 m hm
      rw [hn.2.2 c hc] at h1
      exact List.IsPrefix.trans (List.prefix_append _ _) h1
  refine ⟨hpre, ?_⟩
  rw [dbSubSuites_eq, List.map_cons, List.nodup_cons]
  constructor
  · intro hmem
    simp only [List.mem_map, List.mem_flatMap] at hmem
    obtain ⟨m, ⟨c, hc, hm⟩, he⟩ := hmem
    have h1 := (ih c hc (hsub c hc)).1 m hm
    rw [hn.2.2 c hc, he] at h1
    have := h1.length_le
    simp at this
  · apply suitePaths_nodup_of_roots
    · exact fun c hc => (ih c hc (hsub c hc)).1
    · exact fun c hc => (ih c hc (hsub c hc)).2
    · have hp : (node.children.getD []).Pairwise (fun a b => a.name ≠ b.name) := by
        have := hn.1
        rw [List.Nodup, List.pairwise_map] at this
        exact this
      refine List.Pairwise.imp_of_mem ?_ hp
      intro a b ha hb hab
      rw [hn.2.2 a ha, hn.2.2 b hb]
      refine ⟨by simp, ?_⟩
      intro he
      exact hab (by simpa using he)

theorem mem_dict_values {α : Type} (d : Dict α) (v : α) :
    v ∈ Dict.values d ↔ ∃ k, (k, v) ∈ d := by
  simp [Dict.values]

/-- The root suites of the tree built without `setStatusForBranch` are stored under their
names, with the one-segment suite path of that name, and every node is consistent. -/
theorem formatSuites_id_consistent (rows : List Attempt) :
    ∀ suitesTree : Dict DbSuite,
      (∀ kv ∈ suitesTree, kv.2.name = kv.1 ∧ kv.2.suitePath = [kv.1]) →
      (∀ m ∈ dbNodes suitesTree, NodeConsistent m) →
      (∀ kv ∈ rows.foldl (formatSuitesStep (fun d _ => d)) suitesTree,
        kv.2.name = kv.1 ∧ kv.2.suitePath = [kv.1]) ∧
      (∀ m ∈ dbNodes (rows.foldl (formatSuitesStep (fun d _ => d)) suitesTree),
        NodeConsistent m) := by
  induction rows with
  | nil => intro t h1 h2; exact ⟨h1, h2⟩
  | cons a rows ih =>
    intro t h1 h2
    simp only [List.foldl_cons]
    apply ih
    · intro kv hkv
      simp only [formatSuitesStep] at hkv
      rcases Dict.mem_set _ _ _ _ hkv with rfl | hold
      · simp only [populateSuitesTree_name, populateSuitesTree_suitePath]
        cases hg : Dict.get t a.suiteId with
        | none => exact ⟨rfl, rfl⟩
        | some root => exact h1 _ (Dict.mem_of_get _ _ _ hg)
      · exact h1 kv hold
    · intro m hm
      rw [mem_dbNodes] at hm
      obtain ⟨root, hroot, hm⟩ := hm
      rw [mem_dict_values] at hroot
      obtain ⟨k, hk⟩ := hroot
      simp only [formatSuitesStep] at hk
      rcases Dict.mem_set _ _ _ _ hk with heq | hold
      · simp only [Prod.mk.injEq] at heq
        obtain ⟨-, rfl⟩ := heq
        refine populateSuitesTree_consistent a a.rest _ ?_ m hm
        intro m2 hm2
        cases hg : Dict.get t a.suiteId with
        | none =>
          rw [hg] at hm2
          have : m2 = DbSuite.mk a.suiteId [a.suiteId] StatusKind.SUCCESS none none := by
            simpa [dbSubSuites, dbSubSuitesOpt] using hm2
          subst this
          refine ⟨?_, ?_, ?_⟩ <;> simp [DbSuite.children, DbSuite.browsers]
        | some root0 =>
          rw [hg] at hm2
          exact h2 m2 ((mem_dbNodes m2 t).2
            ⟨root0, (mem_dict_values t root0).2 ⟨_, Dict.mem_of_get _ _ _ hg⟩, hm2⟩)
      · exact h2 m ((mem_dbNodes m t).2 ⟨root, (mem_dict_values t root).2 ⟨k, hold⟩, hm⟩)

theorem formatSuites_keys_nodup (util : Dict DbSuite → List String → Dict DbSuite)
    (hutil : StatusOnly util) (rows : List Attempt) :
    (Dict.keys (formatSuitesDataFromDb util rows)).Nodup := by
  rw [← skeletonDict_keys, skeleton_formatSuitesDataFromDb util hutil]
  simp only [formatSuitesDataFromDb]
  suffices h : ∀ t : Dict DbSuite, (Dict.keys t).Nodup →
      (Dict.keys (rows.foldl (formatSuitesStep (fun d _ => d)) t)).Nodup from
    h [] (by simp [Dict.keys])
  induction rows with
  | nil => intro t h; exact h
  | cons a rows ih =>
    intro t h
    simp only [List.foldl_cons]
    apply ih
    simp only [formatSuitesStep, Dict.keys_set]
    exact nodup_appendNew _ _ h

/-- The root suites of the tree `formatSuitesDataFromDb` builds are stored under their
names and have the one-segment suite path of that name. -/
theorem formatSuites_roots (util : Dict DbSuite → List String → Dict DbSuite)
    (hutil : StatusOnly util) (rows : List Attempt) :
    ∀ kv ∈ formatSuitesDataFromDb util rows, kv.2.name = kv.1 ∧ kv.2.suitePath = [kv.1] := by
  intro kv hkv
  have h := (formatSuites_id_consistent rows [] (by simp) (by simp [dbNodes, dbSubSuitesList,
    Dict.values])).1 (kv.1, kv.2.skeleton) (by
      have := skeleton_formatSuitesDataFromDb util hutil rows
      simp only [formatSuitesDataFromDb] at this
      rw [← this]
      simp only [skeletonDict, List.mem_map]
      exact ⟨kv, hkv, rfl⟩)
  simpa [skeleton_name, skeleton_suitePath] using h

theorem formatSuites_consistent (util : Dict DbSuite → List String → Dict DbSuite)
    (hutil : StatusOnly util) (rows : List Attempt) :
    ∀ m ∈ dbNodes (formatSuitesDataFromDb util rows), NodeConsistent m :=
  dbNodes_of_skeleton util hutil rows NodeConsistent nodeConsistent_skeleton
    (formatSuites_id_consistent rows [] (by simp) (by simp [dbNodes, dbSubSuitesList,
      Dict.values])).2

theorem formatSuites_root_names (util : Dict DbSuite → List String → Dict DbSuite)
    (hutil : StatusOnly util) (rows : List Attempt) :
    (Dict.values (formatSuitesDataFromDb util rows)).map DbSuite.name
      = Dict.keys (formatSuitesDataFromDb util rows) := by
  have h := formatSuites_roots util hutil rows
  simp only [Dict.values, Dict.keys, List.map_map]
  apply List.map_congr_left
  intro kv hkv
  exact (h kv hkv).1

/-- C22: for every sequence of attempt rows, in the tree `formatSuitesDataFromDb` builds
(with a `setStatusForBranch` that changes statuses only) the root suites have pairwise
distinct names, the children of any suite have pairwise distinct names, no two suite
nodes share a suite path, and within any suite no two browser entries share a name. -/
theorem db_tree_names_distinct (util : Dict DbSuite → List String → Dict DbSuite)
    (hutil : StatusOnly util) (rows : List Attempt) :
    ((Dict.values (formatSuitesDataFromDb util rows)).map DbSuite.name).Nodup ∧
    (∀ m ∈ dbNodes (formatSuitesDataFromDb util rows),
      ((m.children.getD []).map DbSuite.name).Nodup ∧
      ((m.browsers.getD []).map DbBrowser.name).Nodup) ∧
    ((dbNodes (formatSuitesDataFromDb util rows)).map DbSuite.suitePath).Nodup := by
  have hroots := formatSuites_roots util hutil rows
  have hcons := formatSuites_consistent util hutil rows
  have hnames : ((Dict.values (formatSuitesDataFromDb util rows)).map DbSuite.name).Nodup := by
    rw [formatSuites_root_names util hutil]
    exact formatSuites_keys_nodup util hutil rows
  refine ⟨hnames, fun m hm => ⟨(hcons m hm).1, (hcons m hm).2.1⟩, ?_⟩
  rw [dbNodes, dbSubSuitesList_eq_flatMap]
  have hsub : ∀ c ∈ Dict.values (formatSuitesDataFromDb util rows),
      ∀ m ∈ dbSubSuites c, NodeConsistent m :=
    fun c hc m hm => hcons m ((mem_dbNodes m _).2 ⟨c, hc, hm⟩)
  apply suitePaths_nodup_of_roots
  · exact fun c hc => (suitePaths_of_consistent c (hsub c hc)).1
  · exact fun c hc => (suitePaths_of_consistent c (hsub c hc)).2
  · have hp : (Dict.values (formatSuitesDataFromDb util rows)).Pairwise
        (fun a b => a.name ≠ b.name) := by
      have := hnames
      rw [List.Nodup, List.pairwise_map] at this
      exact this
    refine List.Pairwise.imp_of_mem ?_ hp
    intro x y hx hy hxy
    obtain ⟨kx, hkx⟩ := (mem_dict_values _ x).1 hx
    obtain ⟨ky, hky⟩ := (mem_dict_values _ y).1 hy
    have h1 := hroots _ hkx
    have h2 := hroots _ hky
    simp only at h1 h2
    rw [h1.2, h2.2]
    refine ⟨rfl, ?_⟩
    intro he
    apply hxy
    rw [h1.1, h2.1]
    simpa using he

/-! ## The tree of the database: leaves and internal nodes -/

theorem nodeFromRows_mono (R R1 : List Attempt) (h : ∀ a ∈ R, a ∈ R1) (node : DbSuite)
    (hn : NodeFromRows R node) : NodeFromRows R1 node := by
  refine ⟨fun hb => ?_, fun hc => ?_⟩
  · obtain ⟨a, ha, he⟩ := hn.1 hb
    exact ⟨a, h a ha, he⟩
  · obtain ⟨a, ha, he⟩ := hn.2 hc
    exact ⟨a, h a ha, he⟩

/-- The walk `populateSuitesTree` for a row of the rows `R`, along non-empty path parts,
keeps every node a node that comes from `R`. -/
theorem populateSuitesTree_fromRows (a : Attempt) (R : List Attempt) (ha : a ∈ R) :
    ∀ (rest : List String) (node : DbSuite),
      (∀ seg ∈ rest, seg ≠ "") →
      node.suitePath ++ rest = a.suitePath →
      (∀ m ∈ dbSubSuites node, NodeConsistent m) →
      (∀ m ∈ dbSubSuites node, NodeFromRows R m) →
      ∀ m ∈ dbSubSuites (populateSuitesTree a rest node), NodeFromRows R m
  | [], node, _, hpath, _, h, m, hm => by
    rw [populateSuitesTree_leaf a [] node (Or.inl rfl), mem_dbSubSuites] at hm
    rcases hm with rfl | ⟨c, hc, hm⟩
    · have hn := h node (dbSubSuites_self node)
      refine ⟨fun _ => ⟨a, ha, ?_⟩, ?_⟩
      · rw [takeResult_suitePath, ← hpath, List.append_nil]
      · rw [takeResult_children, takeResult_suitePath]; exact hn.2
    · rw [takeResult_children] at hc
      exact h m ((mem_dbSubSuites m node).2 (Or.inr ⟨c, hc, hm⟩))
  | part :: rest, node, hseg, hpath, hcons, h, m, hm => by
    have hp : part ≠ "" := hseg part (List.mem_cons_self _ _)
    obtain ⟨hname, hsp, hbro, hch⟩ := populateSuitesTree_inner a part rest node hp
    have hn := h node (dbSubSuites_self node)
    have hnc := hcons node (dbSubSuites_self node)
    rw [mem_dbSubSuites] at hm
    rcases hm with rfl | ⟨c1, hc1, hm⟩
    · refine ⟨?_, fun _ => ⟨a, ha, part :: rest, by simp, ?_⟩⟩
      · rw [hbro, hsp]; exact hn.1
      · rw [hsp, hpath]
    · rw [hch, Option.getD_some] at hc1
      rcases populateChildren_mem _ _ _ _ _ hc1 with h1 | ⟨c, hc, hcn, rfl⟩ | ⟨rfl, _⟩
      · exact h m ((mem_dbSubSuites m node).2 (Or.inr ⟨c1, h1, hm⟩))
      · refine populateSuitesTree_fromRows a R ha rest c
          (fun seg hs => hseg seg (List.mem_cons_of_mem _ hs)) ?_ ?_ ?_ m hm
        · rw [hnc.2.2 c hc, hcn, ← hpath]; simp
        · exact fun m2 hm2 => hcons m2 ((mem_dbSubSuites m2 node).2 (Or.inr ⟨c, hc, hm2⟩))
        · exact fun m2 hm2 => h m2 ((mem_dbSubSuites m2 node).2 (Or.inr ⟨c, hc, hm2⟩))
      · have hsingle : ∀ m2 ∈ dbSubSuites (newChild node.suitePath part),
            m2 = newChild node.suitePath part := by
          intro m2 hm2
          simpa [newChild, dbSubSuites, dbSubSuitesOpt] using hm2
        refine populateSuitesTree_fromRows a R ha rest (newChild node.suitePath part)
          (fun seg hs => hseg seg (List.mem_cons_of_mem _ hs)) ?_ ?_ ?_ m hm
        · rw [← hpath]; simp [newChild, DbSuite.suitePath]
        · intro m2 hm2
          rw [hsingle m2 hm2]
          refine ⟨?_, ?_, ?_⟩ <;> simp [newChild, DbSuite.children, DbSuite.browsers]
        · intro m2 hm2
          rw [hsingle m2 hm2]
          refine ⟨?_, ?_⟩ <;> simp [newChild, DbSuite.children, DbSuite.browsers]

theorem formatSuites_id_fromRows (rows : List Attempt)
    (hseg : ∀ a ∈ rows, ∀ seg ∈ a.rest, seg ≠ "") :
    ∀ (R : List Attempt) (suitesTree : Dict DbSuite),
      (∀ kv ∈ suitesTree, kv.2.name = kv.1 ∧ kv.2.suitePath = [kv.1]) →
      (∀ m ∈ dbNodes suitesTree, NodeConsistent m) →
      (∀ m ∈ dbNodes suitesTree, NodeFromRows R m) →
      ∀ m ∈ dbNodes (rows.foldl (formatSuitesStep (fun d _ => d)) suitesTree),
        NodeFromRows (R ++ rows) m := by
  induction rows with
  | nil =>
    intro R t _ _ h3 m hm
    simpa using h3 m hm
  | cons a rows ih =>
    intro R t h1 h2 h3
    simp only [List.foldl_cons]
    have hstep := formatSuites_id_consistent [a] t h1 h2
    simp only [List.foldl_cons, List.foldl_nil] at hstep
    have hR : R ++ a :: rows = (R ++ [a]) ++ rows := by simp
    rw [hR]
    apply ih (fun x hx => hseg x (List.mem_cons_of_mem _ hx)) (R ++ [a]) _ hstep.1 hstep.2
    intro m hm
    rw [mem_dbNodes] at hm
    obtain ⟨root, hroot, hm⟩ := hm
    rw [mem_dict_values] at hroot
    obtain ⟨k, hk⟩ := hroot
    simp only [formatSuitesStep] at hk
    have hmono : ∀ x ∈ R, x ∈ R ++ [a] := fun x hx => List.mem_append_left _ hx
    rcases Dict.mem_set _ _ _ _ hk with heq | hold
    · simp only [Prod.mk.injEq] at heq
      obtain ⟨-, rfl⟩ := heq
      refine populateSuitesTree_fromRows a (R ++ [a]) (by simp) a.rest _
        (hseg a (List.mem_cons_self _ _)) ?_ ?_ ?_ m hm
      · cases hg : Dict.get t a.suiteId with
        | none => rfl
        | some root0 =>
          have := (h1 _ (Dict.mem_of_get _ _ _ hg)).2
          simp only at this
          simp [this, Attempt.suitePath]
      · intro m2 hm2
        cases hg : Dict.get t a.suiteId with
        | none =>
          rw [hg] at hm2
          have : m2 = DbSuite.mk a.suiteId [a.suiteId] StatusKind.SUCCESS none none := by
            simpa [dbSubSuites, dbSubSuitesOpt] using hm2
          subst this
          refine ⟨?_, ?_, ?_⟩ <;> simp [DbSuite.children, DbSuite.browsers]
        | some root0 =>
          rw [hg] at hm2
          exact h2 m2 ((mem_dbNodes m2 t).2
            ⟨root0, (mem_dict_values t root0).2 ⟨_, Dict.mem_of_get _ _ _ hg⟩, hm2⟩)
      · intro m2 hm2
        cases hg : Dict.get t a.suiteId with
        | none =>
          rw [hg] at hm2
          have : m2 = DbSuite.mk a.suiteId [a.suiteId] StatusKind.SUCCESS none none := by
            simpa [dbSubSuites, dbSubSuitesOpt] using hm2
          subst this
          refine ⟨?_, ?_⟩ <;> simp [DbSuite.children, DbSuite.browsers]
        | some root0 =>
          rw [hg] at hm2
          exact nodeFromRows_mono R _ hmono _ (h3 m2 ((mem_dbNodes m2 t).2
            ⟨root0, (mem_dict_values t root0).2 ⟨_, Dict.mem_of_get _ _ _ hg⟩, hm2⟩))
    · exact nodeFromRows_mono R _ hmono _
        (h3 m ((mem_dbNodes m t).2 ⟨root, (mem_dict_values t root).2 ⟨k, hold⟩, hm⟩))

/-- In the tree `formatSuitesDataFromDb` builds from rows with non-empty path parts, a node
with a browser lies at the suite path of a row, and a node with a child at a proper
initial part of the suite path of a row. -/
theorem formatSuites_fromRows (util : Dict DbSuite → List String → Dict DbSuite)
    (hutil : StatusOnly util) (rows : List Attempt)
    (hseg : ∀ a ∈ rows, ∀ seg ∈ a.rest, seg ≠ "") :
    ∀ m ∈ dbNodes (formatSuitesDataFromDb util rows), NodeFromRows rows m := by
  apply dbNodes_of_skeleton util hutil rows (NodeFromRows rows) (nodeFromRows_skeleton rows)
  have := formatSuites_id_fromRows rows hseg [] [] (by simp)
    (by simp [dbNodes, dbSubSuitesList, Dict.values])
    (by simp [dbNodes, dbSubSuitesList, Dict.values])
  simpa [formatSuitesDataFromDb] using this

/-- C21 (amended): for every sequence of attempt rows with non-empty path parts in which
no suite path is a proper initial part of another, no suite node of the tree built by
`formatSuitesDataFromDb` (with a `setStatusForBranch` that changes statuses only) has both
a non-empty children list and a non-empty browsers list. -/
theorem db_tree_leaf_or_internal (util : Dict DbSuite → List String → Dict DbSuite)
    (hutil : StatusOnly util) (rows : List Attempt)
    (hseg : ∀ a ∈ rows, ∀ seg ∈ a.rest, seg ≠ "")
    (hfree : ∀ a ∈ rows, ∀ b ∈ rows, ∀ more, b.suitePath = a.suitePath ++ more → more = []) :
    ∀ m ∈ dbNodes (formatSuitesDataFromDb util rows),
      m.children.getD [] = [] ∨ m.browsers.getD [] = [] := by
  intro m hm
  have h := formatSuites_fromRows util hutil rows hseg m hm
  by_cases hc : m.children.getD [] = []
  · exact Or.inl hc
  · right
    by_contra hb
    obtain ⟨a, ha, hae⟩ := h.1 hb
    obtain ⟨b, hb1, more, hmore, hbe⟩ := h.2 hc
    rw [← hae] at hbe
    exact hmore (hfree a ha b hb1 more hbe)

/-- Witness for C21: two rows in two root suites; the root suite `a` of the tree has a
child and no browser. -/
theorem db_tree_leaf_or_internal_witness :
    (DbSuite.mk "a" ["a"] StatusKind.SUCCESS
        (some [DbSuite.mk "b" ["a", "b"] StatusKind.SUCCESS none
          (some [⟨"bro", ⟨StatusKind.SUCCESS, 0, none⟩, []⟩])]) none).children.getD [] = [] ∨
    (DbSuite.mk "a" ["a"] StatusKind.SUCCESS
        (some [DbSuite.mk "b" ["a", "b"] StatusKind.SUCCESS none
          (some [⟨"bro", ⟨StatusKind.SUCCESS, 0, none⟩, []⟩])]) none).browsers.getD [] = [] :=
  db_tree_leaf_or_internal (fun d _ => d) statusOnly_id
    [⟨"a", ["b"], StatusKind.SUCCESS, ⟨"bro", ⟨StatusKind.SUCCESS, 0, none⟩, []⟩, none⟩,
     ⟨"c", [], StatusKind.FAIL, ⟨"bro", ⟨StatusKind.FAIL, 0, none⟩, []⟩, none⟩]
    (by decide) (by
      intro a ha b hb more h
      simp only [List.mem_cons, List.mem_singleton, List.not_mem_nil, or_false] at ha hb
      rcases ha with rfl | rfl <;> rcases hb with rfl | rfl <;>
        simp [Attempt.suitePath] at h <;> simp [h])
    _ (List.Mem.head _)

/-- Counterexample for C21: the rows have the suite paths `a b` and `a`, both non-empty;
the root suite `a` of the tree has the child `b` and the browser `bro`. -/
theorem leaf_with_children_counterexample :
    (dbNodes (formatSuitesDataFromDb (fun d _ => d)
        [⟨"a", ["b"], StatusKind.SUCCESS, ⟨"bro", ⟨StatusKind.SUCCESS, 0, none⟩, []⟩, none⟩,
         ⟨"a", [], StatusKind.SUCCESS, ⟨"bro", ⟨StatusKind.SUCCESS, 0, none⟩, []⟩, none⟩])).map
      (fun m => (m.suitePath, (m.children.getD []).map DbSuite.name,
        (m.browsers.getD []).map DbBrowser.name))
      = [(["a"], ["b"], ["bro"]), (["a", "b"], [], ["bro"])] := by
  decide

/-- Witness for C22: three rows, two of them for the same suite path and browser. -/
theorem db_tree_names_distinct_witness :
    ((Dict.values (formatSuitesDataFromDb (fun d _ => d)
        [⟨"a", ["b"], StatusKind.FAIL, ⟨"bro", ⟨StatusKind.FAIL, 0, none⟩, []⟩, none⟩,
         ⟨"a", ["b"], StatusKind.SUCCESS, ⟨"bro", ⟨StatusKind.SUCCESS, 1, none⟩, []⟩, none⟩,
         ⟨"c", [], StatusKind.FAIL, ⟨"bro", ⟨StatusKind.FAIL, 0, none⟩, []⟩, none⟩])).map
      DbSuite.name).Nodup :=
  (db_tree_names_distinct (fun d _ => d) statusOnly_id
    [⟨"a", ["b"], StatusKind.FAIL, ⟨"bro", ⟨StatusKind.FAIL, 0, none⟩, []⟩, none⟩,
     ⟨"a", ["b"], StatusKind.SUCCESS, ⟨"bro", ⟨StatusKind.SUCCESS, 1, none⟩, []⟩, none⟩,
     ⟨"c", [], StatusKind.FAIL, ⟨"bro", ⟨StatusKind.FAIL, 0, none⟩, []⟩, none⟩]).1

/-! ## The tree of the database: the browsers of a suite path -/

theorem find_populateChildren (f : DbSuite → DbSuite) (pp : List String) (part p2 : String)
    (cs : List DbSuite) (hf : ∀ c, (f c).name = c.name) :
    (populateChildren f pp part cs).find? (fun c => decide (c.name = p2))
      = if p2 = part then
          some (f ((cs.find? (fun c => decide (c.name = part))).getD (newChild pp part)))
        else cs.find? (fun c => decide (c.name = p2)) := by
  induction cs with
  | nil =>
    have hn : (newChild pp part).name = part := rfl
    by_cases h : p2 = part
    · simp [populateChildren, hf, hn, h]
    · have h2 : ¬ part = p2 := fun e => h e.symm
      simp [populateChildren, hf, hn, h, h2]
  | cons c cs ih =>
    simp only [populateChildren]
    by_cases hc : c.name = part
    · simp only [hc, if_true, List.find?_cons, hf]
      by_cases h : p2 = part
      · simp [h]
      · have h2 : ¬ part = p2 := fun e => h e.symm
        simp [h, h2]
    · simp only [hc, if_false, List.find?_cons, ih]
      by_cases h : p2 = part
      · subst h
        simp [hc]
      · simp only [h, if_false]

theorem browsersAt_nil (node : DbSuite) :
    node.browsersAt [] = node.browsers.getD [] := rfl

theorem browsersAt_cons (part : String) (q : List String) (node : DbSuite) :
    node.browsersAt (part :: q)
      = match (node.children.getD []).find? (fun c => decide (c.name = part)) with
        | none => []
        | some c => c.browsersAt q := by
  simp only [DbSuite.browsersAt, DbSuite.descend]
  cases (node.children.getD []).find? (fun c => decide (c.name = part)) <;> rfl

theorem browsersAt_newChild (pp : List String) (part : String) (q : List String) :
    (newChild pp part).browsersAt q = [] := by
  cases q with
  | nil => rfl
  | cons p2 q => simp [browsersAt_cons, newChild, DbSuite.children]

/-- The walk `populateSuitesTree` along non-empty path parts changes the browsers at the
path it walks, which take the browser result, and at no other path. -/
theorem populateSuitesTree_browsersAt (a : Attempt) :
    ∀ (rest : List String) (node : DbSuite) (q : List String),
      (∀ seg ∈ rest, seg ≠ "") →
      (populateSuitesTree a rest node).browsersAt q
        = if q = rest then pushBrowserResult a.browserResult (node.browsersAt q)
          else node.browsersAt q
  | [], node, q, _ => by
    rw [populateSuitesTree_leaf a [] node (Or.inl rfl)]
    cases q with
    | nil => simp [browsersAt_nil, takeResult_browsers]
    | cons p2 q => simp [browsersAt_cons, takeResult_children]
  | part :: rest, node, q, hseg => by
    have hp : part ≠ "" := hseg part (List.mem_cons_self _ _)
    obtain ⟨_, _, hbro, hch⟩ := populateSuitesTree_inner a part rest node hp
    cases q with
    | nil => simp [browsersAt_nil, hbro]
    | cons p2 q =>
      rw [browsersAt_cons, browsersAt_cons, hch, Option.getD_some,
        find_populateChildren _ _ _ _ _ (fun c => populateSuitesTree_name a rest c)]
      by_cases h : p2 = part
      · subst h
        simp only [if_true, List.cons.injEq, true_and]
        rw [populateSuitesTree_browsersAt a rest _ q
          (fun seg hs => hseg seg (List.mem_cons_of_mem _ hs))]
        cases (node.children.getD []).find? (fun c => decide (c.name = p2)) with
        | none => simp [browsersAt_newChild]
        | some c => simp
      · simp [h]

theorem dbBrowsersAt_nil (suitesTree : Dict DbSuite) : dbBrowsersAt suitesTree [] = [] := rfl

theorem dbBrowsersAt_cons (suitesTree : Dict DbSuite) (k : String) (q : List String) :
    dbBrowsersAt suitesTree (k :: q)
      = match Dict.get suitesTree k with
        | none => []
        | some root => root.browsersAt q := by
  simp only [dbBrowsersAt, dbNodeAt, DbSuite.browsersAt]
  cases Dict.get suitesTree k <;> rfl

theorem formatSuitesStep_browsersAt (suitesTree : Dict DbSuite) (a : Attempt)
    (hseg : ∀ seg ∈ a.rest, seg ≠ "") (path : List String) :
    dbBrowsersAt (formatSuitesStep (fun d _ => d) suitesTree a) path
      = if path = a.suitePath then
          pushBrowserResult a.browserResult (dbBrowsersAt suitesTree path)
        else dbBrowsersAt suitesTree path := by
  cases path with
  | nil => simp [dbBrowsersAt_nil, Attempt.suitePath]
  | cons k q =>
    simp only [formatSuitesStep, dbBrowsersAt_cons, Dict.get_set, Attempt.suitePath,
      List.cons.injEq]
    by_cases hk : a.suiteId = k
    · subst hk
      simp only [if_true, true_and]
      rw [populateSuitesTree_browsersAt a a.rest _ q hseg]
      cases Dict.get suitesTree a.suiteId with
      | none =>
        have : (DbSuite.mk a.suiteId [a.suiteId] StatusKind.SUCCESS none none).browsersAt q
            = [] := browsersAt_newChild [] a.suiteId q
        simp [this]
      | some root => simp
    · have hk2 : ¬ k = a.suiteId := fun e => hk e.symm
      simp [hk, hk2]

theorem filter_pushBrowserResult (b : DbBrowser) (x : String) (bs : List DbBrowser) :
    (pushBrowserResult b bs).filter (fun y => decide (y.name = x))
      = if b.name = x then
          match bs.filter (fun y => decide (y.name = x)) with
          | [] => [b]
          | y :: ys =>
            { y with retries := y.retries ++ [y.result], result := b.result } :: ys
        else bs.filter (fun y => decide (y.name = x)) := by
  induction bs with
  | nil =>
    by_cases h : b.name = x <;> simp [pushBrowserResult, h]
  | cons y ys ih =>
    simp only [pushBrowserResult]
    by_cases hy : y.name = b.name
    · simp only [hy, if_true]
      by_cases h : b.name = x
      · have hyx : y.name = x := hy.trans h
        simp [List.filter_cons, h, hyx]
      · have hyx : ¬ y.name = x := fun e => h (hy.symm.trans e)
        simp [List.filter_cons, h, hyx]
    · simp only [hy, if_false, List.filter_cons, ih]
      by_cases h : b.name = x
      · have hyx : ¬ y.name = x := fun e => hy (e.trans h.symm)
        simp [h, hyx]
      · simp only [h, if_false]

theorem rowsOf_append (rows : List Attempt) (a : Attempt) (path : List String) (x : String) :
    rowsOf (rows ++ [a]) path x
      = if a.suitePath = path ∧ a.browserResult.name = x then rowsOf rows path x ++ [a]
        else rowsOf rows path x := by
  simp only [rowsOf, List.filter_append, List.filter_cons, List.filter_nil]
  by_cases h : a.suitePath = path ∧ a.browserResult.name = x
  · simp [h]
  · simp [h]

theorem browserOfRows_snoc (x : String) (rs : List Attempt) (a : Attempt) :
    browserOfRows x (rs ++ [a])
      = [{ name := x, result := a.browserResult.result,
           retries := rs.map (fun r => r.browserResult.result) }] := by
  simp [browserOfRows]

/-- The browsers of one name at a suite path of the tree built without
`setStatusForBranch`, from rows with non-empty path parts whose browser results have no
retries: the entry the rows of that path and name prescribe. -/
theorem formatSuites_id_browsers (rows : List Attempt)
    (hseg : ∀ a ∈ rows, ∀ seg ∈ a.rest, seg ≠ "")
    (hretries : ∀ a ∈ rows, a.browserResult.retries = [])
    (path : List String) (x : String) :
    (dbBrowsersAt (formatSuitesDataFromDb (fun d _ => d) rows) path).filter
        (fun y => decide (y.name = x))
      = browserOfRows x (rowsOf rows path x) := by
  induction rows using List.reverseRecOn with
  | nil =>
    cases path <;>
      simp [formatSuitesDataFromDb, dbBrowsersAt, dbNodeAt, rowsOf, browserOfRows, Dict.get]
  | append_singleton rows a ih =>
    have ih1 := ih (fun r hr => hseg r (List.mem_append_left _ hr))
      (fun r hr => hretries r (List.mem_append_left _ hr))
    have hsa := hseg a (by simp)
    have hra := hretries a (by simp)
    simp only [formatSuitesDataFromDb, List.foldl_append, List.foldl_cons, List.foldl_nil]
    simp only [formatSuitesDataFromDb] at ih1
    rw [formatSuitesStep_browsersAt _ a hsa path, rowsOf_append]
    by_cases hp : path = a.suitePath
    · subst hp
      simp only [if_true, true_and, filter_pushBrowserResult]
      by_cases hx : a.browserResult.name = x
      · simp only [hx, if_true, browserOfRows_snoc, ih1]
        cases hl : (rowsOf rows a.suitePath x).getLast? with
        | none =>
          have hnil : rowsOf rows a.suitePath x = [] := List.getLast?_eq_none_iff.mp hl
          rw [hnil]
          simp only [browserOfRows, List.getLast?_nil, List.map_nil]
          cases hb : a.browserResult with
          | mk bn br bt =>
            rw [hb] at hx hra
            simp only at hx hra
            subst hx; subst hra
            rfl
        | some last =>
          simp only [browserOfRows, hl]
          have hsplit := List.dropLast_append_getLast? last hl
          congr 1
          simp only [DbBrowser.mk.injEq, true_and]
          conv_rhs => rw [← hsplit]
          simp
      · simp only [hx, if_false, ih1]
    · have hp2 : ¬ a.suitePath = path := fun e => hp e.symm
      simp only [hp, hp2, if_false, false_and, ih1]

theorem descend_skeleton : ∀ (q : List String) (node : DbSuite),
    DbSuite.descend q node.skeleton = (DbSuite.descend q node).map DbSuite.skeleton
  | [], node => rfl
  | part :: q, node => by
    simp only [DbSuite.descend, skeleton_children, List.find?_map]
    have : (fun c : DbSuite => decide (c.name = part)) ∘ DbSuite.skeleton
        = fun c => decide (c.name = part) := by
      funext c
      simp [skeleton_name]
    rw [this]
    cases (node.children.getD []).find? (fun c => decide (c.name = part)) with
    | none => rfl
    | some c => exact descend_skeleton q c

theorem dbNodeAt_skeletonDict (suitesTree : Dict DbSuite) (path : List String) :
    dbNodeAt (skeletonDict suitesTree) path
      = (dbNodeAt suitesTree path).map DbSuite.skeleton := by
  cases path with
  | nil => rfl
  | cons k q =>
    simp only [dbNodeAt, skeletonDict_get]
    cases Dict.get suitesTree k with
    | none => rfl
    | some root => exact descend_skeleton q root

theorem dbBrowsersAt_skeletonDict (suitesTree : Dict DbSuite) (path : List String) :
    dbBrowsersAt (skeletonDict suitesTree) path = dbBrowsersAt suitesTree path := by
  simp only [dbBrowsersAt, dbNodeAt_skeletonDict]
  cases dbNodeAt suitesTree path with
  | none => rfl
  | some node => simp [skeleton_browsers]

/-- C26: for every sequence of attempt rows with non-empty path parts in which each
browser result starts with an empty retries list, and for every suite path and browser
name that occur together in at least one row, the node at that suite path of the tree
`formatSuitesDataFromDb` builds (with a `setStatusForBranch` that changes statuses only)
holds exactly one browser of that name; its result is the result of the last such row and
its retries are the results of the earlier such rows, in row order. -/
theorem db_tree_browser_history (util : Dict DbSuite → List String → Dict DbSuite)
    (hutil : StatusOnly util) (rows : List Attempt)
    (hseg : ∀ a ∈ rows, ∀ seg ∈ a.rest, seg ≠ "")
    (hretries : ∀ a ∈ rows, a.browserResult.retries = [])
    (suitePath : List String) (browserName : String)
    (hne : rowsOf rows suitePath browserName ≠ []) :
    ∃ node, dbNodeAt (formatSuitesDataFromDb util rows) suitePath = some node ∧
      (node.browsers.getD []).filter (fun b => decide (b.name = browserName))
        = [{ name := browserName,
             result := ((rowsOf rows suitePath browserName).getLast hne).browserResult.result,
             retries := (rowsOf rows suitePath browserName).dropLast.map
               (fun a => a.browserResult.result) }] := by
  have h := formatSuites_id_browsers rows hseg hretries suitePath browserName
  rw [← skeleton_formatSuitesDataFromDb util hutil, dbBrowsersAt_skeletonDict] at h
  have hl : (rowsOf rows suitePath browserName).getLast?
      = some ((rowsOf rows suitePath browserName).getLast hne) :=
    List.getLast?_eq_getLast _ hne
  simp only [browserOfRows, hl] at h
  cases hnode : dbNodeAt (formatSuitesDataFromDb util rows) suitePath with
  | none => simp [dbBrowsersAt, hnode] at h
  | some node =>
    refine ⟨node, rfl, ?_⟩
    simpa [dbBrowsersAt, hnode] using h

/-- Witness for C26: two rows for the suite path `a b` and the browser `bro`. -/
theorem db_tree_browser_history_witness :
    ∃ node, dbNodeAt (formatSuitesDataFromDb (fun d _ => d)
        [⟨"a", ["b"], StatusKind.FAIL, ⟨"bro", ⟨StatusKind.FAIL, 0, none⟩, []⟩, none⟩,
         ⟨"a", ["b"], StatusKind.SUCCESS, ⟨"bro", ⟨StatusKind.SUCCESS, 1, none⟩, []⟩, none⟩])
        ["a", "b"] = some node ∧
      (node.browsers.getD []).filter (fun b => decide (b.name = "bro"))
        = [{ name := "bro", result := ⟨StatusKind.SUCCESS, 1, none⟩,
             retries := [⟨StatusKind.FAIL, 0, none⟩] }] :=
  db_tree_browser_history (fun d _ => d) statusOnly_id
    [⟨"a", ["b"], StatusKind.FAIL, ⟨"bro", ⟨StatusKind.FAIL, 0, none⟩, []⟩, none⟩,
     ⟨"a", ["b"], StatusKind.SUCCESS, ⟨"bro", ⟨StatusKind.SUCCESS, 1, none⟩, []⟩, none⟩]
    (by decide) (by decide) ["a", "b"] "bro" (by decide)

/-! ## The order of `sort()` -/

theorem unitsLe_total : ∀ a b : List Nat, unitsLe a b = true ∨ unitsLe b a = true
  | [], _ => Or.inl rfl
  | _ :: _, [] => Or.inr rfl
  | a :: as, b :: bs => by
    simp only [unitsLe]
    rcases Nat.lt_trichotomy a b with h | h | h
    · simp [h]
    · subst h
      simp only [Nat.lt_irrefl, if_false]
      exact unitsLe_total as bs
    · simp [h]

theorem unitsLe_trans : ∀ a b c : List Nat,
    unitsLe a b = true → unitsLe b c = true → unitsLe a c = true
  | [], _, _, _, _ => rfl
  | _ :: _, [], _, h, _ => by simp [unitsLe] at h
  | _ :: _, _ :: _, [], _, h => by simp [unitsLe] at h
  | a :: as, b :: bs, c :: cs, h1, h2 => by
    simp only [unitsLe] at h1 h2 ⊢
    by_cases hab : a < b
    · by_cases hbc : b < c
      · simp [Nat.lt_trans hab hbc]
      · by_cases hcb : c < b
        · simp [hbc, hcb] at h2
        · have : b = c := by omega
          subst this
          simp [hab]
    · by_cases hba : b < a
      · simp [hab, hba] at h1
      · have : a = b := by omega
        subst this
        simp only [Nat.lt_irrefl, if_false] at h1
        by_cases hbc : a < c
        · simp [hbc]
        · by_cases hcb : c < a
          · simp [hbc, hcb] at h2
          · simp only [hbc, hcb, if_false] at h2 ⊢
            exact unitsLe_trans as bs cs h1 h2

theorem unitsLe_antisymm : ∀ a b : List Nat,
    unitsLe a b = true → unitsLe b a = true → a = b
  | [], [], _, _ => rfl
  | [], _ :: _, _, h => by simp [unitsLe] at h
  | _ :: _, [], h, _ => by simp [unitsLe] at h
  | a :: as, b :: bs, h1, h2 => by
    simp only [unitsLe] at h1 h2
    by_cases hab : a < b
    · have hba : ¬ b < a := by omega
      simp [hab, hba] at h2
    · by_cases hba : b < a
      · simp [hab, hba] at h1
      · have : a = b := by omega
        subst this
        simp only [Nat.lt_irrefl, if_false] at h1 h2
        rw [unitsLe_antisymm as bs h1 h2]

theorem char_toNat_valid (c : Char) :
    c.toNat < 55296 ∨ (57343 < c.toNat ∧ c.toNat < 1114112) := by
  have h := c.valid
  simp only [UInt32.isValidChar, Nat.isValidChar] at h
  exact h

theorem utf16_chars_injective : ∀ a b : List Char,
    (a.flatMap (fun c =>
        if c.toNat < 65536 then [c.toNat]
        else [55296 + (c.toNat - 65536) / 1024, 56320 + (c.toNat - 65536) % 1024]))
      = (b.flatMap (fun c =>
        if c.toNat < 65536 then [c.toNat]
        else [55296 + (c.toNat - 65536) / 1024, 56320 + (c.toNat - 65536) % 1024])) →
    a = b
  | [], [], _ => rfl
  | [], y :: ys, h => by
    simp only [List.flatMap_nil, List.flatMap_cons] at h
    split at h <;> simp at h
  | x :: xs, [], h => by
    simp only [List.flatMap_nil, List.flatMap_cons] at h
    split at h <;> simp at h
  | x :: xs, y :: ys, h => by
    simp only [List.flatMap_cons] at h
    have hx := char_toNat_valid x
    have hy := char_toNat_valid y
    have key : x.toNat = y.toNat ∧
        (xs.flatMap (fun c =>
          if c.toNat < 65536 then [c.toNat]
          else [55296 + (c.toNat - 65536) / 1024, 56320 + (c.toNat - 65536) % 1024]))
        = (ys.flatMap (fun c =>
          if c.toNat < 65536 then [c.toNat]
          else [55296 + (c.toNat - 65536) / 1024, 56320 + (c.toNat - 65536) % 1024])) := by
      by_cases h1 : x.toNat < 65536 <;> by_cases h2 : y.toNat < 65536
      · simp only [h1, h2, if_true, List.singleton_append, List.cons.injEq] at h
        exact h
      · simp only [h1, h2, if_true, if_false, List.singleton_append, List.cons_append,
          List.nil_append, List.cons.injEq] at h
        omega
      · simp only [h1, h2, if_true, if_false, List.singleton_append, List.cons_append,
          List.nil_append, List.cons.injEq] at h
        omega
      · simp only [h1, h2, if_false, List.cons_append, List.nil_append, List.cons.injEq] at h
        obtain ⟨ha, hb, hc⟩ := h
        exact ⟨by omega, hc⟩
    have hxy : x = y := Char.ext (UInt32.ext key.1)
    rw [hxy, utf16_chars_injective xs ys key.2]

theorem utf16Units_injective (a b : String) (h : utf16Units a = utf16Units b) : a = b :=
  String.ext (utf16_chars_injective a.data b.data h)

theorem jsLe_total (a b : Option String) : jsLe a b = true ∨ jsLe b a = true := by
  cases a <;> cases b <;> simp [jsLe]
  exact unitsLe_total _ _

theorem jsLe_trans (a b c : Option String) (h1 : jsLe a b = true) (h2 : jsLe b c = true) :
    jsLe a c = true := by
  cases a <;> cases b <;> cases c <;> simp [jsLe] at h1 h2 ⊢
  exact unitsLe_trans _ _ _ h1 h2

theorem jsLe_antisymm (a b : Option String) (h1 : jsLe a b = true) (h2 : jsLe b a = true) :
    a = b := by
  cases a <;> cases b <;> simp [jsLe] at h1 h2 ⊢
  exact utf16Units_injective _ _ (unitsLe_antisymm _ _ h1 h2)

theorem jsSort_sorted (l : List (Option String)) :
    (jsSort l).Sorted (fun a b => jsLe a b = true) :=
  @List.sorted_insertionSort (Option String) (fun a b => jsLe a b = true) _
    ⟨jsLe_total⟩ ⟨jsLe_trans⟩ l

theorem jsSort_perm (l : List (Option String)) : (jsSort l).Perm l :=
  List.perm_insertionSort _ l

theorem jsSort_sublist (l1 l2 : List (Option String)) (h : l1.Sublist l2) :
    (jsSort l1).Sublist (jsSort l2) := by
  have hsub : List.Subperm (jsSort l1) (jsSort l2) :=
    ((jsSort_perm l1).subperm.trans h.subperm).trans (jsSort_perm l2).symm.subperm
  exact @List.sublist_of_subperm_of_sorted (Option String) (fun a b => jsLe a b = true)
    ⟨jsLe_antisymm⟩ _ _ hsub (jsSort_sorted l1) (jsSort_sorted l2)

/-! ## The state `createTestResultsFromDb` returns -/

theorem toReportSuite_name (node : DbSuite) : node.toReportSuite.name = node.name := by
  cases node; rfl

theorem toReportSuite_suitePath (node : DbSuite) :
    node.toReportSuite.suitePath = node.suitePath := by
  cases node; rfl

theorem createTestResultsFromDb_of_db (isSuiteFailed : ReportSuite → Bool)
    (util : Dict DbSuite → List String → Dict DbSuite)
    (suitesStats : List Attempt → DbCounts × Dict DbCounts)
    (groupErrors : GroupErrorsArgs → List ErrorGroup) (viewQuery : ViewQuery)
    (state : State) (payload : DbPayload) (db : Db)
    (hdb : payload.db = some db) (hne : payload.fetchDbDetails ≠ []) :
    (createTestResultsFromDb isSuiteFailed util suitesStats groupErrors viewQuery state
        payload).suites
      = (formatSuitesDataFromDb util db.attempts).map (fun kv => (kv.1, kv.2.toReportSuite)) ∧
    (createTestResultsFromDb isSuiteFailed util suitesStats groupErrors viewQuery state
        payload).suiteIds
      = { all := jsSort (getSuiteIds (Dict.values
            ((formatSuitesDataFromDb util db.attempts).map
              (fun kv => (kv.1, kv.2.toReportSuite))))),
          failed := jsSort (getFailedSuiteIds isSuiteFailed (Dict.values
            ((formatSuitesDataFromDb util db.attempts).map
              (fun kv => (kv.1, kv.2.toReportSuite))))) } := by
  have hlen : ¬ payload.fetchDbDetails.length = 0 := by
    intro h
    exact hne (List.length_eq_zero.mp h)
  refine ⟨?_, ?_⟩ <;> simp only [createTestResultsFromDb, hlen, if_false, hdb]

theorem db_root_suite_ids (util : Dict DbSuite → List String → Dict DbSuite)
    (hutil : StatusOnly util) (rows : List Attempt) :
    ∀ r ∈ Dict.values ((formatSuitesDataFromDb util rows).map
        (fun kv => (kv.1, kv.2.toReportSuite))),
      getSuiteId r = some r.name := by
  intro r hr
  simp only [Dict.values, List.map_map, List.mem_map, Function.comp_def] at hr
  obtain ⟨kv, hkv, rfl⟩ := hr
  have h := formatSuites_roots util hutil rows kv hkv
  simp [getSuiteId, toReportSuite_suitePath, toReportSuite_name, h.1, h.2]

theorem db_root_names_nodup (util : Dict DbSuite → List String → Dict DbSuite)
    (hutil : StatusOnly util) (rows : List Attempt) :
    ((Dict.values ((formatSuitesDataFromDb util rows).map
        (fun kv => (kv.1, kv.2.toReportSuite)))).map (fun r => some r.name)).Nodup := by
  have h1 := formatSuites_keys_nodup util hutil rows
  rw [← formatSuites_root_names util hutil rows] at h1
  have h2 := h1.map (f := some) (Option.some_injective _)
  simpa [Dict.values, List.map_map, Function.comp_def, toReportSuite_name] using h2

/-- The keys of the tree `formatSuitesDataFromDb` builds are the first segments of the
suite paths of the rows, each once, in the order of their first row. -/
theorem formatSuites_keys (util : Dict DbSuite → List String → Dict DbSuite)
    (hutil : StatusOnly util) (rows : List Attempt) :
    Dict.keys (formatSuitesDataFromDb util rows)
      = (rows.map Attempt.suiteId).foldl appendNew [] := by
  rw [← skeletonDict_keys, skeleton_formatSuitesDataFromDb util hutil]
  simp only [formatSuitesDataFromDb]
  suffices h : ∀ t : Dict DbSuite,
      Dict.keys (rows.foldl (formatSuitesStep (fun d _ => d)) t)
        = (rows.map Attempt.suiteId).foldl appendNew (Dict.keys t) from
    h []
  induction rows with
  | nil => intro t; rfl
  | cons a rows ih =>
    intro t
    simp only [List.foldl_cons, List.map_cons]
    rw [ih]
    simp only [formatSuitesStep, Dict.keys_set]

/-- C29: `createTestResultsFromDb` fails soft: if the `fetchDbDetails` of the payload is
empty, or it is non-empty and the payload has no database, the returned state is the input
state with `fetchDbDetails` set to the value of the payload; `suites`, `suiteIds`, `stats`
and `browsers` are those of the input state. -/
theorem createTestResultsFromDb_soft_fail (isSuiteFailed : ReportSuite → Bool)
    (util : Dict DbSuite → List String → Dict DbSuite)
    (suitesStats : List Attempt → DbCounts × Dict DbCounts)
    (groupErrors : GroupErrorsArgs → List ErrorGroup) (viewQuery : ViewQuery)
    (state : State) (payload : DbPayload)
    (h : payload.fetchDbDetails = [] ∨ payload.db = none) :
    createTestResultsFromDb isSuiteFailed util suitesStats groupErrors viewQuery state payload
      = { state with fetchDbDetails := some payload.fetchDbDetails } ∧
    (createTestResultsFromDb isSuiteFailed util suitesStats groupErrors viewQuery state
      payload).suites = state.suites ∧
    (createTestResultsFromDb isSuiteFailed util suitesStats groupErrors viewQuery state
      payload).suiteIds = state.suiteIds ∧
    (createTestResultsFromDb isSuiteFailed util suitesStats groupErrors viewQuery state
      payload).stats = state.stats ∧
    (createTestResultsFromDb isSuiteFailed util suitesStats groupErrors viewQuery state
      payload).browsers = state.browsers := by
  have key : createTestResultsFromDb isSuiteFailed util suitesStats groupErrors viewQuery state
      payload = { state with fetchDbDetails := some payload.fetchDbDetails } := by
    simp only [createTestResultsFromDb]
    rcases h with h | h
    · simp [h]
    · split
      · rfl
      · simp [h]
  rw [key]
  exact ⟨rfl, rfl, rfl, rfl, rfl⟩

/-- Witness for C29: a payload with details of a fetch and no database. -/
theorem createTestResultsFromDb_soft_fail_witness :
    createTestResultsFromDb (fun _ => false) (fun d _ => d) (fun _ => (⟨0, 0, 0, 0, 0⟩, []))
        (fun _ => []) ⟨none, none, none, none⟩
        { running := false, processing := false,
          suites := [("s", ReportSuite.mk "s" ["s"] (some StatusKind.FAIL) none none)],
          suiteIds := { all := [some "s"], failed := [some "s"] } }
        { db := none, fetchDbDetails := [⟨"sqlite.db", 404, false⟩] }
      = { running := false, processing := false,
          suites := [("s", ReportSuite.mk "s" ["s"] (some StatusKind.FAIL) none none)],
          suiteIds := { all := [some "s"], failed := [some "s"] },
          fetchDbDetails := some [⟨"sqlite.db", 404, false⟩] } :=
  (createTestResultsFromDb_soft_fail (fun _ => false) (fun d _ => d)
    (fun _ => (⟨0, 0, 0, 0, 0⟩, [])) (fun _ => []) ⟨none, none, none, none⟩
    { running := false, processing := false,
      suites := [("s", ReportSuite.mk "s" ["s"] (some StatusKind.FAIL) none none)],
      suiteIds := { all := [some "s"], failed := [some "s"] } }
    { db := none, fetchDbDetails := [⟨"sqlite.db", 404, false⟩] } (Or.inr rfl)).1

/-! ## The wrapper `withBrowserStorage` -/

theorem isViewAction_iff (actionType : String) :
    isViewAction actionType = true ↔ ∃ rest : String, actionType = "VIEW_" ++ rest := by
  simp only [isViewAction, beq_iff_eq]
  constructor
  · intro h
    refine ⟨⟨actionType.data.drop 5⟩, ?_⟩
    apply String.ext
    rw [String.data_append]
    have := List.take_append_drop 5 actionType.data
    rw [h] at this
    exact this.symm
  · rintro ⟨rest, rfl⟩
    rw [String.data_append]
    rfl

/-- C30: `withBrowserStorage` is transparent and persists only view settings: the state
it returns is the state the wrapped reducer returns; the storage is written, under the
key `view`, if and only if the type of the action starts with `VIEW_`; and the stored
object has exactly the keys `expand`, `viewMode`, `showSkipped`, `showOnlyDiff`,
`scaleImages`, `groupByError` and `strictMatchFilter`, each with the value of the new
view, and none of `testNameFilter`, `baseHost` and `filteredBrowsers`. -/
theorem withBrowserStorage_transparent {α σ : Type}
    (setItem : String → Dict ViewValue → σ → σ) (actionType : α → String)
    (reducer : State → α → State) (storage : σ) (state : State) (action : α) :
    (withBrowserStorage setItem actionType reducer storage state action).1
      = reducer state action ∧
    ((∃ rest : String, actionType action = "VIEW_" ++ rest) →
      (withBrowserStorage setItem actionType reducer storage state action).2
        = setItem "view" (storedView (reducer state action).view) storage) ∧
    ((¬ ∃ rest : String, actionType action = "VIEW_" ++ rest) →
      (withBrowserStorage setItem actionType reducer storage state action).2 = storage) ∧
    (∀ view : View,
      Dict.keys (storedView view)
        = ["expand", "viewMode", "showSkipped", "showOnlyDiff", "scaleImages", "groupByError",
            "strictMatchFilter"] ∧
      Dict.get (storedView view) "expand" = some (.text view.expand) ∧
      Dict.get (storedView view) "viewMode" = some (.text view.viewMode) ∧
      Dict.get (storedView view) "showSkipped" = some (.flag view.showSkipped) ∧
      Dict.get (storedView view) "showOnlyDiff" = some (.flag view.showOnlyDiff) ∧
      Dict.get (storedView view) "scaleImages" = some (.flag view.scaleImages) ∧
      Dict.get (storedView view) "groupByError" = some (.flag view.groupByError) ∧
      Dict.get (storedView view) "strictMatchFilter" = some (.flag view.strictMatchFilter) ∧
      Dict.get (storedView view) "testNameFilter" = none ∧
      Dict.get (storedView view) "baseHost" = none ∧
      Dict.get (storedView view) "filteredBrowsers" = none) := by
  refine ⟨?_, ?_, ?_, ?_⟩
  · simp only [withBrowserStorage]
    split <;> rfl
  · intro h
    have := (isViewAction_iff (actionType action)).2 h
    simp [withBrowserStorage, this]
  · intro h
    have : ¬ isViewAction (actionType action) = true :=
      fun e => h ((isViewAction_iff (actionType action)).1 e)
    simp [withBrowserStorage, this]
  · intro view
    refine ⟨rfl, ?_, ?_, ?_, ?_, ?_, ?_, ?_, ?_, ?_, ?_⟩ <;>
      simp [storedView, Dict.get]

/-! ## The tool runner: silently skipped tests -/

mutual
theorem isSilentlySkipped_iff : ∀ r : Runnable,
    isSilentlySkipped r = true ↔ ∃ a ∈ r.chain, a.silentSkip = true
  | .mk s parent => by
    simp only [isSilentlySkipped, Runnable.chain, Bool.or_eq_true, List.mem_cons,
      exists_eq_or_imp]
    rw [isParentSilentlySkipped_iff parent]
    exact Iff.rfl
theorem isParentSilentlySkipped_iff : ∀ parent : Option Runnable,
    isParentSilentlySkipped parent = true ↔ ∃ a ∈ parentChain parent, a.silentSkip = true
  | none => by simp [isParentSilentlySkipped, parentChain]
  | some p => by
    simp only [isParentSilentlySkipped, parentChain]
    exact isSilentlySkipped_iff p
end

theorem handleRunnableCollection_calls (formatId : String → String → String)
    (collection : List (CollectedTest × String)) :
    ∀ st : RunnerState,
      (handleRunnableCollection formatId collection st).calls
        = st.calls ++
          (collection.filter
            (fun e => !(e.1.disabled || isSilentlySkipped e.1.link))).map
            (fun e =>
              if e.1.pending = true then ReportCall.addSkipped ⟨e.1, e.2⟩
              else ReportCall.addIdle ⟨e.1, e.2⟩) := by
  induction collection with
  | nil => intro st; simp [handleRunnableCollection]
  | cons e rest ih =>
    intro st
    simp only [handleRunnableCollection, List.foldl_cons] at ih ⊢
    rw [ih]
    cases hd : e.1.disabled <;> cases hs : isSilentlySkipped e.1.link <;>
      simp [handleTest, hd, hs, List.filter_cons]

theorem handleRunnableCollection_tests (formatId : String → String → String)
    (collection : List (CollectedTest × String)) :
    ∀ (st : RunnerState) (k : String) (v : RegisteredTest),
      Dict.get (handleRunnableCollection formatId collection st).tests k = some v →
      Dict.get st.tests k = some v ∨
        ((v.test, v.browserId) ∈ collection ∧ v.test.disabled = false ∧
          isSilentlySkipped v.test.link = false ∧ k = formatId v.test.id v.browserId) := by
  induction collection with
  | nil => intro st k v h; exact Or.inl h
  | cons e rest ih =>
    intro st k v h
    simp only [handleRunnableCollection, List.foldl_cons] at ih h
    rcases ih _ k v h with h1 | ⟨hm, hd, hs, hk⟩
    · by_cases hc : (e.1.disabled || isSilentlySkipped e.1.link) = true
      · rw [handleTest, if_pos hc] at h1
        exact Or.inl h1
      · rw [handleTest, if_neg hc] at h1
        simp only [Dict.get_set] at h1
        split at h1
        · rename_i hk
          simp only [Option.some.injEq] at h1
          subst h1
          simp only [Bool.or_eq_true, not_or, Bool.not_eq_true] at hc
          exact Or.inr ⟨List.mem_cons_self _ _, hc.1, hc.2, hk.symm⟩
        · exact Or.inl h1
    · exact Or.inr ⟨List.mem_cons_of_mem _ hm, hd, hs, hk⟩

/-- C25: `_isSilentlySkipped` is a walk along the parent chain: it is defined for every
test or suite with a finite chain of parents, and its result is true if and only if the
test or suite itself or one of its ancestors has a truthy `silentSkip`;
`_handleRunnableCollection` declares exactly the tests that are neither disabled nor
silently skipped, in order, and every test it registers is one of these, under the key
`formatId(test.id(), browserId)`. -/
theorem silent_skip_chain_walk (formatId : String → String → String)
    (collection : List (CollectedTest × String)) (st : RunnerState) (r : Runnable) :
    (isSilentlySkipped r = true ↔ ∃ a ∈ r.chain, a.silentSkip = true) ∧
    (handleRunnableCollection formatId collection st).calls
      = st.calls ++
        (collection.filter
          (fun e => !(e.1.disabled || isSilentlySkipped e.1.link))).map
          (fun e =>
            if e.1.pending = true then ReportCall.addSkipped ⟨e.1, e.2⟩
            else ReportCall.addIdle ⟨e.1, e.2⟩) ∧
    (∀ (k : String) (v : RegisteredTest),
      Dict.get (handleRunnableCollection formatId collection st).tests k = some v →
      Dict.get st.tests k = some v ∨
        ((v.test, v.browserId) ∈ collection ∧ v.test.disabled = false ∧
          isSilentlySkipped v.test.link = false ∧ k = formatId v.test.id v.browserId)) :=
  ⟨isSilentlySkipped_iff r, handleRunnableCollection_calls formatId collection st,
    handleRunnableCollection_tests formatId collection st⟩

/-! ## `formatSuitesData2` at deeper trees and at ids with dots -/

/-- C23, at the failing input: a root suite `r` whose child `c` has the child `g`. The
call `flatSuites` of the child returns an array, which stays an element of
`flattenSuites` (`concat` and `flatMap` each flatten one level); on it `getSuiteId2` reads
`suitePath` of an array and throws, so `formatSuitesData2` returns nothing. -/
theorem formatSuitesData2_throws_at_depth_three :
    flattenSuites
        [.mk "r" ["r"] (some StatusKind.SUCCESS)
          (some [.mk "c" ["r", "c"] (some StatusKind.SUCCESS)
            (some [.mk "g" ["r", "c", "g"] (some StatusKind.SUCCESS) none none]) none]) none]
      = [.suite (.mk "r" ["r"] (some StatusKind.SUCCESS)
          (some [.mk "c" ["r", "c"] (some StatusKind.SUCCESS)
            (some [.mk "g" ["r", "c", "g"] (some StatusKind.SUCCESS) none none]) none]) none),
         .array
          [.suite (.mk "c" ["r", "c"] (some StatusKind.SUCCESS)
            (some [.mk "g" ["r", "c", "g"] (some StatusKind.SUCCESS) none none]) none),
           .suite (.mk "g" ["r", "c", "g"] (some StatusKind.SUCCESS) none none)]] ∧
    formatSuitesData2 (fun _ => false)
        [.mk "r" ["r"] (some StatusKind.SUCCESS)
          (some [.mk "c" ["r", "c"] (some StatusKind.SUCCESS)
            (some [.mk "g" ["r", "c", "g"] (some StatusKind.SUCCESS) none none]) none]) none]
      = none :=
  ⟨rfl, rfl⟩

/-- C24, at the failing input: one root suite named `a.b`, without children. Its id `a.b`
is in `allIds`; lodash `set` reads the id as the path `a`, `b`, so `byId` has the property
`a`, an object whose property `b` is the prepared suite, and no property `a.b`. -/
theorem byId_lookup_fails_at_dotted_id :
    (formatSuitesData2 (fun _ => false)
        [.mk "a.b" ["a.b"] (some StatusKind.SUCCESS) none none]).map (fun r => r.allIds)
      = some ["a.b"] ∧
    lodashPath "a.b" = some ["a", "b"] ∧
    (formatSuitesData2ById
        [.mk "a.b" ["a.b"] (some StatusKind.SUCCESS) none none]).map
      (fun byId => (byId.lookup "a.b").map JsObject.suite) = some none ∧
    (formatSuitesData2ById
        [.mk "a.b" ["a.b"] (some StatusKind.SUCCESS) none none]).map
      (fun byId => ((byId.lookup "a").bind (fun o => o.lookup "b")).map
        (fun o => o.suite.map (fun s => s.id))) = some (some (some "a.b")) := by
  refine ⟨by decide, by decide, by decide, by decide⟩

/-! ## The reducer on the actions of the interface -/

/-- C35: each of `VIEW_TOGGLE_SKIPPED`, `VIEW_TOGGLE_ONLY_DIFF`, `VIEW_TOGGLE_SCALE_IMAGES`
and `VIEW_TOGGLE_GROUP_BY_ERROR` returns the state with exactly one flag of the view
negated (`showSkipped`, `showOnlyDiff`, `scaleImages`, `groupByError` respectively) and
every other field of the view and of the state as it was; the same toggle dispatched
twice returns the original state. -/
theorem view_toggles (radiobuttonType : String) (state : State) :
    (Reporter.reducerView radiobuttonType state .VIEW_TOGGLE_SKIPPED
        = .state { state with
            view := { state.view with showSkipped := !state.view.showSkipped } } ∧
      Reporter.reducerView radiobuttonType state .VIEW_TOGGLE_ONLY_DIFF
        = .state { state with
            view := { state.view with showOnlyDiff := !state.view.showOnlyDiff } } ∧
      Reporter.reducerView radiobuttonType state .VIEW_TOGGLE_SCALE_IMAGES
        = .state { state with
            view := { state.view with scaleImages := !state.view.scaleImages } } ∧
      Reporter.reducerView radiobuttonType state .VIEW_TOGGLE_GROUP_BY_ERROR
        = .state { state with
            view := { state.view with groupByError := !state.view.groupByError } }) ∧
    (∀ action : ViewAction,
      (action = .VIEW_TOGGLE_SKIPPED ∨ action = .VIEW_TOGGLE_ONLY_DIFF ∨
        action = .VIEW_TOGGLE_SCALE_IMAGES ∨ action = .VIEW_TOGGLE_GROUP_BY_ERROR) →
      ∃ state1, Reporter.reducerView radiobuttonType state action = .state state1 ∧
        Reporter.reducerView radiobuttonType state1 action = .state state) := by
  refine ⟨⟨rfl, rfl, rfl, rfl⟩, ?_⟩
  intro action h
  obtain ⟨running, processing, suites, suiteIds, view, ge, db, fd, stats, skips, browsers, cg⟩ :=
    state
  obtain ⟨vm, ex, ss, sd, si, bh, tf, sm, fb, gb, br⟩ := view
  rcases h with rfl | rfl | rfl | rfl
  all_goals
    refine ⟨_, rfl, ?_⟩
    simp [Reporter.reducerView, mutateStateView]

theorem modifyAt_getElem? {α : Type} (f : α → α) :
    ∀ (i : Nat) (l : List α) (j : Nat),
      (modifyAt f i l)[j]? = if j = i then (l[j]?).map f else l[j]?
  | i, [], j => by cases i <;> simp [modifyAt]
  | 0, x :: xs, j => by
    cases j with
    | zero => simp [modifyAt]
    | succ j => simp [modifyAt]
  | i + 1, x :: xs, j => by
    cases j with
    | zero => simp [modifyAt]
    | succ j =>
      simp only [modifyAt, List.getElem?_cons_succ, modifyAt_getElem? f i xs j]
      simp

theorem modifyAt_length {α : Type} (f : α → α) :
    ∀ (i : Nat) (l : List α), (modifyAt f i l).length = l.length
  | i, [] => by cases i <;> simp [modifyAt]
  | 0, x :: xs => rfl
  | i + 1, x :: xs => by simp [modifyAt, modifyAt_length f i xs]

theorem activateControl_length (controlIndex : Nat) :
    ∀ (i : Nat) (cs : List ControlItem), (activateControl controlIndex i cs).length = cs.length
  | _, [] => rfl
  | i, c :: cs => by simp [activateControl, activateControl_length controlIndex (i + 1) cs]

theorem activateControl_getElem? (controlIndex : Nat) :
    ∀ (i : Nat) (cs : List ControlItem) (j : Nat),
      (activateControl controlIndex i cs)[j]?
        = (cs[j]?).map (fun c => { c with active := decide (controlIndex = i + j) })
  | _, [], j => by simp [activateControl]
  | i, c :: cs, j => by
    cases j with
    | zero => simp [activateControl]
    | succ j =>
      simp only [activateControl, List.getElem?_cons_succ,
        activateControl_getElem? controlIndex (i + 1) cs j]
      have : i + 1 + j = i + (j + 1) := by omega
      rw [this]

/-- C34: for every state and every `RUN_CUSTOM_GUI_ACTION` that addresses an existing
control group: if the group is of radiobutton type, the returned state has the section
with that group replaced by a group of the same type whose controls are those of the
group, each with its label and value, the control at `controlIndex` active and no other;
every other group of the section, every other section and every other field of the state
are unchanged; if the group is not of radiobutton type the input state is returned. The
input state is a value the function only reads. -/
theorem custom_gui_radiobutton (radiobuttonType : String) (state : State)
    (sectionName : String) (groupIndex controlIndex : Nat)
    (groups : List ControlGroup) (group : ControlGroup)
    (hsection : Dict.get state.customGui sectionName = some groups)
    (hgroup : groups[groupIndex]? = some group) :
    (group.type ≠ radiobuttonType →
      Reporter.reducerView radiobuttonType state
        (.RUN_CUSTOM_GUI_ACTION sectionName groupIndex controlIndex) = .state state) ∧
    (group.type = radiobuttonType →
      ∃ state1,
        Reporter.reducerView radiobuttonType state
            (.RUN_CUSTOM_GUI_ACTION sectionName groupIndex controlIndex) = .state state1 ∧
        RadioSelected state state1 sectionName groupIndex controlIndex groups group) := by
  constructor
  · intro hne
    simp [Reporter.reducerView, runCustomGuiAction, hsection, hgroup, hne]
  · intro heq
    refine ⟨_, by simp [Reporter.reducerView, runCustomGuiAction, hsection, hgroup, heq],
      modifyAt (fun g => { g with controls := activateControl controlIndex 0 g.controls })
        groupIndex groups,
      { group with controls := activateControl controlIndex 0 group.controls }, rfl, ?_, ?_, ?_,
      ?_, ?_, ?_, rfl, ?_, ?_, ?_⟩
    · show Dict.keys (Dict.set state.customGui sectionName _) = _
      rw [Dict.keys_set]
      apply appendNew_of_mem
      by_contra hk
      rw [(Dict.get_eq_none_iff _ _).2 hk] at hsection
      cases hsection
    · intro k hk
      show Dict.get (Dict.set state.customGui sectionName _) k = _
      rw [Dict.get_set, if_neg (fun e => hk e.symm)]
    · show Dict.get (Dict.set state.customGui sectionName _) sectionName = _
      rw [Dict.get_set, if_pos rfl]
    · exact modifyAt_length _ _ _
    · intro j hj
      rw [modifyAt_getElem?, if_neg hj]
    · rw [modifyAt_getElem?, if_pos rfl, hgroup]
      rfl
    · exact activateControl_length _ _ _
    · intro i c hc
      rw [activateControl_getElem?, hc]
      simp
    · intro _ i c1 hc1
      rw [activateControl_getElem?] at hc1
      cases hg : group.controls[i]? with
      | none => rw [hg] at hc1; cases hc1
      | some c =>
        rw [hg] at hc1
        simp only [Option.map_some', Option.some.injEq] at hc1
        subst hc1
        simp only [Nat.zero_add, decide_eq_true_eq]
        exact ⟨fun h => h.symm, fun h => h.symm⟩

/-- Witness for C34: a section with one group of two radio buttons, the second of which
is chosen. -/
theorem custom_gui_radiobutton_witness :
    ∃ state1,
      Reporter.reducerView "radiobutton"
          { running := false, processing := false, suites := [],
            suiteIds := { all := [], failed := [] },
            customGui :=
              [("top", [{ type := "radiobutton",
                          controls := [⟨"A", "a", true⟩, ⟨"B", "b", false⟩] }])] }
          (.RUN_CUSTOM_GUI_ACTION "top" 0 1) = .state state1 ∧
      RadioSelected
        { running := false, processing := false, suites := [],
          suiteIds := { all := [], failed := [] },
          customGui :=
            [("top", [{ type := "radiobutton",
                        controls := [⟨"A", "a", true⟩, ⟨"B", "b", false⟩] }])] }
        state1 "top" 0 1
        [{ type := "radiobutton", controls := [⟨"A", "a", true⟩, ⟨"B", "b", false⟩] }]
        { type := "radiobutton", controls := [⟨"A", "a", true⟩, ⟨"B", "b", false⟩] } :=
  (custom_gui_radiobutton "radiobutton"
    { running := false, processing := false, suites := [],
      suiteIds := { all := [], failed := [] },
      customGui :=
        [("top", [{ type := "radiobutton",
                    controls := [⟨"A", "a", true⟩, ⟨"B", "b", false⟩] }])] }
    "top" 0 1
    [{ type := "radiobutton", controls := [⟨"A", "a", true⟩, ⟨"B", "b", false⟩] }]
    { type := "radiobutton", controls := [⟨"A", "a", true⟩, ⟨"B", "b", false⟩] }
    rfl rfl).2 rfl

/-- C31, at the failing inputs: in a state with the root suite `s` and its browser `bro`,
the actions `TOGGLE_TEST_RESULT`, `CHANGE_TEST_RETRY` and `TOGGLE_STATE_RESULT` with the
suite path `x`, which names no suite, and `TOGGLE_STATE_RESULT` with a browser id that
names no browser of `s`, make the reducer return `undefined`; `TOGGLE_TEST_RESULT` with
such a browser id returns the input state. -/
theorem unknown_node_returns_undefined :
    Reporter.reducerView "radiobutton"
        { running := false, processing := false,
          suites := [("s", ReportSuite.mk "s" ["s"] (some StatusKind.SUCCESS) none
            (some [⟨"bro", some ⟨StatusKind.SUCCESS, 0, some [⟨some "plain", none⟩]⟩, some [],
              none⟩]))],
          suiteIds := { all := [some "s"], failed := [] } }
        (.TOGGLE_TEST_RESULT ["x"] "bro" (some true)) = .undefined ∧
    Reporter.reducerView "radiobutton"
        { running := false, processing := false,
          suites := [("s", ReportSuite.mk "s" ["s"] (some StatusKind.SUCCESS) none
            (some [⟨"bro", some ⟨StatusKind.SUCCESS, 0, some [⟨some "plain", none⟩]⟩, some [],
              none⟩]))],
          suiteIds := { all := [some "s"], failed := [] } }
        (.CHANGE_TEST_RETRY ["x"] "bro" (some 0)) = .undefined ∧
    Reporter.reducerView "radiobutton"
        { running := false, processing := false,
          suites := [("s", ReportSuite.mk "s" ["s"] (some StatusKind.SUCCESS) none
            (some [⟨"bro", some ⟨StatusKind.SUCCESS, 0, some [⟨some "plain", none⟩]⟩, some [],
              none⟩]))],
          suiteIds := { all := [some "s"], failed := [] } }
        (.TOGGLE_STATE_RESULT ["x"] "bro" (some "plain") 0 (some true)) = .undefined ∧
    Reporter.reducerView "radiobutton"
        { running := false, processing := false,
          suites := [("s", ReportSuite.mk "s" ["s"] (some StatusKind.SUCCESS) none
            (some [⟨"bro", some ⟨StatusKind.SUCCESS, 0, some [⟨some "plain", none⟩]⟩, some [],
              none⟩]))],
          suiteIds := { all := [some "s"], failed := [] } }
        (.TOGGLE_STATE_RESULT ["s"] "other" (some "plain") 0 (some true)) = .undefined ∧
    Reporter.reducerView "radiobutton"
        { running := false, processing := false,
          suites := [("s", ReportSuite.mk "s" ["s"] (some StatusKind.SUCCESS) none
            (some [⟨"bro", some ⟨StatusKind.SUCCESS, 0, some [⟨some "plain", none⟩]⟩, some [],
              none⟩]))],
          suiteIds := { all := [some "s"], failed := [] } }
        (.TOGGLE_TEST_RESULT ["s"] "other" (some true))
      = .state
        { running := false, processing := false,
          suites := [("s", ReportSuite.mk "s" ["s"] (some StatusKind.SUCCESS) none
            (some [⟨"bro", some ⟨StatusKind.SUCCESS, 0, some [⟨some "plain", none⟩]⟩, some [],
              none⟩]))],
          suiteIds := { all := [some "s"], failed := [] } } :=
  ⟨rfl, rfl, rfl, rfl, rfl⟩

/-! ## The tree of the database: suite paths and the nodes of the rows -/

theorem descend_consistent : ∀ (q : List String) (root node : DbSuite),
    (∀ m ∈ dbSubSuites root, NodeConsistent m) →
    DbSuite.descend q root = some node →
    node.suitePath = root.suitePath ++ q ∧ node ∈ dbSubSuites root
  | [], root, node, _, h => by
    simp only [DbSuite.descend, Option.some.injEq] at h
    subst h
    exact ⟨by simp, dbSubSuites_self _⟩
  | part :: q, root, node, hcons, h => by
    simp only [DbSuite.descend] at h
    cases hf : (root.children.getD []).find? (fun c => decide (c.name = part)) with
    | none => simp [hf] at h
    | some c =>
      simp only [hf] at h
      have hc : c ∈ root.children.getD [] := List.mem_of_find?_eq_some hf
      have hname : c.name = part := by
        have := List.find?_some hf
        simpa using this
      have hsub : ∀ m ∈ dbSubSuites c, NodeConsistent m :=
        fun m hm => hcons m ((mem_dbSubSuites m root).2 (Or.inr ⟨c, hc, hm⟩))
      obtain ⟨h1, h2⟩ := descend_consistent q c node hsub h
      refine ⟨?_, (mem_dbSubSuites node root).2 (Or.inr ⟨c, hc, h2⟩)⟩
      rw [h1, (hcons root (dbSubSuites_self root)).2.2 c hc, hname]
      simp

theorem pushBrowserResult_mem_names (b : DbBrowser) (bs : List DbBrowser) (x : String) :
    x ∈ (pushBrowserResult b bs).map DbBrowser.name
      ↔ x ∈ bs.map DbBrowser.name ∨ x = b.name := by
  rw [pushBrowserResult_names]
  split
  · rename_i hb
    constructor
    · exact Or.inl
    · rintro (h | rfl)
      · exact h
      · exact hb
  · simp

theorem formatSuites_id_browser_names (rows : List Attempt)
    (hseg : ∀ a ∈ rows, ∀ seg ∈ a.rest, seg ≠ "") :
    ∀ a ∈ rows,
      a.browserResult.name ∈
        (dbBrowsersAt (formatSuitesDataFromDb (fun d _ => d) rows) a.suitePath).map
          DbBrowser.name := by
  induction rows using List.reverseRecOn with
  | nil => intro a ha; cases ha
  | append_singleton rows r ih =>
    intro a ha
    have hsr := hseg r (by simp)
    simp only [formatSuitesDataFromDb, List.foldl_append, List.foldl_cons, List.foldl_nil]
    rw [formatSuitesStep_browsersAt _ r hsr]
    rcases List.mem_append.mp ha with h | h
    · have h1 := ih (fun x hx => hseg x (List.mem_append_left _ hx)) a h
      simp only [formatSuitesDataFromDb] at h1
      split
      · rw [pushBrowserResult_mem_names]
        exact Or.inl h1
      · exact h1
    · simp only [List.mem_singleton] at h
      subst h
      rw [if_pos rfl, pushBrowserResult_mem_names]
      exact Or.inr rfl

/-- C36: for every sequence of attempt rows whose path parts are non-empty, in the tree
`formatSuitesDataFromDb` builds (with a `setStatusForBranch` that changes statuses only)
a root suite has the suite path of its name alone, the suite path of a child is the suite
path of its parent followed by the name of the child, and for every row the node reached
by following the suite path of the row exists, has that suite path and holds a browser of
the browser name of the row. -/
theorem db_tree_suite_paths (util : Dict DbSuite → List String → Dict DbSuite)
    (hutil : StatusOnly util) (rows : List Attempt)
    (hseg : ∀ a ∈ rows, ∀ seg ∈ a.rest, seg ≠ "") :
    (∀ kv ∈ formatSuitesDataFromDb util rows,
      kv.2.name = kv.1 ∧ kv.2.suitePath = [kv.2.name]) ∧
    (∀ m ∈ dbNodes (formatSuitesDataFromDb util rows),
      ∀ c ∈ m.children.getD [], c.suitePath = m.suitePath ++ [c.name]) ∧
    (∀ a ∈ rows, ∃ node,
      dbNodeAt (formatSuitesDataFromDb util rows) a.suitePath = some node ∧
      node ∈ dbNodes (formatSuitesDataFromDb util rows) ∧
      node.suitePath = a.suitePath ∧
      ∃ b ∈ node.browsers.getD [], b.name = a.browserResult.name) := by
  have hroots := formatSuites_roots util hutil rows
  have hcons := formatSuites_consistent util hutil rows
  refine ⟨?_, fun m hm => (hcons m hm).2.2, ?_⟩
  · intro kv hkv
    have := hroots kv hkv
    exact ⟨this.1, by rw [this.2, this.1]⟩
  · intro a ha
    have hn := formatSuites_id_browser_names rows hseg a ha
    rw [← skeleton_formatSuitesDataFromDb util hutil, dbBrowsersAt_skeletonDict] at hn
    cases hnode : dbNodeAt (formatSuitesDataFromDb util rows) a.suitePath with
    | none => simp [dbBrowsersAt, hnode] at hn
    | some node =>
      simp only [dbBrowsersAt, hnode, List.mem_map] at hn
      obtain ⟨b, hb, hbn⟩ := hn
      simp only [dbNodeAt, Attempt.suitePath] at hnode
      cases hroot : Dict.get (formatSuitesDataFromDb util rows) a.suiteId with
      | none => simp [hroot] at hnode
      | some root =>
        simp only [hroot] at hnode
        have hmem := Dict.mem_of_get _ _ _ hroot
        have hrv : root ∈ Dict.values (formatSuitesDataFromDb util rows) :=
          (mem_dict_values _ root).2 ⟨_, hmem⟩
        have hsub : ∀ m ∈ dbSubSuites root, NodeConsistent m :=
          fun m hm => hcons m ((mem_dbNodes m _).2 ⟨root, hrv, hm⟩)
        obtain ⟨h1, h2⟩ := descend_consistent a.rest root node hsub hnode
        refine ⟨node, rfl, (mem_dbNodes node _).2 ⟨root, hrv, h2⟩, ?_, b, hb, hbn⟩
        rw [h1, (hroots _ hmem).2]
        rfl

/-- Witness for C36: rows in the suites `a b` and `c`. -/
theorem db_tree_suite_paths_witness :
    ∃ node,
      dbNodeAt (formatSuitesDataFromDb (fun d _ => d)
          [⟨"a", ["b"], StatusKind.FAIL, ⟨"bro", ⟨StatusKind.FAIL, 0, none⟩, []⟩, none⟩,
           ⟨"c", [], StatusKind.SUCCESS, ⟨"bro", ⟨StatusKind.SUCCESS, 0, none⟩, []⟩, none⟩])
        (Attempt.suitePath
          ⟨"a", ["b"], StatusKind.FAIL, ⟨"bro", ⟨StatusKind.FAIL, 0, none⟩, []⟩, none⟩)
        = some node ∧
      node ∈ dbNodes (formatSuitesDataFromDb (fun d _ => d)
          [⟨"a", ["b"], StatusKind.FAIL, ⟨"bro", ⟨StatusKind.FAIL, 0, none⟩, []⟩, none⟩,
           ⟨"c", [], StatusKind.SUCCESS, ⟨"bro", ⟨StatusKind.SUCCESS, 0, none⟩, []⟩, none⟩]) ∧
      node.suitePath
        = Attempt.suitePath
          ⟨"a", ["b"], StatusKind.FAIL, ⟨"bro", ⟨StatusKind.FAIL, 0, none⟩, []⟩, none⟩ ∧
      ∃ b ∈ node.browsers.getD [],
        b.name = (Attempt.browserResult
          ⟨"a", ["b"], StatusKind.FAIL, ⟨"bro", ⟨StatusKind.FAIL, 0, none⟩, []⟩, none⟩).name :=
  (db_tree_suite_paths (fun d _ => d) statusOnly_id
    [⟨"a", ["b"], StatusKind.FAIL, ⟨"bro", ⟨StatusKind.FAIL, 0, none⟩, []⟩, none⟩,
     ⟨"c", [], StatusKind.SUCCESS, ⟨"bro", ⟨StatusKind.SUCCESS, 0, none⟩, []⟩, none⟩]
    (by decide)).2.2 _ (List.Mem.head _)

/-! ## Updates in place of the node `findNode` returns -/

theorem modifyFirst_length (p : ReportSuite → Bool) (f : ReportSuite → Option ReportSuite) :
    ∀ (l l1 : List ReportSuite), modifyFirst p f l = some l1 → l1.length = l.length
  | [], l1, h => by
    simp only [modifyFirst, Option.some.injEq] at h
    subst h; rfl
  | x :: xs, l1, h => by
    simp only [modifyFirst] at h
    split at h
    · simp only [Option.map_eq_some'] at h
      obtain ⟨y, _, rfl⟩ := h
      rfl
    · simp only [Option.map_eq_some'] at h
      obtain ⟨ys, hys, rfl⟩ := h
      simp [modifyFirst_length p f xs ys hys]

theorem find_modifyFirst (p : ReportSuite → Bool) (f : ReportSuite → Option ReportSuite)
    (hp : ∀ x y, f x = some y → p y = p x) :
    ∀ (l l1 : List ReportSuite) (x : ReportSuite),
      l.find? p = some x → modifyFirst p f l = some l1 →
      ∃ y, f x = some y ∧ l1.find? p = some y
  | [], _, _, h, _ => by simp at h
  | a :: as, l1, x, h, hm => by
    simp only [modifyFirst] at hm
    rw [List.find?_cons] at h
    cases hpa : p a with
    | true =>
      simp only [hpa, Option.some.injEq] at h
      subst h
      simp only [hpa, if_true, Option.map_eq_some'] at hm
      obtain ⟨y, hy, rfl⟩ := hm
      refine ⟨y, hy, ?_⟩
      simp [List.find?_cons, hp a y hy, hpa]
    | false =>
      simp only [hpa] at h
      simp only [hpa, Bool.false_eq_true, if_false, Option.map_eq_some'] at hm
      obtain ⟨ys, hys, rfl⟩ := hm
      obtain ⟨y, hy, hfy⟩ := find_modifyFirst p f hp as ys x h hys
      refine ⟨y, hy, ?_⟩
      simp [List.find?_cons, hpa, hfy]

theorem modifyNode_length (f : ReportSuite → Option ReportSuite) :
    ∀ (path : List String) (forest vs : List ReportSuite),
      modifyNode f path forest = some vs → vs.length = forest.length
  | [], forest, vs, h => by
    simp only [modifyNode, Option.some.injEq] at h
    subst h; rfl
  | [n], forest, vs, h => by
    simp only [modifyNode] at h
    exact modifyFirst_length _ _ _ _ h
  | n :: m :: rest, forest, vs, h => by
    simp only [modifyNode] at h
    exact modifyFirst_length _ _ _ _ h

/-- After an update in place that keeps names, `findNode` returns the updated node. -/
theorem findNode_modifyNode (f : ReportSuite → Option ReportSuite)
    (hname : ∀ x y, f x = some y → y.name = x.name) :
    ∀ (path : List String) (forest vs : List ReportSuite) (t : ReportSuite),
      findNode forest path = some t → modifyNode f path forest = some vs →
      ∃ t1, f t = some t1 ∧ findNode vs path = some t1
  | [], _, _, _, h, _ => by simp [findNode] at h
  | [n], forest, vs, t, h, hm => by
    simp only [findNode] at h
    simp only [modifyNode] at hm
    obtain ⟨y, hy, hfy⟩ := find_modifyFirst _ f
      (fun x y hxy => by simp [hname x y hxy]) forest vs t h hm
    exact ⟨y, hy, by simpa [findNode] using hfy⟩
  | n :: m :: rest, forest, vs, t, h, hm => by
    simp only [findNode] at h
    simp only [modifyNode] at hm
    cases hx : forest.find? (fun s => decide (s.name = n)) with
    | none => simp [hx] at h
    | some x =>
      simp only [hx] at h
      obtain ⟨y, hy, hfy⟩ := find_modifyFirst _ _
        (fun a b hab => by
          cases a with
          | mk nm p st ch bs =>
            cases ch with
            | none =>
              simp only [Option.some.injEq] at hab
              subst hab; rfl
            | some cs =>
              simp only [Option.map_eq_some'] at hab
              obtain ⟨cs1, _, rfl⟩ := hab
              rfl) forest vs x hx hm
      cases x with
      | mk nm p st ch bs =>
        cases ch with
        | none =>
          simp only [ReportSuite.children, Option.getD_none] at h
          cases rest <;> simp [findNode] at h
        | some cs =>
          simp only [ReportSuite.children, Option.getD_some] at h
          simp only [Option.map_eq_some'] at hy
          obtain ⟨cs1, hcs1, rfl⟩ := hy
          obtain ⟨t1, ht1, hfind⟩ := findNode_modifyNode f hname (m :: rest) cs cs1 t h hcs1
          refine ⟨t1, ht1, ?_⟩
          simp only [findNode, hfy]
          exact hfind

theorem Dict.values_withValues {α : Type} (d : Dict α) (vs : List α)
    (h : vs.length = d.length) : Dict.values (Dict.withValues d vs) = vs := by
  simp only [Dict.values, Dict.withValues, Dict.keys]
  apply List.map_snd_zip
  simp [h]

theorem assignBrowserResult_name (browserResult : Option BrowserEntry) (browserId : String)
    (x y : ReportSuite) (h : assignBrowserResult browserResult browserId x = some y) :
    y.name = x.name := by
  cases x with
  | mk n p st ch bs =>
    cases bs with
    | none => simp [assignBrowserResult] at h
    | some bs =>
      simp only [assignBrowserResult, Option.some.injEq] at h
      subst h; rfl

/-- C32: `addTestResult` touches only what the payload addresses (with a
`setStatusForBranch` that keeps the browsers of every suite): in the returned state
every field other than `suites`, `suiteIds.failed` and `groupedErrors` is that of the
input state, and `suiteIds.all` is unchanged; the returned suites come from the rounds of
the loop over the payload, in order; a round whose suite path is not found changes
nothing in the suites; a round whose suite is found leaves at that path the suite with
the browsers of the name `browserId` extended by `browserResult` and every other browser
as it was. -/
theorem addTestResult_frame (isSuiteFailed : ReportSuite → Bool)
    (util : Dict ReportSuite → List String → Dict ReportSuite)
    (hutil : ∀ d p q, (findNode (Dict.values (util d p)) q).map ReportSuite.browsers
      = (findNode (Dict.values d) q).map ReportSuite.browsers)
    (groupErrors : GroupErrorsArgs → List ErrorGroup)
    (state state1 : State) (payload : List ResultPayload)
    (h : Reporter.addTestResult isSuiteFailed util groupErrors state payload = some state1) :
    (state1.running = state.running ∧ state1.processing = state.processing ∧
      state1.view = state.view ∧ state1.db = state.db ∧
      state1.fetchDbDetails = state.fetchDbDetails ∧ state1.stats = state.stats ∧
      state1.skips = state.skips ∧ state1.browsers = state.browsers ∧
      state1.customGui = state.customGui ∧ state1.suiteIds.all = state.suiteIds.all) ∧
    addTestResultLoop util state.suites payload = some state1.suites ∧
    (∀ suites item rest,
      addTestResultLoop util suites (item :: rest)
        = (addTestResultStep util suites item).bind
            (fun suites1 => addTestResultLoop util suites1 rest)) ∧
    (∀ suites item, findNode (Dict.values suites) item.suitePath = none →
      addTestResultStep util suites item = some suites) ∧
    (∀ suites suites1 item test bs,
      findNode (Dict.values suites) item.suitePath = some test →
      test.browsers = some bs →
      addTestResultStep util suites item = some suites1 →
      ∃ test1, findNode (Dict.values suites1) item.suitePath = some test1 ∧
        test1.browsers = some (bs.map (fun b =>
          if b.name = item.browserId then extendBrowser b item.browserResult else b))) := by
  refine ⟨?_, ?_, ?_, ?_, ?_⟩
  · simp only [Reporter.addTestResult, Option.map_eq_some'] at h
    obtain ⟨suites, -, rfl⟩ := h
    exact ⟨rfl, rfl, rfl, rfl, rfl, rfl, rfl, rfl, rfl, rfl⟩
  · simp only [Reporter.addTestResult, Option.map_eq_some'] at h
    obtain ⟨suites, hs, rfl⟩ := h
    exact hs
  · intro suites item rest
    simp only [addTestResultLoop]
    cases addTestResultStep util suites item <;> rfl
  · intro suites item hnone
    simp [addTestResultStep, hnone]
  · intro suites suites1 item test bs hfind hbs hstep
    simp only [addTestResultStep, hfind, Option.map_eq_some'] at hstep
    obtain ⟨vs, hvs, rfl⟩ := hstep
    obtain ⟨t1, ht1, hf1⟩ := findNode_modifyNode _
      (assignBrowserResult_name item.browserResult item.browserId) item.suitePath _ vs test
      hfind hvs
    have hlen := modifyNode_length _ _ _ _ hvs
    have hval : Dict.values (Dict.withValues suites vs) = vs :=
      Dict.values_withValues suites vs (by simpa [Dict.values] using hlen)
    have hu := hutil (Dict.withValues suites vs) item.suitePath item.suitePath
    rw [hval, hf1] at hu
    cases hres : findNode (Dict.values (util (Dict.withValues suites vs) item.suitePath))
        item.suitePath with
    | none => simp [hres] at hu
    | some test1 =>
      refine ⟨test1, rfl, ?_⟩
      simp only [hres, Option.map_some', Option.some.injEq] at hu
      rw [hu]
      cases test with
      | mk n p st ch tb =>
        simp only [ReportSuite.browsers] at hbs
        subst hbs
        simp only [assignBrowserResult, Option.some.injEq] at ht1
        subst ht1
        rfl

/-- Witness for C32: a result for the browser `b1` of the root suite `s`, which also has
the browser `b2`. -/
theorem addTestResult_frame_witness :
    addTestResultLoop (fun d _ => d)
        [("s", ReportSuite.mk "s" ["s"] (some StatusKind.IDLE) none
          (some [⟨"b1", some ⟨StatusKind.IDLE, 0, none⟩, none, none⟩,
                 ⟨"b2", some ⟨StatusKind.IDLE, 0, none⟩, none, none⟩]))]
        [ResultPayload.mk ["s"] (some ⟨"b1", some ⟨StatusKind.FAIL, 1, none⟩, none, none⟩) "b1"]
      = some
        [("s", ReportSuite.mk "s" ["s"] (some StatusKind.IDLE) none
          (some [⟨"b1", some ⟨StatusKind.FAIL, 1, none⟩, none, none⟩,
                 ⟨"b2", some ⟨StatusKind.IDLE, 0, none⟩, none, none⟩]))] :=
  (addTestResult_frame (fun _ => false) (fun d _ => d) (fun _ _ _ => rfl) (fun _ => [])
    { running := false, processing := false,
      suites := [("s", ReportSuite.mk "s" ["s"] (some StatusKind.IDLE) none
        (some [⟨"b1", some ⟨StatusKind.IDLE, 0, none⟩, none, none⟩,
               ⟨"b2", some ⟨StatusKind.IDLE, 0, none⟩, none, none⟩]))],
      suiteIds := { all := [some "s"], failed := [] } }
    { running := false, processing := false,
      suites := [("s", ReportSuite.mk "s" ["s"] (some StatusKind.IDLE) none
        (some [⟨"b1", some ⟨StatusKind.FAIL, 1, none⟩, none, none⟩,
               ⟨"b2", some ⟨StatusKind.IDLE, 0, none⟩, none, none⟩]))],
      suiteIds := { all := [some "s"], failed := [] } }
    [ResultPayload.mk ["s"] (some ⟨"b1", some ⟨StatusKind.FAIL, 1, none⟩, none, none⟩) "b1"]
    rfl).2.1

/-! ## The action `TOGGLE_STATE_RESULT` -/

theorem modifyAt_append_lt {α : Type} (f : α → α) (x : α) :
    ∀ (i : Nat) (l : List α), i < l.length → modifyAt f i (l ++ [x]) = modifyAt f i l ++ [x]
  | _, [], h => by simp at h
  | 0, a :: as, _ => rfl
  | i + 1, a :: as, h => by
    simp only [List.cons_append, modifyAt, List.cons.injEq, true_and]
    exact modifyAt_append_lt f x i as (by simpa using h)

theorem modifyAt_append_length {α : Type} (f : α → α) (x : α) :
    ∀ l : List α, modifyAt f l.length (l ++ [x]) = l ++ [f x]
  | [] => rfl
  | a :: as => by
    simp only [List.length_cons, List.cons_append, modifyAt, List.cons.injEq, true_and]
    exact modifyAt_append_length f x as

theorem modifyFirstWhere_split {α : Type} (p : α → Bool) (f : α → α) (a : α) (post : List α) :
    ∀ pre : List α, (∀ b ∈ pre, p b = false) → p a = true →
      modifyFirstWhere p f (pre ++ a :: post) = pre ++ f a :: post
  | [], _, ha => by simp [modifyFirstWhere, ha]
  | b :: pre, hpre, ha => by
    have hb := hpre b (List.mem_cons_self _ _)
    simp only [List.cons_append, modifyFirstWhere, hb, Bool.false_eq_true, if_false,
      List.cons.injEq, true_and]
    exact modifyFirstWhere_split p f a post pre
      (fun c hc => hpre c (List.mem_cons_of_mem _ hc)) ha

theorem toggleFirstBrowser_split (browserId : String) (f : BrowserEntry → Option BrowserEntry)
    (bro : BrowserEntry) (post : List BrowserEntry) (hbro : bro.name = browserId) :
    ∀ pre : List BrowserEntry, (∀ b ∈ pre, b.name ≠ browserId) →
      toggleFirstBrowser browserId f (pre ++ bro :: post)
        = (f bro).map (fun b1 => pre ++ b1 :: post)
  | [], _ => by simp [toggleFirstBrowser, hbro]
  | b :: pre, hpre => by
    have hb := hpre b (List.mem_cons_self _ _)
    simp only [List.cons_append, toggleFirstBrowser, hb, if_false, List.append_eq]
    rw [toggleFirstBrowser_split browserId f bro post hbro pre
      (fun c hc => hpre c (List.mem_cons_of_mem _ hc))]
    cases f bro <;> rfl

theorem find_browser_split (browserId : String) (bro : BrowserEntry) (post : List BrowserEntry)
    (hbro : bro.name = browserId) :
    ∀ pre : List BrowserEntry, (∀ b ∈ pre, b.name ≠ browserId) →
      (pre ++ bro :: post).find? (fun b => decide (b.name = browserId)) = some bro
  | [], _ => by simp [hbro]
  | b :: pre, hpre => by
    have hb := hpre b (List.mem_cons_self _ _)
    simp only [List.cons_append, List.find?_cons, hb, decide_False]
    exact find_browser_split browserId bro post hbro pre
      (fun c hc => hpre c (List.mem_cons_of_mem _ hc))

theorem toggleTestState_name (browserId : String) (stateName : Option String)
    (retryIndex : Nat) (opened : Option Bool) (a b : ReportSuite)
    (h : toggleTestState browserId stateName retryIndex opened a = some b) :
    b.name = a.name := by
  cases a with
  | mk n p st ch bs =>
    simp only [toggleTestState, Option.map_eq_some'] at h
    obtain ⟨bs1, _, rfl⟩ := h
    rfl

theorem toggleBrowserAttempt_spec (stateName : Option String) (retryIndex : Nat)
    (opened : Option Bool) (bro : BrowserEntry) (r : List AttemptResult) (x : AttemptResult)
    (hr : bro.retries = some r) (hx : bro.result = some x) (hidx : retryIndex ≤ r.length) :
    ∃ r1 x1,
      toggleBrowserAttempt stateName retryIndex opened bro
        = some { bro with retries := some r1, result := some x1 } ∧
      r1 ++ [x1] = modifyAt (toggleAttempt stateName opened) retryIndex (r ++ [x]) := by
  by_cases hlt : retryIndex < r.length
  · refine ⟨modifyAt (toggleAttempt stateName opened) retryIndex r, x, ?_, ?_⟩
    · cases bro with
      | mk n res ret st =>
        simp only at hr hx
        subst hr; subst hx
        simp [toggleBrowserAttempt, hlt]
    · rw [modifyAt_append_lt _ _ _ _ hlt]
  · have heq : retryIndex = r.length := by omega
    subst heq
    refine ⟨r, toggleAttempt stateName opened x, ?_, ?_⟩
    · cases bro with
      | mk n res ret st =>
        simp only at hr hx
        subst hr; subst hx
        simp [toggleBrowserAttempt]
    · rw [modifyAt_append_length]

theorem modifyFirstWhere_none {α : Type} (p : α → Bool) (f : α → α) :
    ∀ l : List α, (∀ b ∈ l, p b = false) → modifyFirstWhere p f l = l
  | [], _ => rfl
  | b :: l, h => by
    have hb := h b (List.mem_cons_self _ _)
    simp only [modifyFirstWhere, hb, Bool.false_eq_true, if_false, List.cons.injEq, true_and]
    exact modifyFirstWhere_none p f l (fun c hc => h c (List.mem_cons_of_mem _ hc))

/-- C33: for every browser `bro` that `find` returns for the browser id in the found
test, with retries `r` and latest result `x`, and every `retryIndex` from 0 to the length
of `r`, `TOGGLE_STATE_RESULT` returns a state; in it only the attempt at position
`retryIndex` of `r` followed by `x` is changed, every other attempt, every other browser
and every other field of the state being as before. The changed attempt keeps its status
and number, and its images are as before but for one: with a non-empty state name the
first image of that state name, with no state name the last image, gets the value
`opened`; with a state name that no image has, or with no image at all, the attempt is
unchanged. -/
theorem toggle_state_result (radiobuttonType : String) (state : State)
    (suitePath : List String) (browserId : String) (stateName : Option String)
    (retryIndex : Nat) (opened : Option Bool) (test : ReportSuite)
    (pre : List BrowserEntry) (bro : BrowserEntry) (post : List BrowserEntry)
    (r : List AttemptResult) (x : AttemptResult)
    (hfind : findNode (Dict.values state.suites) suitePath = some test)
    (hbs : test.browsers = some (pre ++ bro :: post))
    (hpre : ∀ b ∈ pre, b.name ≠ browserId) (hbro : bro.name = browserId)
    (hr : bro.retries = some r) (hx : bro.result = some x) (hidx : retryIndex ≤ r.length) :
    (∃ state1,
      Reporter.reducerView radiobuttonType state
          (.TOGGLE_STATE_RESULT suitePath browserId stateName retryIndex opened)
        = .state state1 ∧
      StateResultToggled state state1 suitePath test pre bro post r x stateName retryIndex
        opened) ∧
    (∀ a : AttemptResult,
      (toggleAttempt stateName opened a).status = a.status ∧
      (toggleAttempt stateName opened a).attempt = a.attempt ∧
      (∀ name ipre img ipost, stateName = some name → name ≠ "" →
        a.imagesInfo = some (ipre ++ img :: ipost) →
        (∀ j ∈ ipre, j.stateName ≠ some name) → img.stateName = some name →
        (toggleAttempt stateName opened a).imagesInfo
          = some (ipre ++ { img with opened := opened } :: ipost)) ∧
      ((stateName = none ∨ stateName = some "") → ∀ init last,
        a.imagesInfo = some (init ++ [last]) →
        (toggleAttempt stateName opened a).imagesInfo
          = some (init ++ [{ last with opened := opened }])) ∧
      (∀ name imgs, stateName = some name → name ≠ "" → a.imagesInfo = some imgs →
        (∀ j ∈ imgs, j.stateName ≠ some name) → toggleAttempt stateName opened a = a) ∧
      ((a.imagesInfo = none ∨ a.imagesInfo = some []) →
        toggleAttempt stateName opened a = a)) := by
  constructor
  · obtain ⟨r1, x1, htb, hmod⟩ :=
      toggleBrowserAttempt_spec stateName retryIndex opened bro r x hr hx hidx
    have hft : toggleTestState browserId stateName retryIndex opened test
        = some (ReportSuite.mk test.name test.suitePath test.status test.children
            (some (pre ++ { bro with retries := some r1, result := some x1 } :: post))) := by
      cases test with
      | mk n p st ch bs =>
        simp only [ReportSuite.browsers] at hbs
        subst hbs
        simp only [toggleTestState, Option.getD_some,
          toggleFirstBrowser_split browserId _ bro post hbro pre hpre, htb, Option.map_some']
        rfl
    have hsome := modifyNode_isSome (toggleTestState browserId stateName retryIndex opened)
      suitePath (Dict.values state.suites) (by
        intro t ht
        rw [hfind] at ht
        cases ht
        rw [hft]; rfl)
    obtain ⟨vs, hvs⟩ := Option.isSome_iff_exists.mp hsome
    obtain ⟨t1, ht1, hfind1⟩ := findNode_modifyNode _
      (toggleTestState_name browserId stateName retryIndex opened) suitePath _ vs test hfind hvs
    rw [hft] at ht1
    cases ht1
    have hlen := modifyNode_length _ _ _ _ hvs
    have hval : Dict.values (Dict.withValues state.suites vs) = vs :=
      Dict.values_withValues state.suites vs (by simpa [Dict.values] using hlen)
    refine ⟨{ state with suites := Dict.withValues state.suites vs }, ?_, rfl,
      ReportSuite.mk test.name test.suitePath test.status test.children
        (some (pre ++ { bro with retries := some r1, result := some x1 } :: post)),
      r1, x1, ?_, rfl, rfl, rfl, rfl, rfl, ?_⟩
    · simp only [Reporter.reducerView, updateStateResult, hfind, hbs, Option.getD_some,
        find_browser_split browserId bro post hbro pre hpre, hvs]
    · simp only [hval]
      exact hfind1
    · intro j
      rw [hmod, modifyAt_getElem?]
  · intro a
    refine ⟨rfl, rfl, ?_, ?_, ?_, ?_⟩
    · intro name ipre img ipost hs hne himg hipre hi
      subst hs
      simp only [toggleAttempt, himg, Option.map_some', setOpened, if_neg hne, Option.some.injEq]
      exact modifyFirstWhere_split _ _ img ipost ipre (by simpa using hipre) (by simpa using hi)
    · intro hs init last himg
      have hlast : modifyAt (fun img : StateImage => { img with opened := opened })
          ((init ++ [last]).length - 1) (init ++ [last])
            = init ++ [{ last with opened := opened }] := by
        have : (init ++ [last]).length - 1 = init.length := by simp
        rw [this, modifyAt_append_length]
      rcases hs with hs | hs <;> subst hs <;>
        simp only [toggleAttempt, himg, Option.map_some', setOpened, if_true, hlast]
    · intro name imgs hs hne himg hno
      subst hs
      cases a with
      | mk st n im =>
        simp only at himg
        subst himg
        have hnone := modifyFirstWhere_none
          (fun img : StateImage => decide (img.stateName = some name))
          (fun img => { img with opened := opened }) imgs (by simpa using hno)
        simp only [toggleAttempt, Option.map_some', setOpened, if_neg hne, hnone]
    · intro himg
      cases a with
      | mk st n im =>
        simp only at himg
        rcases himg with himg | himg <;> subst himg
        · rfl
        · cases stateName with
          | none => rfl
          | some name =>
            by_cases hne : name = ""
            · simp [toggleAttempt, setOpened, hne, modifyAt]
            · simp [toggleAttempt, setOpened, hne, modifyFirstWhere]

/-- Witness for C33: the browser `bro` of the root suite `s` has one retry and a result
with the images `plain` and `other`; the action selects the result (index 1) and the
state name `plain`. -/
theorem toggle_state_result_witness :
    ∃ state1,
      Reporter.reducerView "radiobutton"
          { running := false, processing := false,
            suites := [("s", ReportSuite.mk "s" ["s"] (some StatusKind.FAIL) none
              (some [⟨"bro",
                some ⟨StatusKind.FAIL, 1, some [⟨some "plain", none⟩, ⟨some "other", none⟩]⟩,
                some [⟨StatusKind.FAIL, 0, some [⟨some "plain", none⟩]⟩], none⟩]))],
            suiteIds := { all := [some "s"], failed := [some "s"] } }
          (.TOGGLE_STATE_RESULT ["s"] "bro" (some "plain") 1 (some true)) = .state state1 ∧
      StateResultToggled
        { running := false, processing := false,
          suites := [("s", ReportSuite.mk "s" ["s"] (some StatusKind.FAIL) none
            (some [⟨"bro",
              some ⟨StatusKind.FAIL, 1, some [⟨some "plain", none⟩, ⟨some "other", none⟩]⟩,
              some [⟨StatusKind.FAIL, 0, some [⟨some "plain", none⟩]⟩], none⟩]))],
          suiteIds := { all := [some "s"], failed := [some "s"] } }
        state1 ["s"]
        (ReportSuite.mk "s" ["s"] (some StatusKind.FAIL) none
          (some [⟨"bro",
            some ⟨StatusKind.FAIL, 1, some [⟨some "plain", none⟩, ⟨some "other", none⟩]⟩,
            some [⟨StatusKind.FAIL, 0, some [⟨some "plain", none⟩]⟩], none⟩]))
        []
        ⟨"bro", some ⟨StatusKind.FAIL, 1, some [⟨some "plain", none⟩, ⟨some "other", none⟩]⟩,
          some [⟨StatusKind.FAIL, 0, some [⟨some "plain", none⟩]⟩], none⟩
        []
        [⟨StatusKind.FAIL, 0, some [⟨some "plain", none⟩]⟩]
        ⟨StatusKind.FAIL, 1, some [⟨some "plain", none⟩, ⟨some "other", none⟩]⟩
        (some "plain") 1 (some true) :=
  (toggle_state_result "radiobutton"
    { running := false, processing := false,
      suites := [("s", ReportSuite.mk "s" ["s"] (some StatusKind.FAIL) none
        (some [⟨"bro",
          some ⟨StatusKind.FAIL, 1, some [⟨some "plain", none⟩, ⟨some "other", none⟩]⟩,
          some [⟨StatusKind.FAIL, 0, some [⟨some "plain", none⟩]⟩], none⟩]))],
      suiteIds := { all := [some "s"], failed := [some "s"] } }
    ["s"] "bro" (some "plain") 1 (some true)
    (ReportSuite.mk "s" ["s"] (some StatusKind.FAIL) none
      (some [⟨"bro",
        some ⟨StatusKind.FAIL, 1, some [⟨some "plain", none⟩, ⟨some "other", none⟩]⟩,
        some [⟨StatusKind.FAIL, 0, some [⟨some "plain", none⟩]⟩], none⟩]))
    []
    ⟨"bro", some ⟨StatusKind.FAIL, 1, some [⟨some "plain", none⟩, ⟨some "other", none⟩]⟩,
      some [⟨StatusKind.FAIL, 0, some [⟨some "plain", none⟩]⟩], none⟩
    []
    [⟨StatusKind.FAIL, 0, some [⟨some "plain", none⟩]⟩]
    ⟨StatusKind.FAIL, 1, some [⟨some "plain", none⟩, ⟨some "other", none⟩]⟩
    rfl rfl (by simp) rfl rfl rfl (by decide)).1

/-- Counterexample for C33: the latest result of the browser `bro` has the one image
`plain`; `TOGGLE_STATE_RESULT` with the state name `missing`, which no image of the
attempt has, returns the input state, in which no image has a value of `opened`; so does
the action with no state name on the retry at index 0, which has an empty list of
images. -/
theorem toggle_state_result_no_image :
    Reporter.reducerView "radiobutton"
        { running := false, processing := false,
          suites := [("s", ReportSuite.mk "s" ["s"] (some StatusKind.FAIL) none
            (some [⟨"bro", some ⟨StatusKind.FAIL, 1, some [⟨some "plain", none⟩]⟩,
              some [⟨StatusKind.FAIL, 0, some []⟩], none⟩]))],
          suiteIds := { all := [some "s"], failed := [some "s"] } }
        (.TOGGLE_STATE_RESULT ["s"] "bro" (some "missing") 1 (some true))
      = .state
        { running := false, processing := false,
          suites := [("s", ReportSuite.mk "s" ["s"] (some StatusKind.FAIL) none
            (some [⟨"bro", some ⟨StatusKind.FAIL, 1, some [⟨some "plain", none⟩]⟩,
              some [⟨StatusKind.FAIL, 0, some []⟩], none⟩]))],
          suiteIds := { all := [some "s"], failed := [some "s"] } } ∧
    Reporter.reducerView "radiobutton"
        { running := false, processing := false,
          suites := [("s", ReportSuite.mk "s" ["s"] (some StatusKind.FAIL) none
            (some [⟨"bro", some ⟨StatusKind.FAIL, 1, some [⟨some "plain", none⟩]⟩,
              some [⟨StatusKind.FAIL, 0, some []⟩], none⟩]))],
          suiteIds := { all := [some "s"], failed := [some "s"] } }
        (.TOGGLE_STATE_RESULT ["s"] "bro" none 0 (some true))
      = .state
        { running := false, processing := false,
          suites := [("s", ReportSuite.mk "s" ["s"] (some StatusKind.FAIL) none
            (some [⟨"bro", some ⟨StatusKind.FAIL, 1, some [⟨some "plain", none⟩]⟩,
              some [⟨StatusKind.FAIL, 0, some []⟩], none⟩]))],
          suiteIds := { all := [some "s"], failed := [some "s"] } } :=
  ⟨rfl, rfl⟩

/-! ## The id lists of the state built from the database -/

/-- For rows whose path parts are non-empty, the node of the built tree at the suite path
of a row exists, has that suite path and holds a browser of the browser name of the
row. -/
theorem formatSuites_row_node (util : Dict DbSuite → List String → Dict DbSuite)
    (hutil : StatusOnly util) (rows : List Attempt)
    (hseg : ∀ a ∈ rows, ∀ seg ∈ a.rest, seg ≠ "") (a : Attempt) (ha : a ∈ rows) :
    ∃ node,
      dbNodeAt (formatSuitesDataFromDb util rows) a.suitePath = some node ∧
      node.suitePath = a.suitePath ∧
      ∃ b ∈ node.browsers.getD [], b.name = a.browserResult.name := by
  have hroots := formatSuites_roots util hutil rows
  have hcons := formatSuites_consistent util hutil rows
  have hn := formatSuites_id_browser_names rows hseg a ha
  rw [← skeleton_formatSuitesDataFromDb util hutil, dbBrowsersAt_skeletonDict] at hn
  cases hnode : dbNodeAt (formatSuitesDataFromDb util rows) a.suitePath with
  | none => simp [dbBrowsersAt, hnode] at hn
  | some node =>
    simp only [dbBrowsersAt, hnode, List.mem_map] at hn
    obtain ⟨b, hb, hbn⟩ := hn
    simp only [dbNodeAt, Attempt.suitePath] at hnode
    cases hroot : Dict.get (formatSuitesDataFromDb util rows) a.suiteId with
    | none => simp [hroot] at hnode
    | some root =>
      simp only [hroot] at hnode
      have hmem := Dict.mem_of_get _ _ _ hroot
      have hrv : root ∈ Dict.values (formatSuitesDataFromDb util rows) :=
        (mem_dict_values _ root).2 ⟨_, hmem⟩
      have hsub : ∀ m ∈ dbSubSuites root, NodeConsistent m :=
        fun m hm => hcons m ((mem_dbNodes m _).2 ⟨root, hrv, hm⟩)
      obtain ⟨h1, h2⟩ := descend_consistent a.rest root node hsub hnode
      refine ⟨node, rfl, ?_, b, hb, hbn⟩
      rw [h1, (hroots _ hmem).2]
      rfl

/-- C28: when `createTestResultsFromDb` gets a database and non-empty `fetchDbDetails`
(and `setStatusForBranch` changes statuses only), the returned suites are the tree built
from the rows of the database; its root suites are stored under the first segments of the
suite paths of the rows, each once, and have that segment as name. The returned
`suiteIds.all` holds exactly the first segments of the suite paths of the rows; it is the
list of the names of the root suites in ascending order, without duplicates. The
returned `suiteIds.failed` is the ascending list of the names of the root suites
`isSuiteFailed` holds of, a sub-list of `suiteIds.all`. When the path parts of the rows are
non-empty, the tree holds for every row the node of its suite path, with a browser of the
browser name of the row. -/
theorem createTestResultsFromDb_suiteIds (isSuiteFailed : ReportSuite → Bool)
    (util : Dict DbSuite → List String → Dict DbSuite) (hutil : StatusOnly util)
    (suitesStats : List Attempt → DbCounts × Dict DbCounts)
    (groupErrors : GroupErrorsArgs → List ErrorGroup) (viewQuery : ViewQuery)
    (state state1 : State) (payload : DbPayload) (db : Db)
    (hdb : payload.db = some db) (hne : payload.fetchDbDetails ≠ [])
    (hs : state1 = createTestResultsFromDb isSuiteFailed util suitesStats groupErrors viewQuery
      state payload) :
    (state1.suites
        = (formatSuitesDataFromDb util db.attempts).map (fun kv => (kv.1, kv.2.toReportSuite)) ∧
      Dict.keys state1.suites = (db.attempts.map Attempt.suiteId).foldl appendNew [] ∧
      (∀ kv ∈ state1.suites, kv.2.name = kv.1 ∧ kv.2.suitePath = [kv.1]) ∧
      (∀ id, id ∈ state1.suiteIds.all ↔ ∃ a ∈ db.attempts, id = some a.suiteId) ∧
      (∀ id, id ∈ state1.suiteIds.failed ↔
        ∃ r ∈ Dict.values state1.suites, isSuiteFailed r = true ∧ id = some r.name) ∧
      ((∀ a ∈ db.attempts, ∀ seg ∈ a.rest, seg ≠ "") →
        ∀ a ∈ db.attempts, ∃ node,
          dbNodeAt (formatSuitesDataFromDb util db.attempts) a.suitePath = some node ∧
          node.suitePath = a.suitePath ∧
          ∃ b ∈ node.browsers.getD [], b.name = a.browserResult.name)) ∧
    state1.suiteIds.all.Perm ((Dict.values state1.suites).map (fun r => some r.name)) ∧
    state1.suiteIds.all.Sorted (fun a b => jsLe a b = true) ∧
    state1.suiteIds.all.Nodup ∧
    state1.suiteIds.failed.Perm
      (((Dict.values state1.suites).filter isSuiteFailed).map (fun r => some r.name)) ∧
    state1.suiteIds.failed.Sorted (fun a b => jsLe a b = true) ∧
    state1.suiteIds.failed.Sublist state1.suiteIds.all := by
  obtain ⟨h1, h2⟩ := createTestResultsFromDb_of_db isSuiteFailed util suitesStats groupErrors
    viewQuery state payload db hdb hne
  rw [← hs] at h1 h2
  have hids := db_root_suite_ids util hutil db.attempts
  have hnd := db_root_names_nodup util hutil db.attempts
  rw [← h1] at hids hnd
  have hall : getSuiteIds (Dict.values state1.suites)
      = (Dict.values state1.suites).map (fun r => some r.name) := by
    simp only [getSuiteIds]
    exact List.map_congr_left hids
  have hfailed : getFailedSuiteIds isSuiteFailed (Dict.values state1.suites)
      = ((Dict.values state1.suites).filter isSuiteFailed).map (fun r => some r.name) := by
    simp only [getFailedSuiteIds, getSuiteIds]
    exact List.map_congr_left (fun r hr => hids r (List.mem_filter.mp hr).1)
  have hkeys : Dict.keys state1.suites = (db.attempts.map Attempt.suiteId).foldl appendNew [] := by
    rw [h1, ← formatSuites_keys util hutil db.attempts]
    simp [Dict.keys, List.map_map, Function.comp_def]
  have hroots : ∀ kv ∈ state1.suites, kv.2.name = kv.1 ∧ kv.2.suitePath = [kv.1] := by
    intro kv hkv
    rw [h1, List.mem_map] at hkv
    obtain ⟨kv0, hkv0, rfl⟩ := hkv
    have h := formatSuites_roots util hutil db.attempts kv0 hkv0
    simp only [toReportSuite_name, toReportSuite_suitePath]
    exact h
  have hnames : (Dict.values state1.suites).map (fun r => some r.name)
      = (Dict.keys state1.suites).map some := by
    simp only [Dict.values, Dict.keys, List.map_map]
    apply List.map_congr_left
    intro kv hkv
    simp [(hroots kv hkv).1]
  have hPall : state1.suiteIds.all.Perm ((Dict.values state1.suites).map (fun r => some r.name)) := by
    rw [h2]; simp only; rw [← h1, hall]; exact jsSort_perm _
  have hPfailed : state1.suiteIds.failed.Perm
      (((Dict.values state1.suites).filter isSuiteFailed).map (fun r => some r.name)) := by
    rw [h2]; simp only; rw [← h1, hfailed]; exact jsSort_perm _
  refine ⟨⟨h1, hkeys, hroots, ?_, ?_,
    fun hseg a ha => formatSuites_row_node util hutil db.attempts hseg a ha⟩,
    hPall, ?_, ?_, hPfailed, ?_, ?_⟩
  · intro id
    rw [hPall.mem_iff, hnames, hkeys]
    simp only [List.mem_map, mem_foldl_appendNew, List.not_mem_nil, false_or]
    constructor
    · rintro ⟨k, ⟨a, ha, rfl⟩, rfl⟩
      exact ⟨a, ha, rfl⟩
    · rintro ⟨a, ha, rfl⟩
      exact ⟨a.suiteId, ⟨a, ha, rfl⟩, rfl⟩
  · intro id
    rw [hPfailed.mem_iff]
    simp only [List.mem_map, List.mem_filter]
    constructor
    · rintro ⟨r, ⟨hr, hf⟩, rfl⟩
      exact ⟨r, hr, hf, rfl⟩
    · rintro ⟨r, hr, hf, rfl⟩
      exact ⟨r, ⟨hr, hf⟩, rfl⟩
  · rw [h2]; exact jsSort_sorted _
  · exact hPall.nodup_iff.mpr hnd
  · rw [h2]; exact jsSort_sorted _
  · rw [h2]; simp only; rw [← h1]
    apply jsSort_sublist
    simp only [getFailedSuiteIds, getSuiteIds]
    exact List.Sublist.map _ (List.filter_sublist _)

/-- Witness for C28: a database with rows in the root suites `b` and `a`, the first of
them failed. -/
theorem createTestResultsFromDb_suiteIds_witness :
    (createTestResultsFromDb (fun s => decide (s.status = some StatusKind.FAIL))
        (fun d _ => d) (fun _ => (⟨0, 0, 0, 0, 0⟩, [])) (fun _ => []) ⟨none, none, none, none⟩
        { running := false, processing := false, suites := [],
          suiteIds := { all := [], failed := [] } }
        { db := some
            { attempts :=
                [⟨"b", ["x"], StatusKind.FAIL, ⟨"bro", ⟨StatusKind.FAIL, 0, none⟩, []⟩, none⟩,
                 ⟨"a", [], StatusKind.SUCCESS, ⟨"bro", ⟨StatusKind.SUCCESS, 0, none⟩, []⟩, none⟩],
              browsers := [⟨"bro", []⟩] },
          fetchDbDetails := [⟨"sqlite.db", 200, true⟩] }).suiteIds.failed.Sublist
      (createTestResultsFromDb (fun s => decide (s.status = some StatusKind.FAIL))
        (fun d _ => d) (fun _ => (⟨0, 0, 0, 0, 0⟩, [])) (fun _ => []) ⟨none, none, none, none⟩
        { running := false, processing := false, suites := [],
          suiteIds := { all := [], failed := [] } }
        { db := some
            { attempts :=
                [⟨"b", ["x"], StatusKind.FAIL, ⟨"bro", ⟨StatusKind.FAIL, 0, none⟩, []⟩, none⟩,
                 ⟨"a", [], StatusKind.SUCCESS, ⟨"bro", ⟨StatusKind.SUCCESS, 0, none⟩, []⟩, none⟩],
              browsers := [⟨"bro", []⟩] },
          fetchDbDetails := [⟨"sqlite.db", 200, true⟩] }).suiteIds.all :=
  (createTestResultsFromDb_suiteIds (fun s => decide (s.status = some StatusKind.FAIL))
    (fun d _ => d) statusOnly_id (fun _ => (⟨0, 0, 0, 0, 0⟩, [])) (fun _ => [])
    ⟨none, none, none, none⟩
    { running := false, processing := false, suites := [],
      suiteIds := { all := [], failed := [] } }
    _
    { db := some
        { attempts :=
            [⟨"b", ["x"], StatusKind.FAIL, ⟨"bro", ⟨StatusKind.FAIL, 0, none⟩, []⟩, none⟩,
             ⟨"a", [], StatusKind.SUCCESS, ⟨"bro", ⟨StatusKind.SUCCESS, 0, none⟩, []⟩, none⟩],
          browsers := [⟨"bro", []⟩] },
      fetchDbDetails := [⟨"sqlite.db", 200, true⟩] }
    _ rfl (by simp) rfl).2.2.2.2.2.2

end HtmlReporter
